import Mathlib

/-! DOpElib: the reduced Newton algorithm.

A shallow embedding of `ReducedNewtonAlgorithm` (file
`DOpEsrc/opt_algorithms/reducednewtonalgorithm.h`): the outer Newton loop `Solve`,
the truncated conjugate gradient solver `SolveReducedLinearSystem` and the
backtracking line search `ReducedNewtonLineSearch`.

Modelling conventions.

* Arithmetic on `double` is exact arithmetic in a linearly ordered field `K`
  (no rounding, no overflow).  The decimal literals of the source are the
  corresponding fractions.  Only cost values may be non-finite, because the source
  tests them with `std::isinf` and `std::isnan`: they live in `Dbl K`.
* A division whose divisor is zero leaves exact arithmetic; the run stops there
  with `Exn.DivByZero`.
* `sqrt` (libm) is a parameter.
* The reduced problem is a collaborator with hidden state: every call takes the
  state and returns the next one; `none` stands for a thrown `DOpEException`.
* `assert` is checked; a failed assertion stops the run with `Exn.AssertFailed`.
* The counters are `unsigned int` limits read with `get_integer` from an `int`
  parameter, hence below `2^31`; a counter exceeds its limit by at most one, so no
  counter wraps and `Nat` is exact.
* Text written to the output handler is not modelled; the calls of the exception
  handler are recorded in `World.log`.
* A second embedding, in the namespace `Fp`, repeats the three functions with every
  `double` a value of `Dbl K` and with the overflow of binary64 (a result of
  magnitude `2^1024 - 2^970` or more is an infinity, IEEE 754 on infinities and
  NaN).  It shows what exact arithmetic leaves out for large numbers; the rounding
  of the mantissa is modelled in neither embedding.
-/

set_option linter.unusedSectionVars false

namespace DOpE

/-! ## Values of type `double` that may be non-finite -/

/-- A cost value: a number of the field, plus or minus infinity, or not-a-number. -/
inductive Dbl (K : Type) where
  | fin (x : K)
  | pinf
  | ninf
  | nan
  deriving DecidableEq

namespace Dbl

variable {K : Type} [LinearOrderedField K]

/-- The test `std::isinf`. -/
def isinf : Dbl K → Bool
  | pinf => true
  | ninf => true
  | _ => false

/-- The test `std::isnan`. -/
def isnan : Dbl K → Bool
  | nan => true
  | _ => false

/-- Addition of doubles: exact on numbers, IEEE 754 on the special values. -/
def add : Dbl K → Dbl K → Dbl K
  | fin a, fin b => fin (a + b)
  | nan, _ => nan
  | _, nan => nan
  | pinf, ninf => nan
  | ninf, pinf => nan
  | pinf, _ => pinf
  | _, pinf => pinf
  | ninf, _ => ninf
  | _, ninf => ninf

/-- Product of an infinity (positive when `pos`) with the number `a`. -/
def infMul (pos : Bool) (a : K) : Dbl K :=
  if a = 0 then nan
  else if (0 < a) = pos then pinf else ninf

/-- Multiplication of doubles: exact on numbers, IEEE 754 on the special values. -/
def mul : Dbl K → Dbl K → Dbl K
  | fin a, fin b => fin (a * b)
  | nan, _ => nan
  | _, nan => nan
  | pinf, pinf => pinf
  | ninf, ninf => pinf
  | pinf, ninf => ninf
  | ninf, pinf => ninf
  | pinf, fin a => infMul true a
  | fin a, pinf => infMul true a
  | ninf, fin a => infMul false a
  | fin a, ninf => infMul false a

/-- The comparison `a < b` of doubles (false as soon as one side is not-a-number). -/
def lt : Dbl K → Dbl K → Bool
  | fin a, fin b => decide (a < b)
  | nan, _ => false
  | _, nan => false
  | ninf, ninf => false
  | ninf, _ => true
  | _, ninf => false
  | pinf, _ => false
  | _, pinf => true

/-- The comparison `a >= b` of doubles (false as soon as one side is not-a-number). -/
def ge : Dbl K → Dbl K → Bool
  | fin a, fin b => decide (b ≤ a)
  | nan, _ => false
  | _, nan => false
  | pinf, _ => true
  | _, pinf => false
  | _, ninf => true
  | ninf, _ => false

end Dbl

/-! ## Control vectors -/

/-- The values of a `ControlVector` with `n` degrees of freedom. -/
abbrev ControlVector (K : Type) (n : Nat) := Fin n → K

namespace ControlVector

variable {K : Type} [LinearOrderedField K] {n : Nat}

/-- Modelled from the spec: `ControlVector::operator*` (only declared in
`controlvector.h`), the Euclidean scalar product. -/
def dot (u v : ControlVector K n) : K := ∑ i, u i * v i

/-- Modelled from the spec: `ControlVector::add(s, dq)` (only declared in
`controlvector.h`), `this = this + s * dq`. -/
def add (u : ControlVector K n) (s : K) (dq : ControlVector K n) : ControlVector K n :=
  fun i => u i + s * dq i

/-- Modelled from the spec: `ControlVector::equ(s, dq)` (only declared in
`controlvector.h`), the scaled overwrite `this = s * dq`. -/
def equ (s : K) (dq : ControlVector K n) : ControlVector K n :=
  fun i => s * dq i

/-- Modelled from the spec: `ControlVector::operator*=(a)` (only declared in
`controlvector.h`), multiplication of the vector with a constant. -/
def scale (u : ControlVector K n) (a : K) : ControlVector K n :=
  fun i => u i * a

/-- Modelled from the spec: `ControlVector::operator+=(dq)` (only declared in
`controlvector.h`), `this = this + dq`. -/
def plus (u dq : ControlVector K n) : ControlVector K n :=
  fun i => u i + dq i

/-- Modelled from the spec: `ControlVector::operator=(double)` (only declared in
`controlvector.h`), all entries set to a constant value. -/
def const (value : K) : ControlVector K n :=
  fun _ => value

/-- Modelled from the spec: `ControlVector::Norm("infty")` (only declared in
`controlvector.h`), the largest absolute value of an entry (zero without entries). -/
def NormInfty (u : ControlVector K n) : K :=
  ((List.ofFn u).map fun x => |x|).foldr max 0

/-- Modelled from the spec: `ControlVector::ReInit` (only declared in
`controlvector.h`), which re-reads the sizes from the discretization handle; the
discretization does not change during a run, so the vector keeps its values. -/
def ReInit (u : ControlVector K n) : ControlVector K n := u

end ControlVector

/-! ## Exceptions, the exception handler and the collaborators -/

/-- The ways a run leaves a function other than by `return`. -/
inductive Exn where
  /-- A `DOpEIterationException` was thrown. -/
  | Iteration
  /-- A `DOpENegativeCurvatureException` was thrown. -/
  | NegativeCurvature
  /-- A plain `DOpEException` was thrown. -/
  | Generic
  /-- The handler `HandleCriticalException` ended the run. -/
  | Critical
  /-- An `assert` failed. -/
  | AssertFailed
  /-- A division by zero: the run leaves exact arithmetic. -/
  | DivByZero
  /-- The fuel of a loop of the model ran out (shown not to happen). -/
  | OutOfFuel
  deriving DecidableEq, Repr

/-- How a function ended: with `return n` or with one of the `Exn`. -/
inductive Status where
  | returned (n : Nat)
  | threw (e : Exn)
  deriving DecidableEq, Repr

/-- The calls received by the exception handler. -/
inductive Event where
  /-- A call `HandleException(e, ...)`. -/
  | HandleException (e : Exn)
  /-- A call `HandleCriticalException(e, ...)`. -/
  | HandleCriticalException
  deriving DecidableEq, Repr

/-- The state outside the algorithm: the hidden state of the reduced problem and
the calls made to the exception handler (latest first). -/
structure World (S : Type) where
  s : S
  log : List Event

namespace World

variable {S : Type}

/-- The world after the reduced problem moved to state `s`. -/
def withState (w : World S) (s : S) : World S := ⟨s, w.log⟩

/-- Modelled from the spec: `DOpEExceptionHandler::HandleException` (not among the
sources), which logs the exception; the caller continues. -/
def HandleException (w : World S) (e : Exn) : World S :=
  ⟨w.s, Event.HandleException e :: w.log⟩

/-- Modelled from the spec: `DOpEExceptionHandler::HandleCriticalException` (not
among the sources), which logs the exception and ends the run; the callers of this
function stop with `Exn.Critical`. -/
def HandleCriticalException (w : World S) : World S :=
  ⟨w.s, Event.HandleCriticalException :: w.log⟩

end World

/-- The interface `ReducedProblemInterface` as used by the algorithm.  Each function
takes the hidden state of the collaborator and returns the next one; the value
`none` stands for a thrown `DOpEException`. -/
structure ReducedProblem (K : Type) (n : Nat) (S : Type) where
  /-- The cost functional at `q`. -/
  ComputeReducedCostFunctional : S → ControlVector K n → Option (Dbl K) × S
  /-- The pair `(gradient, gradient_transposed)` at `q`. -/
  ComputeReducedGradient :
    S → ControlVector K n → Option (ControlVector K n × ControlVector K n) × S
  /-- The pair `(Hd, Hd_transposed)` of the Hessian at `q` applied to `d`. -/
  ComputeReducedHessianVector :
    S → ControlVector K n → ControlVector K n →
      Option (ControlVector K n × ControlVector K n) × S
  /-- The evaluation of the auxiliary functionals at `q`. -/
  ComputeReducedFunctionals : S → ControlVector K n → Option Unit × S

/-- The run time parameters read by the constructor of `ReducedNewtonAlgorithm`
(the members keep their names, among them `lineasearch_rho_`), and `sqrt`. -/
structure Params (K : Type) where
  nonlinear_maxiter_ : Nat
  linear_maxiter_ : Nat
  line_maxiter_ : Nat
  nonlinear_tol_ : K
  nonlinear_global_tol_ : K
  linear_tol_ : K
  linear_global_tol_ : K
  lineasearch_rho_ : K
  linesearch_c_ : K
  compute_functionals_in_every_step_ : Bool
  /-- The function `sqrt` of the C library. -/
  sqrt : K → K

/-- The ranges declared in `declare_params`: `Patterns::Double(0)` for the real
parameters (the integer ones are natural numbers by their type). -/
def Params.Declared {K : Type} [LinearOrderedField K] (prm : Params K) : Prop :=
  0 ≤ prm.nonlinear_tol_ ∧ 0 ≤ prm.nonlinear_global_tol_ ∧ 0 ≤ prm.linear_tol_ ∧
  0 ≤ prm.linear_global_tol_ ∧ 0 ≤ prm.lineasearch_rho_ ∧ 0 ≤ prm.linesearch_c_

/-! ## Loops -/

/-- How a `while` loop ended. -/
inductive LoopExit (σ ε : Type) where
  /-- The guard became false in state `s`. -/
  | done (s : σ)
  /-- The body left the loop with `e`. -/
  | raised (e : ε)
  /-- The fuel was used up while the guard still held. -/
  | outOfFuel

/-- The loop `while (guard) body`, where the body may leave the loop by an
exception; `fuel` bounds the number of executions of the body. -/
def whileLoop {σ ε : Type} (guard : σ → Bool) (body : σ → Except ε σ) :
    Nat → σ → LoopExit σ ε
  | 0, s => if guard s then .outOfFuel else .done s
  | fuel + 1, s =>
    if guard s then
      match body s with
      | .ok s' => whileLoop guard body fuel s'
      | .error e => .raised e
    else .done s

/-- The loop `while (guard) body` goes from `s` to `s'` in exactly `k` executions
of the body: the guard holds before each of them and none leaves the loop. -/
def Runs {σ ε : Type} (guard : σ → Bool) (body : σ → Except ε σ) : Nat → σ → σ → Prop
  | 0, s, s' => s = s'
  | k + 1, s, s' => guard s = true ∧ ∃ s1, body s = .ok s1 ∧ Runs guard body k s1 s'

/-! ## The line search `ReducedNewtonLineSearch` -/

section LineSearch

variable {K : Type} [LinearOrderedField K] {n : Nat} {S : Type}

/-- The variables of `ReducedNewtonLineSearch` that change in its loop. -/
structure LineState (K : Type) (n : Nat) (S : Type) where
  iter : Nat
  alpha : K
  q : ControlVector K n
  costnew : Dbl K
  force_linesearch : Bool
  w : World S

/-- What `ReducedNewtonLineSearch` leaves behind: how it ended, and the values of
its reference parameters `cost` and `q`. -/
structure LineResult (K : Type) (n : Nat) (S : Type) where
  status : Status
  cost : Dbl K
  q : ControlVector K n
  w : World S

/-- The condition of the `while` loop of the line search (lines 594 and 597):
`isinf(costnew) || isnan(costnew) || costnew >= cost + c*alpha*reduction ||
force_linesearch`. -/
def lineGuard (prm : Params K) (cost : Dbl K) (reduction : K)
    (st : LineState K n S) : Bool :=
  st.costnew.isinf || st.costnew.isnan ||
    Dbl.ge st.costnew (Dbl.add cost (Dbl.fin (prm.linesearch_c_ * st.alpha * reduction))) ||
    st.force_linesearch

/-- One evaluation of the cost at `q` inside the line search (lines 569-578 and
616-625): a thrown exception sets `force_linesearch` and keeps `costnew`. -/
def lineEval (P : ReducedProblem K n S) (iter : Nat) (alpha : K) (q : ControlVector K n)
    (costnew : Dbl K) (w : World S) : LineState K n S :=
  match P.ComputeReducedCostFunctional w.s q with
  | (some v, s) => ⟨iter, alpha, q, v, false, w.withState s⟩
  | (none, s) => ⟨iter, alpha, q, costnew, true, w.withState s⟩

/-- The body of the `while` loop of the line search (lines 599-625). -/
def lineBody (P : ReducedProblem K n S) (prm : Params K) (dq : ControlVector K n)
    (cost : Dbl K) (st : LineState K n S) : Except (LineResult K n S) (LineState K n S) :=
  let iter := st.iter + 1
  if iter > prm.line_maxiter_ then
    if st.force_linesearch then
      .error ⟨.threw .Generic, cost, st.q, st.w⟩
    else
      .error ⟨.threw .Iteration, st.costnew, st.q, st.w⟩
  else
    let q := ControlVector.add st.q (st.alpha * (prm.lineasearch_rho_ - 1)) dq
    let alpha := st.alpha * prm.lineasearch_rho_
    .ok (lineEval P iter alpha q st.costnew st.w)

/-- The value of `reduction` used in the tests (lines 583-593): `gradient*dq`, set
to zero when positive and, for `line_maxiter_ > 0`, when
`fabs(reduction) < 1.e-10*cost`. -/
def lineReduction (prm : Params K) (dq gradient : ControlVector K n) (cost : Dbl K) : K :=
  let reduction := ControlVector.dot gradient dq
  let reduction := if reduction > 0 then 0 else reduction
  if prm.line_maxiter_ > 0 then
    if Dbl.lt (Dbl.fin |reduction|) (Dbl.mul (Dbl.fin (1 / 10 ^ 10)) cost) then 0
    else reduction
  else reduction

/-- The state of the line search before its loop (lines 565-581): `q += dq`, the
first evaluation of the cost, `alpha = 1`, `iter = 0`. -/
def lineInit (P : ReducedProblem K n S) (dq : ControlVector K n) (q : ControlVector K n)
    (w : World S) : LineState K n S :=
  lineEval P 0 1 (ControlVector.plus q dq) (Dbl.fin 0) w

/-- The function `ReducedNewtonAlgorithm::ReducedNewtonLineSearch(dq, gradient,
cost, q)`.  The `if` of line 594 has the same condition as the loop it guards. -/
def ReducedNewtonLineSearch (P : ReducedProblem K n S) (prm : Params K)
    (dq gradient : ControlVector K n) (cost : Dbl K) (q : ControlVector K n)
    (w : World S) : LineResult K n S :=
  let st := lineInit P dq q w
  let reduction := lineReduction prm dq gradient cost
  if prm.line_maxiter_ > 0 then
    if lineGuard prm cost reduction st then
      match whileLoop (lineGuard prm cost reduction) (lineBody P prm dq cost)
          (prm.line_maxiter_ + 1) st with
      | .done st' => ⟨.returned st'.iter, st'.costnew, st'.q, st'.w⟩
      | .raised r => r
      | .outOfFuel => ⟨.threw .OutOfFuel, cost, st.q, st.w⟩
    else ⟨.returned st.iter, st.costnew, st.q, st.w⟩
  else ⟨.returned st.iter, cost, st.q, st.w⟩

end LineSearch

/-! ## The linear solver `SolveReducedLinearSystem` -/

section LinearSystem

variable {K : Type} [LinearOrderedField K] {n : Nat} {S : Type}

/-- The function `Residual(gradient, gradient_transposed)`, the scalar product
`gradient*gradient_transposed`. -/
def Residual (gradient gradient_transposed : ControlVector K n) : K :=
  ControlVector.dot gradient gradient_transposed

/-- The variables of `SolveReducedLinearSystem` that change in its loop. -/
structure CGState (K : Type) (n : Nat) (S : Type) where
  iter : Nat
  dq : ControlVector K n
  r : ControlVector K n
  r_transposed : ControlVector K n
  d : ControlVector K n
  res : K
  w : World S

/-- What `SolveReducedLinearSystem` leaves behind: how it ended, and the value of
its reference parameter `dq`. -/
structure CGResult (K : Type) (n : Nat) (S : Type) where
  status : Status
  dq : ControlVector K n
  w : World S

/-- The factor `std::min(0.25, sqrt(firstres))*firstres` of the stopping test. -/
def cgThreshold (prm : Params K) (firstres : K) : K :=
  min (1 / 4) (prm.sqrt firstres) * firstres

/-- The condition of the `while` loop of the linear solver (line 480). -/
def cgGuard (prm : Params K) (firstres : K) (st : CGState K n S) : Bool :=
  decide (st.res ≥ cgThreshold prm firstres) &&
    decide (st.res ≥ prm.linear_global_tol_ * prm.linear_global_tol_)

/-- The treatment of a residual with the wrong sign (lines 533-541): a negative
`res` above `-linear_global_tol_^2` or above `-min(0.25, sqrt(firstres))*firstres`
is replaced by `fabs(res)`. -/
def cgClamp (prm : Params K) (firstres res : K) : K :=
  if res < 0 ∧ (res > -1 * prm.linear_global_tol_ * prm.linear_global_tol_ ∨
      res > -1 * min (1 / 4) (prm.sqrt firstres) * firstres) then |res| else res

/-- The end of the body of the loop of the linear solver (lines 533-548), entered
with the new residual `res` (after the recomputation, if there was one). -/
def cgFinish (prm : Params K) (firstres : K) (iter : Nat)
    (dq r r_transposed d : ControlVector K n) (oldres res : K) (w : World S) :
    Except (CGResult K n S) (CGState K n S) :=
  let res := cgClamp prm firstres res
  if res ≥ 0 then
    if oldres = 0 then .error ⟨.threw .DivByZero, dq, w⟩
    else
      let cgbeta := res / oldres
      let d := ControlVector.add (ControlVector.scale d cgbeta) (-1) r_transposed
      .ok ⟨iter, dq, r, r_transposed, d, res, w⟩
  else .error ⟨.threw .AssertFailed, dq, w⟩

/-- The body of the `while` loop of the linear solver (lines 482-548). -/
def cgBody (P : ReducedProblem K n S) (prm : Params K)
    (q gradient gradient_transposed : ControlVector K n) (firstres : K)
    (st : CGState K n S) : Except (CGResult K n S) (CGState K n S) :=
  let iter := st.iter + 1
  if iter > prm.linear_maxiter_ then .error ⟨.threw .Iteration, st.dq, st.w⟩
  else
    match P.ComputeReducedHessianVector st.w.s q st.d with
    | (none, s) => .error ⟨.threw .Critical, st.dq, (st.w.withState s).HandleCriticalException⟩
    | (some (Hd, Hd_transposed), s) =>
      let w := st.w.withState s
      if ControlVector.dot Hd st.d = 0 then .error ⟨.threw .DivByZero, st.dq, w⟩
      else
        let cgalpha := st.res / ControlVector.dot Hd st.d
        if cgalpha < 0 then
          if iter = 1 then
            .error ⟨.threw .NegativeCurvature, ControlVector.add st.dq cgalpha st.d, w⟩
          else .error ⟨.threw .NegativeCurvature, st.dq, w⟩
        else
          let dq := ControlVector.add st.dq cgalpha st.d
          let r := ControlVector.add st.r cgalpha Hd
          let r_transposed := ControlVector.add st.r_transposed cgalpha Hd_transposed
          let oldres := st.res
          let res := Residual r r_transposed
          if res < 0 then
            match P.ComputeReducedHessianVector w.s q dq with
            | (none, s) =>
              .error ⟨.threw .Critical, dq, (w.withState s).HandleCriticalException⟩
            | (some (Hd, Hd_transposed), s) =>
              let r := ControlVector.add gradient 1 Hd
              let r_transposed := ControlVector.add gradient_transposed 1 Hd_transposed
              cgFinish prm firstres iter dq r r_transposed st.d oldres
                (Residual r r_transposed) (w.withState s)
          else cgFinish prm firstres iter dq r r_transposed st.d oldres res w

/-- The state of the linear solver before its loop (lines 458-473). -/
def cgInit (gradient gradient_transposed : ControlVector K n) (w : World S) :
    CGState K n S :=
  ⟨0, ControlVector.const 0, gradient, gradient_transposed,
    ControlVector.equ (-1) gradient_transposed,
    Residual gradient gradient_transposed, w⟩

/-- The function `ReducedNewtonAlgorithm::SolveReducedLinearSystem(q, gradient,
gradient_transposed, dq)`. -/
def SolveReducedLinearSystem (P : ReducedProblem K n S) (prm : Params K)
    (q gradient gradient_transposed : ControlVector K n) (w : World S) :
    CGResult K n S :=
  let st := cgInit gradient gradient_transposed w
  let firstres := st.res
  if firstres ≥ 0 then
    match whileLoop (cgGuard prm firstres)
        (cgBody P prm q gradient gradient_transposed firstres)
        (prm.linear_maxiter_ + 1) st with
    | .done st' => ⟨.returned st'.iter, st'.dq, st'.w⟩
    | .raised r => r
    | .outOfFuel => ⟨.threw .OutOfFuel, st.dq, st.w⟩
  else ⟨.threw .AssertFailed, st.dq, st.w⟩

end LinearSystem

/-! ## The Newton iteration `Solve` -/

section Newton

variable {K : Type} [LinearOrderedField K] {n : Nat} {S : Type}

/-- The variables of `Solve` that change in its loop.  The counters `liniter` and
`lineiter` are the ones written to the output after each step. -/
structure SolveState (K : Type) (n : Nat) (S : Type) where
  iter : Nat
  q : ControlVector K n
  cost : Dbl K
  dq : ControlVector K n
  gradient : ControlVector K n
  gradient_transposed : ControlVector K n
  res : K
  liniter : Int
  lineiter : Int
  w : World S

/-- What `Solve` leaves behind: how it ended, and the values of its variables at
that moment (`q` is a reference parameter). -/
structure SolveResult (K : Type) (n : Nat) (S : Type) where
  status : Status
  st : SolveState K n S

/-- The condition of the `while` loop of `Solve` (line 327), with `global_tol`
already replaced by the maximum of line 326. -/
def solveGuard (prm : Params K) (global_tol firstres : K) (miniter : Nat)
    (st : SolveState K n S) : Bool :=
  (decide (st.res ≥ global_tol * global_tol) &&
      decide (st.res ≥ prm.nonlinear_tol_ * prm.nonlinear_tol_ * firstres)) ||
    decide (st.iter < miniter)

/-- The computation of a search direction (lines 338-365): the call of the linear
solver and the handlers of its exceptions.  The result is the state with `dq`,
`liniter` and the world updated. -/
def solveDirection (P : ReducedProblem K n S) (prm : Params K) (st : SolveState K n S) :
    Except (SolveResult K n S) (SolveState K n S) :=
  let cg := SolveReducedLinearSystem P prm st.q st.gradient st.gradient_transposed st.w
  match cg.status with
  | .returned k => .ok { st with dq := cg.dq, liniter := k, w := cg.w }
  | .threw .Iteration =>
    let w := cg.w.HandleException .Iteration
    let dq :=
      if ControlVector.NormInfty cg.dq > 10000 * ControlVector.NormInfty st.gradient_transposed
      then ControlVector.scale st.gradient_transposed (-1)
      else cg.dq
    .ok { st with dq := dq, liniter := -1, w := w }
  | .threw .NegativeCurvature =>
    .ok { st with dq := cg.dq, liniter := -2, w := cg.w.HandleException .NegativeCurvature }
  | .threw .Generic =>
    .error ⟨.threw .Critical, { st with dq := cg.dq, w := cg.w.HandleCriticalException }⟩
  | .threw e => .error ⟨.threw e, { st with dq := cg.dq, w := cg.w }⟩

/-- The check that `dq` is a descent direction (lines 370-376): the direction
handed to the line search. -/
def solveDescent (gradient gradient_transposed dq : ControlVector K n) : ControlVector K n :=
  let reduction := ControlVector.dot gradient dq
  if reduction > 0 then ControlVector.scale gradient_transposed (-1) else dq

/-- The line search step of `Solve` (lines 367-385). -/
def solveLineSearch (P : ReducedProblem K n S) (prm : Params K) (st : SolveState K n S) :
    Except (SolveResult K n S) (SolveState K n S) :=
  let dq := solveDescent st.gradient st.gradient_transposed st.dq
  let ls := ReducedNewtonLineSearch P prm dq st.gradient st.cost st.q st.w
  match ls.status with
  | .returned k => .ok { st with dq := dq, cost := ls.cost, q := ls.q, lineiter := k, w := ls.w }
  | .threw .Iteration =>
    .ok { st with dq := dq, cost := ls.cost, q := ls.q, lineiter := -1,
                  w := ls.w.HandleException .Iteration }
  | .threw e => .error ⟨.threw e, { st with dq := dq, cost := ls.cost, q := ls.q, w := ls.w }⟩

/-- The optional evaluation of the functionals (lines 290-300 and 394-404). -/
def solveFunctionals (P : ReducedProblem K n S) (prm : Params K) (st : SolveState K n S) :
    Except (SolveResult K n S) (SolveState K n S) :=
  if prm.compute_functionals_in_every_step_ = true then
    match P.ComputeReducedFunctionals st.w.s st.q with
    | (some _, s) => .ok { st with w := st.w.withState s }
    | (none, s) =>
      .error ⟨.threw .Critical, { st with w := (st.w.withState s).HandleCriticalException }⟩
  else .ok st

/-- The evaluation of the gradient and of the residual (lines 302-311 and
408-420). -/
def solveGradient (P : ReducedProblem K n S) (st : SolveState K n S) :
    Except (SolveResult K n S) (SolveState K n S) :=
  match P.ComputeReducedGradient st.w.s st.q with
  | (some (gradient, gradient_transposed), s) =>
    .ok { st with gradient := gradient, gradient_transposed := gradient_transposed,
                  res := Residual gradient gradient_transposed, w := st.w.withState s }
  | (none, s) =>
    .error ⟨.threw .Critical, { st with w := (st.w.withState s).HandleCriticalException }⟩

/-- The body of the `while` loop of `Solve` (lines 329-423). -/
def solveBody (P : ReducedProblem K n S) (prm : Params K) (st : SolveState K n S) :
    Except (SolveResult K n S) (SolveState K n S) :=
  let st := { st with iter := st.iter + 1 }
  if st.iter > prm.nonlinear_maxiter_ then .error ⟨.threw .Iteration, st⟩
  else
    match solveDirection P prm st with
    | .error r => .error r
    | .ok st =>
      match solveLineSearch P prm st with
      | .error r => .error r
      | .ok st =>
        match solveFunctionals P prm st with
        | .error r => .error r
        | .ok st => solveGradient P st

/-- The first evaluations of `Solve` (lines 255-311): the cost, the functionals
and the gradient at the start point.  The vectors `dq`, `gradient` and
`gradient_transposed` are created as copies of `q` and overwritten before they are
read. -/
def solveInit (P : ReducedProblem K n S) (prm : Params K) (q : ControlVector K n)
    (w : World S) : Except (SolveResult K n S) (SolveState K n S) :=
  let q := ControlVector.ReInit q
  let st : SolveState K n S := ⟨0, q, Dbl.fin 0, q, q, q, 0, 0, 0, w⟩
  match P.ComputeReducedCostFunctional w.s q with
  | (none, s) =>
    .error ⟨.threw .Critical, { st with w := (w.withState s).HandleCriticalException }⟩
  | (some cost, s) =>
    match solveFunctionals P prm { st with cost := cost, w := w.withState s } with
    | .error r => .error r
    | .ok st => solveGradient P st

/-- The function `ReducedNewtonAlgorithm::Solve(q, global_tol)`. -/
def Solve (P : ReducedProblem K n S) (prm : Params K) (q : ControlVector K n)
    (global_tol : K) (w : World S) : SolveResult K n S :=
  match solveInit P prm q w with
  | .error r => r
  | .ok st =>
    let firstres := st.res
    if st.res ≥ 0 then
      let miniter : Nat := if global_tol > 0 then 1 else 0
      let global_tol := max prm.nonlinear_global_tol_ global_tol
      match whileLoop (solveGuard prm global_tol firstres miniter) (solveBody P prm)
          (prm.nonlinear_maxiter_ + 1) st with
      | .done st' =>
        match P.ComputeReducedFunctionals st'.w.s st'.q with
        | (some _, s) => ⟨.returned st'.iter, { st' with w := st'.w.withState s }⟩
        | (none, s) =>
          ⟨.threw .Critical, { st' with w := (st'.w.withState s).HandleCriticalException }⟩
      | .raised r => r
      | .outOfFuel => ⟨.threw .OutOfFuel, st⟩
    else ⟨.threw .AssertFailed, st⟩

end Newton

/-! ## Test problems -/

section TestProblems

variable {K : Type} [LinearOrderedField K] {n : Nat}

/-- The default values of the parameters, as declared in `declare_params`. -/
def defaultParams (sqrt : K → K) : Params K where
  nonlinear_maxiter_ := 10
  linear_maxiter_ := 40
  line_maxiter_ := 4
  nonlinear_tol_ := 1 / 10 ^ 7
  nonlinear_global_tol_ := 1 / 10 ^ 11
  linear_tol_ := 1 / 10 ^ 10
  linear_global_tol_ := 1 / 10 ^ 12
  lineasearch_rho_ := 9 / 10
  linesearch_c_ := 1 / 10
  compute_functionals_in_every_step_ := false
  sqrt := sqrt

/-- The reduced problem with cost `a * (q*q)`, gradient `2*a*q` (equal to its
transposed) and Hessian `2*a` times the identity; it has no hidden state and never
throws. -/
def quadProblem (a : K) : ReducedProblem K n Unit where
  ComputeReducedCostFunctional := fun s q => (some (Dbl.fin (a * ControlVector.dot q q)), s)
  ComputeReducedGradient := fun s q =>
    (some (ControlVector.equ (2 * a) q, ControlVector.equ (2 * a) q), s)
  ComputeReducedHessianVector := fun s _ d =>
    (some (ControlVector.equ (2 * a) d, ControlVector.equ (2 * a) d), s)
  ComputeReducedFunctionals := fun s _ => (some (), s)

/-- A square root on the rational numbers, exact on the squares of rational
numbers and rounded down in numerator and denominator otherwise. -/
def ratSqrt (x : ℚ) : ℚ := (Nat.sqrt x.num.toNat : ℚ) / (Nat.sqrt x.den : ℚ)

/-- The world before a run: no handler was called yet. -/
def World.start : World Unit := ⟨(), []⟩

/-- The reduced problem in one variable with cost
`10^11 - q + q^2/2 + (9/20)*q^3`, its gradient `-1 + q + (27/20)*q^2` (equal to its
transposed) and its Hessian `1 + (27/10)*q`; no hidden state, nothing throws. -/
def cubicProblem : ReducedProblem ℚ 1 Unit where
  ComputeReducedCostFunctional := fun s q =>
    (some (Dbl.fin (10 ^ 11 - q 0 + q 0 ^ 2 / 2 + 9 / 20 * q 0 ^ 3)), s)
  ComputeReducedGradient := fun s q =>
    (some (![-1 + q 0 + 27 / 20 * q 0 ^ 2], ![-1 + q 0 + 27 / 20 * q 0 ^ 2]), s)
  ComputeReducedHessianVector := fun s q d =>
    (some (![(1 + 27 / 10 * q 0) * d 0], ![(1 + 27 / 10 * q 0) * d 0]), s)
  ComputeReducedFunctionals := fun s _ => (some (), s)

/-- The quadratic model `f(x) = x*(A x)/2 - b*x` of the specification: gradient
`A x - b` (equal to its transposed), Hessian-vector product `A v`; no hidden
state, nothing throws. -/
def quadraticModel (A : Matrix (Fin n) (Fin n) K) (b : ControlVector K n) :
    ReducedProblem K n Unit where
  ComputeReducedCostFunctional := fun s q =>
    (some (Dbl.fin (ControlVector.dot q (A.mulVec q) / 2 - ControlVector.dot b q)), s)
  ComputeReducedGradient := fun s q =>
    (some (fun i => A.mulVec q i - b i, fun i => A.mulVec q i - b i), s)
  ComputeReducedHessianVector := fun s _ d => (some (A.mulVec d, A.mulVec d), s)
  ComputeReducedFunctionals := fun s _ => (some (), s)

/-- The quadratic model with the matrix `diag(1, 2)` and `b = (-3, -4)`, whose
gradient at `q = (0, 0)` is `(3, 4)`. -/
def diagModel : ReducedProblem ℚ 2 Unit :=
  quadraticModel (Matrix.diagonal ![1, 2]) ![-3, -4]

/-- The quadratic model with the indefinite matrix `diag(1, -1)` and
`b = (-2, -1)`, whose gradient at `q = (0, 0)` is `(2, 1)`. -/
def saddleModel : ReducedProblem ℚ 2 Unit :=
  quadraticModel (Matrix.diagonal ![1, -1]) ![-2, -1]

end TestProblems

/-! ## The conjugate gradient recurrences -/

section Recurrences

variable {K : Type} [LinearOrderedField K] {n : Nat}

/-- The vectors of one iterate of the linear solver when the transposed gradient
is the gradient: the accumulated direction, the residual and the search
direction. -/
structure CGIterate (K : Type) (n : Nat) where
  dq : ControlVector K n
  r : ControlVector K n
  d : ControlVector K n

/-- One execution of the body of the loop of the linear solver without its
tests, for the Hessian-vector product `v ↦ A v` and with `res = r*r`. -/
def cgStep (A : Matrix (Fin n) (Fin n) K) (x : CGIterate K n) : CGIterate K n :=
  let cgalpha := ControlVector.dot x.r x.r / ControlVector.dot (A.mulVec x.d) x.d
  let r := ControlVector.add x.r cgalpha (A.mulVec x.d)
  let cgbeta := ControlVector.dot r r / ControlVector.dot x.r x.r
  ⟨ControlVector.add x.dq cgalpha x.d, r,
    ControlVector.add (ControlVector.scale x.d cgbeta) (-1) r⟩

/-- The iterates of the linear solver for the gradient `g` (equal to its
transposed) and the Hessian-vector product `v ↦ A v`. -/
def cgSeq (A : Matrix (Fin n) (Fin n) K) (g : ControlVector K n) : Nat → CGIterate K n
  | 0 => ⟨ControlVector.const 0, g, ControlVector.equ (-1) g⟩
  | k + 1 => cgStep A (cgSeq A g k)

/-- The Hessian-vector product of the reduced problem is `v ↦ A v`, for the
Hessian and for its transposed, whatever the state and the point. -/
def HessianIs {S : Type} (P : ReducedProblem K n S) (A : Matrix (Fin n) (Fin n) K) : Prop :=
  ∀ s q d, (P.ComputeReducedHessianVector s q d).1 = some (A.mulVec d, A.mulVec d)

/-- The matrix `A` is symmetric and positive definite with respect to the
Euclidean scalar product. -/
def SymPosDef (A : Matrix (Fin n) (Fin n) K) : Prop :=
  (∀ u v, ControlVector.dot (A.mulVec u) v = ControlVector.dot u (A.mulVec v)) ∧
  ∀ v, v ≠ 0 → 0 < ControlVector.dot (A.mulVec v) v

end Recurrences

/-! ## The trial points of the line search -/

section Trials

variable {K : Type} [LinearOrderedField K] {n : Nat} {S : Type}

/-- The state of the line search after `j` backtracking steps, the iteration limit
aside: `lineInit` followed by `j` times the statements of lines 612-625. -/
def lineTrial (P : ReducedProblem K n S) (prm : Params K) (dq q : ControlVector K n)
    (w : World S) : Nat → LineState K n S
  | 0 => lineInit P dq q w
  | j + 1 =>
    lineEval P ((lineTrial P prm dq q w j).iter + 1)
      ((lineTrial P prm dq q w j).alpha * prm.lineasearch_rho_)
      (ControlVector.add (lineTrial P prm dq q w j).q
        ((lineTrial P prm dq q w j).alpha * (prm.lineasearch_rho_ - 1)) dq)
      (lineTrial P prm dq q w j).costnew (lineTrial P prm dq q w j).w

/-- The world in which the cost of trial point `j` is evaluated. -/
def lineWorld (P : ReducedProblem K n S) (prm : Params K) (dq q : ControlVector K n)
    (w : World S) : Nat → World S
  | 0 => w
  | j + 1 => (lineTrial P prm dq q w j).w

/-- The outcome of a cost evaluation ends the backtracking: the evaluation
succeeded, the cost is finite and `costnew >= cost + c*alpha*reduction` is false. -/
def lineAccepts (prm : Params K) (cost : Dbl K) (reduction alpha : K) :
    Option (Dbl K) → Bool
  | none => false
  | some costnew =>
    !(costnew.isinf || costnew.isnan ||
      Dbl.ge costnew (Dbl.add cost (Dbl.fin (prm.linesearch_c_ * alpha * reduction))))

end Trials

/-! ## Further test problems -/

section MoreTestProblems

/-- The reduced problem in one variable with cost `q^2` that is defined for
`q ≥ 0` only: the evaluation of the cost throws for `q < 0`.  Gradient `2*q`
(equal to its transposed), Hessian `2`; no hidden state. -/
def partialProblem : ReducedProblem ℚ 1 Unit where
  ComputeReducedCostFunctional := fun s q =>
    if q 0 < 0 then (none, s) else (some (Dbl.fin (q 0 ^ 2)), s)
  ComputeReducedGradient := fun s q => (some (![2 * q 0], ![2 * q 0]), s)
  ComputeReducedHessianVector := fun s _ d => (some (![2 * d 0], ![2 * d 0]), s)
  ComputeReducedFunctionals := fun s _ => (some (), s)

/-- The reduced problem in one variable with the cost
`q^3*(q - 6/5)^2 + (q^2/2 - q)/100`, its gradient (equal to its transposed) and
its Hessian; at `q = 0` the cost is `0`, the gradient `-1/100` and the Hessian
`1/100`, so the Newton direction is `1`.  No hidden state, nothing throws. -/
def bumpProblem : ReducedProblem ℚ 1 Unit where
  ComputeReducedCostFunctional := fun s q =>
    (some (Dbl.fin (q 0 ^ 3 * (q 0 - 6 / 5) ^ 2 + (q 0 ^ 2 / 2 - q 0) / 100)), s)
  ComputeReducedGradient := fun s q =>
    (some (![3 * q 0 ^ 2 * (q 0 - 6 / 5) ^ 2 + 2 * q 0 ^ 3 * (q 0 - 6 / 5) + (q 0 - 1) / 100],
      ![3 * q 0 ^ 2 * (q 0 - 6 / 5) ^ 2 + 2 * q 0 ^ 3 * (q 0 - 6 / 5) + (q 0 - 1) / 100]), s)
  ComputeReducedHessianVector := fun s q d =>
    (some (![(6 * q 0 * (q 0 - 6 / 5) ^ 2 + 12 * q 0 ^ 2 * (q 0 - 6 / 5) + 2 * q 0 ^ 3 +
        1 / 100) * d 0],
      ![(6 * q 0 * (q 0 - 6 / 5) ^ 2 + 12 * q 0 ^ 2 * (q 0 - 6 / 5) + 2 * q 0 ^ 3 +
        1 / 100) * d 0]), s)
  ComputeReducedFunctionals := fun s _ => (some (), s)

end MoreTestProblems

/-! ## Test doubles -/

section TestDoubles

/-- A test double in two variables whose Hessian-vector product gives a pair that
does not fit together: `Hd = (d₁, -d₁)` and `Hd_transposed = (d₁, d₁/8)`.  The
cost is `0` and the gradient `(1, 0)` (equal to its transposed) everywhere; no
hidden state, nothing throws. -/
def skewProblem : ReducedProblem ℚ 2 Unit where
  ComputeReducedCostFunctional := fun s _ => (some (Dbl.fin 0), s)
  ComputeReducedGradient := fun s _ => (some (![1, 0], ![1, 0]), s)
  ComputeReducedHessianVector := fun s _ d => (some (![d 0, -(d 0)], ![d 0, d 0 / 8]), s)
  ComputeReducedFunctionals := fun s _ => (some (), s)

/-- A test double in one variable with the cost `(q - 2)^2/2`, the gradient
`q - 2`, a transposed gradient `(q - 2)*(1 - 2*q)` that agrees with the gradient
at `q = 0` only, and the Hessian-vector product `2*d`.  At `q = 1` the gradient
pair is `(-1, 1)`, with the negative product `-1`.  No hidden state, nothing
throws. -/
def doubleProblem : ReducedProblem ℚ 1 Unit where
  ComputeReducedCostFunctional := fun s q => (some (Dbl.fin ((q 0 - 2) ^ 2 / 2)), s)
  ComputeReducedGradient := fun s q => (some (![q 0 - 2], ![(q 0 - 2) * (1 - 2 * q 0)]), s)
  ComputeReducedHessianVector := fun s _ d =>
    (some (ControlVector.equ 2 d, ControlVector.equ 2 d), s)
  ComputeReducedFunctionals := fun s _ => (some (), s)

end TestDoubles

/-! ## The functions of the base class `ReducedAlgorithm` -/

namespace Dbl

variable {K : Type} [LinearOrderedField K]

/-- The negative of a double. -/
def neg : Dbl K → Dbl K
  | fin a => fin (-a)
  | pinf => ninf
  | ninf => pinf
  | nan => nan

/-- Subtraction of doubles: exact on numbers, IEEE 754 on the special values. -/
def sub (a b : Dbl K) : Dbl K := add a (neg b)

/-- Division of doubles: exact on numbers with a divisor other than zero, IEEE 754
otherwise, zero having no sign: a number divided by zero is an infinity with the
sign of the number, or not-a-number for `0/0`. -/
def div : Dbl K → Dbl K → Dbl K
  | nan, _ => nan
  | _, nan => nan
  | fin a, fin b =>
    if b = 0 then (if a = 0 then nan else if 0 < a then pinf else ninf) else fin (a / b)
  | fin _, pinf => fin 0
  | fin _, ninf => fin 0
  | pinf, fin b => if 0 ≤ b then pinf else ninf
  | ninf, fin b => if 0 ≤ b then ninf else pinf
  | pinf, pinf => nan
  | pinf, ninf => nan
  | ninf, pinf => nan
  | ninf, ninf => nan

end Dbl

section BaseClass

variable {K : Type} [LinearOrderedField K] {n : Nat} {S : Type}

/-- How a function without a return value ended. -/
inductive Ended where
  | normally
  | threw (e : Exn)
  deriving DecidableEq, Repr

/-- What `SolveForward` leaves behind. -/
structure ForwardResult (K : Type) (n : Nat) (S : Type) where
  status : Ended
  q : ControlVector K n
  cost : Dbl K
  w : World S

/-- The function `ReducedAlgorithm::SolveForward(q)` (lines 304-346): the cost and
the functionals are evaluated at `q`, each inside a `try` whose `catch` calls
`HandleCriticalException`. -/
def SolveForward (P : ReducedProblem K n S) (q : ControlVector K n) (w : World S) :
    ForwardResult K n S :=
  let q := ControlVector.ReInit q
  match P.ComputeReducedCostFunctional w.s q with
  | (none, s) => ⟨.threw .Critical, q, Dbl.fin 0, (w.withState s).HandleCriticalException⟩
  | (some cost, s) =>
    match P.ComputeReducedFunctionals s q with
    | (none, s) => ⟨.threw .Critical, q, cost, (w.withState s).HandleCriticalException⟩
    | (some _, s) => ⟨.normally, q, cost, w.withState s⟩

/-- A line of the table written by `CheckGrads` and `CheckHessian`: the four
numbers of lines 408-409 and 483-484. -/
structure DiffRow (K : Type) where
  eps : K
  exact : K
  diffquot : Dbl K
  relerr : Dbl K

/-- What a difference quotient function leaves behind: the line it wrote, if it
got that far. -/
structure QuotientResult (K : Type) (S : Type) where
  status : Ended
  row : Option (DiffRow K)
  w : World S

/-- The function `ReducedAlgorithm::FirstDifferenceQuotient` (lines 382-411).  The
evaluations of the cost are not inside a `try`: an exception of the reduced problem
leaves the function. -/
def FirstDifferenceQuotient (P : ReducedProblem K n S) (exact eps : K)
    (q dq : ControlVector K n) (w : World S) : QuotientResult K S :=
  let point := q
  let point := ControlVector.add point eps dq
  match P.ComputeReducedCostFunctional w.s point with
  | (none, s) => ⟨.threw .Generic, none, w.withState s⟩
  | (some cost_right, s) =>
    let point := ControlVector.add point (-2 * eps) dq
    match P.ComputeReducedCostFunctional s point with
    | (none, s) => ⟨.threw .Generic, none, w.withState s⟩
    | (some cost_left, s) =>
      let diffquot := Dbl.div (Dbl.sub cost_right cost_left) (Dbl.fin (2 * eps))
      ⟨.normally,
        some ⟨eps, exact, diffquot, Dbl.div (Dbl.sub (Dbl.fin exact) diffquot) (Dbl.fin exact)⟩,
        w.withState s⟩

/-- The function `ReducedAlgorithm::SecondDifferenceQuotient` (lines 453-486). -/
def SecondDifferenceQuotient (P : ReducedProblem K n S) (exact eps : K)
    (q dq : ControlVector K n) (w : World S) : QuotientResult K S :=
  let point := q
  match P.ComputeReducedCostFunctional w.s point with
  | (none, s) => ⟨.threw .Generic, none, w.withState s⟩
  | (some cost_mid, s) =>
    let point := ControlVector.add point eps dq
    match P.ComputeReducedCostFunctional s point with
    | (none, s) => ⟨.threw .Generic, none, w.withState s⟩
    | (some cost_right, s) =>
      let point := ControlVector.add point (-2 * eps) dq
      match P.ComputeReducedCostFunctional s point with
      | (none, s) => ⟨.threw .Generic, none, w.withState s⟩
      | (some cost_left, s) =>
        let diffquot :=
          Dbl.div (Dbl.add (Dbl.sub cost_left (Dbl.mul (Dbl.fin 2) cost_mid)) cost_right)
            (Dbl.fin (eps * eps))
        ⟨.normally,
          some ⟨eps, exact, diffquot,
            Dbl.div (Dbl.sub (Dbl.fin exact) diffquot) (Dbl.fin exact)⟩,
          w.withState s⟩

/-- What `CheckGrads` and `CheckHessian` leave behind: the reference parameters
`q` and `dq`, and the lines of the table written so far, in the order written. -/
structure CheckResult (K : Type) (n : Nat) (S : Type) where
  status : Ended
  q : ControlVector K n
  dq : ControlVector K n
  rows : List (DiffRow K)
  w : World S

/-- The loop `for (i = 0; i < niter; i++) { quotient(eps); eps /= 10.; }` of lines
374-378 and 445-449; `rows` are the lines written before. -/
def checkLoop (quotient : K → World S → QuotientResult K S) :
    Nat → K → List (DiffRow K) → World S → Ended × List (DiffRow K) × World S
  | 0, _, rows, w => (.normally, rows, w)
  | niter + 1, eps, rows, w =>
    match quotient eps w with
    | ⟨.normally, row, w⟩ => checkLoop quotient niter (eps / 10) (rows ++ row.toList) w
    | ⟨.threw e, row, w⟩ => (.threw e, rows ++ row.toList, w)

/-- The function `ReducedAlgorithm::CheckGrads(c, q, dq, niter, eps)` (lines
349-379).  Nothing is inside a `try`.  The reference parameter `dq` is overwritten
by `dq = c` before it is read, so it appears in the result only. -/
def CheckGrads (P : ReducedProblem K n S) (c : K) (q : ControlVector K n) (niter : Nat)
    (eps : K) (w : World S) : CheckResult K n S :=
  let q := ControlVector.ReInit q
  let dq : ControlVector K n := ControlVector.const c
  let point := q
  match P.ComputeReducedCostFunctional w.s point with
  | (none, s) => ⟨.threw .Generic, q, dq, [], w.withState s⟩
  | (some _, s) =>
    match P.ComputeReducedGradient s point with
    | (none, s) => ⟨.threw .Generic, q, dq, [], w.withState s⟩
    | (some (gradient, _), s) =>
      let cost_diff := ControlVector.dot gradient dq
      let r := checkLoop (fun eps w => FirstDifferenceQuotient P cost_diff eps q dq w)
        niter eps [] (w.withState s)
      ⟨r.1, q, dq, r.2.1, r.2.2⟩

/-- The function `ReducedAlgorithm::CheckHessian(c, q, dq, niter, eps)` (lines
415-450).  Nothing is inside a `try`.  The reference parameter `dq` is overwritten
by `dq = c` before it is read, so it appears in the result only. -/
def CheckHessian (P : ReducedProblem K n S) (c : K) (q : ControlVector K n)
    (niter : Nat) (eps : K) (w : World S) : CheckResult K n S :=
  let q := ControlVector.ReInit q
  let dq : ControlVector K n := ControlVector.const c
  let point := q
  match P.ComputeReducedCostFunctional w.s point with
  | (none, s) => ⟨.threw .Generic, q, dq, [], w.withState s⟩
  | (some _, s) =>
    match P.ComputeReducedGradient s point with
    | (none, s) => ⟨.threw .Generic, q, dq, [], w.withState s⟩
    | (some _, s) =>
      match P.ComputeReducedHessianVector s point dq with
      | (none, s) => ⟨.threw .Generic, q, dq, [], w.withState s⟩
      | (some (hessian, _), s) =>
        let cost_diff := ControlVector.dot hessian dq
        let r := checkLoop (fun eps w => SecondDifferenceQuotient P cost_diff eps q dq w)
          niter eps [] (w.withState s)
        ⟨r.1, q, dq, r.2.1, r.2.2⟩

/-- The reduced problem `P` with two counters added to its hidden state: the number
of exceptions thrown so far by the evaluation of the cost, and the number thrown
by the other three functions. -/
def counting (P : ReducedProblem K n S) : ReducedProblem K n (S × Nat × Nat) where
  ComputeReducedCostFunctional := fun s q =>
    match P.ComputeReducedCostFunctional s.1 q with
    | (some v, s') => (some v, (s', s.2))
    | (none, s') => (none, (s', s.2.1 + 1, s.2.2))
  ComputeReducedGradient := fun s q =>
    match P.ComputeReducedGradient s.1 q with
    | (some v, s') => (some v, (s', s.2))
    | (none, s') => (none, (s', s.2.1, s.2.2 + 1))
  ComputeReducedHessianVector := fun s q d =>
    match P.ComputeReducedHessianVector s.1 q d with
    | (some v, s') => (some v, (s', s.2))
    | (none, s') => (none, (s', s.2.1, s.2.2 + 1))
  ComputeReducedFunctionals := fun s q =>
    match P.ComputeReducedFunctionals s.1 q with
    | (some v, s') => (some v, (s', s.2))
    | (none, s') => (none, (s', s.2.1, s.2.2 + 1))

/-- The number of exceptions thrown so far by the cost of the counting reduced
problem. -/
def World.thrownCost (w : World (S × Nat × Nat)) : Nat := w.s.2.1

/-- The number of exceptions thrown so far by the gradient, the Hessian-vector
product and the functionals of the counting reduced problem. -/
def World.thrownOther (w : World (S × Nat × Nat)) : Nat := w.s.2.2

/-- The number of calls of `HandleCriticalException` so far. -/
def World.criticalCalls (w : World S) : Nat := w.log.count Event.HandleCriticalException

/-- Between the worlds `w` and `w'` every exception thrown by the gradient, the
Hessian-vector product or the functionals was handed to `HandleCriticalException`:
the two counts grew by the same number. -/
def Handled (w w' : World (S × Nat × Nat)) : Prop :=
  w'.thrownOther + w.criticalCalls = w.thrownOther + w'.criticalCalls

/-- The same for the exceptions thrown by the cost. -/
def HandledCost (w w' : World (S × Nat × Nat)) : Prop :=
  w'.thrownCost + w.criticalCalls = w.thrownCost + w'.criticalCalls

end BaseClass

section Escapes

variable {S : Type}

/-- Between the worlds `w` and `w'` a function that ended with `status` called no
exception handler, and it ended with a plain exception exactly when the counting
reduced problem threw (once): the exception reached the caller. -/
def Escaped (w w' : World (S × Nat × Nat)) (status : Ended) : Prop :=
  w'.log = w.log ∧
    (status = .normally → w'.thrownCost + w'.thrownOther = w.thrownCost + w.thrownOther) ∧
    (∀ e, status = .threw e →
      e = .Generic ∧ w'.thrownCost + w'.thrownOther = w.thrownCost + w.thrownOther + 1)

end Escapes

/-! ## A second embedding, with overflow

The three functions of `ReducedNewtonAlgorithm` once more, with every `double` a
value of `Dbl K`.  An arithmetic result whose magnitude reaches the overflow
threshold of the binary64 format becomes an infinity; infinities and NaN
propagate as in IEEE 754; a division by zero gives an infinity or NaN and the run
goes on; a comparison with NaN is false.  The rounding of the mantissa is not
modelled: below the threshold the results are exact.  The exceptions, the world,
the parameters and the loops are those of the first embedding. -/

namespace Dbl

variable {K : Type} [LinearOrderedField K]

/-- The overflow threshold of binary64 under rounding to nearest: the largest finite
number is `2^1024 - 2^971`, and a result of magnitude `2^1024 - 2^970` or more
becomes an infinity. -/
def huge : K := 2 ^ 1024 - 2 ^ 970

/-- The overflow of an arithmetic result. -/
def overflow : Dbl K → Dbl K
  | fin a =>
    if a ≥ huge then pinf
    else if a ≤ -huge then ninf
    else fin a
  | x => x

/-- The function `fabs`. -/
def fabs : Dbl K → Dbl K
  | fin a => fin |a|
  | pinf => pinf
  | ninf => pinf
  | nan => nan

end Dbl

namespace Fp

section Arithmetic

variable {K : Type} [LinearOrderedField K]

/-- The sum of two doubles. -/
def add (a b : Dbl K) : Dbl K := Dbl.overflow (Dbl.add a b)

/-- The difference of two doubles. -/
def sub (a b : Dbl K) : Dbl K := Dbl.overflow (Dbl.sub a b)

/-- The product of two doubles. -/
def mul (a b : Dbl K) : Dbl K := Dbl.overflow (Dbl.mul a b)

/-- The quotient of two doubles. -/
def div (a b : Dbl K) : Dbl K := Dbl.overflow (Dbl.div a b)

/-- The function `std::min(a, b)`: `b` when `b < a`, otherwise `a`. -/
def min (a b : Dbl K) : Dbl K := if Dbl.lt b a then b else a

/-- The function `std::max(a, b)`: `b` when `a < b`, otherwise `a`. -/
def max (a b : Dbl K) : Dbl K := if Dbl.lt a b then b else a

/-- The function `sqrt` of the C library, for the square root `f` of the numbers
that are not negative. -/
def sqrt (f : K → K) : Dbl K → Dbl K
  | .fin a => if a < 0 then .nan else .fin (f a)
  | .pinf => .pinf
  | .ninf => .nan
  | .nan => .nan

end Arithmetic

namespace ControlVector

variable {K : Type} [LinearOrderedField K] {n : Nat}

/-- Modelled from the spec: `ControlVector::operator*` (only declared in
`controlvector.h`), the Euclidean scalar product, summed in the order of the
entries. -/
def dot (u v : ControlVector (Dbl K) n) : Dbl K :=
  (List.ofFn fun i => mul (u i) (v i)).foldl add (Dbl.fin 0)

/-- Modelled from the spec: `ControlVector::add(s, dq)`, `this = this + s * dq`. -/
def add (u : ControlVector (Dbl K) n) (s : Dbl K) (dq : ControlVector (Dbl K) n) :
    ControlVector (Dbl K) n :=
  fun i => Fp.add (u i) (mul s (dq i))

/-- Modelled from the spec: `ControlVector::equ(s, dq)`, `this = s * dq`. -/
def equ (s : Dbl K) (dq : ControlVector (Dbl K) n) : ControlVector (Dbl K) n :=
  fun i => mul s (dq i)

/-- Modelled from the spec: `ControlVector::operator*=`. -/
def scale (u : ControlVector (Dbl K) n) (a : Dbl K) : ControlVector (Dbl K) n :=
  fun i => mul (u i) a

/-- Modelled from the spec: `ControlVector::operator+=`. -/
def plus (u v : ControlVector (Dbl K) n) : ControlVector (Dbl K) n :=
  fun i => Fp.add (u i) (v i)

/-- Modelled from the spec: `ControlVector::operator=(double)`. -/
def const (value : Dbl K) : ControlVector (Dbl K) n :=
  fun _ => value

/-- Modelled from the spec: `ControlVector::Norm("infty")`, the largest absolute
value of an entry (zero without entries). -/
def NormInfty (u : ControlVector (Dbl K) n) : Dbl K :=
  ((List.ofFn u).map Dbl.fabs).foldr max (Dbl.fin 0)

/-- Modelled from the spec: `ControlVector::ReInit`, after which the vector keeps
its values. -/
def ReInit (u : ControlVector (Dbl K) n) : ControlVector (Dbl K) n := u

end ControlVector

/-- The interface `ReducedProblemInterface`, with vectors of doubles. -/
structure ReducedProblem (K : Type) (n : Nat) (S : Type) where
  /-- The cost functional at `q`. -/
  ComputeReducedCostFunctional : S → ControlVector (Dbl K) n → Option (Dbl K) × S
  /-- The pair `(gradient, gradient_transposed)` at `q`. -/
  ComputeReducedGradient :
    S → ControlVector (Dbl K) n →
      Option (ControlVector (Dbl K) n × ControlVector (Dbl K) n) × S
  /-- The pair `(Hd, Hd_transposed)` of the Hessian at `q` applied to `d`. -/
  ComputeReducedHessianVector :
    S → ControlVector (Dbl K) n → ControlVector (Dbl K) n →
      Option (ControlVector (Dbl K) n × ControlVector (Dbl K) n) × S
  /-- The evaluation of the auxiliary functionals at `q`. -/
  ComputeReducedFunctionals : S → ControlVector (Dbl K) n → Option Unit × S

/-- The variables of `ReducedNewtonLineSearch` that change in its loop. -/
structure LineState (K : Type) (n : Nat) (S : Type) where
  iter : Nat
  alpha : Dbl K
  q : ControlVector (Dbl K) n
  costnew : Dbl K
  force_linesearch : Bool
  w : World S

/-- What `ReducedNewtonLineSearch` leaves behind: how it ended, and the values of
its reference parameters `cost` and `q`. -/
structure LineResult (K : Type) (n : Nat) (S : Type) where
  status : Status
  cost : Dbl K
  q : ControlVector (Dbl K) n
  w : World S

/-- The variables of `SolveReducedLinearSystem` that change in its loop. -/
structure CGState (K : Type) (n : Nat) (S : Type) where
  iter : Nat
  dq : ControlVector (Dbl K) n
  r : ControlVector (Dbl K) n
  r_transposed : ControlVector (Dbl K) n
  d : ControlVector (Dbl K) n
  res : Dbl K
  w : World S

/-- What `SolveReducedLinearSystem` leaves behind: how it ended, and the value of
its reference parameter `dq`. -/
structure CGResult (K : Type) (n : Nat) (S : Type) where
  status : Status
  dq : ControlVector (Dbl K) n
  w : World S

/-- The variables of `Solve` that change in its loop. -/
structure SolveState (K : Type) (n : Nat) (S : Type) where
  iter : Nat
  q : ControlVector (Dbl K) n
  cost : Dbl K
  dq : ControlVector (Dbl K) n
  gradient : ControlVector (Dbl K) n
  gradient_transposed : ControlVector (Dbl K) n
  res : Dbl K
  liniter : Int
  lineiter : Int
  w : World S

/-- What `Solve` leaves behind: how it ended, and the values of its variables at
that moment. -/
structure SolveResult (K : Type) (n : Nat) (S : Type) where
  status : Status
  st : SolveState K n S

section Algorithm

variable {K : Type} [LinearOrderedField K] {n : Nat} {S : Type}

/-- The condition of the `while` loop of the line search (lines 594 and 597):
`isinf(costnew) || isnan(costnew) || costnew >= cost + c*alpha*reduction ||
force_linesearch`. -/
def lineGuard (prm : Params K) (cost reduction : Dbl K) (st : LineState K n S) : Bool :=
  st.costnew.isinf || st.costnew.isnan ||
    Dbl.ge st.costnew
      (add cost (mul (mul (Dbl.fin prm.linesearch_c_) st.alpha) reduction)) ||
    st.force_linesearch

/-- One evaluation of the cost at `q` inside the line search (lines 569-578 and
616-625): a thrown exception sets `force_linesearch` and keeps `costnew`. -/
def lineEval (P : ReducedProblem K n S) (iter : Nat) (alpha : Dbl K)
    (q : ControlVector (Dbl K) n) (costnew : Dbl K) (w : World S) : LineState K n S :=
  match P.ComputeReducedCostFunctional w.s q with
  | (some v, s) => ⟨iter, alpha, q, v, false, w.withState s⟩
  | (none, s) => ⟨iter, alpha, q, costnew, true, w.withState s⟩

/-- The body of the `while` loop of the line search (lines 599-625). -/
def lineBody (P : ReducedProblem K n S) (prm : Params K) (dq : ControlVector (Dbl K) n)
    (cost : Dbl K) (st : LineState K n S) : Except (LineResult K n S) (LineState K n S) :=
  let iter := st.iter + 1
  if iter > prm.line_maxiter_ then
    if st.force_linesearch then
      .error ⟨.threw .Generic, cost, st.q, st.w⟩
    else
      .error ⟨.threw .Iteration, st.costnew, st.q, st.w⟩
  else
    let q := ControlVector.add st.q
      (mul st.alpha (sub (Dbl.fin prm.lineasearch_rho_) (Dbl.fin 1))) dq
    let alpha := mul st.alpha (Dbl.fin prm.lineasearch_rho_)
    .ok (lineEval P iter alpha q st.costnew st.w)

/-- The value of `reduction` used in the tests (lines 583-593): `gradient*dq`, set
to zero when positive and, for `line_maxiter_ > 0`, when
`fabs(reduction) < 1.e-10*cost`. -/
def lineReduction (prm : Params K) (dq gradient : ControlVector (Dbl K) n) (cost : Dbl K) :
    Dbl K :=
  let reduction := ControlVector.dot gradient dq
  let reduction := if Dbl.lt (Dbl.fin 0) reduction then Dbl.fin 0 else reduction
  if prm.line_maxiter_ > 0 then
    if Dbl.lt (Dbl.fabs reduction) (mul (Dbl.fin (1 / 10 ^ 10)) cost) then Dbl.fin 0
    else reduction
  else reduction

/-- The state of the line search before its loop (lines 565-581): `q += dq`, the
first evaluation of the cost, `alpha = 1`, `iter = 0`. -/
def lineInit (P : ReducedProblem K n S) (dq q : ControlVector (Dbl K) n) (w : World S) :
    LineState K n S :=
  lineEval P 0 (Dbl.fin 1) (ControlVector.plus q dq) (Dbl.fin 0) w

/-- The function `ReducedNewtonAlgorithm::ReducedNewtonLineSearch(dq, gradient,
cost, q)`. -/
def ReducedNewtonLineSearch (P : ReducedProblem K n S) (prm : Params K)
    (dq gradient : ControlVector (Dbl K) n) (cost : Dbl K) (q : ControlVector (Dbl K) n)
    (w : World S) : LineResult K n S :=
  let st := lineInit P dq q w
  let reduction := lineReduction prm dq gradient cost
  if prm.line_maxiter_ > 0 then
    if lineGuard prm cost reduction st then
      match whileLoop (lineGuard prm cost reduction) (lineBody P prm dq cost)
          (prm.line_maxiter_ + 1) st with
      | .done st' => ⟨.returned st'.iter, st'.costnew, st'.q, st'.w⟩
      | .raised r => r
      | .outOfFuel => ⟨.threw .OutOfFuel, cost, st.q, st.w⟩
    else ⟨.returned st.iter, st.costnew, st.q, st.w⟩
  else ⟨.returned st.iter, cost, st.q, st.w⟩

/-- The function `Residual(gradient, gradient_transposed)`, the scalar product
`gradient*gradient_transposed`. -/
def Residual (gradient gradient_transposed : ControlVector (Dbl K) n) : Dbl K :=
  ControlVector.dot gradient gradient_transposed

/-- The factor `std::min(0.25, sqrt(firstres))*firstres` of the stopping test. -/
def cgThreshold (prm : Params K) (firstres : Dbl K) : Dbl K :=
  mul (min (Dbl.fin (1 / 4)) (sqrt prm.sqrt firstres)) firstres

/-- The condition of the `while` loop of the linear solver (line 480). -/
def cgGuard (prm : Params K) (firstres : Dbl K) (st : CGState K n S) : Bool :=
  Dbl.ge st.res (cgThreshold prm firstres) &&
    Dbl.ge st.res (mul (Dbl.fin prm.linear_global_tol_) (Dbl.fin prm.linear_global_tol_))

/-- The treatment of a residual with the wrong sign (lines 533-541). -/
def cgClamp (prm : Params K) (firstres res : Dbl K) : Dbl K :=
  if Dbl.lt res (Dbl.fin 0) &&
      (Dbl.lt (mul (mul (Dbl.fin (-1)) (Dbl.fin prm.linear_global_tol_))
          (Dbl.fin prm.linear_global_tol_)) res ||
        Dbl.lt (mul (mul (Dbl.fin (-1)) (min (Dbl.fin (1 / 4)) (sqrt prm.sqrt firstres)))
          firstres) res)
  then Dbl.fabs res else res

/-- The end of the body of the loop of the linear solver (lines 533-548), entered
with the new residual `res` (after the recomputation, if there was one). -/
def cgFinish (prm : Params K) (firstres : Dbl K) (iter : Nat)
    (dq r r_transposed d : ControlVector (Dbl K) n) (oldres res : Dbl K) (w : World S) :
    Except (CGResult K n S) (CGState K n S) :=
  let res := cgClamp prm firstres res
  if Dbl.ge res (Dbl.fin 0) then
    let cgbeta := div res oldres
    let d := ControlVector.add (ControlVector.scale d cgbeta) (Dbl.fin (-1)) r_transposed
    .ok ⟨iter, dq, r, r_transposed, d, res, w⟩
  else .error ⟨.threw .AssertFailed, dq, w⟩

/-- The body of the `while` loop of the linear solver (lines 482-548). -/
def cgBody (P : ReducedProblem K n S) (prm : Params K)
    (q gradient gradient_transposed : ControlVector (Dbl K) n) (firstres : Dbl K)
    (st : CGState K n S) : Except (CGResult K n S) (CGState K n S) :=
  let iter := st.iter + 1
  if iter > prm.linear_maxiter_ then .error ⟨.threw .Iteration, st.dq, st.w⟩
  else
    match P.ComputeReducedHessianVector st.w.s q st.d with
    | (none, s) => .error ⟨.threw .Critical, st.dq, (st.w.withState s).HandleCriticalException⟩
    | (some (Hd, Hd_transposed), s) =>
      let w := st.w.withState s
      let cgalpha := div st.res (ControlVector.dot Hd st.d)
      if Dbl.lt cgalpha (Dbl.fin 0) then
        if iter = 1 then
          .error ⟨.threw .NegativeCurvature, ControlVector.add st.dq cgalpha st.d, w⟩
        else .error ⟨.threw .NegativeCurvature, st.dq, w⟩
      else
        let dq := ControlVector.add st.dq cgalpha st.d
        let r := ControlVector.add st.r cgalpha Hd
        let r_transposed := ControlVector.add st.r_transposed cgalpha Hd_transposed
        let oldres := st.res
        let res := Residual r r_transposed
        if Dbl.lt res (Dbl.fin 0) then
          match P.ComputeReducedHessianVector w.s q dq with
          | (none, s) =>
            .error ⟨.threw .Critical, dq, (w.withState s).HandleCriticalException⟩
          | (some (Hd, Hd_transposed), s) =>
            let r := ControlVector.add gradient (Dbl.fin 1) Hd
            let r_transposed := ControlVector.add gradient_transposed (Dbl.fin 1) Hd_transposed
            cgFinish prm firstres iter dq r r_transposed st.d oldres
              (Residual r r_transposed) (w.withState s)
        else cgFinish prm firstres iter dq r r_transposed st.d oldres res w

/-- The state of the linear solver before its loop (lines 458-473). -/
def cgInit (gradient gradient_transposed : ControlVector (Dbl K) n) (w : World S) :
    CGState K n S :=
  ⟨0, ControlVector.const (Dbl.fin 0), gradient, gradient_transposed,
    ControlVector.equ (Dbl.fin (-1)) gradient_transposed,
    Residual gradient gradient_transposed, w⟩

/-- The function `ReducedNewtonAlgorithm::SolveReducedLinearSystem(q, gradient,
gradient_transposed, dq)`. -/
def SolveReducedLinearSystem (P : ReducedProblem K n S) (prm : Params K)
    (q gradient gradient_transposed : ControlVector (Dbl K) n) (w : World S) :
    CGResult K n S :=
  let st := cgInit gradient gradient_transposed w
  let firstres := st.res
  if Dbl.ge firstres (Dbl.fin 0) then
    match whileLoop (cgGuard prm firstres)
        (cgBody P prm q gradient gradient_transposed firstres)
        (prm.linear_maxiter_ + 1) st with
    | .done st' => ⟨.returned st'.iter, st'.dq, st'.w⟩
    | .raised r => r
    | .outOfFuel => ⟨.threw .OutOfFuel, st.dq, st.w⟩
  else ⟨.threw .AssertFailed, st.dq, st.w⟩

/-- The condition of the `while` loop of `Solve` (line 327), with `global_tol`
already replaced by the maximum of line 326. -/
def solveGuard (prm : Params K) (global_tol firstres : Dbl K) (miniter : Nat)
    (st : SolveState K n S) : Bool :=
  (Dbl.ge st.res (mul global_tol global_tol) &&
      Dbl.ge st.res
        (mul (mul (Dbl.fin prm.nonlinear_tol_) (Dbl.fin prm.nonlinear_tol_)) firstres)) ||
    decide (st.iter < miniter)

/-- The computation of a search direction (lines 338-365): the call of the linear
solver and the handlers of its exceptions. -/
def solveDirection (P : ReducedProblem K n S) (prm : Params K) (st : SolveState K n S) :
    Except (SolveResult K n S) (SolveState K n S) :=
  let cg := SolveReducedLinearSystem P prm st.q st.gradient st.gradient_transposed st.w
  match cg.status with
  | .returned k => .ok { st with dq := cg.dq, liniter := k, w := cg.w }
  | .threw .Iteration =>
    let w := cg.w.HandleException .Iteration
    let dq :=
      if Dbl.lt (mul (Dbl.fin 10000) (ControlVector.NormInfty st.gradient_transposed))
          (ControlVector.NormInfty cg.dq)
      then ControlVector.scale st.gradient_transposed (Dbl.fin (-1))
      else cg.dq
    .ok { st with dq := dq, liniter := -1, w := w }
  | .threw .NegativeCurvature =>
    .ok { st with dq := cg.dq, liniter := -2, w := cg.w.HandleException .NegativeCurvature }
  | .threw .Generic =>
    .error ⟨.threw .Critical, { st with dq := cg.dq, w := cg.w.HandleCriticalException }⟩
  | .threw e => .error ⟨.threw e, { st with dq := cg.dq, w := cg.w }⟩

/-- The check that `dq` is a descent direction (lines 370-376). -/
def solveDescent (gradient gradient_transposed dq : ControlVector (Dbl K) n) :
    ControlVector (Dbl K) n :=
  let reduction := ControlVector.dot gradient dq
  if Dbl.lt (Dbl.fin 0) reduction then ControlVector.scale gradient_transposed (Dbl.fin (-1))
  else dq

/-- The line search step of `Solve` (lines 367-385). -/
def solveLineSearch (P : ReducedProblem K n S) (prm : Params K) (st : SolveState K n S) :
    Except (SolveResult K n S) (SolveState K n S) :=
  let dq := solveDescent st.gradient st.gradient_transposed st.dq
  let ls := ReducedNewtonLineSearch P prm dq st.gradient st.cost st.q st.w
  match ls.status with
  | .returned k => .ok { st with dq := dq, cost := ls.cost, q := ls.q, lineiter := k, w := ls.w }
  | .threw .Iteration =>
    .ok { st with dq := dq, cost := ls.cost, q := ls.q, lineiter := -1,
                  w := ls.w.HandleException .Iteration }
  | .threw e => .error ⟨.threw e, { st with dq := dq, cost := ls.cost, q := ls.q, w := ls.w }⟩

/-- The optional evaluation of the functionals (lines 290-300 and 394-404). -/
def solveFunctionals (P : ReducedProblem K n S) (prm : Params K) (st : SolveState K n S) :
    Except (SolveResult K n S) (SolveState K n S) :=
  if prm.compute_functionals_in_every_step_ = true then
    match P.ComputeReducedFunctionals st.w.s st.q with
    | (some _, s) => .ok { st with w := st.w.withState s }
    | (none, s) =>
      .error ⟨.threw .Critical, { st with w := (st.w.withState s).HandleCriticalException }⟩
  else .ok st

/-- The evaluation of the gradient and of the residual (lines 302-311 and
408-420). -/
def solveGradient (P : ReducedProblem K n S) (st : SolveState K n S) :
    Except (SolveResult K n S) (SolveState K n S) :=
  match P.ComputeReducedGradient st.w.s st.q with
  | (some (gradient, gradient_transposed), s) =>
    .ok { st with gradient := gradient, gradient_transposed := gradient_transposed,
                  res := Residual gradient gradient_transposed, w := st.w.withState s }
  | (none, s) =>
    .error ⟨.threw .Critical, { st with w := (st.w.withState s).HandleCriticalException }⟩

/-- The body of the `while` loop of `Solve` (lines 329-423). -/
def solveBody (P : ReducedProblem K n S) (prm : Params K) (st : SolveState K n S) :
    Except (SolveResult K n S) (SolveState K n S) :=
  let st := { st with iter := st.iter + 1 }
  if st.iter > prm.nonlinear_maxiter_ then .error ⟨.threw .Iteration, st⟩
  else
    match solveDirection P prm st with
    | .error r => .error r
    | .ok st =>
      match solveLineSearch P prm st with
      | .error r => .error r
      | .ok st =>
        match solveFunctionals P prm st with
        | .error r => .error r
        | .ok st => solveGradient P st

/-- The first evaluations of `Solve` (lines 255-311): the cost, the functionals
and the gradient at the start point. -/
def solveInit (P : ReducedProblem K n S) (prm : Params K) (q : ControlVector (Dbl K) n)
    (w : World S) : Except (SolveResult K n S) (SolveState K n S) :=
  let q := ControlVector.ReInit q
  let st : SolveState K n S := ⟨0, q, Dbl.fin 0, q, q, q, Dbl.fin 0, 0, 0, w⟩
  match P.ComputeReducedCostFunctional w.s q with
  | (none, s) =>
    .error ⟨.threw .Critical, { st with w := (w.withState s).HandleCriticalException }⟩
  | (some cost, s) =>
    match solveFunctionals P prm { st with cost := cost, w := w.withState s } with
    | .error r => .error r
    | .ok st => solveGradient P st

/-- The function `ReducedNewtonAlgorithm::Solve(q, global_tol)`. -/
def Solve (P : ReducedProblem K n S) (prm : Params K) (q : ControlVector (Dbl K) n)
    (global_tol : K) (w : World S) : SolveResult K n S :=
  match solveInit P prm q w with
  | .error r => r
  | .ok st =>
    let firstres := st.res
    if Dbl.ge st.res (Dbl.fin 0) then
      let miniter : Nat := if global_tol > 0 then 1 else 0
      let global_tol := max (Dbl.fin prm.nonlinear_global_tol_) (Dbl.fin global_tol)
      match whileLoop (solveGuard prm global_tol firstres miniter) (solveBody P prm)
          (prm.nonlinear_maxiter_ + 1) st with
      | .done st' =>
        match P.ComputeReducedFunctionals st'.w.s st'.q with
        | (some _, s) => ⟨.returned st'.iter, { st' with w := st'.w.withState s }⟩
        | (none, s) =>
          ⟨.threw .Critical, { st' with w := (st'.w.withState s).HandleCriticalException }⟩
      | .raised r => r
      | .outOfFuel => ⟨.threw .OutOfFuel, st⟩
    else ⟨.threw .AssertFailed, st⟩

/-- The reduced problem with cost `a * (q*q)`, gradient `2*a*q` (equal to its
transposed) and Hessian `2*a` times the identity, computed with doubles; it has no
hidden state and never throws. -/
def quadProblem (a : K) : ReducedProblem K n Unit where
  ComputeReducedCostFunctional := fun s q => (some (mul (Dbl.fin a) (ControlVector.dot q q)), s)
  ComputeReducedGradient := fun s q =>
    (some (ControlVector.equ (mul (Dbl.fin 2) (Dbl.fin a)) q,
      ControlVector.equ (mul (Dbl.fin 2) (Dbl.fin a)) q), s)
  ComputeReducedHessianVector := fun s _ d =>
    (some (ControlVector.equ (mul (Dbl.fin 2) (Dbl.fin a)) d,
      ControlVector.equ (mul (Dbl.fin 2) (Dbl.fin a)) d), s)
  ComputeReducedFunctionals := fun s _ => (some (), s)

end Algorithm

end Fp

/-! ## Facts about control vectors -/

namespace ControlVector

variable {K : Type} [LinearOrderedField K] {n : Nat}

theorem add_eq (u : ControlVector K n) (s : K) (v : ControlVector K n) :
    add u s v = u + s • v := rfl

theorem equ_eq (s : K) (v : ControlVector K n) : equ s v = s • v := rfl

theorem scale_eq (u : ControlVector K n) (a : K) : scale u a = a • u :=
  funext fun i => mul_comm (u i) a

theorem plus_eq (u v : ControlVector K n) : plus u v = u + v := rfl

theorem const_zero : (const 0 : ControlVector K n) = 0 := rfl

theorem dot_eq (u v : ControlVector K n) : dot u v = Matrix.dotProduct u v := rfl

theorem dot_self_nonneg (u : ControlVector K n) : 0 ≤ dot u u :=
  Finset.sum_nonneg fun i _ => mul_self_nonneg (u i)

end ControlVector

/-! ## Facts about loops -/

section Loops

variable {σ ε : Type} {guard : σ → Bool} {body : σ → Except ε σ}

theorem Runs.unique {k : Nat} {s s1 s2 : σ} (h1 : Runs guard body k s s1)
    (h2 : Runs guard body k s s2) : s1 = s2 := by
  induction k generalizing s with
  | zero => exact h1.symm.trans h2
  | succ k ih =>
    obtain ⟨_, a, ha, hra⟩ := h1
    obtain ⟨_, b, hb, hrb⟩ := h2
    rw [ha] at hb
    cases hb
    exact ih hra hrb

theorem Runs.snoc {k : Nat} {s sm s' : σ} (h : Runs guard body k s sm)
    (hg : guard sm = true) (hb : body sm = .ok s') : Runs guard body (k + 1) s s' := by
  induction k generalizing s with
  | zero =>
    cases h
    exact ⟨hg, s', hb, rfl⟩
  | succ k ih =>
    obtain ⟨hg1, s1, hb1, hr⟩ := h
    exact ⟨hg1, s1, hb1, ih hr⟩

theorem Runs.unsnoc {k : Nat} {s s' : σ} (h : Runs guard body (k + 1) s s') :
    ∃ sm, Runs guard body k s sm ∧ guard sm = true ∧ body sm = .ok s' := by
  induction k generalizing s with
  | zero =>
    obtain ⟨hg, s1, hb, hr⟩ := h
    cases hr
    exact ⟨s, rfl, hg, hb⟩
  | succ k ih =>
    obtain ⟨hg, s1, hb, hr⟩ := h
    obtain ⟨sm, hrm, hgm, hbm⟩ := ih hr
    exact ⟨sm, ⟨hg, s1, hb, hrm⟩, hgm, hbm⟩

/-- A property kept by every execution of the body holds after the loop ran. -/
theorem Runs.invariant (Inv : σ → Prop)
    (step : ∀ s s', Inv s → guard s = true → body s = .ok s' → Inv s')
    {k : Nat} {s s' : σ} (h : Runs guard body k s s') (h0 : Inv s) : Inv s' := by
  induction k generalizing s with
  | zero => cases h; exact h0
  | succ k ih =>
    obtain ⟨hg, s1, hb, hr⟩ := h
    exact ih hr (step s s1 h0 hg hb)

/-- A counter raised by one in each execution of the body counts them. -/
theorem Runs.counter (c : σ → Nat)
    (step : ∀ s s', guard s = true → body s = .ok s' → c s' = c s + 1)
    {k : Nat} {s s' : σ} (h : Runs guard body k s s') : c s' = c s + k := by
  induction k generalizing s with
  | zero => cases h; rfl
  | succ k ih =>
    obtain ⟨hg, s1, hb, hr⟩ := h
    rw [ih hr, step s s1 hg hb]
    omega

theorem whileLoop_done_iff {fuel : Nat} {s s' : σ} :
    whileLoop guard body fuel s = .done s' ↔
      ∃ k, k ≤ fuel ∧ Runs guard body k s s' ∧ guard s' = false := by
  induction fuel generalizing s with
  | zero =>
    constructor
    · intro h
      by_cases hg : guard s = true
      · simp [whileLoop, hg] at h
      · simp only [whileLoop, hg] at h
        cases h
        exact ⟨0, le_refl _, rfl, by simpa using hg⟩
    · rintro ⟨k, hk, hr, hg⟩
      obtain rfl : k = 0 := by omega
      cases hr
      simp [whileLoop, hg]
  | succ fuel ih =>
    constructor
    · intro h
      by_cases hg : guard s = true
      · cases hb : body s with
        | error e => simp [whileLoop, hg, hb] at h
        | ok s1 =>
          simp only [whileLoop, hg, hb, if_true] at h
          obtain ⟨k, hk, hr, hg'⟩ := ih.mp h
          exact ⟨k + 1, by omega, ⟨hg, s1, hb, hr⟩, hg'⟩
      · simp only [whileLoop, hg] at h
        cases h
        exact ⟨0, Nat.zero_le _, rfl, by simpa using hg⟩
    · rintro ⟨k, hk, hr, hg⟩
      cases k with
      | zero =>
        cases hr
        simp [whileLoop, hg]
      | succ k =>
        obtain ⟨hg1, s1, hb, hr1⟩ := hr
        simp only [whileLoop, hg1, hb, if_true]
        exact ih.mpr ⟨k, by omega, hr1, hg⟩

theorem whileLoop_raised_iff {fuel : Nat} {s : σ} {e : ε} :
    whileLoop guard body fuel s = .raised e ↔
      ∃ k sk, k < fuel ∧ Runs guard body k s sk ∧ guard sk = true ∧ body sk = .error e := by
  induction fuel generalizing s with
  | zero =>
    constructor
    · intro h
      by_cases hg : guard s = true <;> simp [whileLoop, hg] at h
    · rintro ⟨k, sk, hk, -⟩
      omega
  | succ fuel ih =>
    constructor
    · intro h
      by_cases hg : guard s = true
      · cases hb : body s with
        | error e1 =>
          simp only [whileLoop, hg, hb, if_true] at h
          cases h
          exact ⟨0, s, Nat.succ_pos _, rfl, hg, hb⟩
        | ok s1 =>
          simp only [whileLoop, hg, hb, if_true] at h
          obtain ⟨k, sk, hk, hr, hg', hb'⟩ := ih.mp h
          exact ⟨k + 1, sk, by omega, ⟨hg, s1, hb, hr⟩, hg', hb'⟩
      · simp [whileLoop, hg] at h
    · rintro ⟨k, sk, hk, hr, hg, hb⟩
      cases k with
      | zero =>
        cases hr
        simp [whileLoop, hg, hb]
      | succ k =>
        obtain ⟨hg1, s1, hb1, hr1⟩ := hr
        simp only [whileLoop, hg1, hb1, if_true]
        exact ih.mpr ⟨k, sk, by omega, hr1, hg, hb⟩

theorem whileLoop_outOfFuel_iff {fuel : Nat} {s : σ} :
    whileLoop guard body fuel s = .outOfFuel ↔
      ∃ s', Runs guard body fuel s s' ∧ guard s' = true := by
  induction fuel generalizing s with
  | zero =>
    constructor
    · intro h
      by_cases hg : guard s = true
      · exact ⟨s, rfl, hg⟩
      · simp [whileLoop, hg] at h
    · rintro ⟨s', hr, hg⟩
      cases hr
      simp [whileLoop, hg]
  | succ fuel ih =>
    constructor
    · intro h
      by_cases hg : guard s = true
      · cases hb : body s with
        | error e1 => simp [whileLoop, hg, hb] at h
        | ok s1 =>
          simp only [whileLoop, hg, hb, if_true] at h
          obtain ⟨s', hr, hg'⟩ := ih.mp h
          exact ⟨s', ⟨hg, s1, hb, hr⟩, hg'⟩
      · simp [whileLoop, hg] at h
    · rintro ⟨s', ⟨hg1, s1, hb1, hr1⟩, hg⟩
      simp only [whileLoop, hg1, hb1, if_true]
      exact ih.mpr ⟨s', hr1, hg⟩

theorem whileLoop_done_of_runs (fuel : Nat) {k : Nat} {s s' : σ} (hk : k ≤ fuel)
    (hr : Runs guard body k s s') (hg : guard s' = false) :
    whileLoop guard body fuel s = .done s' :=
  whileLoop_done_iff.mpr ⟨k, hk, hr, hg⟩

theorem whileLoop_raised_of_runs (fuel : Nat) {k : Nat} {s sk : σ} {e : ε} (hk : k < fuel)
    (hr : Runs guard body k s sk) (hg : guard sk = true) (hb : body sk = .error e) :
    whileLoop guard body fuel s = .raised e :=
  whileLoop_raised_iff.mpr ⟨k, sk, hk, hr, hg, hb⟩

end Loops

/-! ## Facts about the line search -/

section LineSearchFacts

variable {K : Type} [LinearOrderedField K] {n : Nat} {S : Type}

theorem lineEval_fields (P : ReducedProblem K n S) (iter : Nat) (alpha : K)
    (q : ControlVector K n) (costnew : Dbl K) (w : World S) :
    (lineEval P iter alpha q costnew w).iter = iter ∧
      (lineEval P iter alpha q costnew w).alpha = alpha ∧
      (lineEval P iter alpha q costnew w).q = q := by
  unfold lineEval
  split <;> exact ⟨rfl, rfl, rfl⟩

theorem lineBody_ok {P : ReducedProblem K n S} {prm : Params K} {dq : ControlVector K n}
    {cost : Dbl K} {st st' : LineState K n S} (h : lineBody P prm dq cost st = .ok st') :
    st'.iter = st.iter + 1 ∧ st.iter + 1 ≤ prm.line_maxiter_ ∧
      st'.alpha = st.alpha * prm.lineasearch_rho_ ∧
      st'.q = ControlVector.add st.q (st.alpha * (prm.lineasearch_rho_ - 1)) dq := by
  unfold lineBody at h
  dsimp only at h
  split at h
  · split at h <;> cases h
  · rename_i hle
    cases h
    have := lineEval_fields P (st.iter + 1) (st.alpha * prm.lineasearch_rho_)
      (ControlVector.add st.q (st.alpha * (prm.lineasearch_rho_ - 1)) dq) st.costnew st.w
    exact ⟨this.1, by omega, this.2.1, this.2.2⟩

theorem lineBody_error {P : ReducedProblem K n S} {prm : Params K} {dq : ControlVector K n}
    {cost : Dbl K} {st : LineState K n S} {r : LineResult K n S}
    (h : lineBody P prm dq cost st = .error r) :
    st.iter + 1 > prm.line_maxiter_ ∧ r.q = st.q ∧ r.w = st.w ∧
      ((st.force_linesearch = true ∧ r.status = .threw .Generic ∧ r.cost = cost) ∨
        (st.force_linesearch = false ∧ r.status = .threw .Iteration ∧
          r.cost = st.costnew)) := by
  unfold lineBody at h
  dsimp only at h
  split at h
  · rename_i hgt
    split at h
    · rename_i hf
      cases h
      exact ⟨hgt, rfl, rfl, Or.inl ⟨hf, rfl, rfl⟩⟩
    · rename_i hf
      cases h
      exact ⟨hgt, rfl, rfl, Or.inr ⟨by simpa using hf, rfl, rfl⟩⟩
  · cases h

/-- In the loop of the line search `iter` counts the executions of the body and
`alpha` is the corresponding power of `lineasearch_rho_`. -/
theorem line_runs {P : ReducedProblem K n S} {prm : Params K} {dq : ControlVector K n}
    {cost : Dbl K} {guard : LineState K n S → Bool} {k : Nat} {st0 st : LineState K n S}
    (h : Runs guard (lineBody P prm dq cost) k st0 st) :
    st.iter = st0.iter + k ∧ st.alpha = st0.alpha * prm.lineasearch_rho_ ^ k ∧
      (k = 0 ∨ st.iter ≤ prm.line_maxiter_) := by
  refine ⟨Runs.counter (fun s => s.iter) (fun s s' _ hb => (lineBody_ok hb).1) h, ?_, ?_⟩
  · induction k generalizing st0 with
    | zero => cases h; simp
    | succ k ih =>
      obtain ⟨_, s1, hb, hr⟩ := h
      rw [ih hr, (lineBody_ok hb).2.2.1, pow_succ]
      ring
  · cases k with
    | zero => exact Or.inl rfl
    | succ k =>
      obtain ⟨sm, _, _, hb⟩ := h.unsnoc
      have := lineBody_ok hb
      exact Or.inr (by omega)

theorem lineInit_fields (P : ReducedProblem K n S) (dq q : ControlVector K n) (w : World S) :
    (lineInit P dq q w).iter = 0 ∧ (lineInit P dq q w).alpha = 1 ∧
      (lineInit P dq q w).q = ControlVector.plus q dq :=
  lineEval_fields P 0 1 (ControlVector.plus q dq) (Dbl.fin 0) w

/-- The line search with `line_maxiter_ > 0` is the loop started in `lineInit`. -/
theorem lineSearch_eq_loop (P : ReducedProblem K n S) (prm : Params K)
    (dq gradient : ControlVector K n) (cost : Dbl K) (q : ControlVector K n) (w : World S)
    (hmax : 0 < prm.line_maxiter_) :
    ReducedNewtonLineSearch P prm dq gradient cost q w =
      match whileLoop (lineGuard prm cost (lineReduction prm dq gradient cost))
          (lineBody P prm dq cost) (prm.line_maxiter_ + 1) (lineInit P dq q w) with
      | .done st' => ⟨.returned st'.iter, st'.costnew, st'.q, st'.w⟩
      | .raised r => r
      | .outOfFuel => ⟨.threw .OutOfFuel, cost, (lineInit P dq q w).q, (lineInit P dq q w).w⟩ := by
  unfold ReducedNewtonLineSearch
  dsimp only
  rw [if_pos hmax]
  by_cases hg : lineGuard prm cost (lineReduction prm dq gradient cost) (lineInit P dq q w) = true
  · rw [if_pos hg]
  · rw [if_neg hg]
    have hg' : lineGuard prm cost (lineReduction prm dq gradient cost) (lineInit P dq q w) =
        false := by simpa using hg
    rw [whileLoop_done_of_runs (prm.line_maxiter_ + 1) (Nat.zero_le _)
      (show Runs _ _ 0 (lineInit P dq q w) (lineInit P dq q w) from rfl) hg']

/-- How a normal return of the line search comes about. -/
theorem lineSearch_returned {P : ReducedProblem K n S} {prm : Params K}
    {dq gradient : ControlVector K n} {cost : Dbl K} {q : ControlVector K n} {w : World S}
    {k : Nat} (hmax : 0 < prm.line_maxiter_)
    (h : (ReducedNewtonLineSearch P prm dq gradient cost q w).status = .returned k) :
    ∃ st : LineState K n S,
      Runs (lineGuard prm cost (lineReduction prm dq gradient cost)) (lineBody P prm dq cost) k
        (lineInit P dq q w) st ∧
      lineGuard prm cost (lineReduction prm dq gradient cost) st = false ∧
      st.iter = k ∧ st.alpha = prm.lineasearch_rho_ ^ k ∧
      ReducedNewtonLineSearch P prm dq gradient cost q w =
        ⟨.returned k, st.costnew, st.q, st.w⟩ := by
  rw [lineSearch_eq_loop P prm dq gradient cost q w hmax] at h ⊢
  split at h
  · rename_i st hloop
    obtain ⟨j, _, hruns, hg⟩ := whileLoop_done_iff.mp hloop
    have hr := line_runs hruns
    have hi := lineInit_fields P dq q w
    have hj : j = k := by
      cases h
      omega
    subst hj
    refine ⟨st, hruns, hg, by omega, ?_, ?_⟩
    · rw [hr.2.1, hi.2.1, one_mul]
    · have hjj : st.iter = j := by omega
      rw [hjj]
  · rename_i r hloop
    obtain ⟨j, sj, _, _, _, hb⟩ := whileLoop_raised_iff.mp hloop
    rcases (lineBody_error hb).2.2.2 with hc | hc <;> rw [hc.2.1] at h <;> cases h
  · cases h

/-- The line search on the cubic test problem, entered at `q = 0` (cost `10^11`,
gradient `-1`) with the Newton direction `dq = 1`: the first trial point is
accepted. -/
theorem lineSearch_cubicProblem :
    ReducedNewtonLineSearch cubicProblem (defaultParams ratSqrt) ![1] ![-1]
        (Dbl.fin (10 ^ 11)) ![0] World.start =
      ⟨.returned 0, Dbl.fin (10 ^ 11 - 1 / 20), ControlVector.plus ![0] ![1], World.start⟩ := by
  have hinit : lineInit cubicProblem (![1] : ControlVector ℚ 1) ![0] World.start =
      ⟨0, 1, ControlVector.plus ![0] ![1], Dbl.fin (10 ^ 11 - 1 / 20), false, World.start⟩ := by
    simp only [lineInit, lineEval, cubicProblem, ControlVector.plus, World.withState, World.start]
    norm_num
  have hred : lineReduction (defaultParams ratSqrt) (![1] : ControlVector ℚ 1) ![-1]
      (Dbl.fin (10 ^ 11)) = 0 := by
    simp only [lineReduction, ControlVector.dot, defaultParams, Dbl.lt, Dbl.mul]
    norm_num
  unfold ReducedNewtonLineSearch
  dsimp only
  rw [hinit, hred]
  simp only [lineGuard, defaultParams, Dbl.isinf, Dbl.isnan, Dbl.add, Dbl.ge]
  norm_num

/-- The fuel given to the loop of the line search is never used up. -/
theorem lineSearch_fuel (P : ReducedProblem K n S) (prm : Params K)
    (dq gradient : ControlVector K n) (cost : Dbl K) (q : ControlVector K n) (w : World S) :
    (ReducedNewtonLineSearch P prm dq gradient cost q w).status ≠ .threw .OutOfFuel := by
  by_cases hmax : 0 < prm.line_maxiter_
  · rw [lineSearch_eq_loop P prm dq gradient cost q w hmax]
    split
    · simp
    · rename_i r hloop
      obtain ⟨j, sj, _, _, _, hb⟩ := whileLoop_raised_iff.mp hloop
      rcases (lineBody_error hb).2.2.2 with hc | hc <;> rw [hc.2.1] <;> simp
    · rename_i hloop
      obtain ⟨s', hruns, _⟩ := whileLoop_outOfFuel_iff.mp hloop
      have hr := line_runs hruns
      have hi := lineInit_fields P dq q w
      omega
  · unfold ReducedNewtonLineSearch
    dsimp only
    rw [if_neg hmax]
    simp

end LineSearchFacts

/-! ## Facts about the linear solver -/

section LinearSystemFacts

variable {K : Type} [LinearOrderedField K] {n : Nat} {S : Type}

theorem cgFinish_ok {prm : Params K} {firstres : K} {iter : Nat}
    {dq r r_transposed d : ControlVector K n} {oldres res : K} {w : World S}
    {st' : CGState K n S}
    (h : cgFinish prm firstres iter dq r r_transposed d oldres res w = .ok st') :
    st'.iter = iter ∧ st'.dq = dq ∧ st'.r = r ∧ st'.r_transposed = r_transposed ∧
      st'.w = w ∧ 0 ≤ st'.res ∧ oldres ≠ 0 ∧
      st'.d = ControlVector.add (ControlVector.scale d (st'.res / oldres)) (-1) r_transposed ∧
      (0 ≤ res → st'.res = res) := by
  unfold cgFinish at h
  dsimp only at h
  split at h
  · rename_i hres
    split at h
    · cases h
    · rename_i hold
      cases h
      refine ⟨rfl, rfl, rfl, rfl, rfl, hres, hold, rfl, ?_⟩
      intro h0
      dsimp only
      unfold cgClamp
      rw [if_neg]
      exact fun hc => absurd hc.1 (not_lt.mpr h0)
  · cases h

theorem cgFinish_error {prm : Params K} {firstres : K} {iter : Nat}
    {dq r r_transposed d : ControlVector K n} {oldres res : K} {w : World S}
    {e : CGResult K n S}
    (h : cgFinish prm firstres iter dq r r_transposed d oldres res w = .error e) :
    (e.status = .threw .DivByZero ∨ e.status = .threw .AssertFailed) ∧ e.dq = dq := by
  unfold cgFinish at h
  dsimp only at h
  split at h
  · split at h
    · cases h
      exact ⟨Or.inl rfl, rfl⟩
    · cases h
  · cases h
    exact ⟨Or.inr rfl, rfl⟩

theorem cgBody_ok {P : ReducedProblem K n S} {prm : Params K}
    {q gradient gradient_transposed : ControlVector K n} {firstres : K}
    {st st' : CGState K n S}
    (h : cgBody P prm q gradient gradient_transposed firstres st = .ok st') :
    st'.iter = st.iter + 1 ∧ st.iter + 1 ≤ prm.linear_maxiter_ ∧ 0 ≤ st'.res := by
  unfold cgBody at h
  dsimp only at h
  split at h
  · cases h
  · rename_i hle
    split at h
    · cases h
    · split at h
      · cases h
      · split at h
        · split at h <;> cases h
        · split at h
          · split at h
            · cases h
            · have := cgFinish_ok h
              exact ⟨this.1, by omega, this.2.2.2.2.2.1⟩
          · have := cgFinish_ok h
            exact ⟨this.1, by omega, this.2.2.2.2.2.1⟩

theorem cgBody_exceeded (P : ReducedProblem K n S) (prm : Params K)
    (q gradient gradient_transposed : ControlVector K n) (firstres : K) (st : CGState K n S)
    (h : st.iter + 1 > prm.linear_maxiter_) :
    cgBody P prm q gradient gradient_transposed firstres st =
      .error ⟨.threw .Iteration, st.dq, st.w⟩ := by
  unfold cgBody
  dsimp only
  rw [if_pos h]

theorem cgBody_error {P : ReducedProblem K n S} {prm : Params K}
    {q gradient gradient_transposed : ControlVector K n} {firstres : K}
    {st : CGState K n S} {e : CGResult K n S}
    (h : cgBody P prm q gradient gradient_transposed firstres st = .error e) :
    (e.status = .threw .Iteration ↔ st.iter + 1 > prm.linear_maxiter_) ∧
      (∀ k, e.status ≠ .returned k) ∧
      (e.status = .threw .NegativeCurvature → st.iter + 1 ≠ 1 → e.dq = st.dq) := by
  unfold cgBody at h
  dsimp only at h
  split at h
  · rename_i hgt
    cases h
    exact ⟨⟨fun _ => hgt, fun _ => rfl⟩, fun k hc => (by cases hc), fun _ _ => rfl⟩
  · rename_i hle
    have hno : ∀ s : Status, s ≠ .threw .Iteration →
        (s = .threw .Iteration ↔ st.iter + 1 > prm.linear_maxiter_) :=
      fun s hs => ⟨fun hc => absurd hc hs, fun hc => absurd hc hle⟩
    split at h
    · cases h
      exact ⟨hno _ (by simp), fun k hc => (by cases hc), fun hc => (by cases hc)⟩
    · split at h
      · cases h
        exact ⟨hno _ (by simp), fun k hc => (by cases hc), fun hc => (by cases hc)⟩
      · split at h
        · split at h
          · rename_i h1
            cases h
            exact ⟨hno _ (by simp), fun k hc => (by cases hc), fun _ hc => absurd h1 hc⟩
          · cases h
            exact ⟨hno _ (by simp), fun k hc => (by cases hc), fun _ _ => rfl⟩
        · split at h
          · split at h
            · cases h
              exact ⟨hno _ (by simp), fun k hc => (by cases hc), fun hc => (by cases hc)⟩
            · have := (cgFinish_error h).1
              refine ⟨hno _ ?_, ?_, ?_⟩ <;>
                rcases this with hc | hc <;> rw [hc] <;> simp
          · have := (cgFinish_error h).1
            refine ⟨hno _ ?_, ?_, ?_⟩ <;>
              rcases this with hc | hc <;> rw [hc] <;> simp

/-- In the loop of the linear solver `iter` counts the executions of the body,
and there are at most `linear_maxiter_` of them. -/
theorem cg_runs {P : ReducedProblem K n S} {prm : Params K}
    {q gradient gradient_transposed : ControlVector K n} {firstres : K}
    {guard : CGState K n S → Bool} {k : Nat} {st0 st : CGState K n S}
    (h : Runs guard (cgBody P prm q gradient gradient_transposed firstres) k st0 st) :
    st.iter = st0.iter + k ∧ (k = 0 ∨ st.iter ≤ prm.linear_maxiter_) := by
  constructor
  · exact Runs.counter (fun s => s.iter) (fun s s' _ hb => (cgBody_ok hb).1) h
  · cases k with
    | zero => exact Or.inl rfl
    | succ k =>
      obtain ⟨sm, _, _, hb⟩ := h.unsnoc
      have := cgBody_ok hb
      exact Or.inr (by omega)

/-- The linear solver, once the assertion on the first residual holds, is its
loop started in `cgInit`. -/
theorem cg_eq_loop (P : ReducedProblem K n S) (prm : Params K)
    (q gradient gradient_transposed : ControlVector K n) (w : World S)
    (hres : 0 ≤ Residual gradient gradient_transposed) :
    SolveReducedLinearSystem P prm q gradient gradient_transposed w =
      match whileLoop (cgGuard prm (Residual gradient gradient_transposed))
          (cgBody P prm q gradient gradient_transposed (Residual gradient gradient_transposed))
          (prm.linear_maxiter_ + 1) (cgInit gradient gradient_transposed w) with
      | .done st' => ⟨.returned st'.iter, st'.dq, st'.w⟩
      | .raised r => r
      | .outOfFuel => ⟨.threw .OutOfFuel, ControlVector.const 0, w⟩ := by
  unfold SolveReducedLinearSystem
  dsimp only
  rw [if_pos (show (cgInit gradient gradient_transposed w).res ≥ 0 from hres)]
  rfl

theorem cg_assert_failed (P : ReducedProblem K n S) (prm : Params K)
    (q gradient gradient_transposed : ControlVector K n) (w : World S)
    (hres : ¬ 0 ≤ Residual gradient gradient_transposed) :
    SolveReducedLinearSystem P prm q gradient gradient_transposed w =
      ⟨.threw .AssertFailed, ControlVector.const 0, w⟩ := by
  unfold SolveReducedLinearSystem
  dsimp only
  rw [if_neg (show ¬ (cgInit gradient gradient_transposed w).res ≥ 0 from hres)]
  rfl

/-- A true guard of the linear solver bounds the residual from below by a square. -/
theorem cgGuard_true {prm : Params K} {firstres : K} {st : CGState K n S}
    (h : cgGuard prm firstres st = true) :
    cgThreshold prm firstres ≤ st.res ∧
      prm.linear_global_tol_ * prm.linear_global_tol_ ≤ st.res ∧ 0 ≤ st.res := by
  simp only [cgGuard, Bool.and_eq_true, decide_eq_true_eq] at h
  exact ⟨h.1, h.2, le_trans (mul_self_nonneg _) h.2⟩

theorem cgThreshold_le (prm : Params K) {firstres : K} (h : 0 ≤ firstres) :
    cgThreshold prm firstres ≤ firstres := by
  unfold cgThreshold
  have h1 : min (1 / 4) (prm.sqrt firstres) ≤ 1 :=
    le_trans (min_le_left _ _) (by norm_num)
  calc min (1 / 4) (prm.sqrt firstres) * firstres ≤ 1 * firstres :=
        mul_le_mul_of_nonneg_right h1 h
    _ = firstres := one_mul _

/-- How a normal return of the linear solver comes about. -/
theorem cg_returned {P : ReducedProblem K n S} {prm : Params K}
    {q gradient gradient_transposed : ControlVector K n} {w : World S} {k : Nat}
    (hs : (SolveReducedLinearSystem P prm q gradient gradient_transposed w).status =
      .returned k) :
    ∃ st : CGState K n S,
      Runs (cgGuard prm (Residual gradient gradient_transposed))
        (cgBody P prm q gradient gradient_transposed (Residual gradient gradient_transposed))
        k (cgInit gradient gradient_transposed w) st ∧
      cgGuard prm (Residual gradient gradient_transposed) st = false ∧
      SolveReducedLinearSystem P prm q gradient gradient_transposed w =
        ⟨.returned k, st.dq, st.w⟩ := by
  by_cases hres : 0 ≤ Residual gradient gradient_transposed
  · rw [cg_eq_loop P prm q gradient gradient_transposed w hres] at hs ⊢
    split at hs
    · rename_i st hloop
      obtain ⟨j, _, hruns, hg⟩ := whileLoop_done_iff.mp hloop
      have hc := (cg_runs hruns).1
      have h0 : (cgInit gradient gradient_transposed w).iter = 0 := rfl
      have hj : j = k := by
        cases hs
        omega
      subst hj
      refine ⟨st, hruns, hg, ?_⟩
      have : st.iter = j := by omega
      rw [this]
    · rename_i r hloop
      obtain ⟨j, sj, _, _, _, hb⟩ := whileLoop_raised_iff.mp hloop
      exact absurd hs ((cgBody_error hb).2.1 k)
    · cases hs
  · rw [cg_assert_failed P prm q gradient gradient_transposed w hres] at hs
    cases hs

/-- The fuel given to the loop of the linear solver is never used up. -/
theorem cg_fuel (P : ReducedProblem K n S) (prm : Params K)
    (q gradient gradient_transposed : ControlVector K n) (w : World S) :
    (SolveReducedLinearSystem P prm q gradient gradient_transposed w).status ≠
      .threw .OutOfFuel := by
  by_cases hres : 0 ≤ Residual gradient gradient_transposed
  · rw [cg_eq_loop P prm q gradient gradient_transposed w hres]
    split
    · simp
    · rename_i r hloop
      obtain ⟨j, sj, _, _, _, hb⟩ := whileLoop_raised_iff.mp hloop
      unfold cgBody at hb
      dsimp only at hb
      split at hb
      · cases hb; simp
      · split at hb
        · cases hb; simp
        · split at hb
          · cases hb; simp
          · split at hb
            · split at hb <;> (cases hb; simp)
            · split at hb
              · split at hb
                · cases hb; simp
                · rcases (cgFinish_error hb).1 with hc | hc <;> rw [hc] <;> simp
              · rcases (cgFinish_error hb).1 with hc | hc <;> rw [hc] <;> simp
    · rename_i hloop
      obtain ⟨s', hruns, _⟩ := whileLoop_outOfFuel_iff.mp hloop
      have hr := cg_runs hruns
      have h0 : (cgInit gradient gradient_transposed w).iter = 0 := rfl
      omega
  · rw [cg_assert_failed P prm q gradient gradient_transposed w hres]
    simp

end LinearSystemFacts

/-! ## The linear solver on a quadratic model -/

section QuadraticModel

variable {K : Type} [LinearOrderedField K] {n : Nat} {S : Type}

/-- The body of the loop of the linear solver when the Hessian-vector product is
`v ↦ A v` and the transposed residual is the residual. -/
theorem cgBody_quadratic {P : ReducedProblem K n S} {A : Matrix (Fin n) (Fin n) K}
    (hH : HessianIs P A) (prm : Params K) (q g : ControlVector K n) (firstres : K)
    (st : CGState K n S) (hrT : st.r_transposed = st.r) :
    cgBody P prm q g g firstres st =
      if st.iter + 1 > prm.linear_maxiter_ then .error ⟨.threw .Iteration, st.dq, st.w⟩
      else if ControlVector.dot (A.mulVec st.d) st.d = 0 then
        .error ⟨.threw .DivByZero, st.dq,
          st.w.withState (P.ComputeReducedHessianVector st.w.s q st.d).2⟩
      else if st.res / ControlVector.dot (A.mulVec st.d) st.d < 0 then
        .error ⟨.threw .NegativeCurvature,
          if st.iter + 1 = 1 then
            ControlVector.add st.dq (st.res / ControlVector.dot (A.mulVec st.d) st.d) st.d
          else st.dq,
          st.w.withState (P.ComputeReducedHessianVector st.w.s q st.d).2⟩
      else if st.res = 0 then
        .error ⟨.threw .DivByZero,
          ControlVector.add st.dq (st.res / ControlVector.dot (A.mulVec st.d) st.d) st.d,
          st.w.withState (P.ComputeReducedHessianVector st.w.s q st.d).2⟩
      else
        .ok ⟨st.iter + 1,
          ControlVector.add st.dq (st.res / ControlVector.dot (A.mulVec st.d) st.d) st.d,
          ControlVector.add st.r (st.res / ControlVector.dot (A.mulVec st.d) st.d)
            (A.mulVec st.d),
          ControlVector.add st.r (st.res / ControlVector.dot (A.mulVec st.d) st.d)
            (A.mulVec st.d),
          ControlVector.add (ControlVector.scale st.d
            (ControlVector.dot
              (ControlVector.add st.r (st.res / ControlVector.dot (A.mulVec st.d) st.d)
                (A.mulVec st.d))
              (ControlVector.add st.r (st.res / ControlVector.dot (A.mulVec st.d) st.d)
                (A.mulVec st.d)) / st.res)) (-1)
            (ControlVector.add st.r (st.res / ControlVector.dot (A.mulVec st.d) st.d)
              (A.mulVec st.d)),
          ControlVector.dot
            (ControlVector.add st.r (st.res / ControlVector.dot (A.mulVec st.d) st.d)
              (A.mulVec st.d))
            (ControlVector.add st.r (st.res / ControlVector.dot (A.mulVec st.d) st.d)
              (A.mulVec st.d)),
          st.w.withState (P.ComputeReducedHessianVector st.w.s q st.d).2⟩ := by
  have h := hH st.w.s q st.d
  rcases hP : P.ComputeReducedHessianVector st.w.s q st.d with ⟨o, s⟩
  rw [hP] at h
  dsimp only at h
  subst h
  unfold cgBody
  dsimp only
  rw [hP, hrT]
  dsimp only
  by_cases h1 : st.iter + 1 > prm.linear_maxiter_
  · rw [if_pos h1, if_pos h1]
  · rw [if_neg h1, if_neg h1]
    by_cases h2 : ControlVector.dot (A.mulVec st.d) st.d = 0
    · rw [if_pos h2, if_pos h2]
    · rw [if_neg h2, if_neg h2]
      by_cases h3 : st.res / ControlVector.dot (A.mulVec st.d) st.d < 0
      · rw [if_pos h3, if_pos h3]
        by_cases h4 : st.iter + 1 = 1
        · rw [if_pos h4, if_pos h4]
        · rw [if_neg h4, if_neg h4]
      · rw [if_neg h3, if_neg h3]
        have hnn : ¬ Residual
            (ControlVector.add st.r (st.res / ControlVector.dot (A.mulVec st.d) st.d)
              (A.mulVec st.d))
            (ControlVector.add st.r (st.res / ControlVector.dot (A.mulVec st.d) st.d)
              (A.mulVec st.d)) < 0 :=
          not_lt.mpr (ControlVector.dot_self_nonneg _)
        rw [if_neg hnn]
        unfold cgFinish
        dsimp only
        have hcl : cgClamp prm firstres (Residual
            (ControlVector.add st.r (st.res / ControlVector.dot (A.mulVec st.d) st.d)
              (A.mulVec st.d))
            (ControlVector.add st.r (st.res / ControlVector.dot (A.mulVec st.d) st.d)
              (A.mulVec st.d))) = ControlVector.dot
            (ControlVector.add st.r (st.res / ControlVector.dot (A.mulVec st.d) st.d)
              (A.mulVec st.d))
            (ControlVector.add st.r (st.res / ControlVector.dot (A.mulVec st.d) st.d)
              (A.mulVec st.d)) := by
          unfold cgClamp
          rw [if_neg (fun hc => hnn hc.1)]
          rfl
        rw [hcl, if_pos (ControlVector.dot_self_nonneg _)]

/-- The conjugate gradient recurrences for a symmetric positive definite matrix:
as long as the residuals do not vanish, every residual is orthogonal to the
earlier directions and residuals, and the directions are conjugate. -/
theorem cg_orthogonality (A : Matrix (Fin n) (Fin n) K) (hA : SymPosDef A)
    (r d : Nat → ControlVector K n) (α β : Nat → K) (m : Nat)
    (h0 : d 0 = -r 0)
    (hr : ∀ k, k < m → r (k + 1) = r k + α k • A.mulVec (d k))
    (hd : ∀ k, k < m → d (k + 1) = β k • d k - r (k + 1))
    (hα : ∀ k, k < m →
      α k = Matrix.dotProduct (r k) (r k) / Matrix.dotProduct (A.mulVec (d k)) (d k))
    (hβ : ∀ k, k < m →
      β k = Matrix.dotProduct (r (k + 1)) (r (k + 1)) / Matrix.dotProduct (r k) (r k))
    (hnz : ∀ k, k < m → r k ≠ 0) :
    (∀ i j, i < j → j ≤ m → Matrix.dotProduct (d i) (r j) = 0) ∧
    (∀ i j, i < j → j ≤ m → Matrix.dotProduct (r i) (r j) = 0) ∧
    (∀ i j, i < j → j ≤ m → Matrix.dotProduct (d i) (A.mulVec (d j)) = 0) ∧
    (∀ j, j ≤ m → Matrix.dotProduct (d j) (r j) = -Matrix.dotProduct (r j) (r j)) ∧
    (∀ j, j < m → 0 < Matrix.dotProduct (A.mulVec (d j)) (d j) ∧ 0 < α j) := by
  induction m with
  | zero =>
    refine ⟨fun i j hij hj => by omega, fun i j hij hj => by omega,
      fun i j hij hj => by omega, fun j hj => ?_, fun j hj => by omega⟩
    obtain rfl : j = 0 := by omega
    rw [h0, Matrix.neg_dotProduct]
  | succ m ih =>
    obtain ⟨iha, ihb, ihc, ihd, ihe⟩ := ih (fun k hk => hr k (by omega))
      (fun k hk => hd k (by omega)) (fun k hk => hα k (by omega))
      (fun k hk => hβ k (by omega)) (fun k hk => hnz k (by omega))
    have hsym : ∀ u v : ControlVector K n,
        Matrix.dotProduct (A.mulVec u) v = Matrix.dotProduct u (A.mulVec v) := hA.1
    -- positivity at every index up to `m`
    have hpos : ∀ j, j ≤ m → 0 < Matrix.dotProduct (r j) (r j) ∧
        0 < Matrix.dotProduct (A.mulVec (d j)) (d j) ∧ 0 < α j := by
      intro j hj
      have hrj : r j ≠ 0 := hnz j (by omega)
      have hres : 0 < Matrix.dotProduct (r j) (r j) :=
        lt_of_le_of_ne (ControlVector.dot_self_nonneg (r j))
          (fun hc => hrj (Matrix.dotProduct_self_eq_zero.mp hc.symm))
      have hdj : d j ≠ 0 := by
        intro hc
        have := ihd j hj
        rw [hc, Matrix.zero_dotProduct] at this
        linarith
      have hD : 0 < Matrix.dotProduct (A.mulVec (d j)) (d j) := hA.2 _ hdj
      refine ⟨hres, hD, ?_⟩
      rw [hα j (by omega)]
      exact div_pos hres hD
    have hαD : α m * Matrix.dotProduct (A.mulVec (d m)) (d m) = Matrix.dotProduct (r m) (r m) := by
      rw [hα m (by omega)]
      exact div_mul_cancel₀ _ (hpos m (le_refl _)).2.1.ne'
    -- (a) at `m + 1`
    have ha : ∀ i, i < m + 1 → Matrix.dotProduct (d i) (r (m + 1)) = 0 := by
      intro i hi
      rw [hr m (by omega), Matrix.dotProduct_add, Matrix.dotProduct_smul, smul_eq_mul]
      rcases Nat.lt_or_eq_of_le (Nat.lt_succ_iff.mp hi) with hlt | rfl
      · rw [iha i m hlt (le_refl _), ihc i m hlt (le_refl _)]
        simp
      · rw [ihd i (le_refl _), ← hsym, hαD]
        ring
    -- every residual up to `m` is a combination of two directions
    have hcomb : ∀ i, i ≤ m → ∀ v : ControlVector K n,
        (∀ l, l ≤ i → Matrix.dotProduct (d l) v = 0) → Matrix.dotProduct (r i) v = 0 := by
      intro i hi v hv
      cases i with
      | zero =>
        have : r 0 = -d 0 := by rw [h0, neg_neg]
        rw [this, Matrix.neg_dotProduct, hv 0 (le_refl _), neg_zero]
      | succ l =>
        have : r (l + 1) = β l • d l - d (l + 1) := by
          rw [hd l (by omega)]
          abel
        rw [this, Matrix.sub_dotProduct, Matrix.smul_dotProduct, hv l (by omega),
          hv (l + 1) (le_refl _)]
        simp
    -- (b) at `m + 1`
    have hb : ∀ i, i < m + 1 → Matrix.dotProduct (r i) (r (m + 1)) = 0 := by
      intro i hi
      exact hcomb i (by omega) _ (fun l hl => ha l (by omega))
    -- (c) at `m + 1`
    have hc : ∀ i, i < m + 1 → Matrix.dotProduct (d i) (A.mulVec (d (m + 1))) = 0 := by
      intro i hi
      have hαi := (hpos i (by omega)).2.2
      have hAd : α i * Matrix.dotProduct (A.mulVec (d i)) (r (m + 1)) =
          Matrix.dotProduct (r (i + 1)) (r (m + 1)) - Matrix.dotProduct (r i) (r (m + 1)) := by
        have : α i • A.mulVec (d i) = r (i + 1) - r i := by
          rw [hr i (by omega)]
          abel
        rw [← smul_eq_mul, ← Matrix.smul_dotProduct, this, Matrix.sub_dotProduct]
      rw [hb i hi, sub_zero] at hAd
      rw [hd m (by omega), Matrix.mulVec_sub, Matrix.mulVec_smul, Matrix.dotProduct_sub,
        Matrix.dotProduct_smul, smul_eq_mul, ← hsym (d i) (r (m + 1))]
      rcases Nat.lt_or_eq_of_le (Nat.lt_succ_iff.mp hi) with hlt | rfl
      · rw [hb (i + 1) (by omega)] at hAd
        have hz : Matrix.dotProduct (A.mulVec (d i)) (r (m + 1)) = 0 := by
          rcases mul_eq_zero.mp hAd with h | h
          · exact absurd h hαi.ne'
          · exact h
        rw [hz, ihc i m hlt (le_refl _)]
        simp
      · have hres := (hpos i (le_refl _)).1
        have hD := (hpos i (le_refl _)).2.1
        have h1 : Matrix.dotProduct (A.mulVec (d i)) (r (i + 1)) =
            Matrix.dotProduct (r (i + 1)) (r (i + 1)) / α i := by
          rw [eq_div_iff hαi.ne', mul_comm]
          exact hAd
        rw [h1, ← hsym, hβ i (by omega), hα i (by omega)]
        field_simp
    refine ⟨?_, ?_, ?_, ?_, ?_⟩
    · intro i j hij hj
      rcases Nat.lt_or_eq_of_le hj with hlt | rfl
      · exact iha i j hij (by omega)
      · exact ha i hij
    · intro i j hij hj
      rcases Nat.lt_or_eq_of_le hj with hlt | rfl
      · exact ihb i j hij (by omega)
      · exact hb i hij
    · intro i j hij hj
      rcases Nat.lt_or_eq_of_le hj with hlt | rfl
      · exact ihc i j hij (by omega)
      · exact hc i hij
    · intro j hj
      rcases Nat.lt_or_eq_of_le hj with hlt | rfl
      · exact ihd j (by omega)
      · rw [hd m (by omega), Matrix.sub_dotProduct, Matrix.smul_dotProduct, ha m (by omega)]
        simp
    · intro j hj
      exact (hpos j (by omega)).2

/-- A family of pairwise orthogonal non-zero vectors with `n` entries has at most
`n` members. -/
theorem orthogonal_card_le (m : Nat) (v : Fin m → ControlVector K n)
    (hnz : ∀ i, v i ≠ 0) (horth : ∀ i j, i ≠ j → Matrix.dotProduct (v i) (v j) = 0) :
    m ≤ n := by
  have hli : LinearIndependent K v := by
    rw [linearIndependent_iff']
    intro s c hsum i hi
    have key : ∀ t : Finset (Fin m), Matrix.dotProduct (∑ j ∈ t, c j • v j) (v i) =
        ∑ j ∈ t, c j * Matrix.dotProduct (v j) (v i) := by
      intro t
      induction t using Finset.induction_on with
      | empty => simp
      | insert hj ih =>
        rw [Finset.sum_insert hj, Finset.sum_insert hj, Matrix.add_dotProduct,
          Matrix.smul_dotProduct, ih, smul_eq_mul]
    have h1 : ∑ j ∈ s, c j * Matrix.dotProduct (v j) (v i) = 0 := by
      rw [← key, hsum, Matrix.zero_dotProduct]
    rw [Finset.sum_eq_single i (fun j _ hji => by rw [horth j i hji, mul_zero])
      (fun h => absurd hi h)] at h1
    rcases mul_eq_zero.mp h1 with h | h
    · exact h
    · exact absurd (Matrix.dotProduct_self_eq_zero.mp h) (hnz i)
  have := hli.fintype_card_le_finrank
  simpa using this

/-- The states of the loop of the linear solver on a quadratic model are the
iterates `cgSeq`. -/
theorem cg_state_seq {P : ReducedProblem K n S} {A : Matrix (Fin n) (Fin n) K}
    (hH : HessianIs P A) (prm : Params K) (q g : ControlVector K n) (w : World S)
    {k : Nat} {st : CGState K n S}
    (h : Runs (cgGuard prm (Residual g g)) (cgBody P prm q g g (Residual g g)) k
      (cgInit g g w) st) :
    st.iter = k ∧ st.dq = (cgSeq A g k).dq ∧ st.r = (cgSeq A g k).r ∧
      st.d = (cgSeq A g k).d ∧ st.r_transposed = st.r ∧
      st.res = ControlVector.dot st.r st.r := by
  induction k generalizing st with
  | zero =>
    cases h
    exact ⟨rfl, rfl, rfl, rfl, rfl, rfl⟩
  | succ k ih =>
    obtain ⟨sm, hruns, _, hb⟩ := h.unsnoc
    obtain ⟨hi, hdq, hr, hd, hrT, hres⟩ := ih hruns
    rw [cgBody_quadratic hH prm q g (Residual g g) sm hrT] at hb
    split_ifs at hb
    cases hb
    dsimp only
    refine ⟨by omega, ?_, ?_, ?_, rfl, rfl⟩
    · simp only [cgSeq, cgStep, ← hdq, ← hr, ← hd, ← hres]
    · simp only [cgSeq, cgStep, ← hr, ← hd, ← hres]
    · simp only [cgSeq, cgStep, ← hr, ← hd, ← hres]

/-- The guard held in every state of the loop that was left by an iteration. -/
theorem cg_guard_seq {P : ReducedProblem K n S} {A : Matrix (Fin n) (Fin n) K}
    (hH : HessianIs P A) (prm : Params K) (q g : ControlVector K n) (w : World S)
    {k : Nat} {st : CGState K n S}
    (h : Runs (cgGuard prm (Residual g g)) (cgBody P prm q g g (Residual g g)) k
      (cgInit g g w) st) :
    ∀ j, j < k → prm.linear_global_tol_ * prm.linear_global_tol_ ≤
      ControlVector.dot (cgSeq A g j).r (cgSeq A g j).r := by
  induction k generalizing st with
  | zero => intro j hj; omega
  | succ k ih =>
    obtain ⟨sm, hruns, hg, _⟩ := h.unsnoc
    intro j hj
    rcases Nat.lt_or_eq_of_le (Nat.lt_succ_iff.mp hj) with hlt | rfl
    · exact ih hruns j hlt
    · have hs := cg_state_seq hH prm q g w hruns
      have := (cgGuard_true hg).2.1
      rw [hs.2.2.2.2.2, hs.2.2.1] at this
      exact this

/-- The residual of the iterates is the gradient of the quadratic model at the
accumulated direction: `r = g + A dq`. -/
theorem cgSeq_residual (A : Matrix (Fin n) (Fin n) K) (g : ControlVector K n) (k : Nat) :
    (cgSeq A g k).r = g + A.mulVec (cgSeq A g k).dq := by
  induction k with
  | zero =>
    simp only [cgSeq, ControlVector.const_zero, Matrix.mulVec_zero, add_zero]
  | succ k ih =>
    simp only [cgSeq, cgStep, ControlVector.add_eq]
    rw [ih, Matrix.mulVec_add, Matrix.mulVec_smul]
    abel

/-- The orthogonality relations for the iterates `cgSeq`. -/
theorem cgSeq_orthogonality (A : Matrix (Fin n) (Fin n) K) (hA : SymPosDef A)
    (g : ControlVector K n) (m : Nat) (hnz : ∀ k, k < m → (cgSeq A g k).r ≠ 0) :
    (∀ i j, i < j → j ≤ m →
      Matrix.dotProduct (cgSeq A g i).r (cgSeq A g j).r = 0) ∧
    (∀ j, j < m →
      0 < ControlVector.dot (A.mulVec (cgSeq A g j).d) (cgSeq A g j).d ∧
      0 < ControlVector.dot (cgSeq A g j).r (cgSeq A g j).r /
        ControlVector.dot (A.mulVec (cgSeq A g j).d) (cgSeq A g j).d) := by
  have h := cg_orthogonality A hA (fun k => (cgSeq A g k).r) (fun k => (cgSeq A g k).d)
    (fun k => ControlVector.dot (cgSeq A g k).r (cgSeq A g k).r /
      ControlVector.dot (A.mulVec (cgSeq A g k).d) (cgSeq A g k).d)
    (fun k => ControlVector.dot (cgSeq A g (k + 1)).r (cgSeq A g (k + 1)).r /
      ControlVector.dot (cgSeq A g k).r (cgSeq A g k).r) m
    (by
      funext i
      simp [cgSeq, ControlVector.equ])
    (fun k _ => by simp only [cgSeq, cgStep, ControlVector.add_eq])
    (fun k _ => by
      simp only [cgSeq, cgStep, ControlVector.add_eq, ControlVector.scale_eq]
      rw [neg_one_smul, sub_eq_add_neg])
    (fun k _ => rfl) (fun k _ => rfl) hnz
  exact ⟨h.2.1, h.2.2.2.2⟩

/-- On a quadratic model with a symmetric positive definite matrix and a positive
tolerance, the guard of the linear solver fails at the latest after `n`
iterations. -/
theorem cg_guard_bound {P : ReducedProblem K n S} {A : Matrix (Fin n) (Fin n) K}
    (hH : HessianIs P A) (hA : SymPosDef A) (prm : Params K) (q g : ControlVector K n)
    (w : World S) (htol : 0 < prm.linear_global_tol_) {k : Nat} {st : CGState K n S}
    (h : Runs (cgGuard prm (Residual g g)) (cgBody P prm q g g (Residual g g)) k
      (cgInit g g w) st)
    (hg : cgGuard prm (Residual g g) st = true) : k < n := by
  by_contra hk
  have hpos : 0 < prm.linear_global_tol_ * prm.linear_global_tol_ := mul_pos htol htol
  have hs := cg_state_seq hH prm q g w h
  have hnz : ∀ j, j ≤ k → (cgSeq A g j).r ≠ 0 := by
    intro j hj hc
    have hge : prm.linear_global_tol_ * prm.linear_global_tol_ ≤
        ControlVector.dot (cgSeq A g j).r (cgSeq A g j).r := by
      rcases Nat.lt_or_eq_of_le hj with hlt | rfl
      · exact cg_guard_seq hH prm q g w h j hlt
      · have := (cgGuard_true hg).2.1
        rw [hs.2.2.2.2.2, hs.2.2.1] at this
        exact this
    rw [hc] at hge
    simp [ControlVector.dot] at hge
    linarith
  have horth := (cgSeq_orthogonality A hA g n (fun j hj => hnz j (by omega))).1
  have hcard := orthogonal_card_le (n + 1) (fun i : Fin (n + 1) => (cgSeq A g i.val).r)
    (fun i => hnz i.val (by have := i.isLt; omega))
    (fun i j hij => by
      have hne : i.val ≠ j.val := fun hc => hij (Fin.ext hc)
      rcases Nat.lt_or_gt_of_ne hne with hlt | hgt
      · exact horth i.val j.val hlt (by have := j.isLt; omega)
      · rw [Matrix.dotProduct_comm]
        exact horth j.val i.val hgt (by have := i.isLt; omega))
  omega

/-- On a quadratic model with a symmetric positive definite matrix and a positive
tolerance, an iteration of the linear solver that is allowed by `linear_maxiter_`
completes. -/
theorem cg_body_ok {P : ReducedProblem K n S} {A : Matrix (Fin n) (Fin n) K}
    (hH : HessianIs P A) (hA : SymPosDef A) (prm : Params K) (q g : ControlVector K n)
    (w : World S) (htol : 0 < prm.linear_global_tol_) {k : Nat} {st : CGState K n S}
    (h : Runs (cgGuard prm (Residual g g)) (cgBody P prm q g g (Residual g g)) k
      (cgInit g g w) st)
    (hg : cgGuard prm (Residual g g) st = true) (hk : k < prm.linear_maxiter_) :
    ∃ st', cgBody P prm q g g (Residual g g) st = .ok st' := by
  have hpos : 0 < prm.linear_global_tol_ * prm.linear_global_tol_ := mul_pos htol htol
  have hs := cg_state_seq hH prm q g w h
  have hres : 0 < st.res := lt_of_lt_of_le hpos (cgGuard_true hg).2.1
  have hnz : ∀ j, j < k + 1 → (cgSeq A g j).r ≠ 0 := by
    intro j hj hc
    have hge : prm.linear_global_tol_ * prm.linear_global_tol_ ≤
        ControlVector.dot (cgSeq A g j).r (cgSeq A g j).r := by
      rcases Nat.lt_or_eq_of_le (Nat.lt_succ_iff.mp hj) with hlt | rfl
      · exact cg_guard_seq hH prm q g w h j hlt
      · have := (cgGuard_true hg).2.1
        rw [hs.2.2.2.2.2, hs.2.2.1] at this
        exact this
    rw [hc] at hge
    simp [ControlVector.dot] at hge
    linarith
  obtain ⟨hD, hα⟩ := (cgSeq_orthogonality A hA g (k + 1) hnz).2 k (Nat.lt_succ_self k)
  rw [← hs.2.2.2.1] at hD hα
  rw [← hs.2.2.1, ← hs.2.2.2.2.2] at hα
  rw [cgBody_quadratic hH prm q g (Residual g g) st hs.2.2.2.2.1,
    if_neg (by rw [hs.1]; omega), if_neg hD.ne', if_neg (not_lt.mpr hα.le), if_neg hres.ne']
  exact ⟨_, rfl⟩

theorem ratSqrt_25 : ratSqrt 25 = 5 := by
  have h1 : Nat.sqrt 25 = 5 := Nat.sqrt_eq 5
  have h3 : (25 : ℚ).num = 25 := rfl
  have h4 : (25 : ℚ).den = 1 := rfl
  simp [ratSqrt, h1, h3, h4]

theorem hessianIs_quadraticModel (A : Matrix (Fin n) (Fin n) K) (b : ControlVector K n) :
    HessianIs (quadraticModel A b) A :=
  fun _ _ _ => rfl

theorem symPosDef_diag : SymPosDef (Matrix.diagonal ![1, 2] : Matrix (Fin 2) (Fin 2) ℚ) := by
  constructor
  · intro u v
    simp only [ControlVector.dot, Matrix.mulVec_diagonal, Fin.sum_univ_two]
    simp
    ring
  · intro v hv
    simp only [ControlVector.dot, Matrix.mulVec_diagonal, Fin.sum_univ_two]
    simp
    have h : v 0 ≠ 0 ∨ v 1 ≠ 0 := by
      by_contra hc
      push_neg at hc
      apply hv
      funext i
      fin_cases i
      · exact hc.1
      · exact hc.2
    rcases h with h | h
    · have := mul_self_pos.mpr h
      nlinarith [mul_self_nonneg (v 1)]
    · have := mul_self_pos.mpr h
      nlinarith [mul_self_nonneg (v 0)]

/-- The linear solver on the model with matrix `diag(1, 2)` and gradient `(3, 4)`:
it returns after one iteration, stopped by the relative test, with the residual
`3600/1681`. -/
theorem cg_diagModel :
    SolveReducedLinearSystem diagModel (defaultParams ratSqrt) ![0, 0] ![3, 4] ![3, 4]
      World.start = ⟨.returned 1, ![-75 / 41, -100 / 41], World.start⟩ := by
  have hH : HessianIs diagModel (Matrix.diagonal ![1, 2]) := hessianIs_quadraticModel _ _
  have hres : Residual (![3, 4] : ControlVector ℚ 2) ![3, 4] = 25 := by
    simp [Residual, ControlVector.dot, Fin.sum_univ_two]
    norm_num
  have hD : ControlVector.dot
      ((Matrix.diagonal ![1, 2] : Matrix (Fin 2) (Fin 2) ℚ).mulVec
        (cgInit (![3, 4] : ControlVector ℚ 2) ![3, 4] World.start).d)
      (cgInit (![3, 4] : ControlVector ℚ 2) ![3, 4] World.start).d = 41 := by
    simp [cgInit, ControlVector.dot, ControlVector.equ, Matrix.mulVec_diagonal,
      Fin.sum_univ_two]
    norm_num
  have hres0 : (cgInit (![3, 4] : ControlVector ℚ 2) ![3, 4] World.start).res = 25 := hres
  obtain ⟨st1, hb, hdq, hr1, hw1⟩ : ∃ st1 : CGState ℚ 2 Unit,
      cgBody diagModel (defaultParams ratSqrt) ![0, 0] ![3, 4] ![3, 4]
        (Residual ![3, 4] ![3, 4]) (cgInit ![3, 4] ![3, 4] World.start) = .ok st1 ∧
      st1.dq = ![-75 / 41, -100 / 41] ∧ st1.res = 3600 / 1681 ∧ st1.w = World.start := by
    rw [cgBody_quadratic hH (defaultParams ratSqrt) ![0, 0] ![3, 4] (Residual ![3, 4] ![3, 4])
      (cgInit ![3, 4] ![3, 4] World.start) rfl, hD, hres0,
      if_neg (by simp [cgInit, defaultParams]), if_neg (by norm_num),
      if_neg (by norm_num), if_neg (by norm_num)]
    refine ⟨_, rfl, ?_, ?_, rfl⟩
    · funext i
      fin_cases i <;>
        simp [cgInit, ControlVector.add, ControlVector.equ, ControlVector.const] <;> norm_num
    · simp [cgInit, ControlVector.dot, ControlVector.add, ControlVector.equ,
        Matrix.mulVec_diagonal, Fin.sum_univ_two]
      norm_num
  have hg0 : cgGuard (defaultParams ratSqrt) (Residual (![3, 4] : ControlVector ℚ 2) ![3, 4])
      (cgInit ![3, 4] ![3, 4] World.start) = true := by
    simp only [cgGuard, Bool.and_eq_true, decide_eq_true_eq]
    refine ⟨cgThreshold_le _ (by rw [hres]; norm_num), ?_⟩
    rw [hres0]
    norm_num [defaultParams]
  have hg1 : cgGuard (defaultParams ratSqrt) (Residual (![3, 4] : ControlVector ℚ 2) ![3, 4])
      st1 = false := by
    simp only [cgGuard, Bool.and_eq_false_iff, decide_eq_false_iff_not, not_le]
    left
    rw [hr1, hres, cgThreshold]
    simp only [defaultParams, ratSqrt_25]
    norm_num
  have hi1 : st1.iter = 1 := (cgBody_ok hb).1
  rw [cg_eq_loop diagModel (defaultParams ratSqrt) ![0, 0] ![3, 4] ![3, 4] World.start
      (by rw [hres]; norm_num),
    whileLoop_done_of_runs ((defaultParams ratSqrt).linear_maxiter_ + 1)
      (by omega : 1 ≤ _) ⟨hg0, st1, hb, rfl⟩ hg1]
  simp only [hi1, hdq, hw1]

/-- The first iteration of the linear solver on the model with the indefinite
matrix `diag(1, -1)` and the gradient `(2, 1)`. -/
theorem cgBody_saddleModel_first :
    cgBody saddleModel (defaultParams ratSqrt) ![0, 0] ![2, 1] ![2, 1]
        (Residual ![2, 1] ![2, 1]) (cgInit ![2, 1] ![2, 1] World.start) =
      .ok ⟨1, ![-10 / 3, -5 / 3], ![-4 / 3, 8 / 3], ![-4 / 3, 8 / 3], ![-20 / 9, -40 / 9],
        80 / 9, World.start⟩ := by
  have hH : HessianIs saddleModel (Matrix.diagonal ![1, -1]) := hessianIs_quadraticModel _ _
  have hD : ControlVector.dot
      ((Matrix.diagonal ![1, -1] : Matrix (Fin 2) (Fin 2) ℚ).mulVec
        (cgInit (![2, 1] : ControlVector ℚ 2) ![2, 1] World.start).d)
      (cgInit (![2, 1] : ControlVector ℚ 2) ![2, 1] World.start).d = 3 := by
    simp [cgInit, ControlVector.dot, ControlVector.equ, Matrix.mulVec_diagonal,
      Fin.sum_univ_two]
    norm_num
  have hres0 : (cgInit (![2, 1] : ControlVector ℚ 2) ![2, 1] World.start).res = 5 := by
    simp [cgInit, Residual, ControlVector.dot, Fin.sum_univ_two]
    norm_num
  rw [cgBody_quadratic hH (defaultParams ratSqrt) ![0, 0] ![2, 1] (Residual ![2, 1] ![2, 1])
    (cgInit ![2, 1] ![2, 1] World.start) rfl, hD, hres0,
    if_neg (by simp [cgInit, defaultParams]), if_neg (by norm_num),
    if_neg (by norm_num), if_neg (by norm_num)]
  have hr : ControlVector.add (cgInit (![2, 1] : ControlVector ℚ 2) ![2, 1] World.start).r
      (5 / 3) ((Matrix.diagonal ![1, -1] : Matrix (Fin 2) (Fin 2) ℚ).mulVec
        (cgInit (![2, 1] : ControlVector ℚ 2) ![2, 1] World.start).d) = ![-4 / 3, 8 / 3] := by
    funext i
    fin_cases i <;>
      simp [cgInit, ControlVector.add, ControlVector.equ, Matrix.mulVec_diagonal] <;> norm_num
  have hrr : ControlVector.dot (![-4 / 3, 8 / 3] : ControlVector ℚ 2) ![-4 / 3, 8 / 3] =
      80 / 9 := by
    simp [ControlVector.dot, Fin.sum_univ_two]
    norm_num
  rw [hr, hrr]
  have hdq : ControlVector.add (cgInit (![2, 1] : ControlVector ℚ 2) ![2, 1] World.start).dq
      (5 / 3) (cgInit (![2, 1] : ControlVector ℚ 2) ![2, 1] World.start).d =
      ![-10 / 3, -5 / 3] := by
    funext i
    fin_cases i <;>
      simp [cgInit, ControlVector.add, ControlVector.equ, ControlVector.const] <;> norm_num
  have hd : ControlVector.add (ControlVector.scale
      (cgInit (![2, 1] : ControlVector ℚ 2) ![2, 1] World.start).d (80 / 9 / 5)) (-1)
      ![-4 / 3, 8 / 3] = ![-20 / 9, -40 / 9] := by
    funext i
    fin_cases i <;>
      simp [cgInit, ControlVector.add, ControlVector.equ, ControlVector.scale] <;> norm_num
  rw [hdq, hd]
  rfl

end QuadraticModel

/-! ## Facts about `Solve` -/

section NewtonFacts

variable {K : Type} [LinearOrderedField K] {n : Nat} {S : Type}

theorem solveGradient_ok {P : ReducedProblem K n S} {st st' : SolveState K n S}
    (h : solveGradient P st = .ok st') :
    st'.iter = st.iter ∧ st'.q = st.q ∧ st'.cost = st.cost ∧ st'.dq = st.dq ∧
      st'.res = Residual st'.gradient st'.gradient_transposed ∧
      P.ComputeReducedGradient st.w.s st.q =
        (some (st'.gradient, st'.gradient_transposed), st'.w.s) := by
  unfold solveGradient at h
  split at h
  · cases h
    rename_i heq
    simp [heq, World.withState]
  · cases h

theorem solveGradient_error {P : ReducedProblem K n S} {st : SolveState K n S}
    {r : SolveResult K n S} (h : solveGradient P st = .error r) :
    r.status = .threw .Critical := by
  unfold solveGradient at h
  split at h
  · cases h
  · cases h; rfl

theorem solveFunctionals_ok {P : ReducedProblem K n S} {prm : Params K}
    {st st' : SolveState K n S} (h : solveFunctionals P prm st = .ok st') :
    st'.iter = st.iter ∧ st'.q = st.q ∧ st'.cost = st.cost ∧ st'.dq = st.dq ∧
      st'.gradient = st.gradient ∧ st'.gradient_transposed = st.gradient_transposed ∧
      st'.res = st.res := by
  unfold solveFunctionals at h
  split at h
  · split at h
    · cases h; simp
    · cases h
  · cases h; simp

theorem solveFunctionals_error {P : ReducedProblem K n S} {prm : Params K}
    {st : SolveState K n S} {r : SolveResult K n S}
    (h : solveFunctionals P prm st = .error r) : r.status = .threw .Critical := by
  unfold solveFunctionals at h
  split at h
  · split at h
    · cases h
    · cases h; rfl
  · cases h

theorem solveDirection_ok {P : ReducedProblem K n S} {prm : Params K}
    {st st' : SolveState K n S} (h : solveDirection P prm st = .ok st') :
    st'.iter = st.iter ∧ st'.q = st.q ∧ st'.cost = st.cost ∧
      st'.gradient = st.gradient ∧ st'.gradient_transposed = st.gradient_transposed ∧
      st'.res = st.res := by
  unfold solveDirection at h
  dsimp only at h
  split at h <;> first | (cases h; simp) | cases h

theorem solveDirection_error {P : ReducedProblem K n S} {prm : Params K}
    {st : SolveState K n S} {r : SolveResult K n S}
    (h : solveDirection P prm st = .error r) :
    r.status ≠ .threw .Iteration ∧ (∀ k, r.status ≠ .returned k) ∧ r.st.q = st.q := by
  unfold solveDirection at h
  dsimp only at h
  split at h
  · cases h
  · cases h
  · cases h
  · cases h; simp
  · cases h
    refine ⟨?_, ?_, rfl⟩
    · intro hc
      cases hc
      simp_all
    · intro k hc
      cases hc

theorem solveLineSearch_ok {P : ReducedProblem K n S} {prm : Params K}
    {st st' : SolveState K n S} (h : solveLineSearch P prm st = .ok st') :
    st'.iter = st.iter ∧
      st'.gradient = st.gradient ∧ st'.gradient_transposed = st.gradient_transposed ∧
      st'.res = st.res := by
  unfold solveLineSearch at h
  dsimp only at h
  split at h <;> first | (cases h; simp) | cases h

theorem solveLineSearch_error {P : ReducedProblem K n S} {prm : Params K}
    {st : SolveState K n S} {r : SolveResult K n S}
    (h : solveLineSearch P prm st = .error r) :
    r.status ≠ .threw .Iteration ∧ (∀ k, r.status ≠ .returned k) := by
  unfold solveLineSearch at h
  dsimp only at h
  split at h
  · cases h
  · cases h
  · cases h
    refine ⟨?_, ?_⟩
    · intro hc
      cases hc
      simp_all
    · intro k hc
      cases hc

/-- The line search step of `Solve` is one call of `ReducedNewtonLineSearch` with
the direction `D` that the descent check leaves, and with the gradient, the cost,
the control and the world of the state.  When the step completes, `q` and `cost`
are the ones written by this call, which returned (`lineiter` is its value) or
raised the iteration exception (handled, `lineiter = -1`); when the step leaves
`Solve`, the call raised another exception. -/
theorem solveLineSearch_call (P : ReducedProblem K n S) (prm : Params K)
    (st : SolveState K n S) (D : ControlVector K n)
    (hD : solveDescent st.gradient st.gradient_transposed st.dq = D) :
    (∀ st2 : SolveState K n S, solveLineSearch P prm st = .ok st2 →
      st2.dq = D ∧
      st2.q = (ReducedNewtonLineSearch P prm D st.gradient st.cost st.q st.w).q ∧
      st2.cost = (ReducedNewtonLineSearch P prm D st.gradient st.cost st.q st.w).cost ∧
      ((∃ k : Nat,
          (ReducedNewtonLineSearch P prm D st.gradient st.cost st.q st.w).status =
            .returned k ∧
          st2.lineiter = k ∧
          st2.w = (ReducedNewtonLineSearch P prm D st.gradient st.cost st.q st.w).w) ∨
        ((ReducedNewtonLineSearch P prm D st.gradient st.cost st.q st.w).status =
            .threw .Iteration ∧
          st2.lineiter = -1 ∧
          st2.w = (ReducedNewtonLineSearch P prm D st.gradient st.cost st.q
            st.w).w.HandleException .Iteration))) ∧
    (∀ r : SolveResult K n S, solveLineSearch P prm st = .error r →
      ∃ e : Exn,
        (ReducedNewtonLineSearch P prm D st.gradient st.cost st.q st.w).status = .threw e ∧
        e ≠ .Iteration ∧ r.status = .threw e ∧
        r.st.q = (ReducedNewtonLineSearch P prm D st.gradient st.cost st.q st.w).q ∧
        r.st.cost = (ReducedNewtonLineSearch P prm D st.gradient st.cost st.q st.w).cost) := by
  unfold solveLineSearch
  dsimp only
  rw [hD]
  generalize ReducedNewtonLineSearch P prm D st.gradient st.cost st.q st.w = ls
  obtain ⟨status, cost, q, w⟩ := ls
  cases status with
  | returned k =>
    refine ⟨fun st2 h => ?_, fun r h => ?_⟩
    · cases h
      exact ⟨rfl, rfl, rfl, Or.inl ⟨k, rfl, rfl, rfl⟩⟩
    · cases h
  | threw e =>
    cases e with
    | Iteration =>
      refine ⟨fun st2 h => ?_, fun r h => ?_⟩
      · cases h
        exact ⟨rfl, rfl, rfl, Or.inr ⟨rfl, rfl, rfl⟩⟩
      · cases h
    | NegativeCurvature =>
      refine ⟨fun st2 h => ?_, fun r h => ?_⟩
      · cases h
      · cases h
        exact ⟨_, rfl, by decide, rfl, rfl, rfl⟩
    | Generic =>
      refine ⟨fun st2 h => ?_, fun r h => ?_⟩
      · cases h
      · cases h
        exact ⟨_, rfl, by decide, rfl, rfl, rfl⟩
    | Critical =>
      refine ⟨fun st2 h => ?_, fun r h => ?_⟩
      · cases h
      · cases h
        exact ⟨_, rfl, by decide, rfl, rfl, rfl⟩
    | AssertFailed =>
      refine ⟨fun st2 h => ?_, fun r h => ?_⟩
      · cases h
      · cases h
        exact ⟨_, rfl, by decide, rfl, rfl, rfl⟩
    | DivByZero =>
      refine ⟨fun st2 h => ?_, fun r h => ?_⟩
      · cases h
      · cases h
        exact ⟨_, rfl, by decide, rfl, rfl, rfl⟩
    | OutOfFuel =>
      refine ⟨fun st2 h => ?_, fun r h => ?_⟩
      · cases h
      · cases h
        exact ⟨_, rfl, by decide, rfl, rfl, rfl⟩

/-- The same, for the result `ls` of that call. -/
theorem solveLineSearch_run (P : ReducedProblem K n S) (prm : Params K)
    (st : SolveState K n S) (D : ControlVector K n)
    (hD : solveDescent st.gradient st.gradient_transposed st.dq = D) :
    (∀ ls : LineResult K n S,
      ls = ReducedNewtonLineSearch P prm D st.gradient st.cost st.q st.w →
      (∀ st2 : SolveState K n S, solveLineSearch P prm st = .ok st2 →
        st2.dq = D ∧ st2.q = ls.q ∧ st2.cost = ls.cost ∧
        ((∃ k : Nat, ls.status = .returned k ∧ st2.lineiter = k ∧ st2.w = ls.w) ∨
          (ls.status = .threw .Iteration ∧ st2.lineiter = -1 ∧
            st2.w = ls.w.HandleException .Iteration))) ∧
      (∀ r : SolveResult K n S, solveLineSearch P prm st = .error r →
        ∃ e : Exn, ls.status = .threw e ∧ e ≠ .Iteration ∧ r.status = .threw e ∧
          r.st.q = ls.q ∧ r.st.cost = ls.cost)) := by
  intro ls hls
  subst hls
  exact solveLineSearch_call P prm st D hD

theorem solveBody_ok {P : ReducedProblem K n S} {prm : Params K}
    {st st' : SolveState K n S} (h : solveBody P prm st = .ok st') :
    st'.iter = st.iter + 1 ∧ st.iter + 1 ≤ prm.nonlinear_maxiter_ ∧
      st'.res = Residual st'.gradient st'.gradient_transposed ∧
      ∃ s s', P.ComputeReducedGradient s st'.q =
        (some (st'.gradient, st'.gradient_transposed), s') := by
  unfold solveBody at h
  dsimp only at h
  split at h
  · cases h
  · rename_i hle
    split at h
    · cases h
    · rename_i st1 h1
      split at h
      · cases h
      · rename_i st2 h2
        split at h
        · cases h
        · rename_i st3 h3
          have e1 := solveDirection_ok h1
          have e2 := solveLineSearch_ok h2
          have e3 := solveFunctionals_ok h3
          have e4 := solveGradient_ok h
          refine ⟨?_, by omega, e4.2.2.2.2.1, st3.w.s, st'.w.s, ?_⟩
          · rw [e4.1, e3.1, e2.1, e1.1]
          · rw [e4.2.1]
            exact e4.2.2.2.2.2

theorem solveBody_error {P : ReducedProblem K n S} {prm : Params K}
    {st : SolveState K n S} {r : SolveResult K n S} (h : solveBody P prm st = .error r) :
    (r.status = .threw .Iteration ↔ st.iter + 1 > prm.nonlinear_maxiter_) ∧
      (∀ k, r.status ≠ .returned k) := by
  unfold solveBody at h
  dsimp only at h
  split at h
  · rename_i hgt
    cases h
    exact ⟨⟨fun _ => hgt, fun _ => rfl⟩, fun k hc => by cases hc⟩
  · rename_i hle
    split at h
    · rename_i r1 h1
      cases h
      have e := solveDirection_error h1
      exact ⟨⟨fun hc => absurd hc e.1, fun hc => absurd hc hle⟩, e.2.1⟩
    · split at h
      · rename_i r2 h2
        cases h
        have e := solveLineSearch_error h2
        exact ⟨⟨fun hc => absurd hc e.1, fun hc => absurd hc hle⟩, e.2⟩
      · split at h
        · rename_i r3 h3
          cases h
          have e := solveFunctionals_error h3
          rw [e]
          exact ⟨⟨fun hc => (by cases hc), fun hc => absurd hc hle⟩, fun k hc => by cases hc⟩
        · have e := solveGradient_error h
          rw [e]
          exact ⟨⟨fun hc => (by cases hc), fun hc => absurd hc hle⟩, fun k hc => by cases hc⟩

theorem solveBody_exceeded (P : ReducedProblem K n S) (prm : Params K)
    (st : SolveState K n S) (h : st.iter + 1 > prm.nonlinear_maxiter_) :
    solveBody P prm st = .error ⟨.threw .Iteration, { st with iter := st.iter + 1 }⟩ := by
  unfold solveBody
  dsimp only
  rw [if_pos h]

theorem solveInit_ok {P : ReducedProblem K n S} {prm : Params K} {q : ControlVector K n}
    {w : World S} {st0 : SolveState K n S} (h : solveInit P prm q w = .ok st0) :
    st0.iter = 0 ∧ st0.q = q ∧
      st0.res = Residual st0.gradient st0.gradient_transposed ∧
      ∃ s s', P.ComputeReducedGradient s q =
        (some (st0.gradient, st0.gradient_transposed), s') := by
  unfold solveInit at h
  dsimp only at h
  split at h
  · cases h
  · split at h
    · cases h
    · rename_i st1 h1
      have e1 := solveFunctionals_ok h1
      have e2 := solveGradient_ok h
      refine ⟨?_, ?_, e2.2.2.2.2.1, st1.w.s, st0.w.s, ?_⟩
      · rw [e2.1, e1.1]
      · rw [e2.2.1, e1.2.1]
        rfl
      · have := e2.2.2.2.2.2
        rw [e1.2.1] at this
        exact this

theorem solveInit_error {P : ReducedProblem K n S} {prm : Params K} {q : ControlVector K n}
    {w : World S} {r : SolveResult K n S} (h : solveInit P prm q w = .error r) :
    r.status = .threw .Critical := by
  unfold solveInit at h
  dsimp only at h
  split at h
  · cases h; rfl
  · split at h
    · rename_i r1 h1
      cases h
      exact solveFunctionals_error h1
    · exact solveGradient_error h

/-- The iteration counter of `Solve` counts the executions of the loop body, and
no run of the loop has more than `nonlinear_maxiter_` of them. -/
theorem solve_runs_iter {P : ReducedProblem K n S} {prm : Params K}
    {guard : SolveState K n S → Bool} {k : Nat} {st0 st : SolveState K n S}
    (h : Runs guard (solveBody P prm) k st0 st) :
    st.iter = st0.iter + k ∧ (k = 0 ∨ st.iter ≤ prm.nonlinear_maxiter_) := by
  constructor
  · exact Runs.counter (fun s => s.iter) (fun s s' _ hb => (solveBody_ok hb).1) h
  · cases k with
    | zero => exact Or.inl rfl
    | succ k =>
      obtain ⟨sm, _, _, hb⟩ := h.unsnoc
      have := solveBody_ok hb
      exact Or.inr (by omega)

theorem solveDirection_error_fuel {P : ReducedProblem K n S} {prm : Params K}
    {st : SolveState K n S} {r : SolveResult K n S}
    (h : solveDirection P prm st = .error r) : r.status ≠ .threw .OutOfFuel := by
  have hcg := cg_fuel P prm st.q st.gradient st.gradient_transposed st.w
  unfold solveDirection at h
  dsimp only at h
  split at h
  · cases h
  · cases h
  · cases h
  · cases h; simp
  · cases h
    simp_all

theorem solveLineSearch_error_fuel {P : ReducedProblem K n S} {prm : Params K}
    {st : SolveState K n S} {r : SolveResult K n S}
    (h : solveLineSearch P prm st = .error r) : r.status ≠ .threw .OutOfFuel := by
  have hls := lineSearch_fuel P prm (solveDescent st.gradient st.gradient_transposed st.dq)
    st.gradient st.cost st.q st.w
  unfold solveLineSearch at h
  dsimp only at h
  split at h
  · cases h
  · cases h
  · cases h
    simp_all

theorem solveBody_error_fuel {P : ReducedProblem K n S} {prm : Params K}
    {st : SolveState K n S} {r : SolveResult K n S} (h : solveBody P prm st = .error r) :
    r.status ≠ .threw .OutOfFuel := by
  unfold solveBody at h
  dsimp only at h
  split at h
  · cases h; simp
  · split at h
    · rename_i r1 h1
      cases h
      exact solveDirection_error_fuel h1
    · split at h
      · rename_i r2 h2
        cases h
        exact solveLineSearch_error_fuel h2
      · split at h
        · rename_i r3 h3
          cases h
          rw [solveFunctionals_error h3]
          simp
        · rw [solveGradient_error h]
          simp

end NewtonFacts

/-! ## The quadratic test problem -/

section Quadratic

variable {K : Type} [LinearOrderedField K] {n : Nat}

/-- On the quadratic test problem the linear solver needs one iteration with step
length `1/(2*a)`. -/
theorem cg_quadProblem (a : K) (prm : Params K) (q g : ControlVector K n) (w : World Unit)
    (ha : 0 < a) (hmax : 1 ≤ prm.linear_maxiter_) (htol : 0 < prm.linear_global_tol_)
    (hR : prm.linear_global_tol_ * prm.linear_global_tol_ ≤ ControlVector.dot g g) :
    SolveReducedLinearSystem (quadProblem a) prm q g g w =
      ⟨.returned 1,
        ControlVector.add (ControlVector.const 0) (1 / (2 * a)) (ControlVector.equ (-1) g),
        w⟩ := by
  have hRpos : 0 < ControlVector.dot g g := lt_of_lt_of_le (mul_pos htol htol) hR
  have hden : ControlVector.dot (ControlVector.equ (2 * a) (ControlVector.equ (-1) g))
      (ControlVector.equ (-1) g) = 2 * a * ControlVector.dot g g := by
    simp only [ControlVector.equ_eq, ControlVector.dot_eq, Matrix.smul_dotProduct,
      Matrix.dotProduct_smul, smul_eq_mul]
    ring
  have hden0 : (2 * a * ControlVector.dot g g) ≠ 0 := by positivity
  have halpha : ControlVector.dot g g / (2 * a * ControlVector.dot g g) = 1 / (2 * a) := by
    field_simp
    ring
  have hr : ControlVector.add g (1 / (2 * a))
      (ControlVector.equ (2 * a) (ControlVector.equ (-1) g)) = 0 := by
    funext i
    simp only [ControlVector.add, ControlVector.equ, Pi.zero_apply]
    field_simp
    ring
  have hbody : cgBody (quadProblem a) prm q g g (Residual g g) (cgInit g g w) =
      .ok ⟨1, ControlVector.add (ControlVector.const 0) (1 / (2 * a)) (ControlVector.equ (-1) g),
        0, 0, ControlVector.add (ControlVector.scale (ControlVector.equ (-1) g)
          (0 / ControlVector.dot g g)) (-1) 0, 0, w⟩ := by
    have h1 : ¬ (0 + 1 > prm.linear_maxiter_) := by omega
    have h2 : ¬ (1 / (2 * a) < 0) := not_lt.mpr (by positivity)
    have hz : Residual (0 : ControlVector K n) 0 = 0 := by
      simp [Residual, ControlVector.dot]
    simp only [cgBody, cgInit, quadProblem, Residual, h1, if_false, hden, hden0, halpha, h2, hr,
      World.withState]
    rw [← Residual, hz]
    simp [cgFinish, cgClamp, hRpos.ne']
  have hg0 : cgGuard prm (Residual g g) (cgInit g g w) = true := by
    simp only [cgGuard, cgInit, Bool.and_eq_true, decide_eq_true_eq]
    exact ⟨cgThreshold_le prm hRpos.le, hR⟩
  have hg1 : cgGuard prm (Residual g g) (⟨1, ControlVector.add (ControlVector.const 0)
      (1 / (2 * a)) (ControlVector.equ (-1) g), 0, 0,
      ControlVector.add (ControlVector.scale (ControlVector.equ (-1) g)
        (0 / ControlVector.dot g g)) (-1) 0, 0, w⟩ : CGState K n Unit) = false := by
    simp only [cgGuard, Bool.and_eq_false_iff, decide_eq_false_iff_not, not_le]
    exact Or.inr (mul_pos htol htol)
  have hloop := whileLoop_done_of_runs (prm.linear_maxiter_ + 1) (by omega : 1 ≤ _)
    ⟨hg0, _, hbody, rfl⟩ hg1
  unfold SolveReducedLinearSystem
  dsimp only
  rw [if_pos (show (cgInit g g w).res ≥ 0 from hRpos.le)]
  rw [show (cgInit g g w).res = Residual g g from rfl, hloop]

/-- On the quadratic test problem the line search accepts the full Newton step
without backtracking. -/
theorem lineSearch_quadProblem (a : K) (prm : Params K) (q0 dq g : ControlVector K n)
    (w : World Unit) (ha : 0 < a) (hq : 0 < ControlVector.dot q0 q0)
    (hline : 0 < prm.line_maxiter_) (hc : prm.linesearch_c_ < 1 / 2)
    (hstep : ControlVector.plus q0 dq = 0)
    (hred : ControlVector.dot g dq = -(2 * a * ControlVector.dot q0 q0)) :
    ReducedNewtonLineSearch (quadProblem a) prm dq g
      (Dbl.fin (a * ControlVector.dot q0 q0)) q0 w = ⟨.returned 0, Dbl.fin 0, 0, w⟩ := by
  have hz : ControlVector.dot (0 : ControlVector K n) 0 = 0 := by simp [ControlVector.dot]
  have hinit : lineInit (quadProblem a) dq q0 w = ⟨0, 1, 0, Dbl.fin 0, false, w⟩ := by
    simp [lineInit, lineEval, quadProblem, hstep, hz, World.withState]
  have haq : 0 < a * ControlVector.dot q0 q0 := mul_pos ha hq
  have hredv : lineReduction prm dq g (Dbl.fin (a * ControlVector.dot q0 q0)) =
      -(2 * a * ControlVector.dot q0 q0) := by
    have h1 : ¬ (-(2 * a * ControlVector.dot q0 q0) > 0) := by
      simp only [gt_iff_lt, not_lt]; linarith
    have h2 : ¬ (|(-(2 * a * ControlVector.dot q0 q0))| <
        1 / 10 ^ 10 * (a * ControlVector.dot q0 q0)) := by
      rw [abs_neg, abs_of_pos (by linarith), not_lt]
      have : (1 : K) / 10 ^ 10 ≤ 2 := by norm_num
      nlinarith
    simp only [lineReduction, hred, h1, if_false, hline, if_true, Dbl.lt, Dbl.mul,
      decide_eq_true_eq, h2]
  have hguard : lineGuard prm (Dbl.fin (a * ControlVector.dot q0 q0))
      (-(2 * a * ControlVector.dot q0 q0))
      (⟨0, 1, 0, Dbl.fin 0, false, w⟩ : LineState K n Unit) = false := by
    simp only [lineGuard, Dbl.isinf, Dbl.isnan, Dbl.add, Dbl.ge, Bool.false_or, Bool.or_false,
      decide_eq_false_iff_not, not_le, mul_one]
    nlinarith
  unfold ReducedNewtonLineSearch
  dsimp only
  rw [hinit, hredv, if_pos hline, hguard]
  simp

/-- The run of `Solve` on the quadratic test problem: one Newton step to the
minimizer `0`. -/
theorem solve_quadProblem (a : K) (prm : Params K) (q0 : ControlVector K n) (global_tol : K)
    (w : World Unit) (ha : 0 < a)
    (hn : 1 ≤ prm.nonlinear_maxiter_) (hl : 1 ≤ prm.linear_maxiter_)
    (hline : 0 < prm.line_maxiter_)
    (hgt : 0 < prm.nonlinear_global_tol_) (hnt : prm.nonlinear_tol_ * prm.nonlinear_tol_ ≤ 1)
    (hlt : 0 < prm.linear_global_tol_) (hc : prm.linesearch_c_ < 1 / 2)
    (hR1 : max prm.nonlinear_global_tol_ global_tol * max prm.nonlinear_global_tol_ global_tol ≤
      ControlVector.dot (ControlVector.equ (2 * a) q0) (ControlVector.equ (2 * a) q0))
    (hR2 : prm.linear_global_tol_ * prm.linear_global_tol_ ≤
      ControlVector.dot (ControlVector.equ (2 * a) q0) (ControlVector.equ (2 * a) q0)) :
    Solve (quadProblem a) prm q0 global_tol w =
      ⟨.returned 1, ⟨1, 0, Dbl.fin 0,
        ControlVector.add (ControlVector.const 0) (1 / (2 * a))
          (ControlVector.equ (-1) (ControlVector.equ (2 * a) q0)),
        0, 0, 0, 1, 0, w⟩⟩ := by
  set g0 : ControlVector K n := ControlVector.equ (2 * a) q0 with hg0
  set dq : ControlVector K n :=
    ControlVector.add (ControlVector.const 0) (1 / (2 * a)) (ControlVector.equ (-1) g0) with hdq
  set tol : K := max prm.nonlinear_global_tol_ global_tol with htol
  have htolpos : 0 < tol := lt_of_lt_of_le hgt (le_max_left _ _)
  have hRpos : 0 < ControlVector.dot g0 g0 := lt_of_lt_of_le (mul_pos hlt hlt) hR2
  have hRq : ControlVector.dot g0 g0 = 4 * a * a * ControlVector.dot q0 q0 := by
    simp only [hg0, ControlVector.equ_eq, ControlVector.dot_eq, Matrix.smul_dotProduct,
      Matrix.dotProduct_smul, smul_eq_mul]
    ring
  have hq : 0 < ControlVector.dot q0 q0 := by
    rw [hRq] at hRpos
    have h4 : 0 < 4 * a * a := by positivity
    exact (mul_pos_iff_of_pos_left h4).mp hRpos
  have hstep : ControlVector.plus q0 dq = 0 := by
    funext i
    simp only [hdq, hg0, ControlVector.plus, ControlVector.add, ControlVector.equ,
      ControlVector.const, Pi.zero_apply]
    field_simp
    ring
  have hred : ControlVector.dot g0 dq = -(2 * a * ControlVector.dot q0 q0) := by
    have : dq = (-1 : K) • q0 := by
      funext i
      simp only [hdq, hg0, ControlVector.add, ControlVector.equ, ControlVector.const,
        Pi.smul_apply, smul_eq_mul]
      field_simp
      ring
    rw [this, hg0]
    simp only [ControlVector.equ_eq, ControlVector.dot_eq, Matrix.smul_dotProduct,
      Matrix.dotProduct_smul, smul_eq_mul]
    ring
  have hinit : solveInit (quadProblem a) prm q0 w =
      .ok ⟨0, q0, Dbl.fin (a * ControlVector.dot q0 q0), q0, g0, g0, Residual g0 g0, 0, 0, w⟩ := by
    cases hf : prm.compute_functionals_in_every_step_ <;>
      simp [solveInit, solveFunctionals, solveGradient, quadProblem, ControlVector.ReInit,
        World.withState, hf, hg0]
  have hgrad0 : ControlVector.equ (2 * a) (0 : ControlVector K n) = 0 := by
    funext i
    simp [ControlVector.equ]
  have hz : Residual (0 : ControlVector K n) 0 = 0 := by simp [Residual, ControlVector.dot]
  have hbody : solveBody (quadProblem a) prm
      ⟨0, q0, Dbl.fin (a * ControlVector.dot q0 q0), q0, g0, g0, Residual g0 g0, 0, 0, w⟩ =
      .ok ⟨1, 0, Dbl.fin 0, dq, 0, 0, 0, 1, 0, w⟩ := by
    have h1 : ¬ (0 + 1 > prm.nonlinear_maxiter_) := by omega
    have hdesc : solveDescent g0 g0 dq = dq := by
      unfold solveDescent
      dsimp only
      rw [hred, if_neg]
      simp only [gt_iff_lt, not_lt]
      nlinarith
    have hcg := cg_quadProblem a prm q0 g0 w ha hl hlt hR2
    have hls := lineSearch_quadProblem a prm q0 dq g0 w ha hq hline hc hstep hred
    unfold solveBody
    dsimp only
    rw [if_neg h1]
    simp only [solveDirection, hcg, solveLineSearch, hdesc, hls]
    cases hf : prm.compute_functionals_in_every_step_ <;>
      simp [solveFunctionals, solveGradient, quadProblem, World.withState, hf, hgrad0, hz]
  have hguard0 : solveGuard prm tol (Residual g0 g0) (if global_tol > 0 then 1 else 0)
      (⟨0, q0, Dbl.fin (a * ControlVector.dot q0 q0), q0, g0, g0, Residual g0 g0, 0, 0, w⟩ :
        SolveState K n Unit) = true := by
    simp only [solveGuard, Bool.or_eq_true, Bool.and_eq_true, decide_eq_true_eq]
    refine Or.inl ⟨hR1, ?_⟩
    calc prm.nonlinear_tol_ * prm.nonlinear_tol_ * Residual g0 g0
        ≤ 1 * Residual g0 g0 := mul_le_mul_of_nonneg_right hnt hRpos.le
      _ = Residual g0 g0 := one_mul _
  have hguard1 : solveGuard prm tol (Residual g0 g0) (if global_tol > 0 then 1 else 0)
      (⟨1, 0, Dbl.fin 0, dq, 0, 0, 0, 1, 0, w⟩ : SolveState K n Unit) = false := by
    have hlt1 : ¬ (1 < (if global_tol > 0 then 1 else 0 : Nat)) := by
      split <;> omega
    have hpos : 0 < tol * tol := mul_pos htolpos htolpos
    simp only [solveGuard, Bool.or_eq_false_iff, Bool.and_eq_false_iff,
      decide_eq_false_iff_not, not_le]
    exact ⟨Or.inl hpos, hlt1⟩
  have hloop := whileLoop_done_of_runs (prm.nonlinear_maxiter_ + 1) (by omega : 1 ≤ _)
    ⟨hguard0, _, hbody, rfl⟩ hguard1
  unfold Solve
  rw [hinit]
  dsimp only
  rw [if_pos (show Residual g0 g0 ≥ 0 from hRpos.le), hloop]
  simp [quadProblem, World.withState]

end Quadratic

/-! ## The claims about `Solve` -/

section NewtonClaims

variable {K : Type} [LinearOrderedField K] {n : Nat} {S : Type}

/-- How a normal return of `Solve` comes about. -/
theorem Solve_returned {P : ReducedProblem K n S} {prm : Params K} {q : ControlVector K n}
    {global_tol : K} {w : World S} {r : SolveResult K n S} {k : Nat}
    (hr : Solve P prm q global_tol w = r) (hs : r.status = .returned k) :
    ∃ st0 st', solveInit P prm q w = .ok st0 ∧ 0 ≤ st0.res ∧
      whileLoop (solveGuard prm (max prm.nonlinear_global_tol_ global_tol) st0.res
          (if global_tol > 0 then 1 else 0)) (solveBody P prm)
          (prm.nonlinear_maxiter_ + 1) st0 = .done st' ∧
      st'.iter = k ∧
      ∃ s, r = ⟨.returned st'.iter, { st' with w := st'.w.withState s }⟩ := by
  unfold Solve at hr
  split at hr
  · rename_i r1 h1
    subst hr
    rw [solveInit_error h1] at hs
    cases hs
  · rename_i st0 h0
    dsimp only at hr
    split at hr
    · rename_i hres
      split at hr
      · rename_i st' hloop
        split at hr
        · rename_i u s hf
          subst hr
          cases hs
          exact ⟨st0, st', h0, hres, hloop, rfl, s, rfl⟩
        · subst hr
          cases hs
      · rename_i r1 hloop
        subst hr
        obtain ⟨j, sj, _, _, _, hb⟩ := whileLoop_raised_iff.mp hloop
        exact absurd hs ((solveBody_error hb).2 k)
      · subst hr
        cases hs
    · subst hr
      cases hs

/-- The function `Solve` once its first evaluations succeeded with a
non-negative residual. -/
theorem Solve_of_init {P : ReducedProblem K n S} {prm : Params K} {q : ControlVector K n}
    {global_tol : K} {w : World S} {st0 : SolveState K n S}
    (h0 : solveInit P prm q w = .ok st0) (hres : 0 ≤ st0.res) :
    Solve P prm q global_tol w =
      match whileLoop (solveGuard prm (max prm.nonlinear_global_tol_ global_tol) st0.res
          (if global_tol > 0 then 1 else 0)) (solveBody P prm)
          (prm.nonlinear_maxiter_ + 1) st0 with
      | .done st' =>
        match P.ComputeReducedFunctionals st'.w.s st'.q with
        | (some _, s) => ⟨.returned st'.iter, { st' with w := st'.w.withState s }⟩
        | (none, s) =>
          ⟨.threw .Critical, { st' with w := (st'.w.withState s).HandleCriticalException }⟩
      | .raised r => r
      | .outOfFuel => ⟨.threw .OutOfFuel, st0⟩ := by
  unfold Solve
  rw [h0]
  dsimp only
  rw [if_pos hres]

/-- The fuel given to the loops of `Solve`, of the linear solver and of the line
search is never used up: `Solve` is total. -/
theorem Solve_fuel (P : ReducedProblem K n S) (prm : Params K) (q : ControlVector K n)
    (global_tol : K) (w : World S) :
    (Solve P prm q global_tol w).status ≠ .threw .OutOfFuel := by
  cases h0 : solveInit P prm q w with
  | error r1 =>
    have : Solve P prm q global_tol w = r1 := by
      unfold Solve
      rw [h0]
    rw [this, solveInit_error h0]
    simp
  | ok st0 =>
    by_cases hres : 0 ≤ st0.res
    · rw [Solve_of_init h0 hres]
      split
      · split <;> simp
      · rename_i r hloop
        obtain ⟨j, sj, _, _, _, hb⟩ := whileLoop_raised_iff.mp hloop
        exact solveBody_error_fuel hb
      · rename_i hloop
        obtain ⟨s', hruns, _⟩ := whileLoop_outOfFuel_iff.mp hloop
        have hit := solve_runs_iter hruns
        have h00 := (solveInit_ok h0).1
        omega
    · have : Solve P prm q global_tol w = ⟨.threw .AssertFailed, st0⟩ := by
        unfold Solve
        rw [h0]
        dsimp only
        rw [if_neg (by simpa using hres)]
      rw [this]
      simp

/-- Claim C2.  `Solve` ends with the iteration exception (it is the status of
`Solve`, so it is not caught) exactly when the loop is reached and its guard
still holds after `nonlinear_maxiter_` executions of the body; hence a value
returned normally is at most `nonlinear_maxiter_`.  With `nonlinear_maxiter_ = 0`
and a start state for which the guard holds, `Solve` ends with that exception at
the first check: the variables are those after the first evaluations (so `q` is
the initial point and nothing was evaluated since), and the outcome does not
depend on the Hessian-vector product. -/
theorem C2_Solve_iteration_exceeded (P : ReducedProblem K n S) (prm : Params K)
    (q : ControlVector K n) (global_tol : K) (w : World S) :
    ((Solve P prm q global_tol w).status = .threw .Iteration ↔
      ∃ st0 st : SolveState K n S, solveInit P prm q w = .ok st0 ∧ 0 ≤ st0.res ∧
        Runs (solveGuard prm (max prm.nonlinear_global_tol_ global_tol) st0.res
          (if global_tol > 0 then 1 else 0)) (solveBody P prm) prm.nonlinear_maxiter_ st0 st ∧
        solveGuard prm (max prm.nonlinear_global_tol_ global_tol) st0.res
          (if global_tol > 0 then 1 else 0) st = true) ∧
    (∀ k, (Solve P prm q global_tol w).status = .returned k → k ≤ prm.nonlinear_maxiter_) ∧
    (prm.nonlinear_maxiter_ = 0 →
      ∀ st0 : SolveState K n S, solveInit P prm q w = .ok st0 → 0 ≤ st0.res →
        solveGuard prm (max prm.nonlinear_global_tol_ global_tol) st0.res
          (if global_tol > 0 then 1 else 0) st0 = true →
        Solve P prm q global_tol w = ⟨.threw .Iteration, { st0 with iter := 1 }⟩ ∧
        st0.q = q ∧
        ∀ H, Solve ⟨P.ComputeReducedCostFunctional, P.ComputeReducedGradient, H,
            P.ComputeReducedFunctionals⟩ prm q global_tol w = Solve P prm q global_tol w) := by
  refine ⟨⟨?_, ?_⟩, ?_, ?_⟩
  · intro hs
    cases h0 : solveInit P prm q w with
    | error r1 =>
      have : Solve P prm q global_tol w = r1 := by
        unfold Solve
        rw [h0]
      rw [this, solveInit_error h0] at hs
      cases hs
    | ok st0 =>
      by_cases hres : 0 ≤ st0.res
      · rw [Solve_of_init h0 hres] at hs
        split at hs
        · split at hs <;> cases hs
        · rename_i r1 hloop
          obtain ⟨j, sj, hj, hruns, hg, hb⟩ := whileLoop_raised_iff.mp hloop
          have hgt := (solveBody_error hb).1.mp hs
          have hit := solve_runs_iter hruns
          have h00 := (solveInit_ok h0).1
          have hj' : j = prm.nonlinear_maxiter_ := by omega
          subst hj'
          exact ⟨st0, sj, rfl, hres, hruns, hg⟩
        · cases hs
      · have : Solve P prm q global_tol w = ⟨.threw .AssertFailed, st0⟩ := by
          unfold Solve
          rw [h0]
          dsimp only
          rw [if_neg (by simpa using hres)]
        rw [this] at hs
        cases hs
  · rintro ⟨st0, st, h0, hres, hruns, hg⟩
    have hit := (solve_runs_iter hruns).1
    have h00 := (solveInit_ok h0).1
    have hb := solveBody_exceeded P prm st (by omega)
    have hloop := whileLoop_raised_of_runs (prm.nonlinear_maxiter_ + 1)
      (by omega : prm.nonlinear_maxiter_ < _) hruns hg hb
    rw [Solve_of_init h0 hres, hloop]
  · intro k hs
    obtain ⟨st0, st', h0, _, hloop, hiter, _⟩ := Solve_returned rfl hs
    obtain ⟨j, _, hruns, _⟩ := whileLoop_done_iff.mp hloop
    have hit := solve_runs_iter hruns
    have h00 := (solveInit_ok h0).1
    omega
  · intro hmax st0 h0 hres hg
    have h00 := (solveInit_ok h0).1
    have key : ∀ P' : ReducedProblem K n S, solveInit P' prm q w = .ok st0 →
        Solve P' prm q global_tol w = ⟨.threw .Iteration, { st0 with iter := 1 }⟩ := by
      intro P' h0'
      have hb := solveBody_exceeded P' prm st0 (by omega)
      have hloop := whileLoop_raised_of_runs (prm.nonlinear_maxiter_ + 1)
        (by omega : 0 < _) (show Runs _ _ 0 st0 st0 from rfl) hg hb
      rw [Solve_of_init h0' hres, hloop, h00]
    refine ⟨key P h0, (solveInit_ok h0).2.1, fun H => ?_⟩
    rw [key P h0]
    exact key _ h0

/-- Claim C2, witness: with `nonlinear_maxiter_ = 0` the run of `Solve` on
`q₁² + q₂²` from `(1, 1)` ends with the iteration exception and leaves `q` at
`(1, 1)`. -/
theorem C2_Solve_iteration_exceeded_witness :
    (Solve (quadProblem (1 : ℚ)) { defaultParams ratSqrt with nonlinear_maxiter_ := 0 }
        ![1, 1] (-1) World.start).status = .threw .Iteration ∧
    (Solve (quadProblem (1 : ℚ)) { defaultParams ratSqrt with nonlinear_maxiter_ := 0 }
        ![1, 1] (-1) World.start).st.q = ![1, 1] := by
  have hq : ControlVector.dot (ControlVector.equ (2 * 1) (![1, 1] : ControlVector ℚ 2))
      (ControlVector.equ (2 * 1) ![1, 1]) = 8 := by
    simp [ControlVector.dot, ControlVector.equ, Fin.sum_univ_two]
    norm_num
  have e : solveInit (quadProblem (1 : ℚ))
      { defaultParams ratSqrt with nonlinear_maxiter_ := 0 } ![1, 1] World.start =
      .ok ⟨0, ![1, 1], Dbl.fin (1 * ControlVector.dot ![1, 1] ![1, 1]), ![1, 1],
        ControlVector.equ (2 * 1) ![1, 1], ControlVector.equ (2 * 1) ![1, 1],
        Residual (ControlVector.equ (2 * 1) ![1, 1]) (ControlVector.equ (2 * 1) ![1, 1]),
        0, 0, World.start⟩ := by
    simp [solveInit, solveFunctionals, solveGradient, quadProblem, ControlVector.ReInit,
      World.withState, defaultParams, World.start]
  have h := (C2_Solve_iteration_exceeded (quadProblem (1 : ℚ))
    { defaultParams ratSqrt with nonlinear_maxiter_ := 0 } ![1, 1] (-1) World.start).2.2 rfl _ e
    (by simp only [Residual]; rw [hq]; norm_num)
    (by
      simp only [solveGuard, Residual, hq, defaultParams]
      norm_num)
  rw [h.1]
  exact ⟨rfl, rfl⟩

/-- Claim C3 (amended).  In exact arithmetic, for the cost `a * (q*q)` with `a > 0`
(gradient `2*a*q` equal to its transposed, Hessian-vector product `2*a*v`), the
default parameters,
the default `global_tol = -1` and every start point `q0` whose squared gradient norm
is at least the squares of the global and of the linear tolerance: the linear solver
returns after one iteration with step length `1/(2*a)` and `dq = -q0`, the line
search accepts the full step without backtracking, and `Solve` returns 1 with
`q = 0`, residual 0 and cost 0 (the counters written to the output are 1 linear
iteration and 0 line search steps). -/
theorem C3_Solve_quadratic (sqrt : K → K) (a : K) (q0 : ControlVector K n) (w : World Unit)
    (ha : 0 < a)
    (hglobal : (1 / 10 ^ 11 : K) * (1 / 10 ^ 11) ≤
      ControlVector.dot (ControlVector.equ (2 * a) q0) (ControlVector.equ (2 * a) q0))
    (hlinear : (1 / 10 ^ 12 : K) * (1 / 10 ^ 12) ≤
      ControlVector.dot (ControlVector.equ (2 * a) q0) (ControlVector.equ (2 * a) q0)) :
    SolveReducedLinearSystem (quadProblem a) (defaultParams sqrt) q0
        (ControlVector.equ (2 * a) q0) (ControlVector.equ (2 * a) q0) w =
      ⟨.returned 1, ControlVector.add (ControlVector.const 0) (1 / (2 * a))
        (ControlVector.equ (-1) (ControlVector.equ (2 * a) q0)), w⟩ ∧
    ControlVector.add (ControlVector.const 0) (1 / (2 * a))
        (ControlVector.equ (-1) (ControlVector.equ (2 * a) q0)) = ControlVector.equ (-1) q0 ∧
    ReducedNewtonLineSearch (quadProblem a) (defaultParams sqrt) (ControlVector.equ (-1) q0)
        (ControlVector.equ (2 * a) q0) (Dbl.fin (a * ControlVector.dot q0 q0)) q0 w =
      ⟨.returned 0, Dbl.fin 0, 0, w⟩ ∧
    Solve (quadProblem a) (defaultParams sqrt) q0 (-1) w =
      ⟨.returned 1, ⟨1, 0, Dbl.fin 0, ControlVector.equ (-1) q0, 0, 0, 0, 1, 0, w⟩⟩ := by
  have hdq : ControlVector.add (ControlVector.const 0) (1 / (2 * a))
      (ControlVector.equ (-1) (ControlVector.equ (2 * a) q0)) = ControlVector.equ (-1) q0 := by
    funext i
    simp only [ControlVector.add, ControlVector.equ, ControlVector.const]
    field_simp
    ring
  have hRq : ControlVector.dot (ControlVector.equ (2 * a) q0) (ControlVector.equ (2 * a) q0) =
      4 * a * a * ControlVector.dot q0 q0 := by
    simp only [ControlVector.equ_eq, ControlVector.dot_eq, Matrix.smul_dotProduct,
      Matrix.dotProduct_smul, smul_eq_mul]
    ring
  have hq : 0 < ControlVector.dot q0 q0 := by
    have hpos : 0 < ControlVector.dot (ControlVector.equ (2 * a) q0)
        (ControlVector.equ (2 * a) q0) := lt_of_lt_of_le (by norm_num) hlinear
    rw [hRq] at hpos
    exact (mul_pos_iff_of_pos_left (by positivity)).mp hpos
  refine ⟨?_, hdq, ?_, ?_⟩
  · exact cg_quadProblem a (defaultParams sqrt) q0 _ w ha (by simp [defaultParams])
      (by simp [defaultParams]) (by simpa [defaultParams] using hlinear)
  · refine lineSearch_quadProblem a (defaultParams sqrt) q0 _ _ w ha hq
      (by simp [defaultParams]) (by simp [defaultParams]; norm_num) ?_ ?_
    · funext i
      simp [ControlVector.plus, ControlVector.equ]
    · simp only [ControlVector.equ_eq, ControlVector.dot_eq, Matrix.smul_dotProduct,
        Matrix.dotProduct_smul, smul_eq_mul]
      ring
  · rw [← hdq]
    refine solve_quadProblem a (defaultParams sqrt) q0 (-1) w ha (by simp [defaultParams])
      (by simp [defaultParams]) (by simp [defaultParams]) (by simp [defaultParams])
      (by simp [defaultParams]; norm_num) (by simp [defaultParams])
      (by simp [defaultParams]; norm_num) ?_ (by simpa [defaultParams] using hlinear)
    have hmax : max (defaultParams sqrt).nonlinear_global_tol_ (-1) = (1 / 10 ^ 11 : K) :=
      max_eq_left (by simp [defaultParams]; norm_num)
    rw [hmax]
    exact hglobal

/-- Claim C3 (amended), witness: the scenario of the specification, cost
`q₁² + q₂²` from `q0 = (1, 1)`: one iteration of the linear solver with step length `1/2` and
`dq = (-1, -1)`, no backtracking, and `Solve` returns 1 at `q = (0, 0)` with
residual 0 and cost 0. -/
theorem C3_Solve_quadratic_witness :
    (1 / 10 ^ 11 : ℚ) * (1 / 10 ^ 11) ≤
      ControlVector.dot (ControlVector.equ (2 * 1) (![1, 1] : ControlVector ℚ 2))
        (ControlVector.equ (2 * 1) ![1, 1]) ∧
    ControlVector.equ (2 * 1) (![1, 1] : ControlVector ℚ 2) = ![2, 2] ∧
    ControlVector.add (ControlVector.const 0) (1 / (2 * 1))
      (ControlVector.equ (-1) (ControlVector.equ (2 * 1) (![1, 1] : ControlVector ℚ 2))) =
        ![-1, -1] ∧
    Solve (quadProblem (1 : ℚ)) (defaultParams ratSqrt) ![1, 1] (-1) World.start =
      ⟨.returned 1, ⟨1, ![0, 0], Dbl.fin 0, ![-1, -1], ![0, 0], ![0, 0], 0, 1, 0,
        World.start⟩⟩ := by
  have hq : ControlVector.dot (ControlVector.equ (2 * 1) (![1, 1] : ControlVector ℚ 2))
      (ControlVector.equ (2 * 1) ![1, 1]) = 8 := by
    simp [ControlVector.dot, ControlVector.equ, Fin.sum_univ_two]
    norm_num
  have h := C3_Solve_quadratic ratSqrt (1 : ℚ) ![1, 1] World.start (by norm_num)
    (by rw [hq]; norm_num) (by rw [hq]; norm_num)
  have hz : (0 : ControlVector ℚ 2) = ![0, 0] := by
    funext i
    fin_cases i <;> rfl
  have hm : ControlVector.equ (-1) (![1, 1] : ControlVector ℚ 2) = ![-1, -1] := by
    funext i
    fin_cases i <;> simp [ControlVector.equ]
  refine ⟨by rw [hq]; norm_num, ?_, ?_, ?_⟩
  · funext i
    fin_cases i <;> simp [ControlVector.equ]
  · rw [h.2.1, hm]
  · rw [h.2.2.2, hm, ← hz]

end NewtonClaims

/-! ## The claims about the line search -/

section LineSearchClaims

variable {K : Type} [LinearOrderedField K] {n : Nat} {S : Type}

end LineSearchClaims

/-! ## The claims about the linear solver -/

section LinearSystemClaims

variable {K : Type} [LinearOrderedField K] {n : Nat} {S : Type}

/-- Claim C8.  `SolveReducedLinearSystem` performs at most `linear_maxiter_`
iterations, counted by `iter`.  It ends with the iteration exception exactly when
the guard of the loop still holds after `linear_maxiter_` executions of the body
(none of which left the loop), and then `dq` is the iterate accumulated so far.
When it returns `k`, then `k ≤ linear_maxiter_`, the loop ran through exactly `k`
executions of its body, the guard is false in the final state and `dq` is the
iterate of that state.  With a zero residual and `linear_global_tol_ > 0` it
returns 0 with `dq = 0`. -/
theorem C8_cg_iteration_limit (P : ReducedProblem K n S) (prm : Params K)
    (q gradient gradient_transposed : ControlVector K n) (w : World S) :
    (∀ k (st : CGState K n S),
      Runs (cgGuard prm (Residual gradient gradient_transposed))
        (cgBody P prm q gradient gradient_transposed (Residual gradient gradient_transposed))
        k (cgInit gradient gradient_transposed w) st →
      k ≤ prm.linear_maxiter_ ∧ st.iter = k) ∧
    ((SolveReducedLinearSystem P prm q gradient gradient_transposed w).status =
        .threw .Iteration ↔
      ∃ st : CGState K n S,
        Runs (cgGuard prm (Residual gradient gradient_transposed))
          (cgBody P prm q gradient gradient_transposed (Residual gradient gradient_transposed))
          prm.linear_maxiter_ (cgInit gradient gradient_transposed w) st ∧
        cgGuard prm (Residual gradient gradient_transposed) st = true) ∧
    (∀ st : CGState K n S,
      Runs (cgGuard prm (Residual gradient gradient_transposed))
        (cgBody P prm q gradient gradient_transposed (Residual gradient gradient_transposed))
        prm.linear_maxiter_ (cgInit gradient gradient_transposed w) st →
      cgGuard prm (Residual gradient gradient_transposed) st = true →
      SolveReducedLinearSystem P prm q gradient gradient_transposed w =
        ⟨.threw .Iteration, st.dq, st.w⟩) ∧
    (∀ k, (SolveReducedLinearSystem P prm q gradient gradient_transposed w).status =
        .returned k →
      k ≤ prm.linear_maxiter_ ∧
      ∃ st : CGState K n S,
        Runs (cgGuard prm (Residual gradient gradient_transposed))
          (cgBody P prm q gradient gradient_transposed (Residual gradient gradient_transposed))
          k (cgInit gradient gradient_transposed w) st ∧
        cgGuard prm (Residual gradient gradient_transposed) st = false ∧
        SolveReducedLinearSystem P prm q gradient gradient_transposed w =
          ⟨.returned k, st.dq, st.w⟩) ∧
    (Residual gradient gradient_transposed = 0 → 0 < prm.linear_global_tol_ →
      SolveReducedLinearSystem P prm q gradient gradient_transposed w =
        ⟨.returned 0, ControlVector.const 0, w⟩) := by
  have hcount : ∀ k (st : CGState K n S),
      Runs (cgGuard prm (Residual gradient gradient_transposed))
        (cgBody P prm q gradient gradient_transposed (Residual gradient gradient_transposed))
        k (cgInit gradient gradient_transposed w) st →
      k ≤ prm.linear_maxiter_ ∧ st.iter = k := by
    intro k st hruns
    have h := cg_runs hruns
    have h0 : (cgInit gradient gradient_transposed w).iter = 0 := rfl
    constructor
    · rcases h.2 with hk | hk <;> omega
    · omega
  have hexc : ∀ st : CGState K n S,
      Runs (cgGuard prm (Residual gradient gradient_transposed))
        (cgBody P prm q gradient gradient_transposed (Residual gradient gradient_transposed))
        prm.linear_maxiter_ (cgInit gradient gradient_transposed w) st →
      cgGuard prm (Residual gradient gradient_transposed) st = true →
      SolveReducedLinearSystem P prm q gradient gradient_transposed w =
        ⟨.threw .Iteration, st.dq, st.w⟩ := by
    intro st hruns hg
    have hres : 0 ≤ Residual gradient gradient_transposed := by
      cases hm : prm.linear_maxiter_ with
      | zero =>
        rw [hm] at hruns
        cases hruns
        exact (cgGuard_true hg).2.2
      | succ m =>
        rw [hm] at hruns
        exact (cgGuard_true hruns.1).2.2
    have hb := cgBody_exceeded P prm q gradient gradient_transposed
      (Residual gradient gradient_transposed) st (by have := (hcount _ _ hruns).2; omega)
    rw [cg_eq_loop P prm q gradient gradient_transposed w hres,
      whileLoop_raised_of_runs (prm.linear_maxiter_ + 1)
        (by omega : prm.linear_maxiter_ < _) hruns hg hb]
  refine ⟨hcount, ⟨?_, ?_⟩, hexc, ?_, ?_⟩
  · intro hs
    by_cases hres : 0 ≤ Residual gradient gradient_transposed
    · rw [cg_eq_loop P prm q gradient gradient_transposed w hres] at hs
      split at hs
      · cases hs
      · rename_i r hloop
        obtain ⟨j, sj, hj, hruns, hg, hb⟩ := whileLoop_raised_iff.mp hloop
        have hgt := (cgBody_error hb).1.mp hs
        have hc := hcount _ _ hruns
        have hj' : j = prm.linear_maxiter_ := by omega
        subst hj'
        exact ⟨sj, hruns, hg⟩
      · cases hs
    · rw [cg_assert_failed P prm q gradient gradient_transposed w hres] at hs
      cases hs
  · rintro ⟨st, hruns, hg⟩
    rw [hexc st hruns hg]
  · intro k hs
    by_cases hres : 0 ≤ Residual gradient gradient_transposed
    · rw [cg_eq_loop P prm q gradient gradient_transposed w hres] at hs ⊢
      split at hs
      · rename_i st hloop
        obtain ⟨j, _, hruns, hg⟩ := whileLoop_done_iff.mp hloop
        have hc := hcount _ _ hruns
        have hj : j = k := by
          cases hs
          omega
        subst hj
        refine ⟨hc.1, st, hruns, hg, ?_⟩
        rw [hc.2]
      · rename_i r hloop
        obtain ⟨j, sj, _, _, _, hb⟩ := whileLoop_raised_iff.mp hloop
        exact absurd hs ((cgBody_error hb).2.1 k)
      · cases hs
    · rw [cg_assert_failed P prm q gradient gradient_transposed w hres] at hs
      cases hs
  · intro hzero htol
    have hg : cgGuard prm (Residual gradient gradient_transposed)
        (cgInit gradient gradient_transposed w) = false := by
      simp only [cgGuard, cgInit, hzero, Bool.and_eq_false_iff, decide_eq_false_iff_not,
        not_le]
      exact Or.inr (mul_pos htol htol)
    rw [cg_eq_loop P prm q gradient gradient_transposed w (le_of_eq hzero.symm),
      whileLoop_done_of_runs (prm.linear_maxiter_ + 1) (Nat.zero_le _)
        (show Runs _ _ 0 (cgInit gradient gradient_transposed w) _ from rfl) hg]
    rfl

/-- Claim C8, witness: with the zero gradient and the default parameters the
linear solver returns 0 with `dq = 0`. -/
theorem C8_cg_iteration_limit_witness :
    Residual (![0, 0] : ControlVector ℚ 2) ![0, 0] = 0 ∧
    0 < (defaultParams ratSqrt).linear_global_tol_ ∧
    SolveReducedLinearSystem (quadProblem (1 : ℚ)) (defaultParams ratSqrt) ![1, 1] ![0, 0]
      ![0, 0] World.start = ⟨.returned 0, ControlVector.const 0, World.start⟩ := by
  have h0 : Residual (![0, 0] : ControlVector ℚ 2) ![0, 0] = 0 := by
    simp [Residual, ControlVector.dot]
  have ht : 0 < (defaultParams ratSqrt).linear_global_tol_ := by norm_num [defaultParams]
  exact ⟨h0, ht, (C8_cg_iteration_limit (quadProblem (1 : ℚ)) (defaultParams ratSqrt) ![1, 1]
    ![0, 0] ![0, 0] World.start).2.2.2.2 h0 ht⟩

/-- Claim C6.  For a reduced problem whose Hessian-vector product is `v ↦ A v`
with a symmetric positive definite `n × n` matrix `A`, the transposed gradient
equal to the gradient `g`, `linear_global_tol_ > 0` and `linear_maxiter_ ≥ n`,
`SolveReducedLinearSystem` returns normally, for every `g`, with a value `k ≤ n`
that is the number of executions of the body of its loop; so it ends with
neither the negative curvature nor the iteration exception. -/
theorem C6_cg_finite_termination (P : ReducedProblem K n S) (A : Matrix (Fin n) (Fin n) K)
    (prm : Params K) (q g : ControlVector K n) (w : World S)
    (hH : HessianIs P A) (hA : SymPosDef A) (htol : 0 < prm.linear_global_tol_)
    (hmax : n ≤ prm.linear_maxiter_) :
    ∃ k, k ≤ n ∧ (SolveReducedLinearSystem P prm q g g w).status = .returned k ∧
      ∃ st : CGState K n S,
        Runs (cgGuard prm (Residual g g)) (cgBody P prm q g g (Residual g g)) k
          (cgInit g g w) st ∧
        cgGuard prm (Residual g g) st = false := by
  have hres : 0 ≤ Residual g g := ControlVector.dot_self_nonneg g
  rw [cg_eq_loop P prm q g g w hres]
  cases hloop : whileLoop (cgGuard prm (Residual g g)) (cgBody P prm q g g (Residual g g))
      (prm.linear_maxiter_ + 1) (cgInit g g w) with
  | done st =>
    obtain ⟨j, _, hruns, hg⟩ := whileLoop_done_iff.mp hloop
    have hs := cg_state_seq hH prm q g w hruns
    have hj : j ≤ n := by
      cases j with
      | zero => exact Nat.zero_le _
      | succ j =>
        obtain ⟨sm, hrm, hgm, _⟩ := hruns.unsnoc
        have := cg_guard_bound hH hA prm q g w htol hrm hgm
        omega
    refine ⟨j, hj, ?_, st, hruns, hg⟩
    dsimp only
    rw [hs.1]
  | raised e =>
    obtain ⟨j, sj, _, hruns, hg, hb⟩ := whileLoop_raised_iff.mp hloop
    have hj := cg_guard_bound hH hA prm q g w htol hruns hg
    obtain ⟨st', hok⟩ := cg_body_ok hH hA prm q g w htol hruns hg (by omega)
    rw [hok] at hb
    cases hb
  | outOfFuel =>
    obtain ⟨s', hruns, hg⟩ := whileLoop_outOfFuel_iff.mp hloop
    have hj := cg_guard_bound hH hA prm q g w htol hruns hg
    omega

/-- Claim C6, witness: the model with the matrix `diag(1, 2)` and the gradient
`(3, 4)`, default parameters. -/
theorem C6_cg_finite_termination_witness :
    HessianIs diagModel (Matrix.diagonal ![1, 2]) ∧
    SymPosDef (Matrix.diagonal ![1, 2] : Matrix (Fin 2) (Fin 2) ℚ) ∧
    0 < (defaultParams ratSqrt).linear_global_tol_ ∧
    2 ≤ (defaultParams ratSqrt).linear_maxiter_ ∧
    ∃ k, k ≤ 2 ∧ (SolveReducedLinearSystem diagModel (defaultParams ratSqrt) ![0, 0]
      ![3, 4] ![3, 4] World.start).status = .returned k := by
  have h1 : HessianIs diagModel (Matrix.diagonal ![1, 2]) := hessianIs_quadraticModel _ _
  have h3 : 0 < (defaultParams ratSqrt).linear_global_tol_ := by norm_num [defaultParams]
  have h4 : 2 ≤ (defaultParams ratSqrt).linear_maxiter_ := by simp [defaultParams]
  obtain ⟨k, hk, hs, _⟩ := C6_cg_finite_termination diagModel (Matrix.diagonal ![1, 2])
    (defaultParams ratSqrt) ![0, 0] ![3, 4] World.start h1 symPosDef_diag h3 h4
  exact ⟨h1, symPosDef_diag, h3, h4, k, hk, hs⟩

/-- Claim C7, as stated, fails.  For the symmetric positive definite matrix
`diag(1, 2)` and the gradient `(3, 4)` (first residual 25) the linear solver
returns after one iteration with `dq = (-75/41, -100/41)`, whose squared residual
`3600/1681` is far above `linear_global_tol_^2 = 10^-24`: the loop stopped because
the residual is below `min(0.25, sqrt(25)) * 25 = 25/4`. -/
theorem C7_cg_residual_counterexample :
    SymPosDef (Matrix.diagonal ![1, 2] : Matrix (Fin 2) (Fin 2) ℚ) ∧
    HessianIs diagModel (Matrix.diagonal ![1, 2]) ∧
    SolveReducedLinearSystem diagModel (defaultParams ratSqrt) ![0, 0] ![3, 4] ![3, 4]
      World.start = ⟨.returned 1, ![-75 / 41, -100 / 41], World.start⟩ ∧
    Residual
      (![3, 4] + (Matrix.diagonal ![1, 2] : Matrix (Fin 2) (Fin 2) ℚ).mulVec
        ![-75 / 41, -100 / 41])
      (![3, 4] + (Matrix.diagonal ![1, 2] : Matrix (Fin 2) (Fin 2) ℚ).mulVec
        ![-75 / 41, -100 / 41]) = 3600 / 1681 ∧
    ¬ ((3600 / 1681 : ℚ) < (defaultParams ratSqrt).linear_global_tol_ *
      (defaultParams ratSqrt).linear_global_tol_) := by
  refine ⟨symPosDef_diag, hessianIs_quadraticModel _ _, cg_diagModel, ?_, ?_⟩
  · simp [Residual, ControlVector.dot, Matrix.mulVec_diagonal, Fin.sum_univ_two]
    norm_num
  · norm_num [defaultParams]

/-- Claim C7, amended.  For a reduced problem whose Hessian-vector product is
`v ↦ A v` (for every matrix `A`, in particular a symmetric positive definite one)
and the transposed gradient equal to the gradient `g`: when
`SolveReducedLinearSystem` returns, the squared residual
`(g + A dq)*(g + A dq)` of the returned `dq` is below `linear_global_tol_^2` or
below `min(0.25, sqrt(firstres))*firstres`, where `firstres = g*g`. -/
theorem C7_cg_residual (P : ReducedProblem K n S) (A : Matrix (Fin n) (Fin n) K)
    (prm : Params K) (q g : ControlVector K n) (w : World S) (k : Nat)
    (hH : HessianIs P A)
    (hs : (SolveReducedLinearSystem P prm q g g w).status = .returned k) :
    Residual (g + A.mulVec (SolveReducedLinearSystem P prm q g g w).dq)
        (g + A.mulVec (SolveReducedLinearSystem P prm q g g w).dq) <
      prm.linear_global_tol_ * prm.linear_global_tol_ ∨
    Residual (g + A.mulVec (SolveReducedLinearSystem P prm q g g w).dq)
        (g + A.mulVec (SolveReducedLinearSystem P prm q g g w).dq) <
      min (1 / 4) (prm.sqrt (Residual g g)) * Residual g g := by
  obtain ⟨st, hruns, hg, hres⟩ := cg_returned hs
  have hseq := cg_state_seq hH prm q g w hruns
  have hr : st.r = g + A.mulVec st.dq := by
    rw [hseq.2.2.1, hseq.2.1]
    exact cgSeq_residual A g k
  rw [hres]
  dsimp only
  rw [← hr]
  simp only [cgGuard, cgThreshold, Bool.and_eq_false_iff, decide_eq_false_iff_not,
    not_le] at hg
  rw [hseq.2.2.2.2.2] at hg
  rcases hg with h | h
  · exact Or.inr h
  · exact Or.inl h

/-- Claim C7 (amended), witness: the model with the matrix `diag(1, 2)` and the
gradient `(3, 4)`. -/
theorem C7_cg_residual_witness :
    (SolveReducedLinearSystem diagModel (defaultParams ratSqrt) ![0, 0] ![3, 4] ![3, 4]
      World.start).status = .returned 1 ∧
    (Residual
        (![3, 4] + (Matrix.diagonal ![1, 2] : Matrix (Fin 2) (Fin 2) ℚ).mulVec
          (SolveReducedLinearSystem diagModel (defaultParams ratSqrt) ![0, 0] ![3, 4] ![3, 4]
            World.start).dq)
        (![3, 4] + (Matrix.diagonal ![1, 2] : Matrix (Fin 2) (Fin 2) ℚ).mulVec
          (SolveReducedLinearSystem diagModel (defaultParams ratSqrt) ![0, 0] ![3, 4] ![3, 4]
            World.start).dq) <
      (defaultParams ratSqrt).linear_global_tol_ * (defaultParams ratSqrt).linear_global_tol_ ∨
    Residual
        (![3, 4] + (Matrix.diagonal ![1, 2] : Matrix (Fin 2) (Fin 2) ℚ).mulVec
          (SolveReducedLinearSystem diagModel (defaultParams ratSqrt) ![0, 0] ![3, 4] ![3, 4]
            World.start).dq)
        (![3, 4] + (Matrix.diagonal ![1, 2] : Matrix (Fin 2) (Fin 2) ℚ).mulVec
          (SolveReducedLinearSystem diagModel (defaultParams ratSqrt) ![0, 0] ![3, 4] ![3, 4]
            World.start).dq) <
      min (1 / 4) ((defaultParams ratSqrt).sqrt (Residual ![3, 4] ![3, 4])) *
        Residual ![3, 4] ![3, 4]) := by
  have hs : (SolveReducedLinearSystem diagModel (defaultParams ratSqrt) ![0, 0] ![3, 4]
      ![3, 4] World.start).status = .returned 1 := by rw [cg_diagModel]
  exact ⟨hs, C7_cg_residual diagModel (Matrix.diagonal ![1, 2]) (defaultParams ratSqrt)
    ![0, 0] ![3, 4] World.start 1 (hessianIs_quadraticModel _ _) hs⟩

end LinearSystemClaims


/-! ## Facts about the trial points of the line search -/

section TrialFacts

variable {K : Type} [LinearOrderedField K] {n : Nat} {S : Type}

theorem lineBody_eq (P : ReducedProblem K n S) (prm : Params K) (dq : ControlVector K n)
    (cost : Dbl K) (st : LineState K n S) (h : st.iter + 1 ≤ prm.line_maxiter_) :
    lineBody P prm dq cost st =
      .ok (lineEval P (st.iter + 1) (st.alpha * prm.lineasearch_rho_)
        (ControlVector.add st.q (st.alpha * (prm.lineasearch_rho_ - 1)) dq) st.costnew st.w) := by
  unfold lineBody
  dsimp only
  rw [if_neg (by omega)]

theorem lineBody_exceeded (P : ReducedProblem K n S) (prm : Params K) (dq : ControlVector K n)
    (cost : Dbl K) (st : LineState K n S) (h : st.iter + 1 > prm.line_maxiter_) :
    lineBody P prm dq cost st =
      .error (if st.force_linesearch = true then ⟨.threw .Generic, cost, st.q, st.w⟩
        else ⟨.threw .Iteration, st.costnew, st.q, st.w⟩) := by
  unfold lineBody
  dsimp only
  rw [if_pos h]
  split <;> rfl

/-- What the evaluation of a trial point leaves in the state of the line search. -/
theorem lineEval_outcome (P : ReducedProblem K n S) (iter : Nat) (alpha : K)
    (q : ControlVector K n) (costnew : Dbl K) (w : World S) :
    ((lineEval P iter alpha q costnew w).force_linesearch = true ↔
        (P.ComputeReducedCostFunctional w.s q).1 = none) ∧
      (∀ v, (P.ComputeReducedCostFunctional w.s q).1 = some v →
        (lineEval P iter alpha q costnew w).costnew = v) ∧
      ((P.ComputeReducedCostFunctional w.s q).1 = none →
        (lineEval P iter alpha q costnew w).costnew = costnew) ∧
      (lineEval P iter alpha q costnew w).w =
        w.withState (P.ComputeReducedCostFunctional w.s q).2 := by
  unfold lineEval
  rcases h : P.ComputeReducedCostFunctional w.s q with ⟨o, s⟩
  cases o with
  | none => simp
  | some v => simp

theorem lineEval_guard (P : ReducedProblem K n S) (prm : Params K) (cost : Dbl K)
    (reduction : K) (iter : Nat) (alpha : K) (q : ControlVector K n) (costnew : Dbl K)
    (w : World S) :
    lineGuard prm cost reduction (lineEval P iter alpha q costnew w) =
      !(lineAccepts prm cost reduction alpha (P.ComputeReducedCostFunctional w.s q).1) := by
  unfold lineEval
  rcases h : P.ComputeReducedCostFunctional w.s q with ⟨o, s⟩
  cases o with
  | none => simp [lineGuard, lineAccepts]
  | some v => simp [lineGuard, lineAccepts]

/-- After `j` backtracking steps the counter is `j`, the step length is the `j`-th power of
`lineasearch_rho_` and the control is `q + rho^j * dq`. -/
theorem lineTrial_fields (P : ReducedProblem K n S) (prm : Params K)
    (dq q : ControlVector K n) (w : World S) (j : Nat) :
    (lineTrial P prm dq q w j).iter = j ∧
      (lineTrial P prm dq q w j).alpha = prm.lineasearch_rho_ ^ j ∧
      (lineTrial P prm dq q w j).q = ControlVector.add q (prm.lineasearch_rho_ ^ j) dq := by
  induction j with
  | zero =>
    have hi := lineInit_fields P dq q w
    refine ⟨hi.1, by rw [pow_zero]; exact hi.2.1, ?_⟩
    show (lineInit P dq q w).q = _
    rw [hi.2.2]
    funext i
    simp [ControlVector.plus, ControlVector.add]
  | succ j ih =>
    have he := lineEval_fields P ((lineTrial P prm dq q w j).iter + 1)
      ((lineTrial P prm dq q w j).alpha * prm.lineasearch_rho_)
      (ControlVector.add (lineTrial P prm dq q w j).q
        ((lineTrial P prm dq q w j).alpha * (prm.lineasearch_rho_ - 1)) dq)
      (lineTrial P prm dq q w j).costnew (lineTrial P prm dq q w j).w
    refine ⟨?_, ?_, ?_⟩
    · show (lineEval P _ _ _ _ _).iter = _
      rw [he.1, ih.1]
    · show (lineEval P _ _ _ _ _).alpha = _
      rw [he.2.1, ih.2.1, pow_succ]
    · show (lineEval P _ _ _ _ _).q = _
      rw [he.2.2, ih.2.1, ih.2.2]
      funext i
      simp only [ControlVector.add, pow_succ]
      ring

/-- Trial point `j` is the result of evaluating the cost at `q + rho^j * dq` in
the world `lineWorld j`. -/
theorem lineTrial_eval (P : ReducedProblem K n S) (prm : Params K)
    (dq q : ControlVector K n) (w : World S) (j : Nat) :
    ∃ c : Dbl K, lineTrial P prm dq q w j =
      lineEval P j (prm.lineasearch_rho_ ^ j) (ControlVector.add q (prm.lineasearch_rho_ ^ j) dq)
        c (lineWorld P prm dq q w j) := by
  cases j with
  | zero =>
    refine ⟨Dbl.fin 0, ?_⟩
    have hq : ControlVector.plus q dq = ControlVector.add q (prm.lineasearch_rho_ ^ 0) dq := by
      funext i
      simp [ControlVector.plus, ControlVector.add]
    show lineEval P 0 1 (ControlVector.plus q dq) (Dbl.fin 0) w = _
    rw [hq, pow_zero]
    rfl
  | succ j =>
    refine ⟨(lineTrial P prm dq q w j).costnew, ?_⟩
    have hf := lineTrial_fields P prm dq q w j
    have hq : ControlVector.add (lineTrial P prm dq q w j).q
        ((lineTrial P prm dq q w j).alpha * (prm.lineasearch_rho_ - 1)) dq =
        ControlVector.add q (prm.lineasearch_rho_ ^ (j + 1)) dq := by
      rw [hf.2.1, hf.2.2]
      funext i
      simp only [ControlVector.add, pow_succ]
      ring
    show lineEval P ((lineTrial P prm dq q w j).iter + 1)
      ((lineTrial P prm dq q w j).alpha * prm.lineasearch_rho_) _ _ _ = _
    rw [hq, hf.1, hf.2.1, ← pow_succ]
    rfl

theorem lineTrial_guard (P : ReducedProblem K n S) (prm : Params K)
    (dq q : ControlVector K n) (w : World S) (cost : Dbl K) (reduction : K) (j : Nat) :
    lineGuard prm cost reduction (lineTrial P prm dq q w j) =
      !(lineAccepts prm cost reduction (prm.lineasearch_rho_ ^ j)
        (P.ComputeReducedCostFunctional (lineWorld P prm dq q w j).s
          (ControlVector.add q (prm.lineasearch_rho_ ^ j) dq)).1) := by
  obtain ⟨c, hc⟩ := lineTrial_eval P prm dq q w j
  rw [hc]
  exact lineEval_guard P prm cost reduction _ _ _ _ _

theorem lineTrial_outcome (P : ReducedProblem K n S) (prm : Params K)
    (dq q : ControlVector K n) (w : World S) (j : Nat) :
    ((lineTrial P prm dq q w j).force_linesearch = true ↔
        (P.ComputeReducedCostFunctional (lineWorld P prm dq q w j).s
          (ControlVector.add q (prm.lineasearch_rho_ ^ j) dq)).1 = none) ∧
      (∀ v, (P.ComputeReducedCostFunctional (lineWorld P prm dq q w j).s
          (ControlVector.add q (prm.lineasearch_rho_ ^ j) dq)).1 = some v →
        (lineTrial P prm dq q w j).costnew = v) := by
  obtain ⟨c, hc⟩ := lineTrial_eval P prm dq q w j
  rw [hc]
  have h := lineEval_outcome P j (prm.lineasearch_rho_ ^ j)
    (ControlVector.add q (prm.lineasearch_rho_ ^ j) dq) c (lineWorld P prm dq q w j)
  exact ⟨h.1, h.2.1⟩

/-- The line search never calls the exception handler. -/
theorem lineTrial_log (P : ReducedProblem K n S) (prm : Params K)
    (dq q : ControlVector K n) (w : World S) (j : Nat) :
    (lineTrial P prm dq q w j).w.log = w.log := by
  induction j with
  | zero =>
    show (lineEval P 0 1 (ControlVector.plus q dq) (Dbl.fin 0) w).w.log = _
    rw [(lineEval_outcome P 0 1 (ControlVector.plus q dq) (Dbl.fin 0) w).2.2.2]
    rfl
  | succ j ih =>
    show (lineEval P _ _ _ _ _).w.log = _
    rw [(lineEval_outcome P _ _ _ _ _).2.2.2]
    exact ih

/-- The states of the loop of the line search are the trial points. -/
theorem runs_lineTrial {P : ReducedProblem K n S} {prm : Params K}
    {dq q : ControlVector K n} {w : World S} {cost : Dbl K}
    {guard : LineState K n S → Bool} {k : Nat} {st : LineState K n S}
    (h : Runs guard (lineBody P prm dq cost) k (lineInit P dq q w) st) :
    st = lineTrial P prm dq q w k ∧ (∀ j, j < k → guard (lineTrial P prm dq q w j) = true) ∧
      (k = 0 ∨ k ≤ prm.line_maxiter_) := by
  induction k generalizing st with
  | zero =>
    cases h
    exact ⟨rfl, fun j hj => absurd hj (Nat.not_lt_zero j), Or.inl rfl⟩
  | succ k ih =>
    obtain ⟨sm, hr, hg, hb⟩ := h.unsnoc
    obtain ⟨hsm, hall, _⟩ := ih hr
    have hok := lineBody_ok hb
    rw [lineBody_eq P prm dq cost sm hok.2.1] at hb
    cases hb
    have hf := lineTrial_fields P prm dq q w k
    refine ⟨by rw [hsm]; rfl, ?_, Or.inr ?_⟩
    · intro j hj
      rcases Nat.lt_succ_iff_lt_or_eq.mp hj with hlt | heq
      · exact hall j hlt
      · rw [heq, ← hsm]
        exact hg
    · rw [hsm, hf.1] at hok
      exact hok.2.1

theorem lineTrial_runs (P : ReducedProblem K n S) (prm : Params K)
    (dq q : ControlVector K n) (w : World S) (cost : Dbl K)
    (guard : LineState K n S → Bool) (k : Nat) (hk : k ≤ prm.line_maxiter_)
    (hall : ∀ j, j < k → guard (lineTrial P prm dq q w j) = true) :
    Runs guard (lineBody P prm dq cost) k (lineInit P dq q w) (lineTrial P prm dq q w k) := by
  induction k with
  | zero => exact rfl
  | succ k ih =>
    have hr := ih (by omega) (fun j hj => hall j (by omega))
    have hf := lineTrial_fields P prm dq q w k
    refine hr.snoc (hall k (Nat.lt_succ_self k)) ?_
    rw [lineBody_eq P prm dq cost _ (by rw [hf.1]; omega)]
    rfl

end TrialFacts


section TrialSearch

variable {K : Type} [LinearOrderedField K] {n : Nat} {S : Type}

/-- The line search returns at the first trial point at which the guard is false. -/
theorem lineSearch_accept (P : ReducedProblem K n S) (prm : Params K)
    (dq gradient : ControlVector K n) (cost : Dbl K) (q : ControlVector K n) (w : World S)
    (hmax : 0 < prm.line_maxiter_) (k : Nat) (hk : k ≤ prm.line_maxiter_)
    (hall : ∀ j, j < k → lineGuard prm cost (lineReduction prm dq gradient cost)
      (lineTrial P prm dq q w j) = true)
    (hacc : lineGuard prm cost (lineReduction prm dq gradient cost)
      (lineTrial P prm dq q w k) = false) :
    ReducedNewtonLineSearch P prm dq gradient cost q w =
      ⟨.returned k, (lineTrial P prm dq q w k).costnew, (lineTrial P prm dq q w k).q,
        (lineTrial P prm dq q w k).w⟩ := by
  rw [lineSearch_eq_loop P prm dq gradient cost q w hmax,
    whileLoop_done_of_runs (prm.line_maxiter_ + 1) (by omega)
      (lineTrial_runs P prm dq q w cost _ k hk hall) hacc]
  dsimp only
  rw [(lineTrial_fields P prm dq q w k).1]

/-- The line search raises when the guard is true at all trial points up to
`line_maxiter_`. -/
theorem lineSearch_exceed (P : ReducedProblem K n S) (prm : Params K)
    (dq gradient : ControlVector K n) (cost : Dbl K) (q : ControlVector K n) (w : World S)
    (hmax : 0 < prm.line_maxiter_)
    (hall : ∀ j, j ≤ prm.line_maxiter_ → lineGuard prm cost (lineReduction prm dq gradient cost)
      (lineTrial P prm dq q w j) = true) :
    ReducedNewtonLineSearch P prm dq gradient cost q w =
      if (lineTrial P prm dq q w prm.line_maxiter_).force_linesearch = true then
        ⟨.threw .Generic, cost, (lineTrial P prm dq q w prm.line_maxiter_).q,
          (lineTrial P prm dq q w prm.line_maxiter_).w⟩
      else
        ⟨.threw .Iteration, (lineTrial P prm dq q w prm.line_maxiter_).costnew,
          (lineTrial P prm dq q w prm.line_maxiter_).q,
          (lineTrial P prm dq q w prm.line_maxiter_).w⟩ := by
  rw [lineSearch_eq_loop P prm dq gradient cost q w hmax,
    whileLoop_raised_of_runs (prm.line_maxiter_ + 1) (Nat.lt_succ_self _)
      (lineTrial_runs P prm dq q w cost _ prm.line_maxiter_ (le_refl _)
        (fun j hj => hall j (le_of_lt hj)))
      (hall _ (le_refl _))
      (lineBody_exceeded P prm dq cost _
        (by rw [(lineTrial_fields P prm dq q w prm.line_maxiter_).1]; omega))]

/-- A normal return of the line search in terms of the trial points. -/
theorem lineSearch_returned_trial {P : ReducedProblem K n S} {prm : Params K}
    {dq gradient : ControlVector K n} {cost : Dbl K} {q : ControlVector K n} {w : World S}
    {k : Nat} (hmax : 0 < prm.line_maxiter_)
    (h : (ReducedNewtonLineSearch P prm dq gradient cost q w).status = .returned k) :
    k ≤ prm.line_maxiter_ ∧
      (∀ j, j < k → lineGuard prm cost (lineReduction prm dq gradient cost)
        (lineTrial P prm dq q w j) = true) ∧
      lineGuard prm cost (lineReduction prm dq gradient cost) (lineTrial P prm dq q w k) =
        false ∧
      ReducedNewtonLineSearch P prm dq gradient cost q w =
        ⟨.returned k, (lineTrial P prm dq q w k).costnew, (lineTrial P prm dq q w k).q,
          (lineTrial P prm dq q w k).w⟩ := by
  obtain ⟨st, hr, hg, _, _, heq⟩ := lineSearch_returned hmax h
  obtain ⟨hst, hall, hk⟩ := runs_lineTrial hr
  subst hst
  exact ⟨by omega, hall, hg, heq⟩

/-- An exception of the line search in terms of the trial points. -/
theorem lineSearch_threw_trial {P : ReducedProblem K n S} {prm : Params K}
    {dq gradient : ControlVector K n} {cost : Dbl K} {q : ControlVector K n} {w : World S}
    {e : Exn} (h : (ReducedNewtonLineSearch P prm dq gradient cost q w).status = .threw e) :
    0 < prm.line_maxiter_ ∧
      (∀ j, j ≤ prm.line_maxiter_ → lineGuard prm cost (lineReduction prm dq gradient cost)
        (lineTrial P prm dq q w j) = true) := by
  have hmax : 0 < prm.line_maxiter_ := by
    by_contra hmax
    unfold ReducedNewtonLineSearch at h
    dsimp only at h
    rw [if_neg hmax] at h
    cases h
  refine ⟨hmax, ?_⟩
  rw [lineSearch_eq_loop P prm dq gradient cost q w hmax] at h
  split at h
  · cases h
  · rename_i r hloop
    obtain ⟨j, sj, _, hr, hg, hb⟩ := whileLoop_raised_iff.mp hloop
    obtain ⟨hsj, hall, hj⟩ := runs_lineTrial hr
    have hf := lineTrial_fields P prm dq q w j
    have hgt := (lineBody_error hb).1
    rw [hsj, hf.1] at hgt
    have hjm : j = prm.line_maxiter_ := by omega
    intro i hi
    rcases Nat.lt_or_ge i j with hlt | hge
    · exact hall i hlt
    · have : i = j := by omega
      rw [this, ← hsj]
      exact hg
  · rename_i hloop
    obtain ⟨s', hruns, _⟩ := whileLoop_outOfFuel_iff.mp hloop
    have hr := line_runs hruns
    have hi := lineInit_fields P dq q w
    omega

/-- The line search leaves the log of the exception handler as it was. -/
theorem lineSearch_log (P : ReducedProblem K n S) (prm : Params K)
    (dq gradient : ControlVector K n) (cost : Dbl K) (q : ControlVector K n) (w : World S) :
    (ReducedNewtonLineSearch P prm dq gradient cost q w).w.log = w.log := by
  by_cases hmax : 0 < prm.line_maxiter_
  · cases hst : (ReducedNewtonLineSearch P prm dq gradient cost q w).status with
    | returned k =>
      rw [(lineSearch_returned_trial hmax hst).2.2.2]
      exact lineTrial_log P prm dq q w k
    | threw e =>
      rw [lineSearch_exceed P prm dq gradient cost q w hmax (lineSearch_threw_trial hst).2]
      split <;> exact lineTrial_log P prm dq q w _
  · unfold ReducedNewtonLineSearch
    dsimp only
    rw [if_neg hmax]
    exact lineTrial_log P prm dq q w 0

end TrialSearch


/-! ## Facts about the exceptions of the linear solver inside `Solve` -/

section DirectionFacts

variable {K : Type} [LinearOrderedField K] {n : Nat} {S : Type}

/-- How an exception of the loop of the linear solver comes about. -/
theorem cg_raised {P : ReducedProblem K n S} {prm : Params K}
    {q gradient gradient_transposed : ControlVector K n} {w : World S} {e : Exn}
    (hres : 0 ≤ Residual gradient gradient_transposed)
    (hs : (SolveReducedLinearSystem P prm q gradient gradient_transposed w).status = .threw e) :
    ∃ (k : Nat) (st : CGState K n S), k ≤ prm.linear_maxiter_ ∧
      Runs (cgGuard prm (Residual gradient gradient_transposed))
        (cgBody P prm q gradient gradient_transposed (Residual gradient gradient_transposed))
        k (cgInit gradient gradient_transposed w) st ∧
      cgGuard prm (Residual gradient gradient_transposed) st = true ∧
      cgBody P prm q gradient gradient_transposed (Residual gradient gradient_transposed) st =
        .error (SolveReducedLinearSystem P prm q gradient gradient_transposed w) := by
  rw [cg_eq_loop P prm q gradient gradient_transposed w hres] at hs ⊢
  split at hs
  · cases hs
  · rename_i r hloop
    obtain ⟨j, sj, hj, hr, hg, hb⟩ := whileLoop_raised_iff.mp hloop
    exact ⟨j, sj, by omega, hr, hg, hb⟩
  · rename_i hloop
    obtain ⟨s', hruns, _⟩ := whileLoop_outOfFuel_iff.mp hloop
    have hr := cg_runs hruns
    have h0 : (cgInit gradient gradient_transposed w).iter = 0 := rfl
    omega

/-- The handler of the iteration exception of the linear solver in `Solve`. -/
theorem solveDirection_iteration (P : ReducedProblem K n S) (prm : Params K)
    (st : SolveState K n S)
    (hcg : (SolveReducedLinearSystem P prm st.q st.gradient st.gradient_transposed st.w).status =
      .threw .Iteration) :
    solveDirection P prm st =
      .ok { st with
        dq :=
          if ControlVector.NormInfty
              (SolveReducedLinearSystem P prm st.q st.gradient st.gradient_transposed st.w).dq >
              10000 * ControlVector.NormInfty st.gradient_transposed
          then ControlVector.scale st.gradient_transposed (-1)
          else (SolveReducedLinearSystem P prm st.q st.gradient st.gradient_transposed st.w).dq,
        liniter := -1,
        w := (SolveReducedLinearSystem P prm st.q st.gradient st.gradient_transposed
          st.w).w.HandleException .Iteration } := by
  unfold solveDirection
  dsimp only
  rw [hcg]

/-- The direction recorded by the line search step of `Solve` is the one checked
in lines 370-376. -/
theorem solveLineSearch_dq {P : ReducedProblem K n S} {prm : Params K}
    {st st' : SolveState K n S} (h : solveLineSearch P prm st = .ok st') :
    st'.dq = solveDescent st.gradient st.gradient_transposed st.dq := by
  unfold solveLineSearch at h
  dsimp only at h
  split at h <;> first | (cases h; rfl) | cases h

end DirectionFacts


/-! ## The claims about the exceptions of the linear solver inside `Solve` -/

section DirectionClaims

variable {K : Type} [LinearOrderedField K] {n : Nat} {S : Type}

/-- The line search on the model with the indefinite matrix `diag(1, -1)` from
`q = (0, 0)` (cost `0`, gradient `(2, 1)`) with the direction `(-10/3, -5/3)`: the
full step has the cost `-25/6 < 0 + (1/10)*(-25/3)` and is accepted at once. -/
theorem lineSearch_saddleModel_origin (prm : Params ℚ) (w : World Unit)
    (hmax : prm.line_maxiter_ = 4) (hc : prm.linesearch_c_ = 1 / 10) :
    ReducedNewtonLineSearch saddleModel prm ![-10 / 3, -5 / 3] ![2, 1]
        (Dbl.fin 0) ![0, 0] w = ⟨.returned 0, Dbl.fin (-25 / 6), ![-10 / 3, -5 / 3], w⟩ := by
  have hq : ControlVector.plus (![0, 0] : ControlVector ℚ 2) ![-10 / 3, -5 / 3] =
      ![-10 / 3, -5 / 3] := by
    funext i
    fin_cases i <;> simp [ControlVector.plus]
  have hv : ControlVector.dot (![-10 / 3, -5 / 3] : ControlVector ℚ 2)
      ((Matrix.diagonal ![1, -1] : Matrix (Fin 2) (Fin 2) ℚ).mulVec ![-10 / 3, -5 / 3]) / 2 -
      ControlVector.dot (![-2, -1] : ControlVector ℚ 2) ![-10 / 3, -5 / 3] = -25 / 6 := by
    simp [ControlVector.dot, Matrix.mulVec_diagonal, Fin.sum_univ_two]
    norm_num
  have hi : lineInit saddleModel ![-10 / 3, -5 / 3] ![0, 0] w =
      ⟨0, 1, ![-10 / 3, -5 / 3], Dbl.fin (-25 / 6), false, w⟩ := by
    simp only [lineInit, lineEval, saddleModel, quadraticModel, hq, hv, World.withState]
  have hr : lineReduction prm (![-10 / 3, -5 / 3] : ControlVector ℚ 2) ![2, 1] (Dbl.fin 0) =
      -25 / 3 := by
    have hd : ControlVector.dot (![2, 1] : ControlVector ℚ 2) ![-10 / 3, -5 / 3] = -25 / 3 := by
      simp [ControlVector.dot, Fin.sum_univ_two]
      norm_num
    simp only [lineReduction, hd, hmax]
    norm_num [Dbl.lt, Dbl.mul]
  have hg : lineGuard prm (Dbl.fin 0) (-25 / 3)
      (⟨0, 1, ![-10 / 3, -5 / 3], Dbl.fin (-25 / 6), false, w⟩ : LineState ℚ 2 Unit) =
      false := by
    simp only [lineGuard, hc]
    norm_num [Dbl.isinf, Dbl.isnan, Dbl.ge, Dbl.add]
  unfold ReducedNewtonLineSearch
  dsimp only
  rw [hi, hr, hg, hmax]
  rfl

end DirectionClaims


section DirectionClaimsIteration

variable {K : Type} [LinearOrderedField K] {n : Nat} {S : Type}

/-- With `linear_maxiter_ = 0` and a guard that holds at the start, the linear
solver ends with the iteration exception at once, `dq` being zero. -/
theorem cg_no_iterations (P : ReducedProblem K n S) (prm : Params K)
    (q gradient gradient_transposed : ControlVector K n) (w : World S)
    (hmax : prm.linear_maxiter_ = 0)
    (hg : cgGuard prm (Residual gradient gradient_transposed)
      (cgInit gradient gradient_transposed w) = true) :
    SolveReducedLinearSystem P prm q gradient gradient_transposed w =
      ⟨.threw .Iteration, ControlVector.const 0, w⟩ := by
  rw [cg_eq_loop P prm q gradient gradient_transposed w (cgGuard_true hg).2.2,
    whileLoop_raised_of_runs (prm.linear_maxiter_ + 1) (by omega : 0 < _)
      (show Runs _ _ 0 (cgInit gradient gradient_transposed w) _ from rfl) hg
      (cgBody_exceeded P prm q gradient gradient_transposed _ _
        (by rw [hmax]; exact Nat.succ_pos _))]
  rfl

/-- Claim C12.  When `SolveReducedLinearSystem`, called in the body of the loop of
`Solve`, ends with the iteration exception, the loop goes on: the exception is
handed to `HandleException` (it is on the log, `liniter` is `-1`, the step of
the body completes).  The line search step of `Solve` from the state `st1` left
by the handler is the call of `ReducedNewtonLineSearch` with the direction
`solveDescent` applied to the `dq` left by the handler (and the gradient, cost
and control of the state): the step takes `q` and `cost` from this call when it
returns or raises the iteration exception, and another exception of the call
leaves `Solve`.  This direction is `-gradient_transposed` when the truncated
iterate `dq` of the linear solver has `‖dq‖∞ > 10000 * ‖gradient_transposed‖∞` or
`gradient*dq > 0`, and it is the truncated iterate itself otherwise. -/
theorem C12_iteration_exceeded_recovery (P : ReducedProblem K n S) (prm : Params K)
    (st : SolveState K n S)
    (hcg : (SolveReducedLinearSystem P prm st.q st.gradient st.gradient_transposed st.w).status =
      .threw .Iteration) :
    ∃ st1 : SolveState K n S, solveDirection P prm st = .ok st1 ∧
      st1.liniter = -1 ∧
      st1.w = (SolveReducedLinearSystem P prm st.q st.gradient st.gradient_transposed
        st.w).w.HandleException .Iteration ∧
      solveDescent st.gradient st.gradient_transposed st1.dq =
        (if ControlVector.NormInfty
              (SolveReducedLinearSystem P prm st.q st.gradient st.gradient_transposed st.w).dq >
              10000 * ControlVector.NormInfty st.gradient_transposed ∨
            ControlVector.dot st.gradient
              (SolveReducedLinearSystem P prm st.q st.gradient st.gradient_transposed st.w).dq > 0
          then ControlVector.scale st.gradient_transposed (-1)
          else (SolveReducedLinearSystem P prm st.q st.gradient st.gradient_transposed
            st.w).dq) ∧
      st1.q = st.q ∧ st1.cost = st.cost ∧ st1.gradient = st.gradient ∧
      st1.gradient_transposed = st.gradient_transposed ∧
      (∀ ls : LineResult K n S,
        ls = ReducedNewtonLineSearch P prm
            (solveDescent st.gradient st.gradient_transposed st1.dq)
            st1.gradient st1.cost st1.q st1.w →
        (∀ st2 : SolveState K n S, solveLineSearch P prm st1 = .ok st2 →
          st2.dq = (solveDescent st.gradient st.gradient_transposed st1.dq) ∧
          st2.q = ls.q ∧ st2.cost = ls.cost ∧
          ((∃ k : Nat, ls.status = .returned k ∧ st2.lineiter = k ∧ st2.w = ls.w) ∨
            (ls.status = .threw .Iteration ∧ st2.lineiter = -1 ∧
              st2.w = ls.w.HandleException .Iteration))) ∧
        (∀ r : SolveResult K n S, solveLineSearch P prm st1 = .error r →
          ∃ e : Exn, ls.status = .threw e ∧ e ≠ .Iteration ∧ r.status = .threw e ∧
            r.st.q = ls.q ∧ r.st.cost = ls.cost)) := by
  refine ⟨_, solveDirection_iteration P prm st hcg, rfl, rfl, ?_, rfl, rfl, rfl, rfl,
    solveLineSearch_run P prm _ _ rfl⟩
  · dsimp only
    by_cases hn : ControlVector.NormInfty
        (SolveReducedLinearSystem P prm st.q st.gradient st.gradient_transposed st.w).dq >
        10000 * ControlVector.NormInfty st.gradient_transposed
    · rw [if_pos hn, if_pos (Or.inl hn)]
      unfold solveDescent
      dsimp only
      split <;> rfl
    · rw [if_neg hn]
      unfold solveDescent
      dsimp only
      by_cases hd : ControlVector.dot st.gradient
          (SolveReducedLinearSystem P prm st.q st.gradient st.gradient_transposed st.w).dq > 0
      · rw [if_pos hd, if_pos (Or.inr hd)]
      · rw [if_neg hd, if_neg (not_or.mpr ⟨hn, hd⟩)]

/-- The linear solver on the model with the indefinite matrix `diag(1, -1)` and the
gradient `(2, 1)` with `linear_maxiter_ = 1`: after the first iteration the guard
still holds, and the second one raises the iteration exception with the iterate
`dq = (-10/3, -5/3)` of the first. -/
theorem cg_saddleModel_truncated :
    SolveReducedLinearSystem saddleModel { defaultParams ratSqrt with linear_maxiter_ := 1 }
        ![0, 0] ![2, 1] ![2, 1] World.start =
      ⟨.threw .Iteration, ![-10 / 3, -5 / 3], World.start⟩ := by
  have hres : Residual (![2, 1] : ControlVector ℚ 2) ![2, 1] = 5 := by
    simp [Residual, ControlVector.dot, Fin.sum_univ_two]
    norm_num
  have hg0 : cgGuard ({ defaultParams ratSqrt with linear_maxiter_ := 1 } : Params ℚ)
      (Residual (![2, 1] : ControlVector ℚ 2) ![2, 1])
      (cgInit ![2, 1] ![2, 1] World.start) = true := by
    simp only [cgGuard, Bool.and_eq_true, decide_eq_true_eq]
    refine ⟨cgThreshold_le _ (by rw [hres]; norm_num), ?_⟩
    show (1 / 10 ^ 12 : ℚ) * (1 / 10 ^ 12) ≤ Residual ![2, 1] ![2, 1]
    rw [hres]
    norm_num
  have hg1 : cgGuard ({ defaultParams ratSqrt with linear_maxiter_ := 1 } : Params ℚ)
      (Residual (![2, 1] : ControlVector ℚ 2) ![2, 1])
      (⟨1, ![-10 / 3, -5 / 3], ![-4 / 3, 8 / 3], ![-4 / 3, 8 / 3], ![-20 / 9, -40 / 9],
        80 / 9, World.start⟩ : CGState ℚ 2 Unit) = true := by
    simp only [cgGuard, Bool.and_eq_true, decide_eq_true_eq]
    constructor
    · refine le_trans (cgThreshold_le _ (by rw [hres]; norm_num)) ?_
      rw [hres]
      norm_num
    · show (1 / 10 ^ 12 : ℚ) * (1 / 10 ^ 12) ≤ 80 / 9
      norm_num
  have hb0 : cgBody saddleModel { defaultParams ratSqrt with linear_maxiter_ := 1 } ![0, 0]
      ![2, 1] ![2, 1] (Residual ![2, 1] ![2, 1]) (cgInit ![2, 1] ![2, 1] World.start) =
      .ok ⟨1, ![-10 / 3, -5 / 3], ![-4 / 3, 8 / 3], ![-4 / 3, 8 / 3], ![-20 / 9, -40 / 9],
        80 / 9, World.start⟩ := by
    rw [← cgBody_saddleModel_first]
    unfold cgBody
    dsimp only
    rw [if_neg (by simp [cgInit]), if_neg (by simp [cgInit, defaultParams])]
    rfl
  rw [cg_eq_loop saddleModel _ ![0, 0] ![2, 1] ![2, 1] World.start (by rw [hres]; norm_num),
    whileLoop_raised_of_runs (1 + 1) (by omega : 1 < _)
      (show Runs _ _ 1 _ _ from ⟨hg0, _, hb0, rfl⟩) hg1
      (cgBody_exceeded saddleModel _ ![0, 0] ![2, 1] ![2, 1] _ _ (by decide))]

/-- Claim C12, witness: on the model with the indefinite matrix `diag(1, -1)` with
`linear_maxiter_ = 1`, in the first step of `Solve` from `q = (0, 0)` (gradient
`(2, 1)`), the linear solver ends with the iteration exception after one
iteration; `Solve` goes on with `liniter = -1` and the handler call on the log,
the direction for the line search is the truncated iterate `(-10/3, -5/3)`, and
the line search step takes its `q` and `cost` from the call of
`ReducedNewtonLineSearch` with this direction: the full step to
`q = (-10/3, -5/3)` with cost `-25/6` is accepted without backtracking. -/
theorem C12_iteration_exceeded_recovery_witness :
    (SolveReducedLinearSystem saddleModel { defaultParams ratSqrt with linear_maxiter_ := 1 }
        ![0, 0] ![2, 1] ![2, 1] World.start).status = .threw .Iteration ∧
    ∃ st1 st2 : SolveState ℚ 2 Unit,
      solveDirection saddleModel { defaultParams ratSqrt with linear_maxiter_ := 1 }
        ⟨1, ![0, 0], Dbl.fin 0, ![0, 0], ![2, 1], ![2, 1], 5, 0, 0, World.start⟩ = .ok st1 ∧
      st1.liniter = -1 ∧
      st1.w.log = [Event.HandleException .Iteration] ∧
      solveDescent ![2, 1] ![2, 1] st1.dq = ![-10 / 3, -5 / 3] ∧
      solveLineSearch saddleModel { defaultParams ratSqrt with linear_maxiter_ := 1 } st1 =
        .ok st2 ∧
      st2.dq = ![-10 / 3, -5 / 3] ∧
      st2.q = (ReducedNewtonLineSearch saddleModel
        { defaultParams ratSqrt with linear_maxiter_ := 1 }
        ![-10 / 3, -5 / 3] st1.gradient st1.cost st1.q st1.w).q ∧
      st2.q = ![-10 / 3, -5 / 3] ∧ st2.cost = Dbl.fin (-25 / 6) ∧ st2.lineiter = 0 := by
  have hs : (SolveReducedLinearSystem saddleModel
      { defaultParams ratSqrt with linear_maxiter_ := 1 } ![0, 0] ![2, 1] ![2, 1]
      World.start).status = .threw .Iteration := by rw [cg_saddleModel_truncated]
  obtain ⟨st1, h1, h2, h3, h4, hq, hcost, hgr, hgt, htie⟩ :=
    C12_iteration_exceeded_recovery saddleModel
      { defaultParams ratSqrt with linear_maxiter_ := 1 }
      ⟨1, ![0, 0], Dbl.fin 0, ![0, 0], ![2, 1], ![2, 1], 5, 0, 0, World.start⟩ hs
  dsimp only at h4 hq hcost hgr hgt
  rw [cg_saddleModel_truncated] at h4
  have hnorm : ControlVector.NormInfty (![-10 / 3, -5 / 3] : ControlVector ℚ 2) = 10 / 3 := by
    simp [ControlVector.NormInfty, List.ofFn_succ, abs_div]
    norm_num
  have hgn : ControlVector.NormInfty (![2, 1] : ControlVector ℚ 2) = 2 := by
    simp [ControlVector.NormInfty, List.ofFn_succ]
  have hcond : ¬ (ControlVector.NormInfty (![-10 / 3, -5 / 3] : ControlVector ℚ 2) >
      10000 * ControlVector.NormInfty (![2, 1] : ControlVector ℚ 2) ∨
      ControlVector.dot (![2, 1] : ControlVector ℚ 2) ![-10 / 3, -5 / 3] > 0) := by
    rw [hnorm, hgn]
    simp [ControlVector.dot, Fin.sum_univ_two]
    norm_num
  rw [if_neg hcond] at h4
  have hL : ReducedNewtonLineSearch saddleModel
      { defaultParams ratSqrt with linear_maxiter_ := 1 } ![-10 / 3, -5 / 3]
      st1.gradient st1.cost st1.q st1.w =
      ⟨.returned 0, Dbl.fin (-25 / 6), ![-10 / 3, -5 / 3], st1.w⟩ := by
    rw [hgr, hcost, hq]
    exact lineSearch_saddleModel_origin _ _ rfl rfl
  have hex : ∃ st2, solveLineSearch saddleModel
      { defaultParams ratSqrt with linear_maxiter_ := 1 } st1 = .ok st2 := by
    unfold solveLineSearch
    dsimp only
    rw [hgt]
    nth_rewrite 1 [hgr]
    rw [h4, hL]
    exact ⟨_, rfl⟩
  obtain ⟨st2, hst2⟩ := hex
  have key := (htie _ rfl).1 st2 hst2
  dsimp only at key
  rw [h4] at key
  have hq2 := key.2.1
  have hc2 := key.2.2.1
  have hk2 := key.2.2.2
  rw [hL] at hc2 hk2
  refine ⟨hs, st1, st2, h1, h2, ?_, h4, hst2, key.1, hq2, ?_, hc2, ?_⟩
  · rw [h3]
    show ((SolveReducedLinearSystem saddleModel
      { defaultParams ratSqrt with linear_maxiter_ := 1 } ![0, 0] ![2, 1] ![2, 1]
      World.start).w.HandleException .Iteration).log = _
    rw [cg_saddleModel_truncated]
    rfl
  · rw [hq2, hL]
  · rcases hk2 with ⟨k, hk, hi, _⟩ | ⟨hk, _⟩
    · rw [hi, ← Status.returned.inj hk]
      rfl
    · cases hk

end DirectionClaimsIteration


/-! ## The line search for a cost that is a function of the control -/

section PureCost

variable {K : Type} [LinearOrderedField K] {n : Nat} {S : Type}

/-- The trial points for a cost evaluation that never throws, has no hidden state
and gives finite values `f q`. -/
theorem lineTrial_pure (P : ReducedProblem K n S) (f : ControlVector K n → K)
    (hP : ∀ s q, P.ComputeReducedCostFunctional s q = (some (Dbl.fin (f q)), s))
    (prm : Params K) (dq q : ControlVector K n) (w : World S) (j : Nat) :
    lineTrial P prm dq q w j =
      ⟨j, prm.lineasearch_rho_ ^ j, ControlVector.add q (prm.lineasearch_rho_ ^ j) dq,
        Dbl.fin (f (ControlVector.add q (prm.lineasearch_rho_ ^ j) dq)), false, w⟩ := by
  have hw : lineWorld P prm dq q w j = w := by
    cases j with
    | zero => rfl
    | succ j =>
      show (lineTrial P prm dq q w j).w = w
      induction j with
      | zero =>
        show (lineEval P 0 1 (ControlVector.plus q dq) (Dbl.fin 0) w).w = w
        rw [(lineEval_outcome P 0 1 (ControlVector.plus q dq) (Dbl.fin 0) w).2.2.2, hP]
        rfl
      | succ j ih =>
        show (lineEval P _ _ _ _ _).w = w
        rw [(lineEval_outcome P _ _ _ _ _).2.2.2, hP, ih]
        rfl
  obtain ⟨c, hc⟩ := lineTrial_eval P prm dq q w j
  rw [hc, hw]
  unfold lineEval
  rw [hP]
  rfl

/-- The guard of the line search at a trial point, for such a cost and a finite
cost on entry. -/
theorem lineGuard_pure (P : ReducedProblem K n S) (f : ControlVector K n → K)
    (hP : ∀ s q, P.ComputeReducedCostFunctional s q = (some (Dbl.fin (f q)), s))
    (prm : Params K) (dq q : ControlVector K n) (w : World S) (cost reduction : K) (j : Nat) :
    lineGuard prm (Dbl.fin cost) reduction (lineTrial P prm dq q w j) =
      decide (f (ControlVector.add q (prm.lineasearch_rho_ ^ j) dq) ≥
        cost + prm.linesearch_c_ * prm.lineasearch_rho_ ^ j * reduction) := by
  rw [lineTrial_pure P f hP]
  simp [lineGuard, Dbl.isinf, Dbl.isnan, Dbl.add, Dbl.ge]

end PureCost


/-! ## Test runs of the line search -/

section LineSearchRuns

/-- The line search for `f(q) = q^2`, entered at `q = -1` (cost `1`, gradient `-2`)
with `dq = 4` and the default parameters: the guard holds at all five trial points,
so the search ends with the iteration exception at the last one. -/
theorem lineSearch_square_exceeded :
    (∀ j, j ≤ 4 →
      lineGuard (defaultParams ratSqrt) (Dbl.fin 1)
        (lineReduction (defaultParams ratSqrt) (![4] : ControlVector ℚ 1) ![-2] (Dbl.fin 1))
        (lineTrial (quadProblem (1 : ℚ)) (defaultParams ratSqrt) ![4] ![-1] World.start j) =
        true) ∧
    ReducedNewtonLineSearch (quadProblem (1 : ℚ)) (defaultParams ratSqrt) ![4] ![-2]
        (Dbl.fin 1) ![-1] World.start =
      ⟨.threw .Iteration,
        Dbl.fin (1 * ControlVector.dot (ControlVector.add ![-1] ((9 / 10) ^ 4) ![4])
          (ControlVector.add ![-1] ((9 / 10) ^ 4) ![4])),
        ControlVector.add ![-1] ((9 / 10) ^ 4) ![4], World.start⟩ := by
  have hP : ∀ (s : Unit) (q : ControlVector ℚ 1),
      (quadProblem (1 : ℚ)).ComputeReducedCostFunctional s q =
        (some (Dbl.fin ((fun q => 1 * ControlVector.dot q q) q)), s) := fun _ _ => rfl
  have hred : lineReduction (defaultParams ratSqrt) (![4] : ControlVector ℚ 1) ![-2]
      (Dbl.fin 1) = -8 := by
    simp only [lineReduction, ControlVector.dot, defaultParams, Dbl.lt, Dbl.mul]
    norm_num
  have hall : ∀ j, j ≤ 4 →
      lineGuard (defaultParams ratSqrt) (Dbl.fin 1)
        (lineReduction (defaultParams ratSqrt) (![4] : ControlVector ℚ 1) ![-2] (Dbl.fin 1))
        (lineTrial (quadProblem (1 : ℚ)) (defaultParams ratSqrt) ![4] ![-1] World.start j) =
        true := by
    intro j hj
    rw [hred, lineGuard_pure _ _ hP]
    interval_cases j <;>
      simp [defaultParams, ControlVector.dot, ControlVector.add] <;> norm_num
  refine ⟨hall, ?_⟩
  rw [lineSearch_exceed _ _ _ _ _ _ _ (by simp [defaultParams]) hall, lineTrial_pure _ _ hP]
  rfl

end LineSearchRuns


section LineSearchInSolve

variable {K : Type} [LinearOrderedField K] {n : Nat} {S : Type}

/-- An exception of the body of the loop of `Solve` is the result of `Solve`. -/
theorem Solve_raised {P : ReducedProblem K n S} {prm : Params K} {q : ControlVector K n}
    {global_tol : K} {w : World S} {st0 sk : SolveState K n S} {k : Nat}
    {r : SolveResult K n S}
    (h0 : solveInit P prm q w = .ok st0) (hres : 0 ≤ st0.res)
    (hr : Runs (solveGuard prm (max prm.nonlinear_global_tol_ global_tol) st0.res
      (if global_tol > 0 then 1 else 0)) (solveBody P prm) k st0 sk)
    (hg : solveGuard prm (max prm.nonlinear_global_tol_ global_tol) st0.res
      (if global_tol > 0 then 1 else 0) sk = true)
    (hb : solveBody P prm sk = .error r) :
    Solve P prm q global_tol w = r := by
  have hit := solve_runs_iter hr
  have h00 := (solveInit_ok h0).1
  rw [Solve_of_init h0 hres,
    whileLoop_raised_of_runs (prm.nonlinear_maxiter_ + 1) (by omega) hr hg hb]

theorem solveBody_lineSearch_error {P : ReducedProblem K n S} {prm : Params K}
    {st st1 : SolveState K n S} {r : SolveResult K n S}
    (hle : st.iter + 1 ≤ prm.nonlinear_maxiter_)
    (h1 : solveDirection P prm { st with iter := st.iter + 1 } = .ok st1)
    (h2 : solveLineSearch P prm st1 = .error r) :
    solveBody P prm st = .error r := by
  unfold solveBody
  dsimp only
  rw [if_neg (by omega), h1]
  dsimp only
  rw [h2]

/-- The handler of the iteration exception of the line search in `Solve`. -/
theorem solveLineSearch_iteration (P : ReducedProblem K n S) (prm : Params K)
    (st : SolveState K n S)
    (hs : (ReducedNewtonLineSearch P prm
      (solveDescent st.gradient st.gradient_transposed st.dq) st.gradient st.cost st.q
      st.w).status = .threw .Iteration) :
    solveLineSearch P prm st =
      .ok { st with
        dq := solveDescent st.gradient st.gradient_transposed st.dq,
        cost := (ReducedNewtonLineSearch P prm
          (solveDescent st.gradient st.gradient_transposed st.dq) st.gradient st.cost st.q
          st.w).cost,
        q := (ReducedNewtonLineSearch P prm
          (solveDescent st.gradient st.gradient_transposed st.dq) st.gradient st.cost st.q
          st.w).q,
        lineiter := -1,
        w := (ReducedNewtonLineSearch P prm
          (solveDescent st.gradient st.gradient_transposed st.dq) st.gradient st.cost st.q
          st.w).w.HandleException .Iteration } := by
  unfold solveLineSearch
  dsimp only
  rw [hs]

/-- A generic exception of the line search is not caught in `Solve`. -/
theorem solveLineSearch_generic (P : ReducedProblem K n S) (prm : Params K)
    (st : SolveState K n S)
    (hs : (ReducedNewtonLineSearch P prm
      (solveDescent st.gradient st.gradient_transposed st.dq) st.gradient st.cost st.q
      st.w).status = .threw .Generic) :
    solveLineSearch P prm st =
      .error ⟨.threw .Generic, { st with
        dq := solveDescent st.gradient st.gradient_transposed st.dq,
        cost := (ReducedNewtonLineSearch P prm
          (solveDescent st.gradient st.gradient_transposed st.dq) st.gradient st.cost st.q
          st.w).cost,
        q := (ReducedNewtonLineSearch P prm
          (solveDescent st.gradient st.gradient_transposed st.dq) st.gradient st.cost st.q
          st.w).q,
        w := (ReducedNewtonLineSearch P prm
          (solveDescent st.gradient st.gradient_transposed st.dq) st.gradient st.cost st.q
          st.w).w }⟩ := by
  unfold solveLineSearch
  dsimp only
  rw [hs]

/-- What the line search leaves behind when it ends with an exception: the state
at trial point `line_maxiter_`, with the generic exception and the cost of the
entry when the last evaluation threw, with the iteration exception and the last
evaluated cost otherwise. -/
theorem lineSearch_threw {P : ReducedProblem K n S} {prm : Params K}
    {dq gradient : ControlVector K n} {cost : Dbl K} {q : ControlVector K n} {w : World S}
    {e : Exn} (h : (ReducedNewtonLineSearch P prm dq gradient cost q w).status = .threw e) :
    (ReducedNewtonLineSearch P prm dq gradient cost q w).q =
        ControlVector.add q (prm.lineasearch_rho_ ^ prm.line_maxiter_) dq ∧
      ((P.ComputeReducedCostFunctional (lineWorld P prm dq q w prm.line_maxiter_).s
          (ControlVector.add q (prm.lineasearch_rho_ ^ prm.line_maxiter_) dq)).1 = none →
        e = .Generic ∧ (ReducedNewtonLineSearch P prm dq gradient cost q w).cost = cost) ∧
      (∀ v, (P.ComputeReducedCostFunctional (lineWorld P prm dq q w prm.line_maxiter_).s
          (ControlVector.add q (prm.lineasearch_rho_ ^ prm.line_maxiter_) dq)).1 = some v →
        e = .Iteration ∧ (ReducedNewtonLineSearch P prm dq gradient cost q w).cost = v) := by
  obtain ⟨hmax, hall⟩ := lineSearch_threw_trial h
  have hex := lineSearch_exceed P prm dq gradient cost q w hmax hall
  have hout := lineTrial_outcome P prm dq q w prm.line_maxiter_
  have hf := lineTrial_fields P prm dq q w prm.line_maxiter_
  by_cases hforce : (lineTrial P prm dq q w prm.line_maxiter_).force_linesearch = true
  · rw [if_pos hforce] at hex
    rw [hex] at h ⊢
    cases h
    refine ⟨hf.2.2, fun _ => ⟨rfl, rfl⟩, ?_⟩
    intro v hv
    rw [hout.1.mp hforce] at hv
    cases hv
  · rw [if_neg hforce] at hex
    rw [hex] at h ⊢
    cases h
    refine ⟨hf.2.2, fun hn => absurd (hout.1.mpr hn) hforce, ?_⟩
    intro v hv
    exact ⟨rfl, hout.2 v hv⟩

end LineSearchInSolve


/-! ## The claims about the iteration limit of the line search -/

section LineSearchLimitClaims

variable {K : Type} [LinearOrderedField K] {n : Nat} {S : Type}

/-- The line search on the cost that throws for `q < 0`, entered at `q = 0` with
`dq = -1`: every trial point is negative, every evaluation throws, and the search
ends with the generic exception, the cost being the one of the entry. -/
theorem lineSearch_partial_fatal :
    ReducedNewtonLineSearch partialProblem (defaultParams ratSqrt) ![-1] ![0] (Dbl.fin 0) ![0]
        World.start =
      ⟨.threw .Generic, Dbl.fin 0, ControlVector.add ![0] ((9 / 10) ^ 4) ![-1], World.start⟩ := by
  have hnone : ∀ j, j ≤ 4 → ∀ s : Unit,
      (partialProblem.ComputeReducedCostFunctional s
        (ControlVector.add (![0] : ControlVector ℚ 1)
          ((defaultParams ratSqrt).lineasearch_rho_ ^ j) ![-1])).1 = none := by
    intro j hj s
    interval_cases j <;> simp [partialProblem, ControlVector.add, defaultParams]
  have hall : ∀ j, j ≤ (defaultParams ratSqrt).line_maxiter_ →
      lineGuard (defaultParams ratSqrt) (Dbl.fin 0)
        (lineReduction (defaultParams ratSqrt) (![-1] : ControlVector ℚ 1) ![0] (Dbl.fin 0))
        (lineTrial partialProblem (defaultParams ratSqrt) ![-1] ![0] World.start j) = true := by
    intro j hj
    rw [lineTrial_guard, hnone j hj]
    rfl
  have hforce : (lineTrial partialProblem (defaultParams ratSqrt) ![-1] ![0] World.start
      (defaultParams ratSqrt).line_maxiter_).force_linesearch = true :=
    (lineTrial_outcome partialProblem (defaultParams ratSqrt) ![-1] ![0] World.start _).1.mpr
      (hnone 4 (le_refl _) _)
  have hlog := lineTrial_log partialProblem (defaultParams ratSqrt) ![-1] ![0] World.start
    (defaultParams ratSqrt).line_maxiter_
  have hw : (lineTrial partialProblem (defaultParams ratSqrt) ![-1] ![0] World.start
      (defaultParams ratSqrt).line_maxiter_).w = World.start := by
    rcases hw' : (lineTrial partialProblem (defaultParams ratSqrt) ![-1] ![0] World.start
      (defaultParams ratSqrt).line_maxiter_).w with ⟨s, l⟩
    rw [hw'] at hlog
    cases hlog
    rfl
  rw [lineSearch_exceed _ _ _ _ _ _ _ (by simp [defaultParams]) hall, if_pos hforce, hw,
    (lineTrial_fields partialProblem (defaultParams ratSqrt) ![-1] ![0] World.start _).2.2]
  rfl

/-- Claim C13.  The line search needs more than `line_maxiter_` backtracking
steps when `line_maxiter_ > 0` and none of the evaluations at the trial points
`q + rho^j * dq`, `j = 0, ..., line_maxiter_`, ends the backtracking; it then ends
with an exception, and every exception of the line search comes about in this
way.  Let it end with the exception `e`.  If the most recent evaluation of the cost,
the one at trial point `line_maxiter_`, threw, then `e` is the plain (generic)
exception and `cost` is left as on entry; if it gave a value `v`, then `e` is the
iteration exception and `cost` is `v`.  In `Solve` (for every state `st` from
which the line search is called with these arguments) the iteration exception
goes to `HandleException` and the step goes on with `lineiter = -1`, whereas the
generic exception is not caught: no handler is called, the step ends with it, and
when the step belongs to a run of `Solve`, it is the result of `Solve`. -/
theorem C13_lineSearch_exceeded (P : ReducedProblem K n S) (prm : Params K)
    (dq gradient : ControlVector K n) (cost : Dbl K) (q : ControlVector K n) (w : World S)
    (e : Exn)
    (h : (ReducedNewtonLineSearch P prm dq gradient cost q w).status = .threw e) :
    (0 < prm.line_maxiter_ ∧
      ∀ j, j ≤ prm.line_maxiter_ →
        lineAccepts prm cost (lineReduction prm dq gradient cost) (prm.lineasearch_rho_ ^ j)
          (P.ComputeReducedCostFunctional (lineWorld P prm dq q w j).s
            (ControlVector.add q (prm.lineasearch_rho_ ^ j) dq)).1 = false) ∧
    (∀ (dq1 gradient1 : ControlVector K n) (cost1 : Dbl K) (q1 : ControlVector K n)
      (w1 : World S), 0 < prm.line_maxiter_ →
      (∀ j, j ≤ prm.line_maxiter_ →
        lineAccepts prm cost1 (lineReduction prm dq1 gradient1 cost1)
          (prm.lineasearch_rho_ ^ j)
          (P.ComputeReducedCostFunctional (lineWorld P prm dq1 q1 w1 j).s
            (ControlVector.add q1 (prm.lineasearch_rho_ ^ j) dq1)).1 = false) →
      ∃ e1, (ReducedNewtonLineSearch P prm dq1 gradient1 cost1 q1 w1).status = .threw e1) ∧
    ((P.ComputeReducedCostFunctional (lineWorld P prm dq q w prm.line_maxiter_).s
        (ControlVector.add q (prm.lineasearch_rho_ ^ prm.line_maxiter_) dq)).1 = none →
      e = .Generic ∧ (ReducedNewtonLineSearch P prm dq gradient cost q w).cost = cost) ∧
    (∀ v, (P.ComputeReducedCostFunctional (lineWorld P prm dq q w prm.line_maxiter_).s
        (ControlVector.add q (prm.lineasearch_rho_ ^ prm.line_maxiter_) dq)).1 = some v →
      e = .Iteration ∧ (ReducedNewtonLineSearch P prm dq gradient cost q w).cost = v) ∧
    (∀ st : SolveState K n S,
      solveDescent st.gradient st.gradient_transposed st.dq = dq → st.gradient = gradient →
      st.cost = cost → st.q = q → st.w = w →
      (e = .Iteration →
        ∃ st' : SolveState K n S, solveLineSearch P prm st = .ok st' ∧ st'.lineiter = -1 ∧
          st'.w.log = Event.HandleException .Iteration :: w.log) ∧
      (e = .Generic →
        ∃ r : SolveResult K n S, solveLineSearch P prm st = .error r ∧
          r.status = .threw .Generic ∧ r.st.w.log = w.log ∧
          ∀ (q0 : ControlVector K n) (global_tol : K) (w0 : World S)
            (st0 sk : SolveState K n S) (k : Nat),
            solveInit P prm q0 w0 = .ok st0 → 0 ≤ st0.res →
            Runs (solveGuard prm (max prm.nonlinear_global_tol_ global_tol) st0.res
              (if global_tol > 0 then 1 else 0)) (solveBody P prm) k st0 sk →
            solveGuard prm (max prm.nonlinear_global_tol_ global_tol) st0.res
              (if global_tol > 0 then 1 else 0) sk = true →
            sk.iter + 1 ≤ prm.nonlinear_maxiter_ →
            solveDirection P prm { sk with iter := sk.iter + 1 } = .ok st →
            Solve P prm q0 global_tol w0 = r)) := by
  obtain ⟨hmax, hall⟩ := lineSearch_threw_trial h
  have ht := lineSearch_threw h
  refine ⟨⟨hmax, ?_⟩, ?_, ht.2.1, ht.2.2, ?_⟩
  · intro j hj
    have hg := hall j hj
    rw [lineTrial_guard] at hg
    simpa using hg
  · intro dq1 gradient1 cost1 q1 w1 hmax1 hall1
    have hg : ∀ j, j ≤ prm.line_maxiter_ →
        lineGuard prm cost1 (lineReduction prm dq1 gradient1 cost1)
          (lineTrial P prm dq1 q1 w1 j) = true := by
      intro j hj
      rw [lineTrial_guard, hall1 j hj]
      rfl
    rw [lineSearch_exceed P prm dq1 gradient1 cost1 q1 w1 hmax1 hg]
    split
    · exact ⟨_, rfl⟩
    · exact ⟨_, rfl⟩
  · intro st hdq hgr hco hq hw
    subst hdq hgr hco hq hw
    have hlog := lineSearch_log P prm (solveDescent st.gradient st.gradient_transposed st.dq)
      st.gradient st.cost st.q st.w
    constructor
    · intro he
      subst he
      refine ⟨_, solveLineSearch_iteration P prm st h, rfl, ?_⟩
      show Event.HandleException .Iteration :: _ = _
      rw [hlog]
    · intro he
      subst he
      refine ⟨_, solveLineSearch_generic P prm st h, rfl, hlog, ?_⟩
      intro q0 global_tol w0 st0 sk k h0 hres hr hg hle h1
      exact Solve_raised h0 hres hr hg
        (solveBody_lineSearch_error hle h1 (solveLineSearch_generic P prm st h))

/-- Claim C13, witness.  For `f(q) = q^2`, entered at `q = -1` (cost `1`, gradient
`-2`) with `dq = 4`, the line search ends with the iteration exception and `cost`
is the cost at the last trial point.  For the cost that throws for `q < 0`,
entered at `q = 0` with `dq = -1`, it ends with the generic exception and `cost`
is left at `0`. -/
theorem C13_lineSearch_exceeded_witness :
    ((ReducedNewtonLineSearch (quadProblem (1 : ℚ)) (defaultParams ratSqrt) ![4] ![-2]
        (Dbl.fin 1) ![-1] World.start).status = .threw .Iteration ∧
      (ReducedNewtonLineSearch (quadProblem (1 : ℚ)) (defaultParams ratSqrt) ![4] ![-2]
        (Dbl.fin 1) ![-1] World.start).cost =
        Dbl.fin (1 * ControlVector.dot (ControlVector.add ![-1] ((9 / 10) ^ 4) ![4])
          (ControlVector.add ![-1] ((9 / 10) ^ 4) ![4]))) ∧
    ((ReducedNewtonLineSearch partialProblem (defaultParams ratSqrt) ![-1] ![0] (Dbl.fin 0)
        ![0] World.start).status = .threw .Generic ∧
      (ReducedNewtonLineSearch partialProblem (defaultParams ratSqrt) ![-1] ![0] (Dbl.fin 0)
        ![0] World.start).cost = Dbl.fin 0) := by
  have h1 : (ReducedNewtonLineSearch (quadProblem (1 : ℚ)) (defaultParams ratSqrt) ![4] ![-2]
      (Dbl.fin 1) ![-1] World.start).status = .threw .Iteration := by
    rw [lineSearch_square_exceeded.2]
  have h2 : (ReducedNewtonLineSearch partialProblem (defaultParams ratSqrt) ![-1] ![0]
      (Dbl.fin 0) ![0] World.start).status = .threw .Generic := by
    rw [lineSearch_partial_fatal]
  have c1 := C13_lineSearch_exceeded (quadProblem (1 : ℚ)) (defaultParams ratSqrt) ![4] ![-2]
    (Dbl.fin 1) ![-1] World.start .Iteration h1
  have c2 := C13_lineSearch_exceeded partialProblem (defaultParams ratSqrt) ![-1] ![0]
    (Dbl.fin 0) ![0] World.start .Generic h2
  refine ⟨⟨h1, (c1.2.2.2.1 _ rfl).2⟩, h2, (c2.2.2.1 ?_).2⟩
  simp [partialProblem, ControlVector.add, defaultParams]

end LineSearchLimitClaims


section LinearSolverPoint

variable {K : Type} [LinearOrderedField K] {n : Nat} {S : Type}

/-- The linear solver uses the Hessian-vector product of the reduced problem at
the point `q` only. -/
theorem cg_congr (P P' : ReducedProblem K n S) (prm : Params K)
    (q gradient gradient_transposed : ControlVector K n) (w : World S)
    (h : ∀ s d, P.ComputeReducedHessianVector s q d = P'.ComputeReducedHessianVector s q d) :
    SolveReducedLinearSystem P prm q gradient gradient_transposed w =
      SolveReducedLinearSystem P' prm q gradient gradient_transposed w := by
  have hb : cgBody P prm q gradient gradient_transposed =
      cgBody P' prm q gradient gradient_transposed := by
    funext firstres st
    simp only [cgBody, h]
  unfold SolveReducedLinearSystem
  rw [hb]

end LinearSolverPoint

section BumpRuns

/-- The linear solver on `bumpProblem` at `q = 0` with the gradient `-1/100`: one
iteration, which gives the Newton direction `dq = 1`. -/
theorem cg_bumpProblem :
    SolveReducedLinearSystem bumpProblem (defaultParams ratSqrt) ![0] ![-1 / 100] ![-1 / 100]
        World.start = ⟨.returned 1, ![1], World.start⟩ := by
  have hH : ∀ (s : Unit) (d : ControlVector ℚ 1),
      bumpProblem.ComputeReducedHessianVector s ![0] d =
        (quadProblem (1 / 200 : ℚ)).ComputeReducedHessianVector s ![0] d := by
    intro s d
    have hv : (![(1 / 100 : ℚ) * d 0] : ControlVector ℚ 1) =
        ControlVector.equ (2 * (1 / 200)) d := by
      funext i
      fin_cases i
      simp [ControlVector.equ]
      norm_num
    simp only [bumpProblem, quadProblem, Matrix.cons_val_zero]
    norm_num [hv]
  have hdq : ControlVector.add (ControlVector.const 0) (1 / (2 * (1 / 200)))
      (ControlVector.equ (-1) (![-1 / 100] : ControlVector ℚ 1)) = ![1] := by
    funext i
    fin_cases i
    simp [ControlVector.add, ControlVector.const, ControlVector.equ]
    norm_num
  rw [cg_congr bumpProblem (quadProblem (1 / 200 : ℚ)) _ _ _ _ _ hH,
    cg_quadProblem (1 / 200 : ℚ) (defaultParams ratSqrt) ![0] ![-1 / 100] World.start
      (by norm_num) (by simp [defaultParams]) (by simp [defaultParams])
      (by simp [defaultParams, ControlVector.dot]; norm_num), hdq]

end BumpRuns

section LineSearchLastPoint

variable {K : Type} [LinearOrderedField K] {n : Nat} {S : Type}

/-- The line search on `bumpProblem`, entered at `q = 0` (cost `0`, gradient
`-1/100`) with the Newton direction `dq = 1` and the default parameters: no trial
point passes the test, the search ends with the iteration exception at the last
one. -/
theorem lineSearch_bumpProblem :
    ReducedNewtonLineSearch bumpProblem (defaultParams ratSqrt) ![1] ![-1 / 100] (Dbl.fin 0)
        ![0] World.start =
      ⟨.threw .Iteration,
        Dbl.fin ((ControlVector.add (![0] : ControlVector ℚ 1) ((9 / 10) ^ 4) ![1]) 0 ^ 3 *
            ((ControlVector.add (![0] : ControlVector ℚ 1) ((9 / 10) ^ 4) ![1]) 0 - 6 / 5) ^ 2 +
          ((ControlVector.add (![0] : ControlVector ℚ 1) ((9 / 10) ^ 4) ![1]) 0 ^ 2 / 2 -
            (ControlVector.add (![0] : ControlVector ℚ 1) ((9 / 10) ^ 4) ![1]) 0) / 100),
        ControlVector.add ![0] ((9 / 10) ^ 4) ![1], World.start⟩ := by
  have hP : ∀ (s : Unit) (q : ControlVector ℚ 1),
      bumpProblem.ComputeReducedCostFunctional s q =
        (some (Dbl.fin ((fun q : ControlVector ℚ 1 =>
          q 0 ^ 3 * (q 0 - 6 / 5) ^ 2 + (q 0 ^ 2 / 2 - q 0) / 100) q)), s) := fun _ _ => rfl
  have hred : lineReduction (defaultParams ratSqrt) (![1] : ControlVector ℚ 1) ![-1 / 100]
      (Dbl.fin 0) = -1 / 100 := by
    simp only [lineReduction, ControlVector.dot, defaultParams, Dbl.lt, Dbl.mul]
    norm_num
  have hall : ∀ j, j ≤ (defaultParams ratSqrt).line_maxiter_ →
      lineGuard (defaultParams ratSqrt) (Dbl.fin 0)
        (lineReduction (defaultParams ratSqrt) (![1] : ControlVector ℚ 1) ![-1 / 100]
          (Dbl.fin 0))
        (lineTrial bumpProblem (defaultParams ratSqrt) ![1] ![0] World.start j) = true := by
    intro j hj
    have hj4 : j ≤ 4 := hj
    rw [hred, lineGuard_pure _ _ hP]
    interval_cases j <;> simp [defaultParams, ControlVector.add] <;> norm_num
  rw [lineSearch_exceed _ _ _ _ _ _ _ (by simp [defaultParams]) hall, lineTrial_pure _ _ hP]
  rfl

/-- Claim C14, counterexample.  On `bumpProblem` at `q = 0` the cost is `0`, the
gradient `-1/100`, and the linear solver returns the Newton direction `dq = 1`.
The line search entered with these values and the default parameters ends with
the iteration exception and leaves the last trial point `q = (9/10)^4` with its
cost `c`; the first trial point `q = 1` was evaluated in that search with the cost
`7/200`, and `7/200 < c`. -/
theorem C14_lineSearch_last_point_counterexample :
    bumpProblem.ComputeReducedCostFunctional () ![0] = (some (Dbl.fin 0), ()) ∧
    bumpProblem.ComputeReducedGradient () ![0] = (some (![-1 / 100], ![-1 / 100]), ()) ∧
    SolveReducedLinearSystem bumpProblem (defaultParams ratSqrt) ![0] ![-1 / 100] ![-1 / 100]
      World.start = ⟨.returned 1, ![1], World.start⟩ ∧
    bumpProblem.ComputeReducedCostFunctional ()
        (ControlVector.add ![0] ((9 / 10) ^ 0) ![1]) = (some (Dbl.fin (7 / 200)), ()) ∧
    ∃ c : ℚ,
      ReducedNewtonLineSearch bumpProblem (defaultParams ratSqrt) ![1] ![-1 / 100] (Dbl.fin 0)
          ![0] World.start =
        ⟨.threw .Iteration, Dbl.fin c, ControlVector.add ![0] ((9 / 10) ^ 4) ![1],
          World.start⟩ ∧
      7 / 200 < c := by
  refine ⟨?_, ?_, cg_bumpProblem, ?_, _, lineSearch_bumpProblem, ?_⟩
  · simp [bumpProblem]
  · simp [bumpProblem]
  · simp [bumpProblem, ControlVector.add]
    norm_num
  · simp [ControlVector.add]
    norm_num

/-- Claim C14 (amended).  When the line search ends with the iteration exception,
the pair it leaves behind is the last trial point and its cost: `q` is
`q + rho^line_maxiter_ * dq`, and `cost` is the value that the evaluation at this
point, the most recent one, gave.  `Solve` (for every state `st` from which the
line search is called with these arguments) goes on with this pair. -/
theorem C14_lineSearch_last_point (P : ReducedProblem K n S) (prm : Params K)
    (dq gradient : ControlVector K n) (cost : Dbl K) (q : ControlVector K n) (w : World S)
    (h : (ReducedNewtonLineSearch P prm dq gradient cost q w).status = .threw .Iteration) :
    (ReducedNewtonLineSearch P prm dq gradient cost q w).q =
        ControlVector.add q (prm.lineasearch_rho_ ^ prm.line_maxiter_) dq ∧
    (P.ComputeReducedCostFunctional (lineWorld P prm dq q w prm.line_maxiter_).s
        (ControlVector.add q (prm.lineasearch_rho_ ^ prm.line_maxiter_) dq)).1 =
      some (ReducedNewtonLineSearch P prm dq gradient cost q w).cost ∧
    (∀ st : SolveState K n S,
      solveDescent st.gradient st.gradient_transposed st.dq = dq → st.gradient = gradient →
      st.cost = cost → st.q = q → st.w = w →
      ∃ st' : SolveState K n S, solveLineSearch P prm st = .ok st' ∧
        st'.q = ControlVector.add q (prm.lineasearch_rho_ ^ prm.line_maxiter_) dq ∧
        st'.cost = (ReducedNewtonLineSearch P prm dq gradient cost q w).cost) := by
  have ht := lineSearch_threw h
  refine ⟨ht.1, ?_, ?_⟩
  · cases ho : (P.ComputeReducedCostFunctional (lineWorld P prm dq q w prm.line_maxiter_).s
        (ControlVector.add q (prm.lineasearch_rho_ ^ prm.line_maxiter_) dq)).1 with
    | none =>
      have := (ht.2.1 ho).1
      cases this
    | some v => rw [(ht.2.2 v ho).2]
  · intro st hdq hgr hco hq hw
    subst hdq hgr hco hq hw
    exact ⟨_, solveLineSearch_iteration P prm st h, ht.1, rfl⟩

/-- Claim C14 (amended), witness: on `bumpProblem` the line search ends with the
iteration exception and leaves the last trial point `0 + (9/10)^4 * 1`. -/
theorem C14_lineSearch_last_point_witness :
    (ReducedNewtonLineSearch bumpProblem (defaultParams ratSqrt) ![1] ![-1 / 100] (Dbl.fin 0)
      ![0] World.start).status = .threw .Iteration ∧
    (ReducedNewtonLineSearch bumpProblem (defaultParams ratSqrt) ![1] ![-1 / 100] (Dbl.fin 0)
      ![0] World.start).q =
      ControlVector.add ![0] ((defaultParams ratSqrt).lineasearch_rho_ ^
        (defaultParams ratSqrt).line_maxiter_) ![1] := by
  have h : (ReducedNewtonLineSearch bumpProblem (defaultParams ratSqrt) ![1] ![-1 / 100]
      (Dbl.fin 0) ![0] World.start).status = .threw .Iteration := by
    rw [lineSearch_bumpProblem]
  exact ⟨h, (C14_lineSearch_last_point bumpProblem (defaultParams ratSqrt) ![1] ![-1 / 100]
    (Dbl.fin 0) ![0] World.start h).1⟩

end LineSearchLastPoint


/-! ## The claims about the value returned by the line search -/

section LineSearchReturnClaims

variable {K : Type} [LinearOrderedField K] {n : Nat} {S : Type}

/-- The line search for `f(q) = q^2`, entered at `q = -1` (cost `1`, gradient `-2`)
with `dq = 4`, `rho = 9/10`, `c = 1/10` and `line_maxiter_ = 8`: the first eight
trial points fail the test, the ninth passes, so `8` is returned. -/
theorem lineSearch_square_accepted :
    ReducedNewtonLineSearch (quadProblem (1 : ℚ))
        { defaultParams ratSqrt with line_maxiter_ := 8 } ![4] ![-2] (Dbl.fin 1) ![-1]
        World.start =
      ⟨.returned 8,
        Dbl.fin (1 * ControlVector.dot (ControlVector.add ![-1] ((9 / 10) ^ 8) ![4])
          (ControlVector.add ![-1] ((9 / 10) ^ 8) ![4])),
        ControlVector.add ![-1] ((9 / 10) ^ 8) ![4], World.start⟩ := by
  have hP : ∀ (s : Unit) (q : ControlVector ℚ 1),
      (quadProblem (1 : ℚ)).ComputeReducedCostFunctional s q =
        (some (Dbl.fin ((fun q => 1 * ControlVector.dot q q) q)), s) := fun _ _ => rfl
  have hred : lineReduction ({ defaultParams ratSqrt with line_maxiter_ := 8 } : Params ℚ)
      (![4] : ControlVector ℚ 1) ![-2] (Dbl.fin 1) = -8 := by
    simp only [lineReduction, ControlVector.dot, defaultParams, Dbl.lt, Dbl.mul]
    norm_num
  have hall : ∀ j, j < 8 →
      lineGuard ({ defaultParams ratSqrt with line_maxiter_ := 8 } : Params ℚ) (Dbl.fin 1)
        (lineReduction ({ defaultParams ratSqrt with line_maxiter_ := 8 } : Params ℚ)
          (![4] : ControlVector ℚ 1) ![-2] (Dbl.fin 1))
        (lineTrial (quadProblem (1 : ℚ)) { defaultParams ratSqrt with line_maxiter_ := 8 }
          ![4] ![-1] World.start j) = true := by
    intro j hj
    rw [hred, lineGuard_pure _ _ hP]
    interval_cases j <;>
      simp [defaultParams, ControlVector.dot, ControlVector.add] <;> norm_num
  have hacc : lineGuard ({ defaultParams ratSqrt with line_maxiter_ := 8 } : Params ℚ)
      (Dbl.fin 1)
      (lineReduction ({ defaultParams ratSqrt with line_maxiter_ := 8 } : Params ℚ)
        (![4] : ControlVector ℚ 1) ![-2] (Dbl.fin 1))
      (lineTrial (quadProblem (1 : ℚ)) { defaultParams ratSqrt with line_maxiter_ := 8 }
        ![4] ![-1] World.start 8) = false := by
    rw [hred, lineGuard_pure _ _ hP]
    simp [defaultParams, ControlVector.dot, ControlVector.add]
    norm_num
  rw [lineSearch_accept _ _ _ _ _ _ _ (by simp) 8 (le_refl _) hall hacc,
    lineTrial_pure _ _ hP]
  rfl

/-- Claim C15.  Let `line_maxiter_ > 0` and let the line search return normally
with the value `k`.  Then `k` is the number of executions of the body of the
backtracking loop, `k ≤ line_maxiter_`, the evaluation of the cost at the trial
point `q + rho^k * dq` succeeded with a value that is finite and passes the
decrease test (`costnew >= cost + c*rho^k*reduction` is false) and that is the
cost returned, and at every earlier trial point `q + rho^j * dq`, `j < k`, the
evaluation threw, or gave a value that is not finite or fails the test: `k` is the
least such `j`.  In particular, if the first trial point fails, then `k ≥ 1`. -/
theorem C15_lineSearch_least_trial (P : ReducedProblem K n S) (prm : Params K)
    (dq gradient : ControlVector K n) (cost : Dbl K) (q : ControlVector K n) (w : World S)
    (k : Nat) (hmax : 0 < prm.line_maxiter_)
    (h : (ReducedNewtonLineSearch P prm dq gradient cost q w).status = .returned k) :
    (∃ st : LineState K n S,
      Runs (lineGuard prm cost (lineReduction prm dq gradient cost)) (lineBody P prm dq cost) k
        (lineInit P dq q w) st ∧
      ReducedNewtonLineSearch P prm dq gradient cost q w =
        ⟨.returned k, st.costnew, st.q, st.w⟩) ∧
    k ≤ prm.line_maxiter_ ∧
    (∃ v : Dbl K,
      (P.ComputeReducedCostFunctional (lineWorld P prm dq q w k).s
        (ControlVector.add q (prm.lineasearch_rho_ ^ k) dq)).1 = some v ∧
      v.isinf = false ∧ v.isnan = false ∧
      Dbl.ge v (Dbl.add cost (Dbl.fin (prm.linesearch_c_ * prm.lineasearch_rho_ ^ k *
        lineReduction prm dq gradient cost))) = false ∧
      (ReducedNewtonLineSearch P prm dq gradient cost q w).cost = v) ∧
    lineAccepts prm cost (lineReduction prm dq gradient cost) (prm.lineasearch_rho_ ^ k)
      (P.ComputeReducedCostFunctional (lineWorld P prm dq q w k).s
        (ControlVector.add q (prm.lineasearch_rho_ ^ k) dq)).1 = true ∧
    (∀ j, j < k →
      lineAccepts prm cost (lineReduction prm dq gradient cost) (prm.lineasearch_rho_ ^ j)
        (P.ComputeReducedCostFunctional (lineWorld P prm dq q w j).s
          (ControlVector.add q (prm.lineasearch_rho_ ^ j) dq)).1 = false) ∧
    (lineAccepts prm cost (lineReduction prm dq gradient cost) (prm.lineasearch_rho_ ^ 0)
        (P.ComputeReducedCostFunctional (lineWorld P prm dq q w 0).s
          (ControlVector.add q (prm.lineasearch_rho_ ^ 0) dq)).1 = false → 1 ≤ k) := by
  obtain ⟨st, hr, _, _, _, heq⟩ := lineSearch_returned hmax h
  obtain ⟨hk, hall, hacc, heq2⟩ := lineSearch_returned_trial hmax h
  have hacc2 : lineAccepts prm cost (lineReduction prm dq gradient cost)
      (prm.lineasearch_rho_ ^ k)
      (P.ComputeReducedCostFunctional (lineWorld P prm dq q w k).s
        (ControlVector.add q (prm.lineasearch_rho_ ^ k) dq)).1 = true := by
    rw [lineTrial_guard] at hacc
    simpa using hacc
  have hfail : ∀ j, j < k →
      lineAccepts prm cost (lineReduction prm dq gradient cost) (prm.lineasearch_rho_ ^ j)
        (P.ComputeReducedCostFunctional (lineWorld P prm dq q w j).s
          (ControlVector.add q (prm.lineasearch_rho_ ^ j) dq)).1 = false := by
    intro j hj
    have hg := hall j hj
    rw [lineTrial_guard] at hg
    simpa using hg
  refine ⟨⟨st, hr, heq⟩, hk, ?_, hacc2, hfail, ?_⟩
  · cases ho : (P.ComputeReducedCostFunctional (lineWorld P prm dq q w k).s
        (ControlVector.add q (prm.lineasearch_rho_ ^ k) dq)).1 with
    | none =>
      rw [ho] at hacc2
      cases hacc2
    | some v =>
      rw [ho] at hacc2
      simp only [lineAccepts, Bool.not_eq_true', Bool.or_eq_false_iff] at hacc2
      refine ⟨v, rfl, hacc2.1.1, hacc2.1.2, hacc2.2, ?_⟩
      rw [heq2]
      exact (lineTrial_outcome P prm dq q w k).2 v ho
  · intro h0
    rcases Nat.eq_zero_or_pos k with hz | hpos
    · subst hz
      rw [h0] at hacc2
      cases hacc2
    · exact hpos

/-- Claim C15, witness: `f(q) = q^2`, entered at `q = -1` (cost `1`, gradient
`-2`) with `dq = 4`, `rho = 9/10`, `c = 1/10`.  The first trial point `q = 3` with
cost `9` fails the test; with `line_maxiter_ = 8` the search returns `8`, and the
eight earlier trial points failed. -/
theorem C15_lineSearch_least_trial_witness :
    (ReducedNewtonLineSearch (quadProblem (1 : ℚ))
        { defaultParams ratSqrt with line_maxiter_ := 8 } ![4] ![-2] (Dbl.fin 1) ![-1]
        World.start).status = .returned 8 ∧
    (quadProblem (1 : ℚ)).ComputeReducedCostFunctional ()
        (ControlVector.add ![-1] ((9 / 10) ^ 0) ![4]) = (some (Dbl.fin 9), ()) ∧
    ∀ j, j < 8 →
      lineAccepts ({ defaultParams ratSqrt with line_maxiter_ := 8 } : Params ℚ) (Dbl.fin 1)
        (lineReduction ({ defaultParams ratSqrt with line_maxiter_ := 8 } : Params ℚ)
          (![4] : ControlVector ℚ 1) ![-2] (Dbl.fin 1)) ((9 / 10) ^ j)
        ((quadProblem (1 : ℚ)).ComputeReducedCostFunctional ()
          (ControlVector.add ![-1] ((9 / 10) ^ j) ![4])).1 = false := by
  have h : (ReducedNewtonLineSearch (quadProblem (1 : ℚ))
      { defaultParams ratSqrt with line_maxiter_ := 8 } ![4] ![-2] (Dbl.fin 1) ![-1]
      World.start).status = .returned 8 := by rw [lineSearch_square_accepted]
  have c := C15_lineSearch_least_trial (quadProblem (1 : ℚ))
    { defaultParams ratSqrt with line_maxiter_ := 8 } ![4] ![-2] (Dbl.fin 1) ![-1]
    World.start 8 (by simp) h
  refine ⟨h, ?_, c.2.2.2.2.1⟩
  simp [quadProblem, ControlVector.dot, ControlVector.add]
  norm_num

end LineSearchReturnClaims


section LineSearchControlClaims

variable {K : Type} [LinearOrderedField K] {n : Nat} {S : Type}

/-- The control at a normal return of the line search, whatever `line_maxiter_`. -/
theorem lineSearch_returned_q {P : ReducedProblem K n S} {prm : Params K}
    {dq gradient : ControlVector K n} {cost : Dbl K} {q : ControlVector K n} {w : World S}
    {k : Nat} (h : (ReducedNewtonLineSearch P prm dq gradient cost q w).status = .returned k) :
    (ReducedNewtonLineSearch P prm dq gradient cost q w).q =
      ControlVector.add q (prm.lineasearch_rho_ ^ k) dq := by
  by_cases hmax : 0 < prm.line_maxiter_
  · rw [(lineSearch_returned_trial hmax h).2.2.2]
    exact (lineTrial_fields P prm dq q w k).2.2
  · unfold ReducedNewtonLineSearch at h ⊢
    dsimp only at h ⊢
    rw [if_neg hmax] at h ⊢
    have hi := lineInit_fields P dq q w
    have hf := lineTrial_fields P prm dq q w 0
    have hk : k = 0 := by
      cases h
      exact hi.1
    subst hk
    exact hf.2.2

/-- Claim C16.  In `ReducedNewtonLineSearch`, with `q` the control on entry:
the state after `j` backtracking steps has the step length `alpha = rho^j` and the
control `q + rho^j * dq`, and it is the outcome of the evaluation of the cost at
this control (first part, for every run of the loop).  On a normal return with
the value `k` the control is `q + rho^k * dq`, which for `k = 0` is the full step
`q + dq`; when the search ends with an exception, the control is
`q + rho^line_maxiter_ * dq`. -/
theorem C16_lineSearch_control (P : ReducedProblem K n S) (prm : Params K)
    (dq gradient : ControlVector K n) (cost : Dbl K) (q : ControlVector K n) (w : World S) :
    (∀ (j : Nat) (st : LineState K n S),
      Runs (lineGuard prm cost (lineReduction prm dq gradient cost)) (lineBody P prm dq cost) j
        (lineInit P dq q w) st →
      st.alpha = prm.lineasearch_rho_ ^ j ∧
      st.q = ControlVector.add q (prm.lineasearch_rho_ ^ j) dq ∧
      ∃ c : Dbl K, st = lineEval P j (prm.lineasearch_rho_ ^ j)
        (ControlVector.add q (prm.lineasearch_rho_ ^ j) dq) c (lineWorld P prm dq q w j)) ∧
    (∀ k, (ReducedNewtonLineSearch P prm dq gradient cost q w).status = .returned k →
      (ReducedNewtonLineSearch P prm dq gradient cost q w).q =
        ControlVector.add q (prm.lineasearch_rho_ ^ k) dq) ∧
    ((ReducedNewtonLineSearch P prm dq gradient cost q w).status = .returned 0 →
      (ReducedNewtonLineSearch P prm dq gradient cost q w).q = ControlVector.plus q dq) ∧
    (∀ e, (ReducedNewtonLineSearch P prm dq gradient cost q w).status = .threw e →
      (ReducedNewtonLineSearch P prm dq gradient cost q w).q =
        ControlVector.add q (prm.lineasearch_rho_ ^ prm.line_maxiter_) dq) := by
  refine ⟨?_, fun k h => lineSearch_returned_q h, ?_, fun e h => (lineSearch_threw h).1⟩
  · intro j st hr
    obtain ⟨hst, _, _⟩ := runs_lineTrial hr
    have hf := lineTrial_fields P prm dq q w j
    rw [hst]
    exact ⟨hf.2.1, hf.2.2, lineTrial_eval P prm dq q w j⟩
  · intro h
    rw [lineSearch_returned_q h]
    funext i
    simp [ControlVector.plus, ControlVector.add]

/-- Claim C16, witness.  On the cubic test problem the line search returns `0` and
the control is the full step `0 + 1`; for `f(q) = q^2`, entered at `q = -1` with
`dq = 4` and the default parameters, it ends with the iteration exception and the
control is `-1 + (9/10)^4 * 4`. -/
theorem C16_lineSearch_control_witness :
    ((ReducedNewtonLineSearch cubicProblem (defaultParams ratSqrt) ![1] ![-1]
        (Dbl.fin (10 ^ 11)) ![0] World.start).status = .returned 0 ∧
      (ReducedNewtonLineSearch cubicProblem (defaultParams ratSqrt) ![1] ![-1]
        (Dbl.fin (10 ^ 11)) ![0] World.start).q = ControlVector.plus ![0] ![1]) ∧
    ((ReducedNewtonLineSearch (quadProblem (1 : ℚ)) (defaultParams ratSqrt) ![4] ![-2]
        (Dbl.fin 1) ![-1] World.start).status = .threw .Iteration ∧
      (ReducedNewtonLineSearch (quadProblem (1 : ℚ)) (defaultParams ratSqrt) ![4] ![-2]
        (Dbl.fin 1) ![-1] World.start).q =
        ControlVector.add ![-1] ((defaultParams ratSqrt).lineasearch_rho_ ^
          (defaultParams ratSqrt).line_maxiter_) ![4]) := by
  have h1 : (ReducedNewtonLineSearch cubicProblem (defaultParams ratSqrt) ![1] ![-1]
      (Dbl.fin (10 ^ 11)) ![0] World.start).status = .returned 0 := by
    rw [lineSearch_cubicProblem]
  have h2 : (ReducedNewtonLineSearch (quadProblem (1 : ℚ)) (defaultParams ratSqrt) ![4] ![-2]
      (Dbl.fin 1) ![-1] World.start).status = .threw .Iteration := by
    rw [lineSearch_square_exceeded.2]
  exact ⟨⟨h1, (C16_lineSearch_control cubicProblem (defaultParams ratSqrt) ![1] ![-1]
      (Dbl.fin (10 ^ 11)) ![0] World.start).2.2.1 h1⟩,
    h2, (C16_lineSearch_control (quadProblem (1 : ℚ)) (defaultParams ratSqrt) ![4] ![-2]
      (Dbl.fin 1) ![-1] World.start).2.2.2 _ h2⟩

end LineSearchControlClaims


section LineSearchAscentClaims

variable {K : Type} [LinearOrderedField K] {n : Nat} {S : Type}

end LineSearchAscentClaims


/-! ## The claim about a negative residual in the linear solver -/

section NegativeResidual

variable {K : Type} [LinearOrderedField K] {n : Nat} {S : Type}

theorem cgFinish_ok_res {prm : Params K} {firstres : K} {iter : Nat}
    {dq r r_transposed d : ControlVector K n} {oldres res : K} {w : World S}
    {st' : CGState K n S}
    (h : cgFinish prm firstres iter dq r r_transposed d oldres res w = .ok st') :
    st'.res = cgClamp prm firstres res ∧ st'.r = r ∧ st'.r_transposed = r_transposed := by
  unfold cgFinish at h
  dsimp only at h
  split at h
  · split at h
    · cases h
    · cases h
      exact ⟨rfl, rfl, rfl⟩
  · cases h

/-- After a completed iteration of the linear solver `res` is the product of the
residual vectors, with the sign corrected by `cgClamp`. -/
theorem cgBody_ok_res {P : ReducedProblem K n S} {prm : Params K}
    {q gradient gradient_transposed : ControlVector K n} {firstres : K}
    {st st' : CGState K n S}
    (h : cgBody P prm q gradient gradient_transposed firstres st = .ok st') :
    st'.res = cgClamp prm firstres (Residual st'.r st'.r_transposed) := by
  unfold cgBody at h
  dsimp only at h
  split at h
  · cases h
  · split at h
    · cases h
    · split at h
      · cases h
      · split at h
        · split at h <;> cases h
        · split at h
          · split at h
            · cases h
            · have e := cgFinish_ok_res h
              rw [e.1, e.2.1, e.2.2]
          · have e := cgFinish_ok_res h
            rw [e.1, e.2.1, e.2.2]

/-- A residual whose sign was corrected makes the guard of the loop false. -/
theorem cgClamp_guard (prm : Params K) (firstres x : K) (st : CGState K n S)
    (hres : st.res = cgClamp prm firstres x) (hx : x < 0) (hnn : 0 ≤ st.res) :
    st.res = |x| ∧ cgGuard prm firstres st = false := by
  unfold cgClamp at hres
  by_cases hc : x < 0 ∧ (x > -1 * prm.linear_global_tol_ * prm.linear_global_tol_ ∨
      x > -1 * min (1 / 4) (prm.sqrt firstres) * firstres)
  · rw [if_pos hc] at hres
    refine ⟨hres, ?_⟩
    have habs : |x| = -x := abs_of_neg hx
    simp only [cgGuard, cgThreshold, Bool.and_eq_false_iff, decide_eq_false_iff_not, not_le, ge_iff_le]
    rw [hres, habs]
    rcases hc.2 with h1 | h1
    · right
      linarith
    · left
      linarith
  · rw [if_neg hc] at hres
    rw [hres] at hnn
    exact absurd hx (not_lt.mpr hnn)

/-- In a state of the loop of the linear solver in which the guard holds, `res` is
the product of the residual vectors. -/
theorem cg_res_invariant {P : ReducedProblem K n S} {prm : Params K}
    {q gradient gradient_transposed : ControlVector K n} {w : World S} {k : Nat}
    {st : CGState K n S}
    (hr : Runs (cgGuard prm (Residual gradient gradient_transposed))
      (cgBody P prm q gradient gradient_transposed (Residual gradient gradient_transposed))
      k (cgInit gradient gradient_transposed w) st)
    (hg : cgGuard prm (Residual gradient gradient_transposed) st = true) :
    st.res = Residual st.r st.r_transposed := by
  cases k with
  | zero =>
    cases hr
    rfl
  | succ k =>
    obtain ⟨sm, _, _, hb⟩ := hr.unsnoc
    have h1 := cgBody_ok_res hb
    have h2 := (cgBody_ok hb).2.2
    by_cases hx : Residual st.r st.r_transposed < 0
    · have := (cgClamp_guard prm _ _ st h1 hx h2).2
      rw [hg] at this
      cases this
    · rw [h1]
      unfold cgClamp
      rw [if_neg (fun hc => hx hc.1)]

end NegativeResidual


section NegativeResidualClaim

variable {K : Type} [LinearOrderedField K] {n : Nat} {S : Type}

theorem cgFinish_ok_w {prm : Params K} {firstres : K} {iter : Nat}
    {dq r r_transposed d : ControlVector K n} {oldres res : K} {w : World S}
    {st' : CGState K n S}
    (h : cgFinish prm firstres iter dq r r_transposed d oldres res w = .ok st') :
    st'.w = w := (cgFinish_ok h).2.2.2.2.1

theorem cgFinish_error_w {prm : Params K} {firstres : K} {iter : Nat}
    {dq r r_transposed d : ControlVector K n} {oldres res : K} {w : World S}
    {e : CGResult K n S}
    (h : cgFinish prm firstres iter dq r r_transposed d oldres res w = .error e) :
    e.w = w ∧ e.status ≠ .threw .Critical := by
  unfold cgFinish at h
  dsimp only at h
  split at h
  · split at h
    · cases h
      exact ⟨rfl, by simp⟩
    · cases h
  · cases h
    exact ⟨rfl, by simp⟩

/-- A completed iteration of the linear solver makes no call of the exception
handler. -/
theorem cgBody_ok_log {P : ReducedProblem K n S} {prm : Params K}
    {q gradient gradient_transposed : ControlVector K n} {firstres : K}
    {st st' : CGState K n S}
    (h : cgBody P prm q gradient gradient_transposed firstres st = .ok st') :
    st'.w.log = st.w.log := by
  unfold cgBody at h
  dsimp only at h
  split at h
  · cases h
  · split at h
    · cases h
    · split at h
      · cases h
      · split at h
        · split at h <;> cases h
        · split at h
          · split at h
            · cases h
            · rw [cgFinish_ok_w h]
              rfl
          · rw [cgFinish_ok_w h]
            rfl

/-- The iteration of the linear solver in which the updated residual is negative:
the Hessian-vector product is evaluated again, at the accumulated `dq`, and the
residual vectors and `res` are computed from it. -/
theorem cgBody_recomputed (P : ReducedProblem K n S) (prm : Params K)
    (q gradient gradient_transposed : ControlVector K n) (firstres : K) (st : CGState K n S)
    (Hd Hd_transposed Hd2 Hd2_transposed : ControlVector K n) (s1 s2 : S)
    (hiter : st.iter + 1 ≤ prm.linear_maxiter_)
    (hH : P.ComputeReducedHessianVector st.w.s q st.d = (some (Hd, Hd_transposed), s1))
    (hD : ControlVector.dot Hd st.d ≠ 0)
    (hα : ¬ st.res / ControlVector.dot Hd st.d < 0)
    (hneg : Residual (ControlVector.add st.r (st.res / ControlVector.dot Hd st.d) Hd)
      (ControlVector.add st.r_transposed (st.res / ControlVector.dot Hd st.d) Hd_transposed) <
      0)
    (hH2 : P.ComputeReducedHessianVector s1 q
      (ControlVector.add st.dq (st.res / ControlVector.dot Hd st.d) st.d) =
      (some (Hd2, Hd2_transposed), s2)) :
    cgBody P prm q gradient gradient_transposed firstres st =
      cgFinish prm firstres (st.iter + 1)
        (ControlVector.add st.dq (st.res / ControlVector.dot Hd st.d) st.d)
        (ControlVector.add gradient 1 Hd2)
        (ControlVector.add gradient_transposed 1 Hd2_transposed) st.d st.res
        (Residual (ControlVector.add gradient 1 Hd2)
          (ControlVector.add gradient_transposed 1 Hd2_transposed))
        (st.w.withState s2) := by
  have h1 : ¬ (st.iter + 1 > prm.linear_maxiter_) := by omega
  simp only [cgBody, h1, if_false, hH, hD, hα, hneg, if_true, World.withState, hH2]

/-- Claim C18.  Take an iteration of the loop of `SolveReducedLinearSystem` (the
state `st` is reached after `k` iterations, the guard holds, the iteration limit
is not yet reached, the Hessian-vector product `Hd` of the direction is delivered
and the step length `res/(Hd*d)` is defined and not negative) in which the updated
residual `(r + alpha*Hd)*(r_T + alpha*Hd_T)` is negative, and let the second
Hessian-vector product, at the accumulated `dq`, deliver `(Hd2, Hd2_T)`.  Then the
residual vectors are set to `gradient + Hd2` and `gradient_transposed + Hd2_T` and
`res` to their product (first part).  If this product is still negative but
larger than `-linear_global_tol_^2` or larger than
`-min(0.25, sqrt(firstres))*firstres`, the iteration completes with `res` replaced
by its absolute value, the guard of the loop is false for the new state, and the
function returns the number `k + 1` of this iteration, with the accumulated `dq`
and without a call of the exception handler (second part). -/
theorem C18_cg_negative_residual (P : ReducedProblem K n S) (prm : Params K)
    (q gradient gradient_transposed : ControlVector K n) (w : World S) (k : Nat)
    (st : CGState K n S)
    (Hd Hd_transposed Hd2 Hd2_transposed : ControlVector K n) (s1 s2 : S)
    (hruns : Runs (cgGuard prm (Residual gradient gradient_transposed))
      (cgBody P prm q gradient gradient_transposed (Residual gradient gradient_transposed))
      k (cgInit gradient gradient_transposed w) st)
    (hguard : cgGuard prm (Residual gradient gradient_transposed) st = true)
    (hiter : st.iter + 1 ≤ prm.linear_maxiter_)
    (hH : P.ComputeReducedHessianVector st.w.s q st.d = (some (Hd, Hd_transposed), s1))
    (hD : ControlVector.dot Hd st.d ≠ 0)
    (hα : ¬ st.res / ControlVector.dot Hd st.d < 0)
    (hneg : Residual (ControlVector.add st.r (st.res / ControlVector.dot Hd st.d) Hd)
      (ControlVector.add st.r_transposed (st.res / ControlVector.dot Hd st.d) Hd_transposed) <
      0)
    (hH2 : P.ComputeReducedHessianVector s1 q
      (ControlVector.add st.dq (st.res / ControlVector.dot Hd st.d) st.d) =
      (some (Hd2, Hd2_transposed), s2)) :
    cgBody P prm q gradient gradient_transposed (Residual gradient gradient_transposed) st =
      cgFinish prm (Residual gradient gradient_transposed) (st.iter + 1)
        (ControlVector.add st.dq (st.res / ControlVector.dot Hd st.d) st.d)
        (ControlVector.add gradient 1 Hd2)
        (ControlVector.add gradient_transposed 1 Hd2_transposed) st.d st.res
        (Residual (ControlVector.add gradient 1 Hd2)
          (ControlVector.add gradient_transposed 1 Hd2_transposed))
        (st.w.withState s2) ∧
    (Residual (ControlVector.add gradient 1 Hd2)
        (ControlVector.add gradient_transposed 1 Hd2_transposed) < 0 →
      (Residual (ControlVector.add gradient 1 Hd2)
          (ControlVector.add gradient_transposed 1 Hd2_transposed) >
          -1 * prm.linear_global_tol_ * prm.linear_global_tol_ ∨
        Residual (ControlVector.add gradient 1 Hd2)
          (ControlVector.add gradient_transposed 1 Hd2_transposed) >
          -1 * min (1 / 4) (prm.sqrt (Residual gradient gradient_transposed)) *
            Residual gradient gradient_transposed) →
      ∃ st' : CGState K n S,
        cgBody P prm q gradient gradient_transposed (Residual gradient gradient_transposed)
          st = .ok st' ∧
        st'.res = |Residual (ControlVector.add gradient 1 Hd2)
          (ControlVector.add gradient_transposed 1 Hd2_transposed)| ∧
        st'.iter = k + 1 ∧
        cgGuard prm (Residual gradient gradient_transposed) st' = false ∧
        SolveReducedLinearSystem P prm q gradient gradient_transposed w =
          ⟨.returned (k + 1),
            ControlVector.add st.dq (st.res / ControlVector.dot Hd st.d) st.d,
            st.w.withState s2⟩ ∧
        (SolveReducedLinearSystem P prm q gradient gradient_transposed w).w.log = w.log) := by
  have hbody := cgBody_recomputed P prm q gradient gradient_transposed
    (Residual gradient gradient_transposed) st Hd Hd_transposed Hd2 Hd2_transposed s1 s2
    hiter hH hD hα hneg hH2
  refine ⟨hbody, ?_⟩
  intro hneg2 hcond
  have hinv := cg_res_invariant hruns hguard
  have hold : st.res ≠ 0 := by
    intro h0
    rw [h0, zero_div] at hneg
    have e1 : ControlVector.add st.r 0 Hd = st.r := by
      funext i
      simp [ControlVector.add]
    have e2 : ControlVector.add st.r_transposed 0 Hd_transposed = st.r_transposed := by
      funext i
      simp [ControlVector.add]
    rw [e1, e2, ← hinv, h0] at hneg
    exact lt_irrefl 0 hneg
  have hclamp : cgClamp prm (Residual gradient gradient_transposed)
      (Residual (ControlVector.add gradient 1 Hd2)
        (ControlVector.add gradient_transposed 1 Hd2_transposed)) =
      |Residual (ControlVector.add gradient 1 Hd2)
        (ControlVector.add gradient_transposed 1 Hd2_transposed)| := by
    unfold cgClamp
    rw [if_pos ⟨hneg2, hcond⟩]
  have hfin : ∃ st' : CGState K n S,
      cgFinish prm (Residual gradient gradient_transposed) (st.iter + 1)
        (ControlVector.add st.dq (st.res / ControlVector.dot Hd st.d) st.d)
        (ControlVector.add gradient 1 Hd2)
        (ControlVector.add gradient_transposed 1 Hd2_transposed) st.d st.res
        (Residual (ControlVector.add gradient 1 Hd2)
          (ControlVector.add gradient_transposed 1 Hd2_transposed))
        (st.w.withState s2) = .ok st' ∧
      st'.res = |Residual (ControlVector.add gradient 1 Hd2)
          (ControlVector.add gradient_transposed 1 Hd2_transposed)| ∧
      st'.iter = st.iter + 1 ∧
      st'.dq = ControlVector.add st.dq (st.res / ControlVector.dot Hd st.d) st.d ∧
      st'.w = st.w.withState s2 := by
    unfold cgFinish
    dsimp only
    rw [hclamp, if_pos (abs_nonneg _), if_neg hold]
    exact ⟨_, rfl, rfl, rfl, rfl, rfl⟩
  obtain ⟨st', hst', hres', hiter', hdq', hw'⟩ := hfin
  have hb : cgBody P prm q gradient gradient_transposed
      (Residual gradient gradient_transposed) st = .ok st' := by rw [hbody, hst']
  have hcnt := (cg_runs hruns).1
  have h0 : (cgInit gradient gradient_transposed w).iter = 0 := rfl
  have hgf : cgGuard prm (Residual gradient gradient_transposed) st' = false :=
    (cgClamp_guard prm _ _ st' (cgBody_ok_res hb)
      (by rw [(cgFinish_ok_res hst').2.1, (cgFinish_ok_res hst').2.2]; exact hneg2)
      (cgBody_ok hb).2.2).2
  have hres0 : 0 ≤ Residual gradient gradient_transposed := by
    cases k with
    | zero =>
      cases hruns
      exact (cgGuard_true hguard).2.2
    | succ m => exact (cgGuard_true hruns.1).2.2
  have hsolve : SolveReducedLinearSystem P prm q gradient gradient_transposed w =
      ⟨.returned (k + 1), ControlVector.add st.dq (st.res / ControlVector.dot Hd st.d) st.d,
        st.w.withState s2⟩ := by
    rw [cg_eq_loop P prm q gradient gradient_transposed w hres0,
      whileLoop_done_of_runs (prm.linear_maxiter_ + 1) (by omega : k + 1 ≤ _)
        (hruns.snoc hguard hb) hgf]
    dsimp only
    rw [hiter', hdq', hw', hcnt, h0, Nat.zero_add]
  refine ⟨st', hb, hres', by omega, hgf, hsolve, ?_⟩
  rw [hsolve]
  show st.w.log = w.log
  exact Runs.invariant (fun s : CGState K n S => s.w.log = w.log)
    (fun a b ha _ hab => by
      show b.w.log = w.log
      rw [cgBody_ok_log hab]
      exact ha) hruns rfl

end NegativeResidualClaim

section NegativeResidualWitness

theorem ratSqrt_one : ratSqrt 1 = 1 := by
  have h1 : Nat.sqrt 1 = 1 := Nat.sqrt_eq 1
  have h3 : (1 : ℚ).num = 1 := rfl
  have h4 : (1 : ℚ).den = 1 := rfl
  simp [ratSqrt, h1, h3, h4]

/-- Claim C18, witness: the test double `skewProblem` with the gradient `(1, 0)`.
In the first iteration of the linear solver the step length is `1`, the updated
residual is `(0, 1)*(0, -1/8) = -1/8 < 0`; the residual computed again at
`dq = (-1, 0)` is `-1/8` as well, which is larger than
`-min(0.25, sqrt(1))*1 = -1/4`.  The function returns `1` with `dq = (-1, 0)`. -/
theorem C18_cg_negative_residual_witness :
    Residual (ControlVector.add ![1, 0] 1 ![-1, 1])
        (ControlVector.add ![1, 0] 1 ![-1, -1 / 8]) = (-1 / 8 : ℚ) ∧
    (SolveReducedLinearSystem skewProblem (defaultParams ratSqrt) ![0, 0] ![1, 0] ![1, 0]
        World.start).status = .returned 1 ∧
    (SolveReducedLinearSystem skewProblem (defaultParams ratSqrt) ![0, 0] ![1, 0] ![1, 0]
        World.start).dq = ControlVector.add (ControlVector.const 0) (1 / 1) ![-1, 0] := by
  have hres : Residual (![1, 0] : ControlVector ℚ 2) ![1, 0] = 1 := by
    simp [Residual, ControlVector.dot, Fin.sum_univ_two]
  have hd : (cgInit (![1, 0] : ControlVector ℚ 2) ![1, 0] World.start).d = ![-1, 0] := by
    funext i
    fin_cases i <;> simp [cgInit, ControlVector.equ]
  have hD : ControlVector.dot (![-1, 1] : ControlVector ℚ 2) ![-1, 0] = 1 := by
    simp [ControlVector.dot, Fin.sum_univ_two]
  have hr0 : (cgInit (![1, 0] : ControlVector ℚ 2) ![1, 0] World.start).res = 1 := hres
  have hdq : ControlVector.add (ControlVector.const 0) (1 / 1) (![-1, 0] : ControlVector ℚ 2) =
      ![-1, 0] := by
    funext i
    fin_cases i <;> simp [ControlVector.add, ControlVector.const]
  have hres2 : Residual (ControlVector.add ![1, 0] 1 ![-1, 1])
      (ControlVector.add ![1, 0] 1 ![-1, -1 / 8]) = (-1 / 8 : ℚ) := by
    simp [Residual, ControlVector.dot, ControlVector.add, Fin.sum_univ_two]
  have hg0 : cgGuard (defaultParams ratSqrt) (Residual (![1, 0] : ControlVector ℚ 2) ![1, 0])
      (cgInit ![1, 0] ![1, 0] World.start) = true := by
    simp only [cgGuard, Bool.and_eq_true, decide_eq_true_eq]
    refine ⟨cgThreshold_le _ (by rw [hres]; norm_num), ?_⟩
    show (defaultParams ratSqrt).linear_global_tol_ *
      (defaultParams ratSqrt).linear_global_tol_ ≤ Residual ![1, 0] ![1, 0]
    rw [hres]
    norm_num [defaultParams]
  have c := C18_cg_negative_residual skewProblem (defaultParams ratSqrt) ![0, 0] ![1, 0]
    ![1, 0] World.start 0 (cgInit ![1, 0] ![1, 0] World.start)
    ![-1, 1] ![-1, -1 / 8] ![-1, 1] ![-1, -1 / 8] () () rfl hg0
    (by simp [cgInit, defaultParams])
    (by
      rw [hd]
      simp [skewProblem])
    (by rw [hd, hD]; norm_num)
    (by rw [hd, hD, hr0]; norm_num)
    (by
      rw [hd, hD, hr0]
      show Residual (ControlVector.add ![1, 0] (1 / 1) ![-1, 1])
        (ControlVector.add ![1, 0] (1 / 1) ![-1, -1 / 8]) < 0
      rw [div_one, hres2]
      norm_num)
    (by
      rw [hd, hD, hr0]
      show skewProblem.ComputeReducedHessianVector () ![0, 0]
        (ControlVector.add (ControlVector.const 0) (1 / 1) ![-1, 0]) = _
      rw [hdq]
      simp [skewProblem])
  obtain ⟨st', _, _, _, _, hsolve, _⟩ := c.2 (by rw [hres2]; norm_num)
    (Or.inr (by
      rw [hres2, hres]
      show (-1 / 8 : ℚ) > -1 * min (1 / 4) (ratSqrt 1) * 1
      rw [ratSqrt_one]
      norm_num))
  rw [hd, hD, hr0] at hsolve
  refine ⟨hres2, by rw [hsolve], by rw [hsolve]; rfl⟩

end NegativeResidualWitness


/-! ## The claim about a negative residual in `Solve` -/

section NegativeResidualSolve

variable {K : Type} [LinearOrderedField K] {n : Nat} {S : Type}

/-- A negative first residual ends `Solve` at the assertion of line 314. -/
theorem Solve_assert_failed {P : ReducedProblem K n S} {prm : Params K}
    {q : ControlVector K n} {global_tol : K} {w : World S} {st0 : SolveState K n S}
    (h0 : solveInit P prm q w = .ok st0) (hres : st0.res < 0) :
    Solve P prm q global_tol w = ⟨.threw .AssertFailed, st0⟩ := by
  unfold Solve
  rw [h0]
  dsimp only
  rw [if_neg (not_le.mpr hres)]

end NegativeResidualSolve

section NegativeResidualRun

/-- The linear solver on the test double `doubleProblem` with the gradient pair
`(-2, -2)`: one iteration, `dq = 1`. -/
theorem cg_doubleProblem :
    SolveReducedLinearSystem doubleProblem (defaultParams ratSqrt) ![0] ![-2] ![-2]
        World.start = ⟨.returned 1, ![1], World.start⟩ := by
  have hH : ∀ (s : Unit) (d : ControlVector ℚ 1),
      doubleProblem.ComputeReducedHessianVector s ![0] d =
        (quadProblem (1 : ℚ)).ComputeReducedHessianVector s ![0] d := by
    intro s d
    simp [doubleProblem, quadProblem]
  have hdq : ControlVector.add (ControlVector.const 0) (1 / (2 * 1))
      (ControlVector.equ (-1) (![-2] : ControlVector ℚ 1)) = ![1] := by
    funext i
    fin_cases i
    simp [ControlVector.add, ControlVector.const, ControlVector.equ]
  rw [cg_congr doubleProblem (quadProblem (1 : ℚ)) _ _ _ _ _ hH,
    cg_quadProblem (1 : ℚ) (defaultParams ratSqrt) ![0] ![-2] World.start (by norm_num)
      (by simp [defaultParams]) (by simp [defaultParams])
      (by simp [defaultParams, ControlVector.dot]; norm_num), hdq]

/-- The line search on `doubleProblem`, entered at `q = 0` (cost `2`, gradient
`-2`) with `dq = 1`: the first trial point `q = 1` with the cost `1/2` is
accepted. -/
theorem lineSearch_doubleProblem :
    ReducedNewtonLineSearch doubleProblem (defaultParams ratSqrt) ![1] ![-2] (Dbl.fin 2) ![0]
        World.start = ⟨.returned 0, Dbl.fin (1 / 2), ![1], World.start⟩ := by
  have hP : ∀ (s : Unit) (q : ControlVector ℚ 1),
      doubleProblem.ComputeReducedCostFunctional s q =
        (some (Dbl.fin ((fun q : ControlVector ℚ 1 => (q 0 - 2) ^ 2 / 2) q)), s) :=
    fun _ _ => rfl
  have hred : lineReduction (defaultParams ratSqrt) (![1] : ControlVector ℚ 1) ![-2]
      (Dbl.fin 2) = -2 := by
    simp only [lineReduction, ControlVector.dot, defaultParams, Dbl.lt, Dbl.mul]
    norm_num
  have hacc : lineGuard (defaultParams ratSqrt) (Dbl.fin 2)
      (lineReduction (defaultParams ratSqrt) (![1] : ControlVector ℚ 1) ![-2] (Dbl.fin 2))
      (lineTrial doubleProblem (defaultParams ratSqrt) ![1] ![0] World.start 0) = false := by
    rw [hred, lineGuard_pure _ _ hP]
    simp [defaultParams, ControlVector.add]
    norm_num
  have hq : ControlVector.add (![0] : ControlVector ℚ 1)
      ((defaultParams ratSqrt).lineasearch_rho_ ^ 0) ![1] = ![1] := by
    funext i
    fin_cases i
    simp [ControlVector.add]
  rw [lineSearch_accept _ _ _ _ _ _ _ (by simp [defaultParams]) 0 (Nat.zero_le _)
    (fun j hj => absurd hj (Nat.not_lt_zero j)) hacc, lineTrial_pure _ _ hP, hq]
  simp
  norm_num

end NegativeResidualRun


section NegativeResidualSolveRun

/-- The first evaluations of `Solve` on `doubleProblem` at `q = 0`. -/
theorem solveInit_doubleProblem :
    solveInit doubleProblem (defaultParams ratSqrt) ![0] World.start =
      .ok ⟨0, ![0], Dbl.fin 2, ![0], ![-2], ![-2], 4, 0, 0, World.start⟩ := by
  have hr : Residual (![-2] : ControlVector ℚ 1) ![-2] = 4 := by
    simp [Residual, ControlVector.dot]
    norm_num
  simp only [solveInit, solveFunctionals, solveGradient, doubleProblem, ControlVector.ReInit,
    World.withState, defaultParams, World.start, Bool.false_eq_true, if_false,
    Matrix.cons_val_zero]
  norm_num [hr]

/-- The first step of `Solve` on `doubleProblem` from `q = 0`: the Newton direction
`1`, accepted at once, leads to `q = 1`, where the gradient pair is `(-1, 1)` and
the residual is `-1`. -/
theorem solveBody_doubleProblem :
    solveBody doubleProblem (defaultParams ratSqrt)
        ⟨0, ![0], Dbl.fin 2, ![0], ![-2], ![-2], 4, 0, 0, World.start⟩ =
      .ok ⟨1, ![1], Dbl.fin (1 / 2), ![1], ![-1], ![1], -1, 1, 0, World.start⟩ := by
  have h1 : ¬ (0 + 1 > (defaultParams ratSqrt).nonlinear_maxiter_) := by
    simp [defaultParams]
  have hdesc : solveDescent (![-2] : ControlVector ℚ 1) ![-2] ![1] = ![1] := by
    unfold solveDescent
    dsimp only
    rw [if_neg]
    simp [ControlVector.dot]
  have hr : Residual (![-1] : ControlVector ℚ 1) ![1] = -1 := by
    simp [Residual, ControlVector.dot]
  unfold solveBody
  dsimp only
  rw [if_neg h1]
  simp only [solveDirection, cg_doubleProblem, solveLineSearch, hdesc,
    lineSearch_doubleProblem]
  simp only [solveFunctionals, solveGradient, doubleProblem, World.withState, defaultParams,
    World.start, Bool.false_eq_true, if_false, Matrix.cons_val_zero]
  norm_num [hr]

/-- The run of `Solve` on `doubleProblem` from `q = 0` with the default parameters:
it returns `1` with the residual `-1`, and no exception handler was called. -/
theorem solve_doubleProblem :
    Solve doubleProblem (defaultParams ratSqrt) ![0] (-1) World.start =
      ⟨.returned 1,
        ⟨1, ![1], Dbl.fin (1 / 2), ![1], ![-1], ![1], -1, 1, 0, World.start⟩⟩ := by
  have hg0 : solveGuard (defaultParams ratSqrt)
      (max (defaultParams ratSqrt).nonlinear_global_tol_ (-1)) 4
      (if (-1 : ℚ) > 0 then 1 else 0)
      (⟨0, ![0], Dbl.fin 2, ![0], ![-2], ![-2], 4, 0, 0, World.start⟩ :
        SolveState ℚ 1 Unit) = true := by
    simp only [solveGuard, Bool.or_eq_true, Bool.and_eq_true, decide_eq_true_eq, defaultParams]
    left
    constructor <;> norm_num
  have hg1 : solveGuard (defaultParams ratSqrt)
      (max (defaultParams ratSqrt).nonlinear_global_tol_ (-1)) 4
      (if (-1 : ℚ) > 0 then 1 else 0)
      (⟨1, ![1], Dbl.fin (1 / 2), ![1], ![-1], ![1], -1, 1, 0, World.start⟩ :
        SolveState ℚ 1 Unit) = false := by
    simp only [solveGuard, Bool.or_eq_false_iff, Bool.and_eq_false_iff,
      decide_eq_false_iff_not, not_le, not_lt, defaultParams]
    constructor
    · left
      norm_num
    · norm_num
  rw [Solve_of_init solveInit_doubleProblem (by norm_num),
    whileLoop_done_of_runs ((defaultParams ratSqrt).nonlinear_maxiter_ + 1)
      (by simp [defaultParams] : 1 ≤ _)
      (show Runs _ _ 1 _ _ from ⟨hg0, _, solveBody_doubleProblem, rfl⟩) hg1]
  rfl

/-- Claim C19: what the code does.  A negative first residual ends `Solve` at the
assertion of line 314 (first part, for every reduced problem).  A negative
residual after a step does not: on the test double `doubleProblem`, started at
`q = 0` with the default parameters, the gradient pair at the first iterate `q = 1`
is `(-1, 1)`, the residual of line 420 is `-1`, the guard of the loop is false for
it, and `Solve` returns normally with the value `1`, the final residual `-1` and
no call of an exception handler (second part). -/
theorem C19_negative_residual {K : Type} [LinearOrderedField K] {n : Nat} {S : Type} :
    (∀ (P : ReducedProblem K n S) (prm : Params K) (q : ControlVector K n) (global_tol : K)
      (w : World S) (st0 : SolveState K n S),
      solveInit P prm q w = .ok st0 → st0.res < 0 →
      Solve P prm q global_tol w = ⟨.threw .AssertFailed, st0⟩) ∧
    ((Solve doubleProblem (defaultParams ratSqrt) ![0] (-1) World.start).status = .returned 1 ∧
      (Solve doubleProblem (defaultParams ratSqrt) ![0] (-1) World.start).st.q = ![1] ∧
      doubleProblem.ComputeReducedGradient () ![1] = (some (![-1], ![1]), ()) ∧
      (Solve doubleProblem (defaultParams ratSqrt) ![0] (-1) World.start).st.res =
        Residual ![-1] ![1] ∧
      (Solve doubleProblem (defaultParams ratSqrt) ![0] (-1) World.start).st.res = -1 ∧
      (Solve doubleProblem (defaultParams ratSqrt) ![0] (-1) World.start).st.w.log = []) := by
  refine ⟨fun P prm q global_tol w st0 h0 hres => Solve_assert_failed h0 hres, ?_⟩
  rw [solve_doubleProblem]
  refine ⟨rfl, rfl, ?_, ?_, rfl, rfl⟩
  · simp only [doubleProblem, Matrix.cons_val_zero]
    norm_num
  · simp [Residual, ControlVector.dot]

end NegativeResidualSolveRun


/-! ## Exceptions of the reduced problem and the exception handler -/

section Counting

variable {K : Type} [LinearOrderedField K] {n : Nat} {S : Type}

theorem counting_cost_some {P : ReducedProblem K n S} {s s' : S × Nat × Nat}
    {q : ControlVector K n} {v : Dbl K}
    (h : (counting P).ComputeReducedCostFunctional s q = (some v, s')) :
    s'.2.1 = s.2.1 ∧ s'.2.2 = s.2.2 := by
  simp only [counting] at h
  split at h <;> cases h
  exact ⟨rfl, rfl⟩

theorem counting_cost_none {P : ReducedProblem K n S} {s s' : S × Nat × Nat}
    {q : ControlVector K n}
    (h : (counting P).ComputeReducedCostFunctional s q = (none, s')) :
    s'.2.1 = s.2.1 + 1 ∧ s'.2.2 = s.2.2 := by
  simp only [counting] at h
  split at h <;> cases h
  exact ⟨rfl, rfl⟩

theorem counting_gradient_some {P : ReducedProblem K n S} {s s' : S × Nat × Nat}
    {q : ControlVector K n} {v : ControlVector K n × ControlVector K n}
    (h : (counting P).ComputeReducedGradient s q = (some v, s')) :
    s'.2.1 = s.2.1 ∧ s'.2.2 = s.2.2 := by
  simp only [counting] at h
  split at h <;> cases h
  exact ⟨rfl, rfl⟩

theorem counting_gradient_none {P : ReducedProblem K n S} {s s' : S × Nat × Nat}
    {q : ControlVector K n}
    (h : (counting P).ComputeReducedGradient s q = (none, s')) :
    s'.2.1 = s.2.1 ∧ s'.2.2 = s.2.2 + 1 := by
  simp only [counting] at h
  split at h <;> cases h
  exact ⟨rfl, rfl⟩

theorem counting_hessian_some {P : ReducedProblem K n S} {s s' : S × Nat × Nat}
    {q d : ControlVector K n} {v : ControlVector K n × ControlVector K n}
    (h : (counting P).ComputeReducedHessianVector s q d = (some v, s')) :
    s'.2.1 = s.2.1 ∧ s'.2.2 = s.2.2 := by
  simp only [counting] at h
  split at h <;> cases h
  exact ⟨rfl, rfl⟩

theorem counting_hessian_none {P : ReducedProblem K n S} {s s' : S × Nat × Nat}
    {q d : ControlVector K n}
    (h : (counting P).ComputeReducedHessianVector s q d = (none, s')) :
    s'.2.1 = s.2.1 ∧ s'.2.2 = s.2.2 + 1 := by
  simp only [counting] at h
  split at h <;> cases h
  exact ⟨rfl, rfl⟩

theorem counting_functionals_some {P : ReducedProblem K n S} {s s' : S × Nat × Nat}
    {q : ControlVector K n} {v : Unit}
    (h : (counting P).ComputeReducedFunctionals s q = (some v, s')) :
    s'.2.1 = s.2.1 ∧ s'.2.2 = s.2.2 := by
  simp only [counting] at h
  split at h <;> cases h
  exact ⟨rfl, rfl⟩

theorem counting_functionals_none {P : ReducedProblem K n S} {s s' : S × Nat × Nat}
    {q : ControlVector K n}
    (h : (counting P).ComputeReducedFunctionals s q = (none, s')) :
    s'.2.1 = s.2.1 ∧ s'.2.2 = s.2.2 + 1 := by
  simp only [counting] at h
  split at h <;> cases h
  exact ⟨rfl, rfl⟩

theorem Handled.refl (w : World (S × Nat × Nat)) : Handled w w := rfl

theorem Handled.trans {w1 w2 w3 : World (S × Nat × Nat)} (h1 : Handled w1 w2)
    (h2 : Handled w2 w3) : Handled w1 w3 := by
  unfold Handled at *
  omega

/-- An evaluation that did not throw. -/
theorem Handled.withState (w : World (S × Nat × Nat)) (s' : S × Nat × Nat)
    (h : s'.2.2 = w.s.2.2) : Handled w (w.withState s') := by
  simp only [Handled, World.thrownOther, World.criticalCalls, World.withState, h]

/-- An evaluation that threw, followed by the call of `HandleCriticalException`. -/
theorem Handled.critical (w : World (S × Nat × Nat)) (s' : S × Nat × Nat)
    (h : s'.2.2 = w.s.2.2 + 1) : Handled w (w.withState s').HandleCriticalException := by
  simp only [Handled, World.thrownOther, World.criticalCalls, World.withState,
    World.HandleCriticalException, h, List.count_cons_self]
  omega

/-- A call of `HandleException` for an exception of the algorithm. -/
theorem Handled.handleException {w w' : World (S × Nat × Nat)} (h : Handled w w') (e : Exn) :
    Handled w (w'.HandleException e) := by
  simp only [Handled, World.thrownOther, World.criticalCalls, World.HandleException] at h ⊢
  rw [List.count_cons_of_ne (by simp)]
  exact h

theorem cgBody_ok_handled {P : ReducedProblem K n S} {prm : Params K}
    {q gradient gradient_transposed : ControlVector K n} {firstres : K}
    {st st' : CGState K n (S × Nat × Nat)}
    (h : cgBody (counting P) prm q gradient gradient_transposed firstres st = .ok st') :
    Handled st.w st'.w := by
  unfold cgBody at h
  dsimp only at h
  split at h
  · cases h
  · split at h
    · cases h
    · rename_i Hd HdT s hH
      have h1 := Handled.withState st.w s (counting_hessian_some hH).2
      split at h
      · cases h
      · split at h
        · split at h <;> cases h
        · split at h
          · split at h
            · cases h
            · rename_i Hd2 HdT2 s2 hH2
              rw [cgFinish_ok_w h]
              exact h1.trans (Handled.withState _ s2 (counting_hessian_some hH2).2)
          · rw [cgFinish_ok_w h]
            exact h1

theorem cgBody_error_handled {P : ReducedProblem K n S} {prm : Params K}
    {q gradient gradient_transposed : ControlVector K n} {firstres : K}
    {st : CGState K n (S × Nat × Nat)} {e : CGResult K n (S × Nat × Nat)}
    (h : cgBody (counting P) prm q gradient gradient_transposed firstres st = .error e) :
    Handled st.w e.w ∧ e.status ≠ .threw .Generic := by
  unfold cgBody at h
  dsimp only at h
  split at h
  · cases h
    exact ⟨Handled.refl _, by simp⟩
  · split at h
    · rename_i s hH
      cases h
      exact ⟨Handled.critical st.w s (counting_hessian_none hH).2, by simp⟩
    · rename_i Hd HdT s hH
      have h1 := Handled.withState st.w s (counting_hessian_some hH).2
      split at h
      · cases h
        exact ⟨h1, by simp⟩
      · split at h
        · split at h <;> (cases h; exact ⟨h1, by simp⟩)
        · split at h
          · split at h
            · rename_i s2 hH2
              cases h
              exact ⟨h1.trans (Handled.critical _ s2 (counting_hessian_none hH2).2), by simp⟩
            · rename_i Hd2 HdT2 s2 hH2
              have hw := cgFinish_error_w h
              have hs := (cgFinish_error h).1
              rw [hw.1]
              refine ⟨h1.trans (Handled.withState _ s2 (counting_hessian_some hH2).2), ?_⟩
              rcases hs with hc | hc <;> rw [hc] <;> simp
          · have hw := cgFinish_error_w h
            have hs := (cgFinish_error h).1
            rw [hw.1]
            refine ⟨h1, ?_⟩
            rcases hs with hc | hc <;> rw [hc] <;> simp

/-- In `SolveReducedLinearSystem` every exception of the Hessian-vector product is
handed to `HandleCriticalException`, and the function never ends with a plain
exception. -/
theorem cg_handled (P : ReducedProblem K n S) (prm : Params K)
    (q gradient gradient_transposed : ControlVector K n) (w : World (S × Nat × Nat)) :
    Handled w (SolveReducedLinearSystem (counting P) prm q gradient gradient_transposed w).w ∧
      (SolveReducedLinearSystem (counting P) prm q gradient gradient_transposed w).status ≠
        .threw .Generic := by
  by_cases hres : 0 ≤ Residual gradient gradient_transposed
  · have hinv : ∀ (k : Nat) (st : CGState K n (S × Nat × Nat)),
        Runs (cgGuard prm (Residual gradient gradient_transposed))
          (cgBody (counting P) prm q gradient gradient_transposed
            (Residual gradient gradient_transposed)) k
          (cgInit gradient gradient_transposed w) st → Handled w st.w := by
      intro k st hr
      exact Runs.invariant (fun s : CGState K n (S × Nat × Nat) => Handled w s.w)
        (fun a b ha _ hab => Handled.trans ha (cgBody_ok_handled hab)) hr (Handled.refl w)
    rw [cg_eq_loop (counting P) prm q gradient gradient_transposed w hres]
    split
    · rename_i st hloop
      obtain ⟨k, _, hr, _⟩ := whileLoop_done_iff.mp hloop
      exact ⟨hinv k st hr, by simp⟩
    · rename_i r hloop
      obtain ⟨k, sk, _, hr, _, hb⟩ := whileLoop_raised_iff.mp hloop
      have := cgBody_error_handled hb
      exact ⟨(hinv k sk hr).trans this.1, this.2⟩
    · exact ⟨Handled.refl w, by simp⟩
  · rw [cg_assert_failed (counting P) prm q gradient gradient_transposed w hres]
    exact ⟨Handled.refl w, by simp⟩

end Counting


section CountingSolve

variable {K : Type} [LinearOrderedField K] {n : Nat} {S : Type}

theorem solveGradient_handled {P : ReducedProblem K n S}
    {st : SolveState K n (S × Nat × Nat)} :
    (∀ st', solveGradient (counting P) st = .ok st' → Handled st.w st'.w) ∧
      (∀ r, solveGradient (counting P) st = .error r → Handled st.w r.st.w) := by
  constructor
  · intro st' h
    unfold solveGradient at h
    split at h
    · rename_i g gT s hg
      cases h
      exact Handled.withState st.w s (counting_gradient_some hg).2
    · cases h
  · intro r h
    unfold solveGradient at h
    split at h
    · cases h
    · rename_i s hg
      cases h
      exact Handled.critical st.w s (counting_gradient_none hg).2

theorem solveFunctionals_handled {P : ReducedProblem K n S} {prm : Params K}
    {st : SolveState K n (S × Nat × Nat)} :
    (∀ st', solveFunctionals (counting P) prm st = .ok st' → Handled st.w st'.w) ∧
      (∀ r, solveFunctionals (counting P) prm st = .error r → Handled st.w r.st.w) := by
  constructor
  · intro st' h
    unfold solveFunctionals at h
    split at h
    · split at h
      · rename_i u s hf
        cases h
        exact Handled.withState st.w s (counting_functionals_some hf).2
      · cases h
    · cases h
      exact Handled.refl _
  · intro r h
    unfold solveFunctionals at h
    split at h
    · split at h
      · cases h
      · rename_i s hf
        cases h
        exact Handled.critical st.w s (counting_functionals_none hf).2
    · cases h

theorem solveDirection_handled {P : ReducedProblem K n S} {prm : Params K}
    (st : SolveState K n (S × Nat × Nat)) :
    (∀ st', solveDirection (counting P) prm st = .ok st' → Handled st.w st'.w) ∧
      (∀ r, solveDirection (counting P) prm st = .error r → Handled st.w r.st.w) := by
  have hcg := cg_handled P prm st.q st.gradient st.gradient_transposed st.w
  constructor
  · intro st' h
    unfold solveDirection at h
    dsimp only at h
    split at h
    · cases h
      exact hcg.1
    · cases h
      exact hcg.1.handleException _
    · cases h
      exact hcg.1.handleException _
    · cases h
    · cases h
  · intro r h
    unfold solveDirection at h
    dsimp only at h
    split at h
    · cases h
    · cases h
    · cases h
    · rename_i hs
      exact absurd hs hcg.2
    · cases h
      exact hcg.1

theorem counting_cost_other (P : ReducedProblem K n S) (s : S × Nat × Nat)
    (q : ControlVector K n) :
    ((counting P).ComputeReducedCostFunctional s q).2.2.2 = s.2.2 := by
  rcases h : (counting P).ComputeReducedCostFunctional s q with ⟨o, s'⟩
  cases o with
  | none => exact (counting_cost_none h).2
  | some v => exact (counting_cost_some h).2

theorem lineTrial_handled (P : ReducedProblem K n S) (prm : Params K)
    (dq q : ControlVector K n) (w : World (S × Nat × Nat)) (j : Nat) :
    Handled w (lineTrial (counting P) prm dq q w j).w := by
  induction j with
  | zero =>
    show Handled w (lineEval (counting P) 0 1 (ControlVector.plus q dq) (Dbl.fin 0) w).w
    rw [(lineEval_outcome (counting P) 0 1 (ControlVector.plus q dq) (Dbl.fin 0) w).2.2.2]
    exact Handled.withState w _ (counting_cost_other P _ _)
  | succ j ih =>
    show Handled w (lineEval (counting P) _ _ _ _ _).w
    rw [(lineEval_outcome (counting P) _ _ _ _ _).2.2.2]
    exact ih.trans (Handled.withState _ _ (counting_cost_other P _ _))

/-- The world left by the line search is the one of a trial point. -/
theorem lineSearch_w_trial (P : ReducedProblem K n S) (prm : Params K)
    (dq gradient : ControlVector K n) (cost : Dbl K) (q : ControlVector K n) (w : World S) :
    ∃ j, (ReducedNewtonLineSearch P prm dq gradient cost q w).w =
      (lineTrial P prm dq q w j).w := by
  by_cases hmax : 0 < prm.line_maxiter_
  · cases hst : (ReducedNewtonLineSearch P prm dq gradient cost q w).status with
    | returned k =>
      rw [(lineSearch_returned_trial hmax hst).2.2.2]
      exact ⟨k, rfl⟩
    | threw e =>
      rw [lineSearch_exceed P prm dq gradient cost q w hmax (lineSearch_threw_trial hst).2]
      split <;> exact ⟨_, rfl⟩
  · unfold ReducedNewtonLineSearch
    dsimp only
    rw [if_neg hmax]
    exact ⟨0, rfl⟩

theorem solveLineSearch_handled {P : ReducedProblem K n S} {prm : Params K}
    {st : SolveState K n (S × Nat × Nat)} :
    (∀ st', solveLineSearch (counting P) prm st = .ok st' → Handled st.w st'.w) ∧
      (∀ r, solveLineSearch (counting P) prm st = .error r → Handled st.w r.st.w) := by
  obtain ⟨j, hj⟩ := lineSearch_w_trial (counting P) prm
    (solveDescent st.gradient st.gradient_transposed st.dq) st.gradient st.cost st.q st.w
  have hls : Handled st.w (ReducedNewtonLineSearch (counting P) prm
      (solveDescent st.gradient st.gradient_transposed st.dq) st.gradient st.cost st.q
      st.w).w := by
    rw [hj]
    exact lineTrial_handled P prm _ _ _ _
  constructor
  · intro st' h
    unfold solveLineSearch at h
    dsimp only at h
    split at h
    · cases h
      exact hls
    · cases h
      exact hls.handleException _
    · cases h
  · intro r h
    unfold solveLineSearch at h
    dsimp only at h
    split at h
    · cases h
    · cases h
    · cases h
      exact hls

theorem solveBody_handled {P : ReducedProblem K n S} {prm : Params K}
    {st : SolveState K n (S × Nat × Nat)} :
    (∀ st', solveBody (counting P) prm st = .ok st' → Handled st.w st'.w) ∧
      (∀ r, solveBody (counting P) prm st = .error r → Handled st.w r.st.w) := by
  constructor
  · intro st' h
    unfold solveBody at h
    dsimp only at h
    split at h
    · cases h
    · split at h
      · cases h
      · rename_i st1 h1
        split at h
        · cases h
        · rename_i st2 h2
          split at h
          · cases h
          · rename_i st3 h3
            have e1 : Handled st.w st1.w :=
              (solveDirection_handled { st with iter := st.iter + 1 }).1 st1 h1
            exact (e1.trans (solveLineSearch_handled.1 st2 h2)).trans
              ((solveFunctionals_handled.1 st3 h3).trans (solveGradient_handled.1 st' h))
  · intro r h
    unfold solveBody at h
    dsimp only at h
    split at h
    · cases h
      exact Handled.refl _
    · split at h
      · rename_i r1 h1
        cases h
        exact (solveDirection_handled { st with iter := st.iter + 1 }).2 r h1
      · rename_i st1 h1
        have e1 : Handled st.w st1.w :=
          (solveDirection_handled { st with iter := st.iter + 1 }).1 st1 h1
        split at h
        · rename_i r2 h2
          cases h
          exact e1.trans (solveLineSearch_handled.2 r h2)
        · rename_i st2 h2
          have e2 := e1.trans (solveLineSearch_handled.1 st2 h2)
          split at h
          · rename_i r3 h3
            cases h
            exact e2.trans (solveFunctionals_handled.2 r h3)
          · rename_i st3 h3
            exact (e2.trans (solveFunctionals_handled.1 st3 h3)).trans
              (solveGradient_handled.2 r h)

end CountingSolve


section CountingRuns

variable {K : Type} [LinearOrderedField K] {n : Nat} {S : Type}

theorem solveInit_handled {P : ReducedProblem K n S} {prm : Params K}
    {q : ControlVector K n} {w : World (S × Nat × Nat)}
    (hc : ((counting P).ComputeReducedCostFunctional w.s q).1 ≠ none) :
    (∀ st0, solveInit (counting P) prm q w = .ok st0 → Handled w st0.w) ∧
      (∀ r, solveInit (counting P) prm q w = .error r → Handled w r.st.w) := by
  constructor
  · intro st0 h
    unfold solveInit at h
    dsimp only at h
    split at h
    · cases h
    · rename_i v s hv
      have h1 : Handled w (w.withState s) :=
        Handled.withState w s (counting_cost_some hv).2
      split at h
      · cases h
      · rename_i st1 hf
        exact (h1.trans (solveFunctionals_handled.1 st1 hf)).trans
          (solveGradient_handled.1 st0 h)
  · intro r h
    unfold solveInit at h
    dsimp only at h
    split at h
    · rename_i s hn
      exfalso
      apply hc
      show ((counting P).ComputeReducedCostFunctional w.s (ControlVector.ReInit q)).1 = none
      rw [hn]
    · rename_i v s hv
      have h1 : Handled w (w.withState s) :=
        Handled.withState w s (counting_cost_some hv).2
      split at h
      · rename_i r1 hf
        cases h
        exact h1.trans (solveFunctionals_handled.2 r hf)
      · rename_i st1 hf
        exact (h1.trans (solveFunctionals_handled.1 st1 hf)).trans
          (solveGradient_handled.2 r h)

/-- An exception of the first evaluation of the cost in `Solve` is handed to
`HandleCriticalException`. -/
theorem Solve_cost_failed {P : ReducedProblem K n S} {prm : Params K}
    {q : ControlVector K n} {global_tol : K} {w : World S}
    (hc : (P.ComputeReducedCostFunctional w.s q).1 = none) :
    (Solve P prm q global_tol w).status = .threw .Critical ∧
      (Solve P prm q global_tol w).st.w.log = Event.HandleCriticalException :: w.log := by
  have h0 : solveInit P prm q w =
      .error ⟨.threw .Critical,
        { (⟨0, q, Dbl.fin 0, q, q, q, 0, 0, 0, w⟩ : SolveState K n S) with
          w := (w.withState (P.ComputeReducedCostFunctional w.s q).2).HandleCriticalException }⟩ := by
    unfold solveInit
    dsimp only
    rcases h : P.ComputeReducedCostFunctional w.s (ControlVector.ReInit q) with ⟨o, s⟩
    have h' : P.ComputeReducedCostFunctional w.s q = (o, s) := h
    rw [h'] at hc
    dsimp only at hc
    subst hc
    rw [h']
    rfl
  unfold Solve
  rw [h0]
  exact ⟨rfl, rfl⟩

/-- In a run of `Solve` that gets past the first evaluation of the cost, every
exception of the gradient, the Hessian-vector product and the functionals is
handed to `HandleCriticalException`. -/
theorem Solve_handled (P : ReducedProblem K n S) (prm : Params K) (q : ControlVector K n)
    (global_tol : K) (w : World (S × Nat × Nat))
    (hc : ((counting P).ComputeReducedCostFunctional w.s q).1 ≠ none) :
    Handled w (Solve (counting P) prm q global_tol w).st.w := by
  have hi := @solveInit_handled K _ n S P prm q w hc
  cases h0 : solveInit (counting P) prm q w with
  | error r1 =>
    have : Solve (counting P) prm q global_tol w = r1 := by
      unfold Solve
      rw [h0]
    rw [this]
    exact hi.2 r1 h0
  | ok st0 =>
    have e0 := hi.1 st0 h0
    have hinv : ∀ (k : Nat) (st : SolveState K n (S × Nat × Nat)),
        Runs (solveGuard prm (max prm.nonlinear_global_tol_ global_tol) st0.res
          (if global_tol > 0 then 1 else 0)) (solveBody (counting P) prm) k st0 st →
        Handled w st.w := by
      intro k st hr
      exact Runs.invariant (fun s : SolveState K n (S × Nat × Nat) => Handled w s.w)
        (fun a b ha _ hab => Handled.trans ha (solveBody_handled.1 b hab)) hr e0
    by_cases hres : 0 ≤ st0.res
    · rw [Solve_of_init h0 hres]
      split
      · rename_i st' hloop
        obtain ⟨k, _, hr, _⟩ := whileLoop_done_iff.mp hloop
        have e1 := hinv k st' hr
        split
        · rename_i u s hf
          exact e1.trans (Handled.withState _ s (counting_functionals_some hf).2)
        · rename_i s hf
          exact e1.trans (Handled.critical _ s (counting_functionals_none hf).2)
      · rename_i r hloop
        obtain ⟨k, sk, _, hr, _, hb⟩ := whileLoop_raised_iff.mp hloop
        exact (hinv k sk hr).trans (solveBody_handled.2 r hb)
      · exact e0
    · have : Solve (counting P) prm q global_tol w = ⟨.threw .AssertFailed, st0⟩ := by
        unfold Solve
        rw [h0]
        dsimp only
        rw [if_neg (by simpa using hres)]
      rw [this]
      exact e0

end CountingRuns


section CountingBase

variable {K : Type} [LinearOrderedField K] {n : Nat} {S : Type}

/-- In `SolveForward` every exception of the reduced problem is handed to
`HandleCriticalException`. -/
theorem SolveForward_handled (P : ReducedProblem K n S) (q : ControlVector K n)
    (w : World (S × Nat × Nat)) :
    (SolveForward (counting P) q w).w.thrownCost + (SolveForward (counting P) q w).w.thrownOther +
        w.criticalCalls =
      w.thrownCost + w.thrownOther + (SolveForward (counting P) q w).w.criticalCalls := by
  unfold SolveForward
  dsimp only
  split
  · rename_i s hc
    have := counting_cost_none hc
    simp only [World.thrownCost, World.thrownOther, World.criticalCalls, World.withState,
      World.HandleCriticalException, List.count_cons_self]
    omega
  · rename_i v s hc
    have h1 := counting_cost_some hc
    split
    · rename_i s2 hf
      have h2 := counting_functionals_none hf
      simp only [World.thrownCost, World.thrownOther, World.criticalCalls, World.withState,
        World.HandleCriticalException, List.count_cons_self]
      omega
    · rename_i u s2 hf
      have h2 := counting_functionals_some hf
      simp only [World.thrownCost, World.thrownOther, World.criticalCalls, World.withState]
      omega

theorem Escaped.andThen {w w1 w2 : World (S × Nat × Nat)} {status : Ended}
    (h1 : Escaped w w1 .normally) (h2 : Escaped w1 w2 status) : Escaped w w2 status := by
  obtain ⟨a1, a2, _⟩ := h1
  obtain ⟨b1, b2, b3⟩ := h2
  have a2' := a2 rfl
  refine ⟨b1.trans a1, fun h => ?_, fun e h => ?_⟩
  · have := b2 h
    omega
  · have := b3 e h
    exact ⟨this.1, by omega⟩

/-- An evaluation of the cost that did not throw. -/
theorem escaped_cost_some {P : ReducedProblem K n S} {w : World (S × Nat × Nat)}
    {s s' : S × Nat × Nat} {q : ControlVector K n} {v : Dbl K}
    (h : (counting P).ComputeReducedCostFunctional s q = (some v, s')) (hs : s = w.s) :
    Escaped w (w.withState s') .normally := by
  subst hs
  have := counting_cost_some h
  refine ⟨rfl, fun _ => ?_, fun e he => by cases he⟩
  simp only [World.thrownCost, World.thrownOther, World.withState]
  omega

/-- An evaluation of the cost that threw, outside any `try`. -/
theorem escaped_cost_none {P : ReducedProblem K n S} {w : World (S × Nat × Nat)}
    {s s' : S × Nat × Nat} {q : ControlVector K n}
    (h : (counting P).ComputeReducedCostFunctional s q = (none, s')) (hs : s = w.s) :
    Escaped w (w.withState s') (.threw .Generic) := by
  subst hs
  have := counting_cost_none h
  refine ⟨rfl, fun he => (by cases he), fun e he => ?_⟩
  cases he
  refine ⟨rfl, ?_⟩
  simp only [World.thrownCost, World.thrownOther, World.withState]
  omega

theorem FirstDifferenceQuotient_escaped (P : ReducedProblem K n S) (exact eps : K)
    (q dq : ControlVector K n) (w : World (S × Nat × Nat)) :
    Escaped w (FirstDifferenceQuotient (counting P) exact eps q dq w).w
      (FirstDifferenceQuotient (counting P) exact eps q dq w).status := by
  unfold FirstDifferenceQuotient
  dsimp only
  split
  · rename_i s h1
    exact escaped_cost_none h1 rfl
  · rename_i v s h1
    have e1 : Escaped w (w.withState s) .normally := escaped_cost_some h1 rfl
    split
    · rename_i s2 h2
      exact e1.andThen (escaped_cost_none h2 rfl)
    · rename_i v2 s2 h2
      exact e1.andThen (escaped_cost_some h2 rfl)

theorem SecondDifferenceQuotient_escaped (P : ReducedProblem K n S) (exact eps : K)
    (q dq : ControlVector K n) (w : World (S × Nat × Nat)) :
    Escaped w (SecondDifferenceQuotient (counting P) exact eps q dq w).w
      (SecondDifferenceQuotient (counting P) exact eps q dq w).status := by
  unfold SecondDifferenceQuotient
  dsimp only
  split
  · rename_i s h1
    exact escaped_cost_none h1 rfl
  · rename_i v s h1
    have e1 : Escaped w (w.withState s) .normally := escaped_cost_some h1 rfl
    split
    · rename_i s2 h2
      exact e1.andThen (escaped_cost_none h2 rfl)
    · rename_i v2 s2 h2
      have e2 : Escaped w ((w.withState s).withState s2) .normally :=
        e1.andThen (escaped_cost_some h2 rfl)
      split
      · rename_i s3 h3
        exact e2.andThen (escaped_cost_none h3 rfl)
      · rename_i v3 s3 h3
        exact e2.andThen (escaped_cost_some h3 rfl)

theorem checkLoop_escaped (quotient : K → World (S × Nat × Nat) → QuotientResult K (S × Nat × Nat))
    (hq : ∀ eps w, Escaped w (quotient eps w).w (quotient eps w).status)
    (niter : Nat) (eps : K) (rows : List (DiffRow K)) (w : World (S × Nat × Nat)) :
    Escaped w (checkLoop quotient niter eps rows w).2.2 (checkLoop quotient niter eps rows w).1 := by
  induction niter generalizing eps rows w with
  | zero =>
    exact ⟨rfl, fun _ => rfl, fun e he => by cases he⟩
  | succ niter ih =>
    have h := hq eps w
    rcases hr : quotient eps w with ⟨st, row, w'⟩
    rw [hr] at h
    cases st with
    | normally =>
      simp only [checkLoop, hr]
      exact Escaped.andThen h (ih _ _ _)
    | threw e =>
      simp only [checkLoop, hr]
      exact h

end CountingBase


section CountingChecks

variable {K : Type} [LinearOrderedField K] {n : Nat} {S : Type}

/-- An evaluation of the gradient, the Hessian-vector product or the functionals
that did not move the counters. -/
theorem escaped_same (w : World (S × Nat × Nat)) (s' : S × Nat × Nat)
    (h : s'.2.1 = w.s.2.1 ∧ s'.2.2 = w.s.2.2) : Escaped w (w.withState s') .normally := by
  refine ⟨rfl, fun _ => ?_, fun e he => by cases he⟩
  simp only [World.thrownCost, World.thrownOther, World.withState]
  omega

/-- An evaluation outside any `try` that threw. -/
theorem escaped_threw (w : World (S × Nat × Nat)) (s' : S × Nat × Nat)
    (h : s'.2.1 = w.s.2.1 ∧ s'.2.2 = w.s.2.2 + 1) :
    Escaped w (w.withState s') (.threw .Generic) := by
  refine ⟨rfl, fun he => (by cases he), fun e he => ?_⟩
  cases he
  refine ⟨rfl, ?_⟩
  simp only [World.thrownCost, World.thrownOther, World.withState]
  omega

/-- `CheckGrads` calls no exception handler: an exception of the reduced problem
ends it and reaches the caller. -/
theorem CheckGrads_escaped (P : ReducedProblem K n S) (c : K) (q : ControlVector K n)
    (niter : Nat) (eps : K) (w : World (S × Nat × Nat)) :
    Escaped w (CheckGrads (counting P) c q niter eps w).w
      (CheckGrads (counting P) c q niter eps w).status := by
  unfold CheckGrads
  dsimp only
  split
  · rename_i s h1
    exact escaped_cost_none h1 rfl
  · rename_i v s h1
    have e1 : Escaped w (w.withState s) .normally := escaped_cost_some h1 rfl
    split
    · rename_i s2 h2
      exact e1.andThen (escaped_threw (w.withState s) s2 (counting_gradient_none h2))
    · rename_i g gT s2 h2
      have e2 : Escaped w (w.withState s2) .normally :=
        e1.andThen (escaped_same (w.withState s) s2 (counting_gradient_some h2))
      exact e2.andThen (checkLoop_escaped _
        (fun eps w => FirstDifferenceQuotient_escaped P _ eps _ _ w) niter eps [] _)

/-- `CheckHessian` calls no exception handler: an exception of the reduced problem
ends it and reaches the caller. -/
theorem CheckHessian_escaped (P : ReducedProblem K n S) (c : K) (q : ControlVector K n)
    (niter : Nat) (eps : K) (w : World (S × Nat × Nat)) :
    Escaped w (CheckHessian (counting P) c q niter eps w).w
      (CheckHessian (counting P) c q niter eps w).status := by
  unfold CheckHessian
  dsimp only
  split
  · rename_i s h1
    exact escaped_cost_none h1 rfl
  · rename_i v s h1
    have e1 : Escaped w (w.withState s) .normally := escaped_cost_some h1 rfl
    split
    · rename_i s2 h2
      exact e1.andThen (escaped_threw (w.withState s) s2 (counting_gradient_none h2))
    · rename_i gg s2 h2
      have e2 : Escaped w (w.withState s2) .normally :=
        e1.andThen (escaped_same (w.withState s) s2 (counting_gradient_some h2))
      split
      · rename_i s3 h3
        exact e2.andThen (escaped_threw (w.withState s2) s3 (counting_hessian_none h3))
      · rename_i hh hhT s3 h3
        have e3 : Escaped w (w.withState s3) .normally :=
          e2.andThen (escaped_same (w.withState s2) s3 (counting_hessian_some h3))
        exact e3.andThen (checkLoop_escaped _
          (fun eps w => SecondDifferenceQuotient_escaped P _ eps _ _ w) niter eps [] _)

end CountingChecks


/-! ## The claim about the exceptions of the reduced problem -/

section ExceptionClaims

variable {K : Type} [LinearOrderedField K] {n : Nat} {S : Type}

/-- The line search on the cost that throws for `q < 0`, entered at `q = 1` (cost
`1`, gradient `2`) with `dq = -21/20`: the evaluation at the first trial point
`q = -1/20` throws, the one at the second trial point `q = 11/200` succeeds and is
accepted, so `1` is returned. -/
theorem lineSearch_partial_swallowed :
    (ReducedNewtonLineSearch partialProblem (defaultParams ratSqrt) ![-21 / 20] ![2]
      (Dbl.fin 1) ![1] World.start).status = .returned 1 := by
  have hred : lineReduction (defaultParams ratSqrt) (![-21 / 20] : ControlVector ℚ 1) ![2]
      (Dbl.fin 1) = -21 / 10 := by
    simp only [lineReduction, ControlVector.dot, defaultParams, Dbl.lt, Dbl.mul]
    norm_num [abs_div]
  have hall : ∀ j, j < 1 →
      lineGuard (defaultParams ratSqrt) (Dbl.fin 1)
        (lineReduction (defaultParams ratSqrt) (![-21 / 20] : ControlVector ℚ 1) ![2]
          (Dbl.fin 1))
        (lineTrial partialProblem (defaultParams ratSqrt) ![-21 / 20] ![1] World.start j) =
        true := by
    intro j hj
    interval_cases j
    rw [lineTrial_guard]
    simp [partialProblem, ControlVector.add, lineAccepts]
    norm_num
  have hacc : lineGuard (defaultParams ratSqrt) (Dbl.fin 1)
      (lineReduction (defaultParams ratSqrt) (![-21 / 20] : ControlVector ℚ 1) ![2]
        (Dbl.fin 1))
      (lineTrial partialProblem (defaultParams ratSqrt) ![-21 / 20] ![1] World.start 1) =
      false := by
    rw [lineTrial_guard, hred]
    simp [partialProblem, ControlVector.add, lineAccepts, defaultParams, Dbl.isinf, Dbl.isnan,
      Dbl.add, Dbl.ge]
    norm_num
  rw [lineSearch_accept _ _ _ _ _ _ _ (by simp [defaultParams]) 1 (by simp [defaultParams])
    hall hacc]

/-- Claim C20, counterexample, on the cost that throws for `q < 0`.  In the line
search entered at `q = 1` with `dq = -21/20` the evaluation of the cost at the
first trial point throws; the search returns normally with the value `1`, and the
exception handler was never called.  In `CheckGrads` at `q = -1` the first
evaluation of the cost throws; the function ends with this exception and the
exception handler was never called. -/
theorem C20_exception_routing_counterexample :
    (partialProblem.ComputeReducedCostFunctional () (ControlVector.plus ![1] ![-21 / 20])).1 =
      none ∧
    (ReducedNewtonLineSearch partialProblem (defaultParams ratSqrt) ![-21 / 20] ![2]
      (Dbl.fin 1) ![1] World.start).status = .returned 1 ∧
    (ReducedNewtonLineSearch partialProblem (defaultParams ratSqrt) ![-21 / 20] ![2]
      (Dbl.fin 1) ![1] World.start).w.log = [] ∧
    (partialProblem.ComputeReducedCostFunctional () ![-1]).1 = none ∧
    (CheckGrads partialProblem 1 ![-1] 3 (1 / 100) World.start).status = .threw .Generic ∧
    (CheckGrads partialProblem 1 ![-1] 3 (1 / 100) World.start).w.log = [] := by
  refine ⟨?_, lineSearch_partial_swallowed, lineSearch_log _ _ _ _ _ _ _, ?_, ?_, ?_⟩
  · simp [partialProblem, ControlVector.plus]
    norm_num
  · simp [partialProblem]
  · simp [CheckGrads, partialProblem, ControlVector.ReInit]
  · simp [CheckGrads, partialProblem, ControlVector.ReInit, World.withState, World.start]

/-- Claim C20 (amended).  With the reduced problem counting the exceptions it
throws: in a run of `Solve` that gets past its first evaluation of the cost, every
exception thrown by the gradient, the Hessian-vector product or the functionals,
wherever in the run, is handed to `HandleCriticalException` (first part); an
exception of the first evaluation of the cost in `Solve` is handed to it as well
(second part); so is every exception of the Hessian-vector product in
`SolveReducedLinearSystem` (third part) and every exception in `SolveForward`
(fourth part).  `ReducedNewtonLineSearch` never calls the exception handler,
whatever the evaluations of the cost do: their exceptions are caught and only
force a further backtracking step (fifth part).  `CheckGrads` and `CheckHessian`
never call the exception handler either: the first exception of the reduced
problem ends them and reaches the caller (sixth and seventh part). -/
theorem C20_exception_routing (P : ReducedProblem K n S) (prm : Params K) :
    (∀ (q : ControlVector K n) (global_tol : K) (w : World (S × Nat × Nat)),
      ((counting P).ComputeReducedCostFunctional w.s q).1 ≠ none →
      Handled w (Solve (counting P) prm q global_tol w).st.w) ∧
    (∀ (q : ControlVector K n) (global_tol : K) (w : World S),
      (P.ComputeReducedCostFunctional w.s q).1 = none →
      (Solve P prm q global_tol w).status = .threw .Critical ∧
        (Solve P prm q global_tol w).st.w.log = Event.HandleCriticalException :: w.log) ∧
    (∀ (q gradient gradient_transposed : ControlVector K n) (w : World (S × Nat × Nat)),
      Handled w
        (SolveReducedLinearSystem (counting P) prm q gradient gradient_transposed w).w) ∧
    (∀ (q : ControlVector K n) (w : World (S × Nat × Nat)),
      (SolveForward (counting P) q w).w.thrownCost +
          (SolveForward (counting P) q w).w.thrownOther + w.criticalCalls =
        w.thrownCost + w.thrownOther + (SolveForward (counting P) q w).w.criticalCalls) ∧
    (∀ (dq gradient : ControlVector K n) (cost : Dbl K) (q : ControlVector K n) (w : World S),
      (ReducedNewtonLineSearch P prm dq gradient cost q w).w.log = w.log) ∧
    (∀ (c : K) (q : ControlVector K n) (niter : Nat) (eps : K) (w : World (S × Nat × Nat)),
      Escaped w (CheckGrads (counting P) c q niter eps w).w
        (CheckGrads (counting P) c q niter eps w).status) ∧
    (∀ (c : K) (q : ControlVector K n) (niter : Nat) (eps : K) (w : World (S × Nat × Nat)),
      Escaped w (CheckHessian (counting P) c q niter eps w).w
        (CheckHessian (counting P) c q niter eps w).status) :=
  ⟨fun q global_tol w hc => Solve_handled P prm q global_tol w hc,
    fun _ _ _ hc => Solve_cost_failed hc,
    fun q gradient gradient_transposed w =>
      (cg_handled P prm q gradient gradient_transposed w).1,
    fun q w => SolveForward_handled P q w,
    fun dq gradient cost q w => lineSearch_log P prm dq gradient cost q w,
    fun c q niter eps w => CheckGrads_escaped P c q niter eps w,
    fun c q niter eps w => CheckHessian_escaped P c q niter eps w⟩

/-- Claim C20 (amended), witness, on the cost that throws for `q < 0`, with the
counters at zero and no handler call so far.  `Solve` started at `q = -1` ends
through `HandleCriticalException`; `CheckGrads` at `q = -1` ends with the plain
exception, one exception was thrown and no handler was called. -/
theorem C20_exception_routing_witness :
    ((Solve partialProblem (defaultParams ratSqrt) ![-1] (-1) World.start).status =
        .threw .Critical ∧
      (Solve partialProblem (defaultParams ratSqrt) ![-1] (-1) World.start).st.w.log =
        [Event.HandleCriticalException]) ∧
    ((CheckGrads (counting partialProblem) 1 ![-1] 3 (1 / 100) ⟨((), 0, 0), []⟩).status =
        .threw .Generic ∧
      (CheckGrads (counting partialProblem) 1 ![-1] 3 (1 / 100) ⟨((), 0, 0), []⟩).w.log = [] ∧
      (CheckGrads (counting partialProblem) 1 ![-1] 3 (1 / 100) ⟨((), 0, 0), []⟩).w.thrownCost +
        (CheckGrads (counting partialProblem) 1 ![-1] 3 (1 / 100)
          ⟨((), 0, 0), []⟩).w.thrownOther = 1) := by
  have c := C20_exception_routing partialProblem (defaultParams ratSqrt)
  have hs : (CheckGrads (counting partialProblem) 1 ![-1] 3 (1 / 100)
      ⟨((), 0, 0), []⟩).status = .threw .Generic := by
    simp [CheckGrads, counting, partialProblem, ControlVector.ReInit]
  obtain ⟨h1, _, h3⟩ := c.2.2.2.2.2.1 1 ![-1] 3 (1 / 100) ⟨((), 0, 0), []⟩
  refine ⟨c.2.1 ![-1] (-1) World.start (by simp [partialProblem, World.start]), hs, h1, ?_⟩
  have := (h3 _ hs).2
  simpa [World.thrownCost, World.thrownOther] using this

end ExceptionClaims


/-! ## The claims about the parameters of `Solve` -/

section ParameterClaims

variable {K : Type} [LinearOrderedField K] {n : Nat} {S : Type}

/-- Claim C24.  Let `nonlinear_global_tol_ ≥ 0`.  For arguments `t1 ≤ 0` and
`t2 ≤ 0` the runs `Solve(q, t1)` and `Solve(q, t2)` are the same: the same status
(value returned or exception) and the same final variables.  The tolerance in the
guard of the loop is `nonlinear_global_tol_` and no iteration is forced: after
successful first evaluations with a non-negative residual, `Solve(q, t1)` is the
loop with the guard `res ≥ nonlinear_global_tol_^2 && res ≥
nonlinear_tol_^2 * firstres`. -/
theorem C24_nonpositive_global_tol (P : ReducedProblem K n S) (prm : Params K)
    (q : ControlVector K n) (t1 t2 : K) (w : World S)
    (hngt : 0 ≤ prm.nonlinear_global_tol_) (h1 : t1 ≤ 0) (h2 : t2 ≤ 0) :
    Solve P prm q t1 w = Solve P prm q t2 w ∧
    max prm.nonlinear_global_tol_ t1 = prm.nonlinear_global_tol_ ∧
    (∀ (firstres : K) (st : SolveState K n S),
      solveGuard prm prm.nonlinear_global_tol_ firstres 0 st =
        (decide (st.res ≥ prm.nonlinear_global_tol_ * prm.nonlinear_global_tol_) &&
          decide (st.res ≥ prm.nonlinear_tol_ * prm.nonlinear_tol_ * firstres))) ∧
    (∀ st0 : SolveState K n S, solveInit P prm q w = .ok st0 → 0 ≤ st0.res →
      Solve P prm q t1 w =
        match whileLoop (solveGuard prm prm.nonlinear_global_tol_ st0.res 0) (solveBody P prm)
            (prm.nonlinear_maxiter_ + 1) st0 with
        | .done st' =>
          match P.ComputeReducedFunctionals st'.w.s st'.q with
          | (some _, s) => ⟨.returned st'.iter, { st' with w := st'.w.withState s }⟩
          | (none, s) =>
            ⟨.threw .Critical, { st' with w := (st'.w.withState s).HandleCriticalException }⟩
        | .raised r => r
        | .outOfFuel => ⟨.threw .OutOfFuel, st0⟩) := by
  have key : ∀ t : K, t ≤ 0 →
      max prm.nonlinear_global_tol_ t = prm.nonlinear_global_tol_ ∧
        (if t > 0 then (1 : Nat) else 0) = 0 := by
    intro t ht
    exact ⟨max_eq_left (le_trans ht hngt), if_neg (not_lt.mpr ht)⟩
  have hform : ∀ t : K, t ≤ 0 →
      Solve P prm q t w =
        match solveInit P prm q w with
        | .error r => r
        | .ok st =>
          if st.res ≥ 0 then
            match whileLoop (solveGuard prm prm.nonlinear_global_tol_ st.res 0)
                (solveBody P prm) (prm.nonlinear_maxiter_ + 1) st with
            | .done st' =>
              match P.ComputeReducedFunctionals st'.w.s st'.q with
              | (some _, s) => ⟨.returned st'.iter, { st' with w := st'.w.withState s }⟩
              | (none, s) =>
                ⟨.threw .Critical,
                  { st' with w := (st'.w.withState s).HandleCriticalException }⟩
            | .raised r => r
            | .outOfFuel => ⟨.threw .OutOfFuel, st⟩
          else ⟨.threw .AssertFailed, st⟩ := by
    intro t ht
    unfold Solve
    dsimp only
    rw [(key t ht).1, (key t ht).2]
  refine ⟨by rw [hform t1 h1, hform t2 h2], (key t1 h1).1, ?_, ?_⟩
  · intro firstres st
    simp [solveGuard]
  · intro st0 h0 hres
    rw [hform t1 h1, h0]
    dsimp only
    rw [if_pos hres]

/-- Claim C24, witness: on the quadratic test problem with the default parameters
the arguments `-1` (the default) and `0` give the same run. -/
theorem C24_nonpositive_global_tol_witness :
    Solve (quadProblem (1 : ℚ)) (defaultParams ratSqrt) ![1, 1] (-1) World.start =
      Solve (quadProblem (1 : ℚ)) (defaultParams ratSqrt) ![1, 1] 0 World.start :=
  (C24_nonpositive_global_tol (quadProblem (1 : ℚ)) (defaultParams ratSqrt) ![1, 1] (-1) 0
    World.start (by simp [defaultParams]) (by norm_num) (le_refl 0)).1

/-- Claim C30.  The parameter `linear_tol_` has no influence: with any other value
`x` for it, `Solve`, `SolveReducedLinearSystem` and `ReducedNewtonLineSearch` give
the same result for the same reduced problem and arguments.  The guard of the
loop of the linear solver is `res ≥ min(0.25, sqrt(firstres))*firstres &&
res ≥ linear_global_tol_^2`. -/
theorem C30_linear_tol_unused (P : ReducedProblem K n S) (prm : Params K) (x : K) :
    (∀ (q : ControlVector K n) (global_tol : K) (w : World S),
      Solve P { prm with linear_tol_ := x } q global_tol w = Solve P prm q global_tol w) ∧
    (∀ (q gradient gradient_transposed : ControlVector K n) (w : World S),
      SolveReducedLinearSystem P { prm with linear_tol_ := x } q gradient gradient_transposed
          w =
        SolveReducedLinearSystem P prm q gradient gradient_transposed w) ∧
    (∀ (dq gradient : ControlVector K n) (cost : Dbl K) (q : ControlVector K n) (w : World S),
      ReducedNewtonLineSearch P { prm with linear_tol_ := x } dq gradient cost q w =
        ReducedNewtonLineSearch P prm dq gradient cost q w) ∧
    (∀ (firstres : K) (st : CGState K n S),
      cgGuard { prm with linear_tol_ := x } firstres st =
        (decide (st.res ≥ min (1 / 4) (prm.sqrt firstres) * firstres) &&
          decide (st.res ≥ prm.linear_global_tol_ * prm.linear_global_tol_))) :=
  ⟨fun _ _ _ => rfl, fun _ _ _ _ => rfl, fun _ _ _ _ _ => rfl, fun _ _ => rfl⟩

end ParameterClaims


/-! ## The claim about `line_maxiter_ = 0` -/

section NoLineSearchClaims

variable {K : Type} [LinearOrderedField K] {n : Nat} {S : Type}

/-- The line search with `line_maxiter_ = 0`. -/
theorem lineSearch_no_backtracking (P : ReducedProblem K n S) (prm : Params K)
    (dq gradient : ControlVector K n) (cost : Dbl K) (q : ControlVector K n) (w : World S)
    (hmax : prm.line_maxiter_ = 0) :
    ReducedNewtonLineSearch P prm dq gradient cost q w =
      ⟨.returned 0, cost, ControlVector.plus q dq,
        w.withState (P.ComputeReducedCostFunctional w.s (ControlVector.plus q dq)).2⟩ := by
  unfold ReducedNewtonLineSearch
  dsimp only
  rw [if_neg (by omega)]
  have hi := lineInit_fields P dq q w
  rw [hi.1, hi.2.2]
  congr 1
  exact (lineEval_outcome P 0 1 (ControlVector.plus q dq) (Dbl.fin 0) w).2.2.2

theorem solveDirection_error_cost {P : ReducedProblem K n S} {prm : Params K}
    {st : SolveState K n S} {r : SolveResult K n S}
    (h : solveDirection P prm st = .error r) : r.st.cost = st.cost ∧ r.st.q = st.q := by
  unfold solveDirection at h
  dsimp only at h
  split at h <;> first | (cases h; exact ⟨rfl, rfl⟩) | cases h

theorem solveFunctionals_error_cost {P : ReducedProblem K n S} {prm : Params K}
    {st : SolveState K n S} {r : SolveResult K n S}
    (h : solveFunctionals P prm st = .error r) : r.st.cost = st.cost ∧ r.st.q = st.q := by
  unfold solveFunctionals at h
  split at h
  · split at h
    · cases h
    · cases h
      exact ⟨rfl, rfl⟩
  · cases h

theorem solveGradient_error_cost {P : ReducedProblem K n S}
    {st : SolveState K n S} {r : SolveResult K n S}
    (h : solveGradient P st = .error r) : r.st.cost = st.cost ∧ r.st.q = st.q := by
  unfold solveGradient at h
  split at h
  · cases h
  · cases h
    exact ⟨rfl, rfl⟩

/-- With `line_maxiter_ = 0` the line search step of `Solve` completes and keeps
`cost`. -/
theorem solveLineSearch_no_backtracking (P : ReducedProblem K n S) (prm : Params K)
    (st : SolveState K n S) (hmax : prm.line_maxiter_ = 0) :
    ∃ st' : SolveState K n S, solveLineSearch P prm st = .ok st' ∧ st'.cost = st.cost ∧
      st'.q = ControlVector.plus st.q (solveDescent st.gradient st.gradient_transposed st.dq) ∧
      st'.lineiter = 0 := by
  unfold solveLineSearch
  dsimp only
  rw [lineSearch_no_backtracking P prm _ _ _ _ _ hmax]
  exact ⟨_, rfl, rfl, rfl, rfl⟩

/-- With `line_maxiter_ = 0` a step of `Solve` keeps `cost`, however it ends. -/
theorem solveBody_no_backtracking (P : ReducedProblem K n S) (prm : Params K)
    (st : SolveState K n S) (hmax : prm.line_maxiter_ = 0) :
    (∀ st', solveBody P prm st = .ok st' → st'.cost = st.cost) ∧
      (∀ r, solveBody P prm st = .error r → r.st.cost = st.cost) := by
  constructor
  · intro st' h
    unfold solveBody at h
    dsimp only at h
    split at h
    · cases h
    · split at h
      · cases h
      · rename_i st1 h1
        obtain ⟨st2', hls, hc2, _⟩ := solveLineSearch_no_backtracking P prm st1 hmax
        split at h
        · cases h
        · rename_i st2 h2
          rw [hls] at h2
          cases h2
          split at h
          · cases h
          · rename_i st3 h3
            rw [(solveGradient_ok h).2.2.1, (solveFunctionals_ok h3).2.2.1, hc2,
              (solveDirection_ok h1).2.2.1]
  · intro r h
    unfold solveBody at h
    dsimp only at h
    split at h
    · cases h
      rfl
    · split at h
      · rename_i r1 h1
        cases h
        exact (solveDirection_error_cost h1).1
      · rename_i st1 h1
        obtain ⟨st2', hls, hc2, _⟩ := solveLineSearch_no_backtracking P prm st1 hmax
        split at h
        · rename_i r2 h2
          rw [hls] at h2
          cases h2
        · rename_i st2 h2
          rw [hls] at h2
          cases h2
          split at h
          · rename_i r3 h3
            cases h
            rw [(solveFunctionals_error_cost h3).1, hc2, (solveDirection_ok h1).2.2.1]
          · rename_i st3 h3
            rw [(solveGradient_error_cost h).1, (solveFunctionals_ok h3).2.2.1, hc2,
              (solveDirection_ok h1).2.2.1]

/-- The cost after the first evaluations of `Solve` is the value of the cost at
the start point. -/
theorem solveInit_cost {P : ReducedProblem K n S} {prm : Params K} {q : ControlVector K n}
    {w : World S} {st0 : SolveState K n S} (h : solveInit P prm q w = .ok st0) :
    (P.ComputeReducedCostFunctional w.s q).1 = some st0.cost := by
  unfold solveInit at h
  dsimp only at h
  split at h
  · cases h
  · rename_i v s hv
    split at h
    · cases h
    · rename_i st1 h1
      rw [(solveGradient_ok h).2.2.1, (solveFunctionals_ok h1).2.2.1]
      have hv' : P.ComputeReducedCostFunctional w.s q = (some v, s) := hv
      rw [hv']

/-- Claim C28.  Let `line_maxiter_ = 0`.  Then `ReducedNewtonLineSearch` returns
`0`, whatever its arguments and whatever the evaluation of the cost at `q + dq`
does (it may throw or give a larger cost): `q` is `q + dq`, `cost` is the one of
the entry, no exception is raised.  In a run of `Solve` whose first evaluations
succeeded, `cost` is the value of the cost at the start point after every
completed step, and at the end, however the run ends. -/
theorem C28_no_line_search (P : ReducedProblem K n S) (prm : Params K)
    (hmax : prm.line_maxiter_ = 0) :
    (∀ (dq gradient : ControlVector K n) (cost : Dbl K) (q : ControlVector K n) (w : World S),
      ReducedNewtonLineSearch P prm dq gradient cost q w =
        ⟨.returned 0, cost, ControlVector.plus q dq,
          w.withState (P.ComputeReducedCostFunctional w.s (ControlVector.plus q dq)).2⟩) ∧
    (∀ (q : ControlVector K n) (global_tol : K) (w : World S) (st0 : SolveState K n S),
      solveInit P prm q w = .ok st0 →
      (P.ComputeReducedCostFunctional w.s q).1 = some st0.cost ∧
      (∀ (k : Nat) (st : SolveState K n S),
        Runs (solveGuard prm (max prm.nonlinear_global_tol_ global_tol) st0.res
          (if global_tol > 0 then 1 else 0)) (solveBody P prm) k st0 st →
        st.cost = st0.cost) ∧
      (Solve P prm q global_tol w).st.cost = st0.cost) := by
  refine ⟨fun dq gradient cost q w =>
    lineSearch_no_backtracking P prm dq gradient cost q w hmax, ?_⟩
  intro q global_tol w st0 h0
  have hinv : ∀ (k : Nat) (st : SolveState K n S),
      Runs (solveGuard prm (max prm.nonlinear_global_tol_ global_tol) st0.res
        (if global_tol > 0 then 1 else 0)) (solveBody P prm) k st0 st →
      st.cost = st0.cost := by
    intro k st hr
    exact Runs.invariant (fun s : SolveState K n S => s.cost = st0.cost)
      (fun a b ha _ hab => by
        show b.cost = st0.cost
        rw [(solveBody_no_backtracking P prm a hmax).1 b hab]
        exact ha) hr rfl
  refine ⟨solveInit_cost h0, hinv, ?_⟩
  by_cases hres : 0 ≤ st0.res
  · rw [Solve_of_init h0 hres]
    split
    · rename_i st' hloop
      obtain ⟨k, _, hr, _⟩ := whileLoop_done_iff.mp hloop
      split <;> exact hinv k st' hr
    · rename_i r hloop
      obtain ⟨k, sk, _, hr, _, hb⟩ := whileLoop_raised_iff.mp hloop
      rw [(solveBody_no_backtracking P prm sk hmax).2 r hb]
      exact hinv k sk hr
    · rfl
  · rw [Solve_assert_failed h0 (not_le.mp hres)]

/-- Claim C28, witness: `f(q) = q^2` with `line_maxiter_ = 0`, entered at `q = 1`
(cost `1`) with the ascent direction `dq = 1`.  The line search returns `0` with
`q = 2` and the cost `1` of the entry, although the cost at `q = 2` is `4`. -/
theorem C28_no_line_search_witness :
    ({ defaultParams ratSqrt with line_maxiter_ := 0 } : Params ℚ).line_maxiter_ = 0 ∧
    ReducedNewtonLineSearch (quadProblem (1 : ℚ)) { defaultParams ratSqrt with line_maxiter_ := 0 }
        ![1] ![2] (Dbl.fin 1) ![1] World.start =
      ⟨.returned 0, Dbl.fin 1, ControlVector.plus ![1] ![1], World.start⟩ :=
  ⟨rfl, (C28_no_line_search (quadProblem (1 : ℚ))
    { defaultParams ratSqrt with line_maxiter_ := 0 } rfl).1 ![1] ![2] (Dbl.fin 1) ![1]
    World.start⟩

end NoLineSearchClaims


/-! ## The claim about negative curvature in the first iteration -/

section FirstCurvatureClaims

variable {K : Type} [LinearOrderedField K] {n : Nat} {S : Type}

end FirstCurvatureClaims


/-! ## The claims about the difference quotients -/

section DifferenceQuotientClaims

variable {K : Type} [LinearOrderedField K] {n : Nat} {S : Type}

/-- The second point of a central difference quotient: `(q + eps*dq) - 2*eps*dq` is
`q - eps*dq`. -/
theorem ControlVector.add_add_neg_two (q dq : ControlVector K n) (eps : K) :
    ControlVector.add (ControlVector.add q eps dq) (-2 * eps) dq =
      ControlVector.add q (-eps) dq := by
  funext i
  simp only [ControlVector.add]
  ring

/-- When every call of the difference quotient ends normally with a row, the loop
of the checks ends normally and appends one row per iteration, the row of
iteration `i` being computed with `eps / 10^i`. -/
theorem checkLoop_rows (quotient : K → World S → QuotientResult K S)
    (R : K → DiffRow K → Prop)
    (hq : ∀ eps w, ∃ row w', quotient eps w = ⟨.normally, some row, w'⟩ ∧ R eps row) :
    ∀ (niter : Nat) (eps : K) (rows : List (DiffRow K)) (w : World S),
      ∃ (new : List (DiffRow K)) (w' : World S),
        checkLoop quotient niter eps rows w = (.normally, rows ++ new, w') ∧
        new.length = niter ∧
        ∀ (i : Nat) (row : DiffRow K), new[i]? = some row → R (eps / 10 ^ i) row := by
  intro niter
  induction niter with
  | zero =>
    intro eps rows w
    refine ⟨[], w, ?_, rfl, ?_⟩
    · simp only [checkLoop, List.append_nil]
    · intro i row h
      simp at h
  | succ niter ih =>
    intro eps rows w
    obtain ⟨row, w1, h1, hR⟩ := hq eps w
    obtain ⟨new, w', h2, hlen, hrows⟩ := ih (eps / 10) (rows ++ [row]) w1
    refine ⟨row :: new, w', ?_, by simp [hlen], ?_⟩
    · simp only [checkLoop, h1, Option.toList, h2, List.append_assoc, List.singleton_append]
    · intro i r h
      cases i with
      | zero =>
        simp only [List.getElem?_cons_zero, Option.some.injEq] at h
        subst h
        simpa using hR
      | succ i =>
        simp only [List.getElem?_cons_succ] at h
        have := hrows i r h
        rwa [div_div, ← pow_succ'] at this

/-- With a cost functional that never throws, `FirstDifferenceQuotient` evaluates
the cost at `q + eps*dq`, then at `q - eps*dq`, and reports one row. -/
theorem FirstDifferenceQuotient_row (P : ReducedProblem K n S) (exact eps : K)
    (q dq : ControlVector K n) (w : World S)
    (hcost : ∀ s p, (P.ComputeReducedCostFunctional s p).1 ≠ none) :
    ∃ (cost_right cost_left : Dbl K) (s1 s2 : S),
      P.ComputeReducedCostFunctional w.s (ControlVector.add q eps dq) =
        (some cost_right, s1) ∧
      P.ComputeReducedCostFunctional s1 (ControlVector.add q (-eps) dq) =
        (some cost_left, s2) ∧
      FirstDifferenceQuotient P exact eps q dq w =
        ⟨.normally,
          some ⟨eps, exact, Dbl.div (Dbl.sub cost_right cost_left) (Dbl.fin (2 * eps)),
            Dbl.div (Dbl.sub (Dbl.fin exact)
              (Dbl.div (Dbl.sub cost_right cost_left) (Dbl.fin (2 * eps)))) (Dbl.fin exact)⟩,
          w.withState s2⟩ := by
  rcases h1 : P.ComputeReducedCostFunctional w.s (ControlVector.add q eps dq) with ⟨c1, s1⟩
  cases c1 with
  | none => exact absurd (by rw [h1]) (hcost w.s (ControlVector.add q eps dq))
  | some cost_right =>
    rcases h2 : P.ComputeReducedCostFunctional s1 (ControlVector.add q (-eps) dq) with
      ⟨c2, s2⟩
    cases c2 with
    | none => exact absurd (by rw [h2]) (hcost s1 (ControlVector.add q (-eps) dq))
    | some cost_left =>
      refine ⟨cost_right, cost_left, s1, s2, rfl, h2, ?_⟩
      unfold FirstDifferenceQuotient
      simp only [h1, ControlVector.add_add_neg_two, h2]

/-- The rows of `CheckGrads` described by claim C21: the row with number `i` holds
`eps/10^i`, the value `exact`, the central difference quotient of two cost values
returned at `q + eps_i*dq` and at `q - eps_i*dq`, and the relative error. -/
theorem checkGrads_rows (P : ReducedProblem K n S) (exact : K) (q dq : ControlVector K n)
    (hcost : ∀ s p, (P.ComputeReducedCostFunctional s p).1 ≠ none)
    (niter : Nat) (eps : K) (w : World S) :
    ∃ (new : List (DiffRow K)) (w' : World S),
      checkLoop (fun eps w => FirstDifferenceQuotient P exact eps q dq w) niter eps [] w =
        (.normally, new, w') ∧
      new.length = niter ∧
      ∀ (i : Nat) (row : DiffRow K), new[i]? = some row →
        ∃ (cost_right cost_left : Dbl K) (s s1 s2 : S),
          P.ComputeReducedCostFunctional s (ControlVector.add q (eps / 10 ^ i) dq) =
            (some cost_right, s1) ∧
          P.ComputeReducedCostFunctional s1 (ControlVector.add q (-(eps / 10 ^ i)) dq) =
            (some cost_left, s2) ∧
          row = ⟨eps / 10 ^ i, exact,
            Dbl.div (Dbl.sub cost_right cost_left) (Dbl.fin (2 * (eps / 10 ^ i))),
            Dbl.div (Dbl.sub (Dbl.fin exact)
              (Dbl.div (Dbl.sub cost_right cost_left) (Dbl.fin (2 * (eps / 10 ^ i)))))
              (Dbl.fin exact)⟩ := by
  have h := checkLoop_rows (fun eps w => FirstDifferenceQuotient P exact eps q dq w)
    (fun e row => ∃ (cost_right cost_left : Dbl K) (s s1 s2 : S),
      P.ComputeReducedCostFunctional s (ControlVector.add q e dq) = (some cost_right, s1) ∧
      P.ComputeReducedCostFunctional s1 (ControlVector.add q (-e) dq) = (some cost_left, s2) ∧
      row = ⟨e, exact, Dbl.div (Dbl.sub cost_right cost_left) (Dbl.fin (2 * e)),
        Dbl.div (Dbl.sub (Dbl.fin exact)
          (Dbl.div (Dbl.sub cost_right cost_left) (Dbl.fin (2 * e)))) (Dbl.fin exact)⟩)
    (fun e w0 => by
      obtain ⟨cr, cl, s1, s2, h1, h2, h3⟩ :=
        FirstDifferenceQuotient_row P exact e q dq w0 hcost
      exact ⟨_, _, h3, cr, cl, w0.s, s1, s2, h1, h2, rfl⟩)
    niter eps [] w
  simpa only [List.nil_append] using h

/-- Claim C21.  Let the cost functional and the gradient never throw.  Then
`CheckGrads(c, q, dq, niter, eps)` ends normally, leaves `dq` with every entry
equal to `c` and `q` unchanged, and reports exactly `niter` rows.  There is one
gradient, returned by the one call of the gradient at `q` that follows the
first cost evaluation, such that the row with number `i < niter` is
`(eps_i, exact, diffquot_i, (exact - diffquot_i)/exact)` with
`exact = gradient*dq`, `eps_i = eps/10^i` and
`diffquot_i = (f(q + eps_i*dq) - f(q - eps_i*dq))/(2*eps_i)`, the two cost values
being those returned by consecutive evaluations at these two points. -/
theorem C21_check_grads (P : ReducedProblem K n S) (c : K) (q : ControlVector K n)
    (niter : Nat) (eps : K) (w : World S)
    (hcost : ∀ s p, (P.ComputeReducedCostFunctional s p).1 ≠ none)
    (hgrad : ∀ s p, (P.ComputeReducedGradient s p).1 ≠ none) :
    (CheckGrads P c q niter eps w).status = .normally ∧
    (∀ i, (CheckGrads P c q niter eps w).dq i = c) ∧
    (CheckGrads P c q niter eps w).q = q ∧
    (CheckGrads P c q niter eps w).rows.length = niter ∧
    ∃ (gradient gradient_transposed : ControlVector K n) (s0 : S),
      P.ComputeReducedGradient (P.ComputeReducedCostFunctional w.s q).2 q =
        (some (gradient, gradient_transposed), s0) ∧
      ∀ (i : Nat) (row : DiffRow K), (CheckGrads P c q niter eps w).rows[i]? = some row →
        ∃ (cost_right cost_left : Dbl K) (s s1 s2 : S),
          P.ComputeReducedCostFunctional s
              (ControlVector.add q (eps / 10 ^ i) (ControlVector.const c)) =
            (some cost_right, s1) ∧
          P.ComputeReducedCostFunctional s1
              (ControlVector.add q (-(eps / 10 ^ i)) (ControlVector.const c)) =
            (some cost_left, s2) ∧
          row = ⟨eps / 10 ^ i, ControlVector.dot gradient (ControlVector.const c),
            Dbl.div (Dbl.sub cost_right cost_left) (Dbl.fin (2 * (eps / 10 ^ i))),
            Dbl.div (Dbl.sub (Dbl.fin (ControlVector.dot gradient (ControlVector.const c)))
              (Dbl.div (Dbl.sub cost_right cost_left) (Dbl.fin (2 * (eps / 10 ^ i)))))
              (Dbl.fin (ControlVector.dot gradient (ControlVector.const c)))⟩ := by
  rcases h1 : P.ComputeReducedCostFunctional w.s q with ⟨c1, s1⟩
  cases c1 with
  | none => exact absurd (by rw [h1]) (hcost w.s q)
  | some cost =>
    rcases h2 : P.ComputeReducedGradient s1 q with ⟨g, s0⟩
    cases g with
    | none => exact absurd (by rw [h2]) (hgrad s1 q)
    | some g =>
      obtain ⟨gradient, gradient_transposed⟩ := g
      obtain ⟨new, w', hl, hlen, hrows⟩ := checkGrads_rows P
        (ControlVector.dot gradient (ControlVector.const c)) q (ControlVector.const c) hcost
        niter eps (w.withState s0)
      have hr : CheckGrads P c q niter eps w =
          ⟨.normally, q, ControlVector.const c, new, w'⟩ := by
        unfold CheckGrads
        simp only [ControlVector.ReInit, h1, h2, hl]
      rw [hr]
      exact ⟨rfl, fun _ => rfl, rfl, hlen, gradient, gradient_transposed, s0, rfl, hrows⟩

/-- Claim C21, witness: for the cost `q*q` in one variable, `CheckGrads` with
`c = 1`, `q = 2`, two iterations and `eps = 1/100` ends normally with two rows. -/
theorem C21_check_grads_witness :
    (CheckGrads (quadProblem 1) 1 (![2] : ControlVector ℚ 1) 2 (1 / 100)
      World.start).status = .normally ∧
    (CheckGrads (quadProblem 1) 1 (![2] : ControlVector ℚ 1) 2 (1 / 100)
      World.start).rows.length = 2 :=
  have h := C21_check_grads (quadProblem 1) 1 (![2] : ControlVector ℚ 1) 2 (1 / 100)
    World.start (fun _ _ => by simp [quadProblem]) (fun _ _ => by simp [quadProblem])
  ⟨h.1, h.2.2.2.1⟩

end DifferenceQuotientClaims


section QuadraticQuotientClaims

variable {K : Type} [LinearOrderedField K] {n : Nat} {S : Type}

/-- The central first difference of the quadratic function
`f(p) = p*(M p) + b*p + c0` is `2*eps` times the directional derivative
`((M + M^T) q + b)*dq`. -/
theorem quadratic_first_difference (M : Matrix (Fin n) (Fin n) K) (b q dq : ControlVector K n)
    (c0 eps : K) :
    (ControlVector.dot (ControlVector.add q eps dq) (M.mulVec (ControlVector.add q eps dq)) +
        ControlVector.dot b (ControlVector.add q eps dq) + c0) +
      -(ControlVector.dot (ControlVector.add q (-eps) dq)
          (M.mulVec (ControlVector.add q (-eps) dq)) +
        ControlVector.dot b (ControlVector.add q (-eps) dq) + c0) =
      2 * eps * ControlVector.dot (fun i => (M + M.transpose).mulVec q i + b i) dq := by
  have hT : Matrix.dotProduct (M.transpose.mulVec q) dq = Matrix.dotProduct q (M.mulVec dq) := by
    rw [Matrix.mulVec_transpose, Matrix.dotProduct_mulVec]
  have hg : (fun i => (M + M.transpose).mulVec q i + b i) =
      M.mulVec q + M.transpose.mulVec q + b := by
    funext i
    simp [Matrix.add_mulVec]
  rw [hg]
  simp only [ControlVector.dot_eq, ControlVector.add_eq, Matrix.mulVec_add, Matrix.mulVec_smul,
    Matrix.dotProduct_add, Matrix.add_dotProduct, Matrix.smul_dotProduct,
    Matrix.dotProduct_smul, smul_eq_mul, hT, Matrix.mulVec_neg, Matrix.neg_dotProduct,
    Matrix.dotProduct_neg, neg_smul, smul_neg]
  rw [Matrix.dotProduct_comm (M.mulVec q) dq]
  ring

/-- Claim C22 (amended).  In exact arithmetic, let the cost functional be the
quadratic function `f(p) = p*(M p) + b*p + c0` for a matrix `M`, a vector `b` and
a number `c0`, and `eps != 0`.  Then `FirstDifferenceQuotient` ends normally with
one row whose difference quotient is exactly the directional derivative
`((M + M^T) q + b)*dq`.  When the argument `exact` is this value, the reported
relative error is `0` if the value is not zero, and not-a-number (`0/0`) if it is
zero. -/
theorem C22_first_quotient_quadratic (P : ReducedProblem K n S)
    (M : Matrix (Fin n) (Fin n) K) (b : ControlVector K n) (c0 exact eps : K)
    (q dq : ControlVector K n) (w : World S)
    (hcost : ∀ s p, (P.ComputeReducedCostFunctional s p).1 =
      some (Dbl.fin (ControlVector.dot p (M.mulVec p) + ControlVector.dot b p + c0)))
    (heps : eps ≠ 0) :
    ∃ (row : DiffRow K) (w' : World S),
      FirstDifferenceQuotient P exact eps q dq w = ⟨.normally, some row, w'⟩ ∧
      row.eps = eps ∧ row.exact = exact ∧
      row.diffquot =
        Dbl.fin (ControlVector.dot (fun i => (M + M.transpose).mulVec q i + b i) dq) ∧
      (exact = ControlVector.dot (fun i => (M + M.transpose).mulVec q i + b i) dq →
        (exact ≠ 0 → row.relerr = Dbl.fin 0) ∧ (exact = 0 → row.relerr = Dbl.nan)) := by
  obtain ⟨cr, cl, s1, s2, h1, h2, h3⟩ := FirstDifferenceQuotient_row P exact eps q dq w
    (fun s p => by rw [hcost s p]; exact Option.some_ne_none _)
  have hr := hcost w.s (ControlVector.add q eps dq)
  rw [h1] at hr
  have hl := hcost s1 (ControlVector.add q (-eps) dq)
  rw [h2] at hl
  simp only [Option.some.injEq] at hr hl
  have h2e : (2 * eps : K) ≠ 0 := mul_ne_zero two_ne_zero heps
  have hd : Dbl.div (Dbl.sub cr cl) (Dbl.fin (2 * eps)) =
      Dbl.fin (ControlVector.dot (fun i => (M + M.transpose).mulVec q i + b i) dq) := by
    rw [hr, hl]
    simp only [Dbl.sub, Dbl.neg, Dbl.add, Dbl.div, if_neg h2e]
    rw [quadratic_first_difference, mul_div_cancel_left₀ _ h2e]
  refine ⟨_, _, h3, rfl, rfl, hd, ?_⟩
  intro hex
  dsimp only
  rw [hd, ← hex]
  constructor
  · intro hne
    simp only [Dbl.sub, Dbl.neg, Dbl.add, Dbl.div, if_neg hne, add_neg_cancel, zero_div]
  · intro h0
    simp only [Dbl.sub, Dbl.neg, Dbl.add, Dbl.div, h0, add_neg_cancel, if_true, neg_zero,
      add_zero]

/-- Claim C22 (amended), witness: for `f(q) = q*q` at `q = 2` with `dq = 1`,
`exact = 4` and `eps = 1/100`, `FirstDifferenceQuotient` ends normally and reports
a difference quotient and a relative error that are numbers, the quotient within
`4/1000` of `4` and the relative error within `1/1000` of `0`. -/
theorem C22_first_quotient_quadratic_witness :
    (FirstDifferenceQuotient (quadProblem 1) 4 (1 / 100) (![2] : ControlVector ℚ 1) ![1]
      World.start).status = .normally ∧
    ∃ d r : ℚ,
      (FirstDifferenceQuotient (quadProblem 1) 4 (1 / 100) (![2] : ControlVector ℚ 1) ![1]
        World.start).row.map DiffRow.diffquot = some (Dbl.fin d) ∧
      (FirstDifferenceQuotient (quadProblem 1) 4 (1 / 100) (![2] : ControlVector ℚ 1) ![1]
        World.start).row.map DiffRow.relerr = some (Dbl.fin r) ∧
      |d - 4| ≤ 4 / 1000 ∧ |r| ≤ 1 / 1000 := by
  have hval : ControlVector.dot
      (fun i => ((1 : Matrix (Fin 1) (Fin 1) ℚ) + (1 : Matrix (Fin 1) (Fin 1) ℚ).transpose).mulVec
        ![2] i + (0 : ControlVector ℚ 1) i) ![1] = 4 := by
    simp [ControlVector.dot, Matrix.add_mulVec]
    norm_num
  obtain ⟨row, w', h, _, _, hd, hrel⟩ := C22_first_quotient_quadratic (quadProblem 1)
    (1 : Matrix (Fin 1) (Fin 1) ℚ) 0 0 4 (1 / 100) (![2] : ControlVector ℚ 1) ![1] World.start
    (fun s p => by simp [quadProblem, ControlVector.dot]) (by norm_num)
  rw [h]
  rw [hval] at hd hrel
  exact ⟨rfl, 4, 0, by simp [hd], by simp [(hrel rfl).1 (by norm_num)], by norm_num,
    by norm_num⟩

/-- Claim C22, counterexample: for `f(q) = q*q` at the minimiser `q = 0` with
`dq = 1` the gradient is `0`, so `exact = 0`; `CheckGrads` reports the difference
quotient `0` and the relative error `0/0`, which is not a number and not `0`. -/
theorem C22_first_quotient_quadratic_counterexample :
    (CheckGrads (quadProblem 1) 1 (![0] : ControlVector ℚ 1) 1 (1 / 100) World.start).rows =
      [⟨1 / 100, 0, Dbl.fin 0, Dbl.nan⟩] ∧
    (Dbl.nan : Dbl ℚ) ≠ Dbl.fin 0 := by
  refine ⟨?_, by simp⟩
  simp [CheckGrads, checkLoop, FirstDifferenceQuotient, quadProblem, ControlVector.ReInit,
    ControlVector.dot, ControlVector.add, ControlVector.equ, ControlVector.const, Dbl.sub,
    Dbl.neg, Dbl.add, Dbl.div, World.withState]
  exact ⟨by norm_num, fun h => absurd (by norm_num) h⟩

end QuadraticQuotientClaims


section HessianCheckClaims

variable {K : Type} [LinearOrderedField K] {n : Nat} {S : Type}

/-- With a cost functional that never throws, `SecondDifferenceQuotient` evaluates
the cost at `q`, at `q + eps*dq`, then at `q - eps*dq`, and reports one row. -/
theorem SecondDifferenceQuotient_row (P : ReducedProblem K n S) (exact eps : K)
    (q dq : ControlVector K n) (w : World S)
    (hcost : ∀ s p, (P.ComputeReducedCostFunctional s p).1 ≠ none) :
    ∃ (cost_mid cost_right cost_left : Dbl K) (s0 s1 s2 : S),
      P.ComputeReducedCostFunctional w.s q = (some cost_mid, s0) ∧
      P.ComputeReducedCostFunctional s0 (ControlVector.add q eps dq) =
        (some cost_right, s1) ∧
      P.ComputeReducedCostFunctional s1 (ControlVector.add q (-eps) dq) =
        (some cost_left, s2) ∧
      SecondDifferenceQuotient P exact eps q dq w =
        ⟨.normally,
          some ⟨eps, exact,
            Dbl.div (Dbl.add (Dbl.sub cost_left (Dbl.mul (Dbl.fin 2) cost_mid)) cost_right)
              (Dbl.fin (eps * eps)),
            Dbl.div (Dbl.sub (Dbl.fin exact)
              (Dbl.div (Dbl.add (Dbl.sub cost_left (Dbl.mul (Dbl.fin 2) cost_mid)) cost_right)
                (Dbl.fin (eps * eps)))) (Dbl.fin exact)⟩,
          w.withState s2⟩ := by
  rcases h0 : P.ComputeReducedCostFunctional w.s q with ⟨c0, s0⟩
  cases c0 with
  | none => exact absurd (by rw [h0]) (hcost w.s q)
  | some cost_mid =>
    rcases h1 : P.ComputeReducedCostFunctional s0 (ControlVector.add q eps dq) with ⟨c1, s1⟩
    cases c1 with
    | none => exact absurd (by rw [h1]) (hcost s0 (ControlVector.add q eps dq))
    | some cost_right =>
      rcases h2 : P.ComputeReducedCostFunctional s1 (ControlVector.add q (-eps) dq) with
        ⟨c2, s2⟩
      cases c2 with
      | none => exact absurd (by rw [h2]) (hcost s1 (ControlVector.add q (-eps) dq))
      | some cost_left =>
        refine ⟨cost_mid, cost_right, cost_left, s0, s1, s2, rfl, h1, h2, ?_⟩
        unfold SecondDifferenceQuotient
        simp only [h0, h1, ControlVector.add_add_neg_two, h2]

/-- The rows of `CheckHessian`: the row with number `i` holds `eps/10^i`, the value
`exact`, the second difference quotient of three cost values returned at `q`, at
`q + eps_i*dq` and at `q - eps_i*dq`, and the relative error. -/
theorem checkHessian_rows (P : ReducedProblem K n S) (exact : K) (q dq : ControlVector K n)
    (hcost : ∀ s p, (P.ComputeReducedCostFunctional s p).1 ≠ none)
    (niter : Nat) (eps : K) (w : World S) :
    ∃ (new : List (DiffRow K)) (w' : World S),
      checkLoop (fun eps w => SecondDifferenceQuotient P exact eps q dq w) niter eps [] w =
        (.normally, new, w') ∧
      new.length = niter ∧
      ∀ (i : Nat) (row : DiffRow K), new[i]? = some row →
        ∃ (cost_mid cost_right cost_left : Dbl K) (s s0 s1 s2 : S),
          P.ComputeReducedCostFunctional s q = (some cost_mid, s0) ∧
          P.ComputeReducedCostFunctional s0 (ControlVector.add q (eps / 10 ^ i) dq) =
            (some cost_right, s1) ∧
          P.ComputeReducedCostFunctional s1 (ControlVector.add q (-(eps / 10 ^ i)) dq) =
            (some cost_left, s2) ∧
          row = ⟨eps / 10 ^ i, exact,
            Dbl.div (Dbl.add (Dbl.sub cost_left (Dbl.mul (Dbl.fin 2) cost_mid)) cost_right)
              (Dbl.fin (eps / 10 ^ i * (eps / 10 ^ i))),
            Dbl.div (Dbl.sub (Dbl.fin exact)
              (Dbl.div (Dbl.add (Dbl.sub cost_left (Dbl.mul (Dbl.fin 2) cost_mid)) cost_right)
                (Dbl.fin (eps / 10 ^ i * (eps / 10 ^ i))))) (Dbl.fin exact)⟩ := by
  have h := checkLoop_rows (fun eps w => SecondDifferenceQuotient P exact eps q dq w)
    (fun e row => ∃ (cost_mid cost_right cost_left : Dbl K) (s s0 s1 s2 : S),
      P.ComputeReducedCostFunctional s q = (some cost_mid, s0) ∧
      P.ComputeReducedCostFunctional s0 (ControlVector.add q e dq) = (some cost_right, s1) ∧
      P.ComputeReducedCostFunctional s1 (ControlVector.add q (-e) dq) = (some cost_left, s2) ∧
      row = ⟨e, exact,
        Dbl.div (Dbl.add (Dbl.sub cost_left (Dbl.mul (Dbl.fin 2) cost_mid)) cost_right)
          (Dbl.fin (e * e)),
        Dbl.div (Dbl.sub (Dbl.fin exact)
          (Dbl.div (Dbl.add (Dbl.sub cost_left (Dbl.mul (Dbl.fin 2) cost_mid)) cost_right)
            (Dbl.fin (e * e)))) (Dbl.fin exact)⟩)
    (fun e w0 => by
      obtain ⟨cm, cr, cl, s0, s1, s2, h0, h1, h2, h3⟩ :=
        SecondDifferenceQuotient_row P exact e q dq w0 hcost
      exact ⟨_, _, h3, cm, cr, cl, w0.s, s0, s1, s2, h0, h1, h2, rfl⟩)
    niter eps [] w
  simpa only [List.nil_append] using h

/-- The second difference of the quadratic function `f(p) = p*(M p) + b*p + c0` is
`eps^2` times `((M + M^T) dq)*dq`. -/
theorem quadratic_second_difference (M : Matrix (Fin n) (Fin n) K)
    (b q dq : ControlVector K n) (c0 eps : K) :
    (ControlVector.dot (ControlVector.add q (-eps) dq)
          (M.mulVec (ControlVector.add q (-eps) dq)) +
        ControlVector.dot b (ControlVector.add q (-eps) dq) + c0) +
      -(2 * (ControlVector.dot q (M.mulVec q) + ControlVector.dot b q + c0)) +
      (ControlVector.dot (ControlVector.add q eps dq) (M.mulVec (ControlVector.add q eps dq)) +
        ControlVector.dot b (ControlVector.add q eps dq) + c0) =
      eps * eps * ControlVector.dot ((M + M.transpose).mulVec dq) dq := by
  have hT : Matrix.dotProduct (M.transpose.mulVec dq) dq =
      Matrix.dotProduct dq (M.mulVec dq) := by
    rw [Matrix.mulVec_transpose, Matrix.dotProduct_mulVec]
  simp only [ControlVector.dot_eq, ControlVector.add_eq, Matrix.mulVec_add, Matrix.mulVec_smul,
    Matrix.dotProduct_add, Matrix.add_dotProduct, Matrix.smul_dotProduct,
    Matrix.dotProduct_smul, smul_eq_mul, hT, Matrix.mulVec_neg, Matrix.neg_dotProduct,
    Matrix.dotProduct_neg, neg_smul, smul_neg, Matrix.add_mulVec]
  rw [Matrix.dotProduct_comm (M.mulVec dq) dq]
  ring

/-- Claim C23.  Let the cost functional, the gradient and the Hessian-vector
product never throw.  Then `CheckHessian(c, q, dq, niter, eps)` ends normally with
`dq` constant `c`, `q` unchanged and exactly `niter` rows.  There is one vector
`hessian`, returned by the one Hessian-vector call at `q` in direction `dq` that
follows the cost and gradient evaluations, such that the row with number
`i < niter` holds `eps_i = eps/10^i`, `exact = hessian*dq`, the quotient
`(f(q - eps_i*dq) - 2*f(q) + f(q + eps_i*dq))/eps_i^2` of three cost values
returned by consecutive evaluations, and the relative error.  If moreover the
cost is the quadratic function `f(p) = p*(M p) + b*p + c0`, the Hessian oracle
returns `(M + M^T) d` and `eps != 0`, then in every row the quotient equals
`exact = ((M + M^T) dq)*dq`. -/
theorem C23_check_hessian (P : ReducedProblem K n S) (c : K) (q : ControlVector K n)
    (niter : Nat) (eps : K) (w : World S)
    (hcost : ∀ s p, (P.ComputeReducedCostFunctional s p).1 ≠ none)
    (hgrad : ∀ s p, (P.ComputeReducedGradient s p).1 ≠ none)
    (hhess : ∀ s p d, (P.ComputeReducedHessianVector s p d).1 ≠ none) :
    (CheckHessian P c q niter eps w).status = .normally ∧
    (∀ i, (CheckHessian P c q niter eps w).dq i = c) ∧
    (CheckHessian P c q niter eps w).q = q ∧
    (CheckHessian P c q niter eps w).rows.length = niter ∧
    (∃ (hessian hessian_transposed : ControlVector K n) (s0 : S),
      P.ComputeReducedHessianVector
          (P.ComputeReducedGradient (P.ComputeReducedCostFunctional w.s q).2 q).2 q
          (ControlVector.const c) = (some (hessian, hessian_transposed), s0) ∧
      ∀ (i : Nat) (row : DiffRow K), (CheckHessian P c q niter eps w).rows[i]? = some row →
        ∃ (cost_mid cost_right cost_left : Dbl K) (s s0 s1 s2 : S),
          P.ComputeReducedCostFunctional s q = (some cost_mid, s0) ∧
          P.ComputeReducedCostFunctional s0
              (ControlVector.add q (eps / 10 ^ i) (ControlVector.const c)) =
            (some cost_right, s1) ∧
          P.ComputeReducedCostFunctional s1
              (ControlVector.add q (-(eps / 10 ^ i)) (ControlVector.const c)) =
            (some cost_left, s2) ∧
          row = ⟨eps / 10 ^ i, ControlVector.dot hessian (ControlVector.const c),
            Dbl.div (Dbl.add (Dbl.sub cost_left (Dbl.mul (Dbl.fin 2) cost_mid)) cost_right)
              (Dbl.fin (eps / 10 ^ i * (eps / 10 ^ i))),
            Dbl.div (Dbl.sub (Dbl.fin (ControlVector.dot hessian (ControlVector.const c)))
              (Dbl.div
                (Dbl.add (Dbl.sub cost_left (Dbl.mul (Dbl.fin 2) cost_mid)) cost_right)
                (Dbl.fin (eps / 10 ^ i * (eps / 10 ^ i)))))
              (Dbl.fin (ControlVector.dot hessian (ControlVector.const c)))⟩) ∧
    (∀ (M : Matrix (Fin n) (Fin n) K) (b : ControlVector K n) (c0 : K),
      (∀ s p, (P.ComputeReducedCostFunctional s p).1 =
        some (Dbl.fin (ControlVector.dot p (M.mulVec p) + ControlVector.dot b p + c0))) →
      (∀ s p d, (P.ComputeReducedHessianVector s p d).1.map Prod.fst =
        some ((M + M.transpose).mulVec d)) →
      eps ≠ 0 →
      ∀ (i : Nat) (row : DiffRow K), (CheckHessian P c q niter eps w).rows[i]? = some row →
        row.eps = eps / 10 ^ i ∧
        row.exact = ControlVector.dot ((M + M.transpose).mulVec (ControlVector.const c))
          (ControlVector.const c) ∧
        row.diffquot = Dbl.fin row.exact) := by
  rcases h1 : P.ComputeReducedCostFunctional w.s q with ⟨c1, s1⟩
  cases c1 with
  | none => exact absurd (by rw [h1]) (hcost w.s q)
  | some cost =>
    rcases h2 : P.ComputeReducedGradient s1 q with ⟨g, s2⟩
    cases g with
    | none => exact absurd (by rw [h2]) (hgrad s1 q)
    | some g =>
      rcases h3 : P.ComputeReducedHessianVector s2 q (ControlVector.const c) with ⟨H, s3⟩
      cases H with
      | none => exact absurd (by rw [h3]) (hhess s2 q (ControlVector.const c))
      | some H =>
        obtain ⟨hessian, hessian_transposed⟩ := H
        obtain ⟨new, w', hl, hlen, hrows⟩ := checkHessian_rows P
          (ControlVector.dot hessian (ControlVector.const c)) q (ControlVector.const c) hcost
          niter eps (w.withState s3)
        have hr : CheckHessian P c q niter eps w =
            ⟨.normally, q, ControlVector.const c, new, w'⟩ := by
          unfold CheckHessian
          simp only [ControlVector.ReInit, h1, h2, h3, hl]
        rw [hr]
        refine ⟨rfl, fun _ => rfl, rfl, hlen,
          ⟨hessian, hessian_transposed, s3, rfl, hrows⟩, ?_⟩
        intro M b c0 hq hH heps i row hi
        obtain ⟨cm, cr, cl, s, t0, t1, t2, e0, e1, e2, hrow⟩ := hrows i row hi
        have hm := hq s q
        rw [e0] at hm
        have hright := hq t0 (ControlVector.add q (eps / 10 ^ i) (ControlVector.const c))
        rw [e1] at hright
        have hleft := hq t1 (ControlVector.add q (-(eps / 10 ^ i)) (ControlVector.const c))
        rw [e2] at hleft
        simp only [Option.some.injEq] at hm hright hleft
        have hh := hH s2 q (ControlVector.const c)
        rw [h3] at hh
        simp only [Option.map_some', Option.some.injEq] at hh
        have he : eps / 10 ^ i ≠ 0 := div_ne_zero heps (pow_ne_zero _ (by norm_num))
        have hee : eps / 10 ^ i * (eps / 10 ^ i) ≠ 0 := mul_ne_zero he he
        rw [hrow]
        refine ⟨rfl, by rw [hh], ?_⟩
        dsimp only
        rw [hm, hleft, hright]
        simp only [Dbl.sub, Dbl.neg, Dbl.add, Dbl.mul, Dbl.div, if_neg hee]
        rw [quadratic_second_difference, mul_div_cancel_left₀ _ hee, hh]

/-- Claim C23, witness: for `f(q) = q*q` in one variable, `CheckHessian` with
`c = 1` at `q = 2`, two iterations and `eps = 1/100` ends normally with two rows,
each with `exact = 2` and the quotient `2`. -/
theorem C23_check_hessian_witness :
    (CheckHessian (quadProblem 1) 1 (![2] : ControlVector ℚ 1) 2 (1 / 100)
      World.start).status = .normally ∧
    (CheckHessian (quadProblem 1) 1 (![2] : ControlVector ℚ 1) 2 (1 / 100)
      World.start).rows.length = 2 ∧
    ∀ (i : Nat) (row : DiffRow ℚ),
      (CheckHessian (quadProblem 1) 1 (![2] : ControlVector ℚ 1) 2 (1 / 100)
        World.start).rows[i]? = some row → row.exact = 2 ∧ row.diffquot = Dbl.fin 2 := by
  have h := C23_check_hessian (quadProblem 1) 1 (![2] : ControlVector ℚ 1) 2 (1 / 100)
    World.start (fun _ _ => by simp [quadProblem]) (fun _ _ => by simp [quadProblem])
    (fun _ _ _ => by simp [quadProblem])
  refine ⟨h.1, h.2.2.2.1, fun i row hi => ?_⟩
  have hq := h.2.2.2.2.2 (1 : Matrix (Fin 1) (Fin 1) ℚ) 0 0
    (fun s p => by simp [quadProblem, ControlVector.dot])
    (fun s p d => by
      simp only [quadProblem, Option.map_some', Option.some.injEq]
      funext j
      simp [ControlVector.equ, Matrix.add_mulVec]
      ring)
    (by norm_num) i row hi
  have hval : ControlVector.dot
      (((1 : Matrix (Fin 1) (Fin 1) ℚ) + (1 : Matrix (Fin 1) (Fin 1) ℚ).transpose).mulVec
        (ControlVector.const 1)) (ControlVector.const 1) = 2 := by
    simp [ControlVector.dot, ControlVector.const, Matrix.add_mulVec, Matrix.mulVec,
      Matrix.dotProduct]
    norm_num
  rw [hval] at hq
  exact ⟨hq.2.1, by rw [hq.2.2, hq.2.1]⟩

end HessianCheckClaims


/-! ## The claim about a linear solver without iterations -/

section NoLinearIterationClaims

variable {K : Type} [LinearOrderedField K] {n : Nat} {S : Type}

theorem ControlVector.NormInfty_nonneg (u : ControlVector K n) :
    0 ≤ ControlVector.NormInfty u := by
  unfold ControlVector.NormInfty
  generalize (List.ofFn u).map (fun x => |x|) = l
  induction l with
  | nil => exact le_rfl
  | cons x l ih => exact le_trans ih (le_max_right _ _)

theorem ControlVector.NormInfty_const_zero :
    ControlVector.NormInfty (ControlVector.const 0 : ControlVector K n) = 0 := by
  unfold ControlVector.NormInfty
  have hz : ∀ l : List K, (∀ x ∈ l, x = 0) → l.foldr max 0 = 0 := by
    intro l
    induction l with
    | nil => intro _; rfl
    | cons x l ih =>
      intro h
      rw [List.foldr_cons, ih (fun y hy => h y (List.mem_cons_of_mem _ hy)),
        h x (List.mem_cons_self _ _), max_self]
  apply hz
  intro x hx
  simp only [List.mem_map, List.mem_ofFn, Set.mem_range] at hx
  obtain ⟨y, ⟨i, hi⟩, rfl⟩ := hx
  rw [← hi]
  simp [ControlVector.const]

theorem ControlVector.add_const_zero (q : ControlVector K n) (a : K) :
    ControlVector.add q a (ControlVector.const 0) = q := by
  funext i
  simp [ControlVector.add, ControlVector.const]

theorem ControlVector.dot_const_zero (u : ControlVector K n) :
    ControlVector.dot u (ControlVector.const 0) = 0 := by
  simp [ControlVector.dot, ControlVector.const]

/-- The descent check keeps the direction zero. -/
theorem solveDescent_zero (gradient gradient_transposed : ControlVector K n) :
    solveDescent gradient gradient_transposed (ControlVector.const 0) =
      ControlVector.const 0 := by
  unfold solveDescent
  dsimp only
  rw [ControlVector.dot_const_zero, if_neg (lt_irrefl _)]

/-- With `linear_maxiter_ = 0` the linear solver returns `0` or raises the
iteration exception, in both cases with `dq = 0` and before any call of the
reduced problem. -/
theorem cg_maxiter_zero (P : ReducedProblem K n S) (prm : Params K)
    (q gradient gradient_transposed : ControlVector K n) (w : World S)
    (hmax : prm.linear_maxiter_ = 0)
    (hres : 0 ≤ Residual gradient gradient_transposed) :
    SolveReducedLinearSystem P prm q gradient gradient_transposed w =
        ⟨.returned 0, ControlVector.const 0, w⟩ ∨
      SolveReducedLinearSystem P prm q gradient gradient_transposed w =
        ⟨.threw .Iteration, ControlVector.const 0, w⟩ := by
  cases hg : cgGuard prm (Residual gradient gradient_transposed)
      (cgInit gradient gradient_transposed w) with
  | true => exact Or.inr (cg_no_iterations P prm q gradient gradient_transposed w hmax hg)
  | false =>
    left
    rw [cg_eq_loop P prm q gradient gradient_transposed w hres,
      whileLoop_done_of_runs (prm.linear_maxiter_ + 1) (Nat.zero_le _)
        (show Runs _ _ 0 (cgInit gradient gradient_transposed w) _ from rfl) hg]
    rfl

/-- With `linear_maxiter_ = 0` the direction computed in the loop of `Solve` is
zero: neither handler replaces it. -/
theorem solveDirection_maxiter_zero (P : ReducedProblem K n S) (prm : Params K)
    (st : SolveState K n S) (hmax : prm.linear_maxiter_ = 0)
    (hres : 0 ≤ Residual st.gradient st.gradient_transposed) :
    ∃ st1 : SolveState K n S, solveDirection P prm st = .ok st1 ∧
      st1.dq = ControlVector.const 0 ∧ st1.w.s = st.w.s ∧
      (st1.liniter = 0 ∨ st1.liniter = -1) := by
  rcases cg_maxiter_zero P prm st.q st.gradient st.gradient_transposed st.w hmax hres with
    h | h
  · refine ⟨{ st with dq := ControlVector.const 0, liniter := 0 }, ?_, rfl, rfl, Or.inl rfl⟩
    unfold solveDirection
    simp only [h]
    rfl
  · have hn : ¬ ControlVector.NormInfty (ControlVector.const 0 : ControlVector K n) >
        10000 * ControlVector.NormInfty st.gradient_transposed := by
      rw [ControlVector.NormInfty_const_zero]
      exact not_lt.mpr (mul_nonneg (by norm_num) (ControlVector.NormInfty_nonneg _))
    refine ⟨{ st with
        dq := ControlVector.const 0, liniter := -1, w := st.w.HandleException .Iteration },
      ?_, rfl, rfl, Or.inr rfl⟩
    unfold solveDirection
    simp only [h, if_neg hn]

/-- The line search in the direction zero, at a point where the cost can be
evaluated: `q` stays, and the function returns or raises the iteration
exception. -/
theorem lineSearch_zero_direction (P : ReducedProblem K n S) (prm : Params K)
    (gradient : ControlVector K n) (cost : Dbl K) (q : ControlVector K n) (w : World S)
    (hcost : ∀ s, (P.ComputeReducedCostFunctional s q).1 ≠ none) :
    (ReducedNewtonLineSearch P prm (ControlVector.const 0) gradient cost q w).q = q ∧
      ((∃ k, (ReducedNewtonLineSearch P prm (ControlVector.const 0) gradient cost q w).status =
        .returned k) ∨
      (ReducedNewtonLineSearch P prm (ControlVector.const 0) gradient cost q w).status =
        .threw .Iteration) := by
  cases hs : (ReducedNewtonLineSearch P prm (ControlVector.const 0) gradient cost q w).status
    with
  | returned k =>
    exact ⟨by rw [lineSearch_returned_q hs, ControlVector.add_const_zero], Or.inl ⟨k, rfl⟩⟩
  | threw e =>
    obtain ⟨hq, _, hsome⟩ := lineSearch_threw hs
    rw [ControlVector.add_const_zero] at hq hsome
    refine ⟨hq, Or.inr ?_⟩
    rcases hc : (P.ComputeReducedCostFunctional
      (lineWorld P prm (ControlVector.const 0) q w prm.line_maxiter_).s q).1 with _ | v
    · exact absurd hc (hcost _)
    · rw [(hsome v hc).1]

/-- The line search step of `Solve` with the direction zero leaves `q`. -/
theorem solveLineSearch_zero_direction (P : ReducedProblem K n S) (prm : Params K)
    (st : SolveState K n S) (hdq : st.dq = ControlVector.const 0)
    (hcost : ∀ s, (P.ComputeReducedCostFunctional s st.q).1 ≠ none) :
    ∃ st2 : SolveState K n S, solveLineSearch P prm st = .ok st2 ∧ st2.q = st.q ∧
      st2.dq = ControlVector.const 0 := by
  have hd : solveDescent st.gradient st.gradient_transposed st.dq = ControlVector.const 0 := by
    rw [hdq, solveDescent_zero]
  have h0 := lineSearch_zero_direction P prm st.gradient st.cost st.q st.w hcost
  unfold solveLineSearch
  dsimp only
  rw [hd]
  generalize ReducedNewtonLineSearch P prm (ControlVector.const 0) st.gradient st.cost st.q
    st.w = ls at h0
  obtain ⟨hq, ⟨k, hk⟩ | hs⟩ := h0
  · rw [hk]
    exact ⟨_, rfl, hq, rfl⟩
  · rw [hs]
    exact ⟨_, rfl, hq, rfl⟩

/-- The functionals were evaluated by the first evaluations of `Solve` when they
are evaluated in every step. -/
theorem solveInit_functionals {P : ReducedProblem K n S} {prm : Params K}
    {q : ControlVector K n} {w : World S} {st0 : SolveState K n S}
    (h : solveInit P prm q w = .ok st0)
    (hf : prm.compute_functionals_in_every_step_ = true) :
    ∃ s, (P.ComputeReducedFunctionals s q).1 ≠ none := by
  unfold solveInit at h
  dsimp only at h
  split at h
  · cases h
  · rename_i v s hv
    split at h
    · cases h
    · rename_i st1 h1
      refine ⟨s, ?_⟩
      unfold solveFunctionals at h1
      rw [if_pos hf] at h1
      dsimp only [World.withState, ControlVector.ReInit] at h1
      split at h1
      · rename_i u s' hu
        intro hnone
        rw [hu] at hnone
        cases hnone
      · cases h1

end NoLinearIterationClaims


section NoLinearIterationRun

variable {K : Type} [LinearOrderedField K] {n : Nat} {S : Type}

theorem solveFunctionals_total (P : ReducedProblem K n S) (prm : Params K)
    (st : SolveState K n S)
    (h : prm.compute_functionals_in_every_step_ = true →
      (P.ComputeReducedFunctionals st.w.s st.q).1 ≠ none) :
    ∃ st' : SolveState K n S, solveFunctionals P prm st = .ok st' := by
  unfold solveFunctionals
  by_cases hf : prm.compute_functionals_in_every_step_ = true
  · rw [if_pos hf]
    rcases hu : P.ComputeReducedFunctionals st.w.s st.q with ⟨u, s⟩
    cases u with
    | none => exact absurd (by rw [hu]) (h hf)
    | some u => exact ⟨_, rfl⟩
  · rw [if_neg hf]
    exact ⟨_, rfl⟩

theorem solveGradient_total (P : ReducedProblem K n S) (st : SolveState K n S)
    (gradient gradient_transposed : ControlVector K n)
    (h : (P.ComputeReducedGradient st.w.s st.q).1 = some (gradient, gradient_transposed)) :
    ∃ st' : SolveState K n S, solveGradient P st = .ok st' ∧ st'.gradient = gradient ∧
      st'.gradient_transposed = gradient_transposed := by
  unfold solveGradient
  rcases hg : P.ComputeReducedGradient st.w.s st.q with ⟨g, s⟩
  rw [hg] at h
  dsimp only at h
  subst h
  exact ⟨_, rfl, rfl, rfl⟩

/-- One step of `Solve` with `linear_maxiter_ = 0` for a reduced problem whose
cost, functionals and gradient can be evaluated at `q`, the gradient always with
the same result: the step succeeds, leaves `q` and the gradient, and its direction
is zero. -/
theorem solveBody_maxiter_zero (P : ReducedProblem K n S) (prm : Params K)
    (q gradient gradient_transposed : ControlVector K n) (st : SolveState K n S)
    (hlin : prm.linear_maxiter_ = 0)
    (hc : ∀ s, (P.ComputeReducedCostFunctional s q).1 ≠ none)
    (hf : prm.compute_functionals_in_every_step_ = true →
      ∀ s, (P.ComputeReducedFunctionals s q).1 ≠ none)
    (hg : ∀ s, (P.ComputeReducedGradient s q).1 = some (gradient, gradient_transposed))
    (hres : 0 ≤ Residual gradient gradient_transposed)
    (hq : st.q = q) (hgr : st.gradient = gradient)
    (hgt : st.gradient_transposed = gradient_transposed)
    (hiter : st.iter + 1 ≤ prm.nonlinear_maxiter_) :
    ∃ st' : SolveState K n S, solveBody P prm st = .ok st' ∧ st'.q = q ∧
      st'.gradient = gradient ∧ st'.gradient_transposed = gradient_transposed ∧
      st'.res = Residual gradient gradient_transposed ∧
      st'.dq = ControlVector.const 0 := by
  obtain ⟨st1, h1, hdq1, _, _⟩ := solveDirection_maxiter_zero P prm
    { st with iter := st.iter + 1 } hlin (by rw [hgr, hgt]; exact hres)
  obtain ⟨_, hq1, _, hgr1, hgt1, _⟩ := solveDirection_ok h1
  obtain ⟨st2, h2, hq2, hdq2⟩ := solveLineSearch_zero_direction P prm st1 hdq1
    (by rw [hq1]; exact fun s => by rw [hq]; exact hc s)
  obtain ⟨st3, h3⟩ := solveFunctionals_total P prm st2
    (fun hcf => by rw [hq2, hq1]; exact (by rw [hq]; exact hf hcf st2.w.s))
  obtain ⟨_, hq3, _, hdq3, _⟩ := solveFunctionals_ok h3
  obtain ⟨st4, h4, hgr4, hgt4⟩ := solveGradient_total P st3 gradient gradient_transposed
    (by rw [hq3, hq2, hq1]; exact (by rw [hq]; exact hg st3.w.s))
  obtain ⟨_, hq4, _, hdq4, hres4, _⟩ := solveGradient_ok h4
  refine ⟨st4, ?_, ?_, hgr4, hgt4, by rw [hres4, hgr4, hgt4], by rw [hdq4, hdq3, hdq2]⟩
  · unfold solveBody
    dsimp only
    rw [if_neg (by omega)]
    simp only [h1, h2, h3, h4]
  · rw [hq4, hq3, hq2, hq1]
    exact hq

/-- Claim C27.  Let `linear_maxiter_ = 0`.  In every outer iteration (at every
state of `Solve` with a residual that passes the assertion) the linear solver
returns `0` or raises the iteration exception without calling the reduced
problem, the direction after the handlers is `dq = 0`, and the descent check
keeps it.  For a reduced problem whose cost, functionals and gradient do not
depend on the hidden state, and a start point where the first evaluations
succeed and the residual satisfies the condition of the loop, every state of the
run has the start point as `q`, every completed step has `dq = 0`, and `Solve`
ends with the iteration exception of the outer loop, raised in iteration
`nonlinear_maxiter_ + 1`, with `q` unchanged. -/
theorem C27_no_linear_iterations (P : ReducedProblem K n S) (prm : Params K)
    (q : ControlVector K n) (global_tol : K) (w : World S) (st0 : SolveState K n S)
    (hlin : prm.linear_maxiter_ = 0)
    (hcost : ∀ s s' p, (P.ComputeReducedCostFunctional s p).1 =
      (P.ComputeReducedCostFunctional s' p).1)
    (hfun : ∀ s s' p, (P.ComputeReducedFunctionals s p).1 =
      (P.ComputeReducedFunctionals s' p).1)
    (hgrad : ∀ s s' p, (P.ComputeReducedGradient s p).1 =
      (P.ComputeReducedGradient s' p).1)
    (hinit : solveInit P prm q w = .ok st0)
    (hguard : max prm.nonlinear_global_tol_ global_tol *
        max prm.nonlinear_global_tol_ global_tol ≤ st0.res ∧
      prm.nonlinear_tol_ * prm.nonlinear_tol_ * st0.res ≤ st0.res) :
    (∀ st : SolveState K n S, 0 ≤ Residual st.gradient st.gradient_transposed →
      (SolveReducedLinearSystem P prm st.q st.gradient st.gradient_transposed st.w =
          ⟨.returned 0, ControlVector.const 0, st.w⟩ ∨
        SolveReducedLinearSystem P prm st.q st.gradient st.gradient_transposed st.w =
          ⟨.threw .Iteration, ControlVector.const 0, st.w⟩) ∧
      ∃ st1 : SolveState K n S, solveDirection P prm st = .ok st1 ∧
        st1.dq = ControlVector.const 0 ∧
        solveDescent st1.gradient st1.gradient_transposed st1.dq = ControlVector.const 0) ∧
    (∀ (k : Nat) (st : SolveState K n S),
      Runs (solveGuard prm (max prm.nonlinear_global_tol_ global_tol) st0.res
        (if global_tol > 0 then 1 else 0)) (solveBody P prm) k st0 st →
      st.q = q ∧ (0 < k → st.dq = ControlVector.const 0)) ∧
    (Solve P prm q global_tol w).status = .threw .Iteration ∧
    (Solve P prm q global_tol w).st.q = q ∧
    (Solve P prm q global_tol w).st.iter = prm.nonlinear_maxiter_ + 1 := by
  obtain ⟨hit0, hq0, hres0, s1, s2, hg0⟩ := solveInit_ok hinit
  have hnonneg : 0 ≤ st0.res := le_trans (mul_self_nonneg _) hguard.1
  have hc : ∀ s, (P.ComputeReducedCostFunctional s q).1 ≠ none := by
    intro s
    rw [hcost s w.s q, solveInit_cost hinit]
    exact Option.some_ne_none _
  have hf : prm.compute_functionals_in_every_step_ = true →
      ∀ s, (P.ComputeReducedFunctionals s q).1 ≠ none := by
    intro hcf s
    obtain ⟨s', hs'⟩ := solveInit_functionals hinit hcf
    rw [hfun s s' q]
    exact hs'
  have hg : ∀ s, (P.ComputeReducedGradient s q).1 =
      some (st0.gradient, st0.gradient_transposed) := by
    intro s
    rw [hgrad s s1 q, hg0]
  have hresnn : 0 ≤ Residual st0.gradient st0.gradient_transposed := by
    rw [← hres0]
    exact hnonneg
  have hstep : ∀ st : SolveState K n S,
      (st.q = q ∧ st.gradient = st0.gradient ∧
        st.gradient_transposed = st0.gradient_transposed ∧ st.res = st0.res) →
      st.iter + 1 ≤ prm.nonlinear_maxiter_ →
      ∃ st' : SolveState K n S, solveBody P prm st = .ok st' ∧
        (st'.q = q ∧ st'.gradient = st0.gradient ∧
          st'.gradient_transposed = st0.gradient_transposed ∧ st'.res = st0.res) ∧
        st'.dq = ControlVector.const 0 := by
    intro st hinv hiter
    obtain ⟨st', hb, h1, h2, h3, h4, h5⟩ := solveBody_maxiter_zero P prm q st0.gradient
      st0.gradient_transposed st hlin hc hf hg hresnn hinv.1 hinv.2.1 hinv.2.2.1 hiter
    exact ⟨st', hb, ⟨h1, h2, h3, by rw [h4, ← hres0]⟩, h5⟩
  have hgd : ∀ st : SolveState K n S, st.res = st0.res →
      solveGuard prm (max prm.nonlinear_global_tol_ global_tol) st0.res
        (if global_tol > 0 then 1 else 0) st = true := by
    intro st hres
    simp only [solveGuard, hres, ge_iff_le, hguard.1, hguard.2, decide_True, Bool.and_self,
      Bool.true_or]
  have hinv0 : st0.q = q ∧ st0.gradient = st0.gradient ∧
      st0.gradient_transposed = st0.gradient_transposed ∧ st0.res = st0.res :=
    ⟨hq0, rfl, rfl, rfl⟩
  have hinvariant : ∀ (k : Nat) (st : SolveState K n S),
      Runs (solveGuard prm (max prm.nonlinear_global_tol_ global_tol) st0.res
        (if global_tol > 0 then 1 else 0)) (solveBody P prm) k st0 st →
      st.q = q ∧ st.gradient = st0.gradient ∧
        st.gradient_transposed = st0.gradient_transposed ∧ st.res = st0.res := by
    intro k st hr
    refine Runs.invariant (fun st => st.q = q ∧ st.gradient = st0.gradient ∧
      st.gradient_transposed = st0.gradient_transposed ∧ st.res = st0.res) ?_ hr hinv0
    intro s s' hs _ hb
    obtain ⟨st', hb', hinv', _⟩ := hstep s hs (solveBody_ok hb).2.1
    rw [hb] at hb'
    cases hb'
    exact hinv'
  have hrun : ∀ k, k ≤ prm.nonlinear_maxiter_ → ∃ st : SolveState K n S,
      Runs (solveGuard prm (max prm.nonlinear_global_tol_ global_tol) st0.res
        (if global_tol > 0 then 1 else 0)) (solveBody P prm) k st0 st := by
    intro k
    induction k with
    | zero => exact fun _ => ⟨st0, rfl⟩
    | succ k ih =>
      intro hk
      obtain ⟨st, hr⟩ := ih (by omega)
      have hinv := hinvariant k st hr
      have hi := (solve_runs_iter hr).1
      obtain ⟨st', hb, _⟩ := hstep st hinv (by rw [hi, hit0]; omega)
      exact ⟨st', hr.snoc (hgd st hinv.2.2.2) hb⟩
  obtain ⟨sk, hrk⟩ := hrun prm.nonlinear_maxiter_ le_rfl
  have hinvk := hinvariant _ sk hrk
  have hik : sk.iter = prm.nonlinear_maxiter_ := by
    rw [(solve_runs_iter hrk).1, hit0]
    omega
  have hsolve : Solve P prm q global_tol w =
      ⟨.threw .Iteration, { sk with iter := sk.iter + 1 }⟩ :=
    Solve_raised hinit hnonneg hrk (hgd sk hinvk.2.2.2)
      (solveBody_exceeded P prm sk (by omega))
  have hiter : (Solve P prm q global_tol w).st.iter = prm.nonlinear_maxiter_ + 1 := by
    rw [hsolve]
    show sk.iter + 1 = prm.nonlinear_maxiter_ + 1
    rw [hik]
  refine ⟨?_, ?_, by rw [hsolve], by rw [hsolve]; exact hinvk.1, hiter⟩
  · intro st hres
    refine ⟨cg_maxiter_zero P prm st.q st.gradient st.gradient_transposed st.w hlin hres, ?_⟩
    obtain ⟨st1, h1, hdq1, _⟩ := solveDirection_maxiter_zero P prm st hlin hres
    exact ⟨st1, h1, hdq1, by rw [hdq1, solveDescent_zero]⟩
  · intro k st hr
    refine ⟨(hinvariant k st hr).1, fun hk => ?_⟩
    obtain ⟨k, rfl⟩ : ∃ j, k = j + 1 := ⟨k - 1, by omega⟩
    obtain ⟨sm, hrm, _, hb⟩ := hr.unsnoc
    obtain ⟨st', hb', _, hdq⟩ := hstep sm (hinvariant k sm hrm) (solveBody_ok hb).2.1
    rw [hb] at hb'
    cases hb'
    exact hdq

/-- Claim C27, witness: the cost `q*q` in one variable with the default parameters
except `linear_maxiter_ = 0`, start point `1`: the gradient is `2`, the residual
`4` passes the condition of the loop, and `Solve` raises the iteration exception
in iteration `11` with `q = 1`. -/
theorem C27_no_linear_iterations_witness :
    (Solve (quadProblem (1 : ℚ)) { defaultParams ratSqrt with linear_maxiter_ := 0 }
      (![1] : ControlVector ℚ 1) (-1) World.start).status = .threw .Iteration ∧
    (Solve (quadProblem (1 : ℚ)) { defaultParams ratSqrt with linear_maxiter_ := 0 }
      (![1] : ControlVector ℚ 1) (-1) World.start).st.q = ![1] ∧
    (Solve (quadProblem (1 : ℚ)) { defaultParams ratSqrt with linear_maxiter_ := 0 }
      (![1] : ControlVector ℚ 1) (-1) World.start).st.iter = 11 := by
  have hres : Residual (ControlVector.equ (2 * 1) (![1] : ControlVector ℚ 1))
      (ControlVector.equ (2 * 1) ![1]) = 4 := by
    simp [Residual, ControlVector.dot, ControlVector.equ]
    norm_num
  have h := C27_no_linear_iterations (quadProblem (1 : ℚ))
    { defaultParams ratSqrt with linear_maxiter_ := 0 } (![1] : ControlVector ℚ 1) (-1)
    World.start
    ⟨0, ![1], Dbl.fin (1 * ControlVector.dot ![1] ![1]), ![1], ControlVector.equ (2 * 1) ![1],
      ControlVector.equ (2 * 1) ![1],
      Residual (ControlVector.equ (2 * 1) ![1]) (ControlVector.equ (2 * 1) ![1]), 0, 0,
      World.start⟩
    rfl (fun _ _ _ => rfl) (fun _ _ _ => rfl) (fun _ _ _ => rfl) rfl
    (by
      show max (1 / 10 ^ 11 : ℚ) (-1) * max (1 / 10 ^ 11 : ℚ) (-1) ≤
          Residual (ControlVector.equ (2 * 1) ![1]) (ControlVector.equ (2 * 1) ![1]) ∧
        (1 / 10 ^ 7 : ℚ) * (1 / 10 ^ 7) *
          Residual (ControlVector.equ (2 * 1) ![1]) (ControlVector.equ (2 * 1) ![1]) ≤
          Residual (ControlVector.equ (2 * 1) ![1]) (ControlVector.equ (2 * 1) ![1])
      rw [hres, max_eq_left (by norm_num)]
      constructor <;> norm_num)
  exact h.2.2

end NoLinearIterationRun


/-! ## The claim about a forced iteration at a stationary point -/

section StationaryPointClaims

variable {K : Type} [LinearOrderedField K] {n : Nat} {S : Type}

theorem World.eq_mk (w : World S) (log : List Event) (h : w.log = log) : w = ⟨w.s, log⟩ := by
  subst h
  rfl

theorem Residual_const_zero :
    Residual (ControlVector.const 0 : ControlVector K n) (ControlVector.const 0) = 0 :=
  ControlVector.dot_const_zero _

/-- With the gradient zero and `linear_global_tol_ > 0` the linear solver returns
`0` with `dq = 0` and does not call the reduced problem. -/
theorem cg_zero_gradient (P : ReducedProblem K n S) (prm : Params K) (q : ControlVector K n)
    (w : World S) (hlgt : 0 < prm.linear_global_tol_) :
    SolveReducedLinearSystem P prm q (ControlVector.const 0) (ControlVector.const 0) w =
      ⟨.returned 0, ControlVector.const 0, w⟩ := by
  have hg : cgGuard prm (Residual (ControlVector.const 0 : ControlVector K n)
      (ControlVector.const 0))
      (cgInit (ControlVector.const 0 : ControlVector K n) (ControlVector.const 0) w) =
      false := by
    rw [Bool.eq_false_iff]
    intro h
    have h2 : prm.linear_global_tol_ * prm.linear_global_tol_ ≤
        Residual (ControlVector.const 0 : ControlVector K n) (ControlVector.const 0) :=
      (cgGuard_true h).2.1
    rw [Residual_const_zero] at h2
    exact absurd (mul_pos hlgt hlgt) (not_lt.mpr h2)
  rw [cg_eq_loop P prm q _ _ w (by rw [Residual_const_zero]),
    whileLoop_done_of_runs (prm.linear_maxiter_ + 1) (Nat.zero_le _)
      (show Runs _ _ 0
        (cgInit (ControlVector.const 0 : ControlVector K n) (ControlVector.const 0) w) _
        from rfl) hg]
  rfl

theorem lineReduction_zero_direction (prm : Params K) (gradient : ControlVector K n)
    (cost : Dbl K) : lineReduction prm (ControlVector.const 0) gradient cost = 0 := by
  unfold lineReduction
  dsimp only
  rw [ControlVector.dot_const_zero, if_neg (lt_irrefl _)]
  split
  · split <;> rfl
  · rfl

/-- The line search in the direction zero from a point where the cost always has
the finite value it had before: no trial point is accepted (`costnew >= cost`),
and after `line_maxiter_` backtracks the iteration exception is raised, with `q`
and `cost` as before. -/
theorem lineSearch_stationary (P : ReducedProblem K n S) (prm : Params K)
    (gradient q : ControlVector K n) (v : K) (w : World S)
    (hline : 0 < prm.line_maxiter_)
    (hcost : ∀ s, (P.ComputeReducedCostFunctional s q).1 = some (Dbl.fin v)) :
    (∀ j, j ≤ prm.line_maxiter_ →
      lineGuard prm (Dbl.fin v)
        (lineReduction prm (ControlVector.const 0) gradient (Dbl.fin v))
        (lineTrial P prm (ControlVector.const 0) q w j) = true) ∧
    ReducedNewtonLineSearch P prm (ControlVector.const 0) gradient (Dbl.fin v) q w =
      ⟨.threw .Iteration, Dbl.fin v, q,
        (lineTrial P prm (ControlVector.const 0) q w prm.line_maxiter_).w⟩ := by
  have hall : ∀ j, j ≤ prm.line_maxiter_ →
      lineGuard prm (Dbl.fin v)
        (lineReduction prm (ControlVector.const 0) gradient (Dbl.fin v))
        (lineTrial P prm (ControlVector.const 0) q w j) = true := by
    intro j _
    rw [lineTrial_guard, ControlVector.add_const_zero, hcost, lineReduction_zero_direction]
    simp [lineAccepts, Dbl.isinf, Dbl.isnan, Dbl.ge, Dbl.add]
  refine ⟨hall, ?_⟩
  have ho := lineTrial_outcome P prm (ControlVector.const 0) q w prm.line_maxiter_
  rw [ControlVector.add_const_zero] at ho
  have hforce : ¬ (lineTrial P prm (ControlVector.const 0) q w
      prm.line_maxiter_).force_linesearch = true := by
    intro hf
    have := ho.1.mp hf
    rw [hcost] at this
    cases this
  rw [lineSearch_exceed P prm _ gradient (Dbl.fin v) q w hline hall, if_neg hforce,
    ho.2 (Dbl.fin v) (hcost _),
    (lineTrial_fields P prm (ControlVector.const 0) q w prm.line_maxiter_).2.2,
    ControlVector.add_const_zero]

theorem solveFunctionals_form (P : ReducedProblem K n S) (prm : Params K)
    (st : SolveState K n S)
    (h : (P.ComputeReducedFunctionals st.w.s st.q).1 ≠ none) :
    ∃ s, solveFunctionals P prm st = .ok { st with w := st.w.withState s } := by
  unfold solveFunctionals
  by_cases hf : prm.compute_functionals_in_every_step_ = true
  · rw [if_pos hf]
    rcases hu : P.ComputeReducedFunctionals st.w.s st.q with ⟨u, s⟩
    cases u with
    | none => exact absurd (by rw [hu]) h
    | some u => exact ⟨s, rfl⟩
  · rw [if_neg hf]
    exact ⟨st.w.s, rfl⟩

theorem solveGradient_form (P : ReducedProblem K n S) (st : SolveState K n S)
    (gradient gradient_transposed : ControlVector K n)
    (h : (P.ComputeReducedGradient st.w.s st.q).1 = some (gradient, gradient_transposed)) :
    ∃ s, solveGradient P st =
      .ok { st with gradient := gradient, gradient_transposed := gradient_transposed,
                    res := Residual gradient gradient_transposed, w := st.w.withState s } := by
  unfold solveGradient
  rcases hg : P.ComputeReducedGradient st.w.s st.q with ⟨g, s⟩
  rw [hg] at h
  dsimp only at h
  subst h
  exact ⟨s, rfl⟩

/-- The first evaluations of `Solve` at a point where the cost is finite, the
functionals can be evaluated and the gradient is zero. -/
theorem solveInit_stationary (P : ReducedProblem K n S) (prm : Params K)
    (q : ControlVector K n) (v : K) (w : World S)
    (hcost : ∀ s, (P.ComputeReducedCostFunctional s q).1 = some (Dbl.fin v))
    (hfun : ∀ s, (P.ComputeReducedFunctionals s q).1 ≠ none)
    (hgrad : ∀ s, (P.ComputeReducedGradient s q).1 =
      some (ControlVector.const 0, ControlVector.const 0)) :
    ∃ s, solveInit P prm q w =
      .ok ⟨0, q, Dbl.fin v, q, ControlVector.const 0, ControlVector.const 0, 0, 0, 0,
        ⟨s, w.log⟩⟩ := by
  unfold solveInit
  dsimp only [ControlVector.ReInit]
  rcases hc : P.ComputeReducedCostFunctional w.s q with ⟨c, s0⟩
  have hc' := hcost w.s
  rw [hc] at hc'
  dsimp only at hc'
  subst hc'
  dsimp only
  obtain ⟨s1, h1⟩ := solveFunctionals_form P prm
    ⟨0, q, Dbl.fin v, q, q, q, 0, 0, 0, w.withState s0⟩ (hfun _)
  rw [h1]
  dsimp only
  obtain ⟨s2, h2⟩ := solveGradient_form P
    ⟨0, q, Dbl.fin v, q, q, q, 0, 0, 0, (w.withState s0).withState s1⟩
    (ControlVector.const 0) (ControlVector.const 0) (hgrad _)
  rw [h2, Residual_const_zero]
  exact ⟨s2, rfl⟩

/-- One step of `Solve` at a point where the cost is finite, the functionals can
be evaluated and the gradient is zero: the linear solver returns `0`, the line
search raises the iteration exception, which is handled, and `q` and `cost`
stay. -/
theorem solveBody_stationary (P : ReducedProblem K n S) (prm : Params K)
    (q : ControlVector K n) (v : K)
    (hlgt : 0 < prm.linear_global_tol_) (hline : 0 < prm.line_maxiter_)
    (hcost : ∀ s, (P.ComputeReducedCostFunctional s q).1 = some (Dbl.fin v))
    (hfun : ∀ s, (P.ComputeReducedFunctionals s q).1 ≠ none)
    (hgrad : ∀ s, (P.ComputeReducedGradient s q).1 =
      some (ControlVector.const 0, ControlVector.const 0))
    (iter : Nat) (dq : ControlVector K n) (res : K) (liniter lineiter : Int) (w : World S)
    (hiter : iter + 1 ≤ prm.nonlinear_maxiter_) :
    ∃ s, solveBody P prm
        ⟨iter, q, Dbl.fin v, dq, ControlVector.const 0, ControlVector.const 0, res, liniter,
          lineiter, w⟩ =
      .ok ⟨iter + 1, q, Dbl.fin v, ControlVector.const 0, ControlVector.const 0,
        ControlVector.const 0, 0, 0, -1, ⟨s, Event.HandleException .Iteration :: w.log⟩⟩ := by
  have h1 : solveDirection P prm
      ⟨iter + 1, q, Dbl.fin v, dq, ControlVector.const 0, ControlVector.const 0, res, liniter,
        lineiter, w⟩ =
      .ok ⟨iter + 1, q, Dbl.fin v, ControlVector.const 0, ControlVector.const 0,
        ControlVector.const 0, res, 0, lineiter, w⟩ := by
    unfold solveDirection
    simp only [cg_zero_gradient P prm q w hlgt]
    rfl
  have h2 : solveLineSearch P prm
      ⟨iter + 1, q, Dbl.fin v, ControlVector.const 0, ControlVector.const 0,
        ControlVector.const 0, res, 0, lineiter, w⟩ =
      .ok ⟨iter + 1, q, Dbl.fin v, ControlVector.const 0, ControlVector.const 0,
        ControlVector.const 0, res, 0, -1,
        (lineTrial P prm (ControlVector.const 0) q w prm.line_maxiter_).w.HandleException
          .Iteration⟩ := by
    unfold solveLineSearch
    simp only [solveDescent_zero,
      (lineSearch_stationary P prm (ControlVector.const 0) q v w hline hcost).2]
  obtain ⟨s3, h3⟩ := solveFunctionals_form P prm
    ⟨iter + 1, q, Dbl.fin v, ControlVector.const 0, ControlVector.const 0,
      ControlVector.const 0, res, 0, -1,
      (lineTrial P prm (ControlVector.const 0) q w prm.line_maxiter_).w.HandleException
        .Iteration⟩ (hfun _)
  obtain ⟨s4, h4⟩ := solveGradient_form P
    ⟨iter + 1, q, Dbl.fin v, ControlVector.const 0, ControlVector.const 0,
      ControlVector.const 0, res, 0, -1,
      ((lineTrial P prm (ControlVector.const 0) q w prm.line_maxiter_).w.HandleException
        .Iteration).withState s3⟩
    (ControlVector.const 0) (ControlVector.const 0) (hgrad _)
  refine ⟨s4, ?_⟩
  unfold solveBody
  dsimp only
  rw [if_neg (by omega), h1]
  dsimp only
  rw [h2]
  dsimp only
  rw [h3]
  dsimp only
  rw [h4, Residual_const_zero]
  dsimp only [World.withState, World.HandleException]
  rw [lineTrial_log]

/-- Claim C29.  Let `Solve` be called with `global_tol > 0`, `nonlinear_maxiter_ >= 1`,
`linear_global_tol_ > 0` and `line_maxiter_ > 0` at a point `q` where the cost always
has the finite value `v`, the gradient and the transposed gradient are always
zero, and the functionals can be evaluated.  Then the linear solver returns `0`
with `dq = 0`; in the line search every trial point up to number `line_maxiter_`
fails the decrease test and the iteration exception is raised with `q` and `cost`
unchanged; the loop of `Solve` runs exactly once (its condition holds at the start
by the forced iteration only and fails after the first step); and `Solve` returns
`1` with `q` and `cost` unchanged, `dq = 0`, `liniter = 0`, `lineiter = -1` and
one handled iteration exception in the log. -/
theorem C29_forced_iteration (P : ReducedProblem K n S) (prm : Params K)
    (q : ControlVector K n) (global_tol v : K) (w : World S)
    (hgt : 0 < global_tol) (hn : 1 ≤ prm.nonlinear_maxiter_)
    (hlgt : 0 < prm.linear_global_tol_) (hline : 0 < prm.line_maxiter_)
    (hcost : ∀ s, (P.ComputeReducedCostFunctional s q).1 = some (Dbl.fin v))
    (hfun : ∀ s, (P.ComputeReducedFunctionals s q).1 ≠ none)
    (hgrad : ∀ s, (P.ComputeReducedGradient s q).1 =
      some (ControlVector.const 0, ControlVector.const 0)) :
    (∀ w0 : World S,
      SolveReducedLinearSystem P prm q (ControlVector.const 0) (ControlVector.const 0) w0 =
        ⟨.returned 0, ControlVector.const 0, w0⟩) ∧
    (∀ (gradient : ControlVector K n) (w0 : World S),
      (∀ j, j ≤ prm.line_maxiter_ →
        lineGuard prm (Dbl.fin v)
          (lineReduction prm (ControlVector.const 0) gradient (Dbl.fin v))
          (lineTrial P prm (ControlVector.const 0) q w0 j) = true) ∧
      ReducedNewtonLineSearch P prm (ControlVector.const 0) gradient (Dbl.fin v) q w0 =
        ⟨.threw .Iteration, Dbl.fin v, q,
          (lineTrial P prm (ControlVector.const 0) q w0 prm.line_maxiter_).w⟩) ∧
    ∃ s0 s1 s2 : S,
      solveInit P prm q w =
        .ok ⟨0, q, Dbl.fin v, q, ControlVector.const 0, ControlVector.const 0, 0, 0, 0,
          ⟨s0, w.log⟩⟩ ∧
      solveGuard prm (max prm.nonlinear_global_tol_ global_tol) 0
        (if global_tol > 0 then 1 else 0)
        (⟨0, q, Dbl.fin v, q, ControlVector.const 0, ControlVector.const 0, 0, 0, 0,
          ⟨s0, w.log⟩⟩ : SolveState K n S) = true ∧
      solveBody P prm
          ⟨0, q, Dbl.fin v, q, ControlVector.const 0, ControlVector.const 0, 0, 0, 0,
            ⟨s0, w.log⟩⟩ =
        .ok ⟨1, q, Dbl.fin v, ControlVector.const 0, ControlVector.const 0,
          ControlVector.const 0, 0, 0, -1, ⟨s1, Event.HandleException .Iteration :: w.log⟩⟩ ∧
      solveGuard prm (max prm.nonlinear_global_tol_ global_tol) 0
        (if global_tol > 0 then 1 else 0)
        (⟨1, q, Dbl.fin v, ControlVector.const 0, ControlVector.const 0,
          ControlVector.const 0, 0, 0, -1, ⟨s1, Event.HandleException .Iteration :: w.log⟩⟩ :
          SolveState K n S) = false ∧
      Solve P prm q global_tol w =
        ⟨.returned 1, ⟨1, q, Dbl.fin v, ControlVector.const 0, ControlVector.const 0,
          ControlVector.const 0, 0, 0, -1,
          ⟨s2, Event.HandleException .Iteration :: w.log⟩⟩⟩ := by
  refine ⟨fun w0 => cg_zero_gradient P prm q w0 hlgt,
    fun gradient w0 => lineSearch_stationary P prm gradient q v w0 hline hcost, ?_⟩
  obtain ⟨s0, h0⟩ := solveInit_stationary P prm q v w hcost hfun hgrad
  obtain ⟨s1, h1⟩ := solveBody_stationary P prm q v hlgt hline hcost hfun hgrad 0 q 0 0 0
    ⟨s0, w.log⟩ (by omega)
  have htol : 0 < max prm.nonlinear_global_tol_ global_tol :=
    lt_of_lt_of_le hgt (le_max_right _ _)
  have hg0 : solveGuard prm (max prm.nonlinear_global_tol_ global_tol) 0
      (if global_tol > 0 then 1 else 0)
      (⟨0, q, Dbl.fin v, q, ControlVector.const 0, ControlVector.const 0, 0, 0, 0,
        ⟨s0, w.log⟩⟩ : SolveState K n S) = true := by
    simp [solveGuard, hgt]
  have hg1 : solveGuard prm (max prm.nonlinear_global_tol_ global_tol) 0
      (if global_tol > 0 then 1 else 0)
      (⟨1, q, Dbl.fin v, ControlVector.const 0, ControlVector.const 0,
        ControlVector.const 0, 0, 0, -1, ⟨s1, Event.HandleException .Iteration :: w.log⟩⟩ :
        SolveState K n S) = false := by
    have : ¬ max prm.nonlinear_global_tol_ global_tol *
        max prm.nonlinear_global_tol_ global_tol ≤ 0 := not_le.mpr (mul_pos htol htol)
    simp [solveGuard, hgt, this]
  rcases hu : P.ComputeReducedFunctionals s1 q with ⟨u, s2⟩
  cases u with
  | none => exact absurd (by rw [hu]) (hfun s1)
  | some u =>
    refine ⟨s0, s1, s2, h0, hg0, h1, hg1, ?_⟩
    have hrun : Runs (solveGuard prm (max prm.nonlinear_global_tol_ global_tol) 0
        (if global_tol > 0 then 1 else 0)) (solveBody P prm) 1
        (⟨0, q, Dbl.fin v, q, ControlVector.const 0, ControlVector.const 0, 0, 0, 0,
          ⟨s0, w.log⟩⟩ : SolveState K n S)
        ⟨1, q, Dbl.fin v, ControlVector.const 0, ControlVector.const 0,
          ControlVector.const 0, 0, 0, -1, ⟨s1, Event.HandleException .Iteration :: w.log⟩⟩ :=
      Runs.snoc (show Runs _ _ 0 _ _ from rfl) hg0 h1
    rw [Solve_of_init h0 (le_refl (0 : K)),
      whileLoop_done_of_runs (prm.nonlinear_maxiter_ + 1) (by omega) hrun hg1]
    dsimp only
    rw [hu]
    rfl

/-- Claim C29, witness: for the cost `q*q` in one variable at the minimizer `q = 0`
(cost `0`, gradient `0`) with the default parameters and `global_tol = 1/100`,
`Solve` returns `1` and leaves `q = 0`. -/
theorem C29_forced_iteration_witness :
    (Solve (quadProblem (1 : ℚ)) (defaultParams ratSqrt) (![0] : ControlVector ℚ 1) (1 / 100)
      World.start).status = .returned 1 ∧
    (Solve (quadProblem (1 : ℚ)) (defaultParams ratSqrt) (![0] : ControlVector ℚ 1) (1 / 100)
      World.start).st.q = ![0] := by
  have hz : ControlVector.equ (2 * 1) (![0] : ControlVector ℚ 1) = ControlVector.const 0 := by
    funext i
    simp [ControlVector.equ, ControlVector.const]
  obtain ⟨_, _, s0, s1, s2, _, _, _, _, h⟩ := C29_forced_iteration (quadProblem (1 : ℚ))
    (defaultParams ratSqrt) (![0] : ControlVector ℚ 1) (1 / 100) 0 World.start (by norm_num)
    (by simp [defaultParams]) (by simp [defaultParams]) (by simp [defaultParams])
    (fun s => by simp [quadProblem, ControlVector.dot])
    (fun s => by simp [quadProblem])
    (fun s => by simp only [quadProblem, hz])
  rw [h]
  exact ⟨rfl, rfl⟩

end StationaryPointClaims


/-! ## The claim about descent directions for a positive definite Hessian -/

section PositiveDefiniteClaims

variable {K : Type} [LinearOrderedField K] {n : Nat} {S : Type}

theorem ControlVector.dot_self_pos {v : ControlVector K n} (hv : v ≠ 0) :
    0 < ControlVector.dot v v :=
  lt_of_le_of_ne (ControlVector.dot_self_nonneg v)
    (fun h => hv (Matrix.dotProduct_self_eq_zero.mp h.symm))

theorem ControlVector.dot_add (g x : ControlVector K n) (a : K) (d : ControlVector K n) :
    ControlVector.dot g (ControlVector.add x a d) =
      ControlVector.dot g x + a * ControlVector.dot g d := by
  simp only [ControlVector.dot_eq, ControlVector.add_eq, Matrix.dotProduct_add,
    Matrix.dotProduct_smul, smul_eq_mul]

theorem ControlVector.dot_add_scale (g d : ControlVector K n) (b : K)
    (r : ControlVector K n) :
    ControlVector.dot g (ControlVector.add (ControlVector.scale d b) (-1) r) =
      b * ControlVector.dot g d - Matrix.dotProduct g r := by
  simp only [ControlVector.dot_eq, ControlVector.add_eq, ControlVector.scale_eq,
    Matrix.dotProduct_add, Matrix.dotProduct_smul, smul_eq_mul]
  ring

/-- The residuals of the completed iterations of the linear solver on a quadratic
model do not vanish: an iteration entered with `res = 0` does not complete. -/
theorem cg_runs_nonzero {P : ReducedProblem K n S} {A : Matrix (Fin n) (Fin n) K}
    (hH : HessianIs P A) (prm : Params K) (q g : ControlVector K n) (w : World S)
    {k : Nat} {st : CGState K n S}
    (h : Runs (cgGuard prm (Residual g g)) (cgBody P prm q g g (Residual g g)) k
      (cgInit g g w) st) :
    ∀ j, j < k → (cgSeq A g j).r ≠ 0 := by
  induction k generalizing st with
  | zero => intro j hj; omega
  | succ k ih =>
    obtain ⟨sm, hruns, _, hb⟩ := h.unsnoc
    intro j hj
    rcases Nat.lt_or_eq_of_le (Nat.lt_succ_iff.mp hj) with hlt | rfl
    · exact ih hruns j hlt
    · intro hc
      have hs := cg_state_seq hH prm q g w hruns
      have hres : sm.res = 0 := by
        rw [hs.2.2.2.2.2, hs.2.2.1, hc]
        simp [ControlVector.dot]
      rw [cgBody_quadratic hH prm q g (Residual g g) sm hs.2.2.2.2.1] at hb
      split_ifs at hb

/-- The conjugate gradient iterates for a symmetric positive definite matrix, as
long as the residuals do not vanish: every direction and every accumulated
direction after the first step has a negative product with the gradient. -/
theorem cgSeq_descent (A : Matrix (Fin n) (Fin n) K) (hA : SymPosDef A)
    (g : ControlVector K n) (m : Nat) (hnz : ∀ k, k < m → (cgSeq A g k).r ≠ 0) :
    (∀ j, j < m → ControlVector.dot g (cgSeq A g j).d < 0) ∧
    (∀ k, k ≤ m → ControlVector.dot g (cgSeq A g k).dq ≤ 0 ∧
      (1 ≤ k → ControlVector.dot g (cgSeq A g k).dq < 0)) := by
  obtain ⟨horth, hpos⟩ := cgSeq_orthogonality A hA g m hnz
  have hd : ∀ j, j < m → ControlVector.dot g (cgSeq A g j).d < 0 := by
    intro j
    induction j with
    | zero =>
      intro hj
      have hg : g ≠ 0 := hnz 0 hj
      have : ControlVector.dot g (cgSeq A g 0).d = -ControlVector.dot g g := by
        simp only [cgSeq, ControlVector.dot_eq, ControlVector.equ_eq, Matrix.dotProduct_smul,
          smul_eq_mul]
        ring
      rw [this]
      exact neg_neg_of_pos (ControlVector.dot_self_pos hg)
    | succ j ih =>
      intro hj
      have h0 : Matrix.dotProduct g (cgSeq A g (j + 1)).r = 0 :=
        horth 0 (j + 1) (Nat.succ_pos j) (by omega)
      have hb : 0 < ControlVector.dot (cgSeq A g (j + 1)).r (cgSeq A g (j + 1)).r /
          ControlVector.dot (cgSeq A g j).r (cgSeq A g j).r :=
        div_pos (ControlVector.dot_self_pos (hnz (j + 1) hj))
          (ControlVector.dot_self_pos (hnz j (by omega)))
      have hstep : ControlVector.dot g (cgSeq A g (j + 1)).d =
          ControlVector.dot (cgSeq A g (j + 1)).r (cgSeq A g (j + 1)).r /
            ControlVector.dot (cgSeq A g j).r (cgSeq A g j).r *
            ControlVector.dot g (cgSeq A g j).d -
          Matrix.dotProduct g (cgSeq A g (j + 1)).r := by
        have hdef : (cgSeq A g (j + 1)).d =
            ControlVector.add (ControlVector.scale (cgSeq A g j).d
              (ControlVector.dot (cgSeq A g (j + 1)).r (cgSeq A g (j + 1)).r /
                ControlVector.dot (cgSeq A g j).r (cgSeq A g j).r)) (-1)
              (cgSeq A g (j + 1)).r := rfl
        rw [hdef]
        exact ControlVector.dot_add_scale g _ _ _
      rw [hstep, h0, sub_zero]
      exact mul_neg_of_pos_of_neg hb (ih (by omega))
  refine ⟨hd, ?_⟩
  intro k
  induction k with
  | zero =>
    intro _
    have : ControlVector.dot g (cgSeq A g 0).dq = 0 := ControlVector.dot_const_zero g
    exact ⟨this.le, fun h => by omega⟩
  | succ k ih =>
    intro hk
    have hstep : ControlVector.dot g (cgSeq A g (k + 1)).dq =
        ControlVector.dot g (cgSeq A g k).dq +
          ControlVector.dot (cgSeq A g k).r (cgSeq A g k).r /
            ControlVector.dot (A.mulVec (cgSeq A g k).d) (cgSeq A g k).d *
          ControlVector.dot g (cgSeq A g k).d := by
      have hdef : (cgSeq A g (k + 1)).dq =
          ControlVector.add (cgSeq A g k).dq
            (ControlVector.dot (cgSeq A g k).r (cgSeq A g k).r /
              ControlVector.dot (A.mulVec (cgSeq A g k).d) (cgSeq A g k).d)
            (cgSeq A g k).d := rfl
      rw [hdef]
      exact ControlVector.dot_add g _ _ _
    have hlt : ControlVector.dot g (cgSeq A g (k + 1)).dq < 0 := by
      rw [hstep]
      exact add_neg_of_nonpos_of_neg (ih (by omega)).1
        (mul_neg_of_pos_of_neg (hpos k (by omega)).2 (hd k (by omega)))
    exact ⟨hlt.le, fun _ => hlt⟩

end PositiveDefiniteClaims


section PositiveDefiniteRuns

variable {K : Type} [LinearOrderedField K] {n : Nat} {S : Type}

/-- The accumulated direction of the linear solver on a quadratic model with a
symmetric positive definite matrix, after `k` completed iterations. -/
theorem cg_spd_runs {P : ReducedProblem K n S} {A : Matrix (Fin n) (Fin n) K}
    (hH : HessianIs P A) (hA : SymPosDef A) (prm : Params K) (q g : ControlVector K n)
    (w : World S) {k : Nat} {st : CGState K n S}
    (h : Runs (cgGuard prm (Residual g g)) (cgBody P prm q g g (Residual g g)) k
      (cgInit g g w) st) :
    ControlVector.dot g st.dq ≤ 0 ∧ (1 ≤ k → ControlVector.dot g st.dq < 0) := by
  rw [(cg_state_seq hH prm q g w h).2.1]
  exact (cgSeq_descent A hA g k (cg_runs_nonzero hH prm q g w h)).2 k le_rfl

/-- The quadratic form of a symmetric positive definite matrix is not negative. -/
theorem SymPosDef.nonneg {A : Matrix (Fin n) (Fin n) K} (hA : SymPosDef A)
    (v : ControlVector K n) : 0 ≤ ControlVector.dot (A.mulVec v) v := by
  by_cases hv : v = 0
  · rw [hv]
    simp [ControlVector.dot]
  · exact (hA.2 v hv).le

/-- The step length of a completed iteration of the linear solver on a quadratic
model is positive, and the iteration adds this multiple of the direction. -/
theorem cgBody_spd_alpha {P : ReducedProblem K n S} {A : Matrix (Fin n) (Fin n) K}
    (hH : HessianIs P A) (prm : Params K) (q g : ControlVector K n) (firstres : K)
    {st st' : CGState K n S} (hrT : st.r_transposed = st.r)
    (hb : cgBody P prm q g g firstres st = .ok st') :
    0 < st.res / ControlVector.dot (A.mulVec st.d) st.d ∧
      st'.dq = ControlVector.add st.dq
        (st.res / ControlVector.dot (A.mulVec st.d) st.d) st.d := by
  rw [cgBody_quadratic hH prm q g firstres st hrT] at hb
  split_ifs at hb with h1 h2 h3 h4
  cases hb
  exact ⟨lt_of_le_of_ne (not_lt.mp h3) (Ne.symm (div_ne_zero h4 h2)), rfl⟩

/-- The result of the linear solver on a quadratic model with a symmetric positive
definite matrix: never the negative curvature exception, and a direction with a
negative product with the gradient as soon as one iteration was completed. -/
theorem cg_spd_result {P : ReducedProblem K n S} {A : Matrix (Fin n) (Fin n) K}
    (hH : HessianIs P A) (hA : SymPosDef A) (prm : Params K) (q g : ControlVector K n)
    (w : World S) :
    (∀ k, (SolveReducedLinearSystem P prm q g g w).status = .returned k →
      ControlVector.dot g (SolveReducedLinearSystem P prm q g g w).dq ≤ 0 ∧
      (1 ≤ k → ControlVector.dot g (SolveReducedLinearSystem P prm q g g w).dq < 0)) ∧
    ((SolveReducedLinearSystem P prm q g g w).status = .threw .Iteration →
      ControlVector.dot g (SolveReducedLinearSystem P prm q g g w).dq ≤ 0 ∧
      (1 ≤ prm.linear_maxiter_ →
        ControlVector.dot g (SolveReducedLinearSystem P prm q g g w).dq < 0)) ∧
    (SolveReducedLinearSystem P prm q g g w).status ≠ .threw .NegativeCurvature := by
  have hres : 0 ≤ Residual g g := ControlVector.dot_self_nonneg g
  refine ⟨?_, ?_, ?_⟩
  · intro k hs
    obtain ⟨st, hr, _, he⟩ := cg_returned hs
    rw [he]
    exact cg_spd_runs hH hA prm q g w hr
  · intro hs
    obtain ⟨k, st, hk, hr, hg, hb⟩ := cg_raised hres hs
    have hseq := cg_state_seq hH prm q g w hr
    rw [cgBody_quadratic hH prm q g (Residual g g) st hseq.2.2.2.2.1] at hb
    split_ifs at hb with h1 h2 h3 h4
    · have hX := Except.error.inj hb
      rw [← hX]
      have h := cg_spd_runs hH hA prm q g w hr
      exact ⟨h.1, fun hm => h.2 (by rw [hseq.1] at h1; omega)⟩
    all_goals
      have hX := Except.error.inj hb
      rw [← hX] at hs
      cases hs
  · intro hs
    obtain ⟨k, st, hk, hr, hg, hb⟩ := cg_raised hres hs
    have hseq := cg_state_seq hH prm q g w hr
    have h0 : 0 ≤ st.res := by
      rw [hseq.2.2.2.2.2]
      exact ControlVector.dot_self_nonneg _
    rw [cgBody_quadratic hH prm q g (Residual g g) st hseq.2.2.2.2.1] at hb
    split_ifs at hb with h1 h2 h3 h4
    all_goals
      first
      | exact absurd (div_nonneg h0 (hA.nonneg st.d)) (not_le.mpr h3)
      | (have hX := Except.error.inj hb
         rw [← hX] at hs
         cases hs)

/-- In `Solve`, with a symmetric positive definite Hessian and the transposed
gradient equal to the gradient, the direction left by the computation of the
search direction has no positive product with the gradient. -/
theorem solveDirection_spd {P : ReducedProblem K n S} {A : Matrix (Fin n) (Fin n) K}
    (hH : HessianIs P A) (hA : SymPosDef A) (prm : Params K) (q g : ControlVector K n)
    (w : World S) (iter : Nat) (cost : Dbl K) (dq : ControlVector K n) (res : K)
    (liniter lineiter : Int) (st1 : SolveState K n S)
    (h : solveDirection P prm ⟨iter, q, cost, dq, g, g, res, liniter, lineiter, w⟩ =
      .ok st1) :
    ControlVector.dot g st1.dq ≤ 0 := by
  obtain ⟨hret, hit, hnc⟩ := cg_spd_result hH hA prm q g w
  unfold solveDirection at h
  dsimp only at h
  cases hst : (SolveReducedLinearSystem P prm q g g w).status with
  | returned k =>
    simp only [hst] at h
    cases h
    exact (hret k hst).1
  | threw e =>
    cases e with
    | NegativeCurvature => exact absurd hst hnc
    | Iteration =>
      simp only [hst] at h
      cases h
      dsimp only
      split
      · have : ControlVector.dot g (ControlVector.scale g (-1)) = -ControlVector.dot g g := by
          simp only [ControlVector.dot_eq, ControlVector.scale_eq, Matrix.dotProduct_smul,
            smul_eq_mul]
          ring
        rw [this]
        exact neg_nonpos.mpr (ControlVector.dot_self_nonneg g)
      · exact (hit hst).1
    | Generic => simp only [hst] at h; cases h
    | Critical => simp only [hst] at h; cases h
    | AssertFailed => simp only [hst] at h; cases h
    | DivByZero => simp only [hst] at h; cases h
    | OutOfFuel => simp only [hst] at h; cases h

/-- Claim C26.  Let the Hessian-vector product be `v ↦ A v` for a symmetric
positive definite matrix `A`, and let the transposed gradient be the gradient
`g`.  Then in `SolveReducedLinearSystem` the accumulated direction `dq` after
`k >= 1` completed iterations has `g*dq < 0`; every completed iteration has a
positive step length `alpha = res/(Hd*d)`; so the result has `g*dq < 0` when the
function returns `k >= 1`, and when it raises the iteration exception with
`linear_maxiter_ >= 1`; the negative curvature exception is never raised.  In
`Solve`, the direction left by the computation of the search direction (after the
handlers) has `g*dq <= 0`, so the descent check does not replace it. -/
theorem C26_spd_descent (P : ReducedProblem K n S) (A : Matrix (Fin n) (Fin n) K)
    (prm : Params K) (q g : ControlVector K n) (w : World S)
    (hH : HessianIs P A) (hA : SymPosDef A) :
    (∀ (k : Nat) (st : CGState K n S),
      Runs (cgGuard prm (Residual g g)) (cgBody P prm q g g (Residual g g)) k
        (cgInit g g w) st →
      1 ≤ k → ControlVector.dot g st.dq < 0) ∧
    (∀ (k : Nat) (st st' : CGState K n S),
      Runs (cgGuard prm (Residual g g)) (cgBody P prm q g g (Residual g g)) k
        (cgInit g g w) st →
      cgBody P prm q g g (Residual g g) st = .ok st' →
      0 < st.res / ControlVector.dot (A.mulVec st.d) st.d ∧
        st'.dq = ControlVector.add st.dq
          (st.res / ControlVector.dot (A.mulVec st.d) st.d) st.d) ∧
    (∀ k, (SolveReducedLinearSystem P prm q g g w).status = .returned k → 1 ≤ k →
      ControlVector.dot g (SolveReducedLinearSystem P prm q g g w).dq < 0) ∧
    ((SolveReducedLinearSystem P prm q g g w).status = .threw .Iteration →
      1 ≤ prm.linear_maxiter_ →
      ControlVector.dot g (SolveReducedLinearSystem P prm q g g w).dq < 0) ∧
    (SolveReducedLinearSystem P prm q g g w).status ≠ .threw .NegativeCurvature ∧
    (∀ (iter : Nat) (cost : Dbl K) (dq : ControlVector K n) (res : K)
      (liniter lineiter : Int) (st1 : SolveState K n S),
      solveDirection P prm ⟨iter, q, cost, dq, g, g, res, liniter, lineiter, w⟩ = .ok st1 →
      ControlVector.dot g st1.dq ≤ 0 ∧ solveDescent g g st1.dq = st1.dq) := by
  obtain ⟨hret, hit, hnc⟩ := cg_spd_result hH hA prm q g w
  refine ⟨fun k st hr hk => (cg_spd_runs hH hA prm q g w hr).2 hk,
    fun k st st' hr hb =>
      cgBody_spd_alpha hH prm q g (Residual g g) (cg_state_seq hH prm q g w hr).2.2.2.2.1 hb,
    fun k hs hk => (hret k hs).2 hk, fun hs hm => (hit hs).2 hm, hnc, ?_⟩
  intro iter cost dq res liniter lineiter st1 h
  have hle := solveDirection_spd hH hA prm q g w iter cost dq res liniter lineiter st1 h
  refine ⟨hle, ?_⟩
  unfold solveDescent
  dsimp only
  rw [if_neg (not_lt.mpr hle)]

/-- Claim C26, witness: on the model with the matrix `diag(1, 2)` and the gradient
`(3, 4)` the linear solver returns after one iteration with a direction whose
product with the gradient is negative. -/
theorem C26_spd_descent_witness :
    ControlVector.dot (![3, 4] : ControlVector ℚ 2)
      (SolveReducedLinearSystem diagModel (defaultParams ratSqrt) ![0, 0] ![3, 4] ![3, 4]
        World.start).dq < 0 :=
  (C26_spd_descent diagModel (Matrix.diagonal ![1, 2]) (defaultParams ratSqrt) ![0, 0]
    ![3, 4] World.start (hessianIs_quadraticModel _ _) symPosDef_diag).2.2.1 1
    (by rw [cg_diagModel]) (le_refl 1)

end PositiveDefiniteRuns

/-! ## The claim about the direction handed to the line search -/

section DescentClaims

variable {K : Type} [LinearOrderedField K] {n : Nat} {S : Type}

end DescentClaims


/-! ## The line search entered with a cost that is not a number -/

section LineSearchNaN

end LineSearchNaN


/-! ## The quadratic problem in the embedding with overflow -/

section OverflowFacts

variable {K : Type} [LinearOrderedField K]

theorem Dbl.huge_gt : (2 : K) < Dbl.huge := by
  norm_num [Dbl.huge]

theorem Dbl.overflow_fin {a : K} (h1 : a < Dbl.huge) (h2 : -Dbl.huge < a) :
    Dbl.overflow (Dbl.fin a) = Dbl.fin a := by
  simp [Dbl.overflow, not_le.mpr h1, not_le.mpr h2]

theorem Dbl.overflow_fin_pinf {a : K} (h : Dbl.huge ≤ a) :
    Dbl.overflow (Dbl.fin a) = Dbl.pinf := by
  simp [Dbl.overflow, h]

theorem Dbl.overflow_fin_ninf {a : K} (h : a ≤ -Dbl.huge) :
    Dbl.overflow (Dbl.fin a) = Dbl.ninf := by
  have h0 : (0 : K) < Dbl.huge := lt_trans (by norm_num) Dbl.huge_gt
  have h1 : ¬ Dbl.huge ≤ a := not_le.mpr (by linarith)
  simp [Dbl.overflow, h, h1]

theorem fp_mul_fin {a b : K} (h1 : a * b < Dbl.huge) (h2 : -Dbl.huge < a * b) :
    Fp.mul (Dbl.fin a) (Dbl.fin b) = Dbl.fin (a * b) :=
  Dbl.overflow_fin h1 h2

theorem fp_add_fin {a b : K} (h1 : a + b < Dbl.huge) (h2 : -Dbl.huge < a + b) :
    Fp.add (Dbl.fin a) (Dbl.fin b) = Dbl.fin (a + b) :=
  Dbl.overflow_fin h1 h2

theorem fp_dot_two (u v : ControlVector (Dbl K) 2) :
    Fp.ControlVector.dot u v =
      Fp.add (Fp.add (Dbl.fin 0) (Fp.mul (u 0) (v 0))) (Fp.mul (u 1) (v 1)) := by
  simp [Fp.ControlVector.dot, List.ofFn_succ]

theorem fp_equ_two (s x y : Dbl K) :
    Fp.ControlVector.equ s ![x, y] = ![Fp.mul s x, Fp.mul s y] := by
  funext i
  fin_cases i <;> rfl

theorem fp_add_two (s x y u v : Dbl K) :
    Fp.ControlVector.add ![x, y] s ![u, v] =
      ![Fp.add x (Fp.mul s u), Fp.add y (Fp.mul s v)] := by
  funext i
  fin_cases i <;> rfl

theorem fp_quad_gradient (a : K) (h0 : 0 < a) (h1 : 2 * a < Dbl.huge) :
    Fp.ControlVector.equ (Fp.mul (Dbl.fin 2) (Dbl.fin a)) ![Dbl.fin 1, Dbl.fin 1] =
      ![Dbl.fin (2 * a), Dbl.fin (2 * a)] := by
  have hh : (0 : K) < Dbl.huge := lt_trans (by norm_num) Dbl.huge_gt
  rw [fp_equ_two, fp_mul_fin h1 (by linarith),
    fp_mul_fin (by rw [mul_one]; exact h1) (by rw [mul_one]; linarith), mul_one]

theorem fp_quad_residual (a : K) (h2 : Dbl.huge ≤ 2 * a * (2 * a)) :
    Fp.Residual ![Dbl.fin (2 * a), Dbl.fin (2 * a)] ![Dbl.fin (2 * a), Dbl.fin (2 * a)] =
      (Dbl.pinf : Dbl K) := by
  have hm : Fp.mul (Dbl.fin (2 * a)) (Dbl.fin (2 * a)) = Dbl.pinf := Dbl.overflow_fin_pinf h2
  simp only [Fp.Residual, fp_dot_two, Matrix.cons_val_zero, Matrix.cons_val_one,
    Matrix.head_cons, hm]
  rfl

/-- With overflow, the first evaluations of `Solve` on the quadratic problem from
`(1, 1)` when `2*a` is representable and `(2*a)^2` is not: the residual is `+inf`. -/
theorem fp_quad_init (a : K) (h0 : 0 < a) (h1 : 2 * a < Dbl.huge)
    (h2 : Dbl.huge ≤ 2 * a * (2 * a)) (sq : K → K) :
    Fp.solveInit (Fp.quadProblem a) (defaultParams sq) ![Dbl.fin 1, Dbl.fin 1] World.start =
      .ok ⟨0, ![Dbl.fin 1, Dbl.fin 1], Dbl.fin (a * 2), ![Dbl.fin 1, Dbl.fin 1],
        ![Dbl.fin (2 * a), Dbl.fin (2 * a)], ![Dbl.fin (2 * a), Dbl.fin (2 * a)],
        Dbl.pinf, 0, 0, World.start⟩ := by
  have hh : (2 : K) < Dbl.huge := Dbl.huge_gt
  have hc : Fp.mul (Dbl.fin a) (Fp.ControlVector.dot ![Dbl.fin 1, Dbl.fin 1]
      ![Dbl.fin (1 : K), Dbl.fin 1]) = Dbl.fin (a * 2) := by
    simp only [fp_dot_two, Matrix.cons_val_zero, Matrix.cons_val_one, Matrix.head_cons]
    rw [fp_mul_fin (by linarith) (by linarith), fp_add_fin (by linarith) (by linarith),
      fp_add_fin (by norm_num; linarith) (by linarith),
      show (0 : K) + 1 * 1 + 1 * 1 = 2 by norm_num,
      fp_mul_fin (by linarith) (by linarith)]
  simp only [Fp.solveInit, Fp.solveFunctionals, Fp.solveGradient, Fp.quadProblem,
    Fp.ControlVector.ReInit, defaultParams, World.withState, hc, Bool.false_eq_true,
    if_false, fp_quad_gradient a h0 h1, fp_quad_residual a h2]

theorem fp_scale_two (s x y : Dbl K) :
    Fp.ControlVector.scale ![x, y] s = ![Fp.mul x s, Fp.mul y s] := by
  funext i
  fin_cases i <;> rfl

theorem fp_plus_two (x y u v : Dbl K) :
    Fp.ControlVector.plus ![x, y] ![u, v] = ![Fp.add x u, Fp.add y v] := by
  funext i
  fin_cases i <;> rfl

theorem fp_const_two (x : Dbl K) :
    (Fp.ControlVector.const x : ControlVector (Dbl K) 2) = ![x, x] := by
  funext i
  fin_cases i <;> rfl

theorem fp_mul_ninf_neg {x : K} (hx : x < 0) : Fp.mul Dbl.ninf (Dbl.fin x) = Dbl.pinf := by
  simp [Fp.mul, Dbl.mul, Dbl.infMul, hx.ne, not_lt.mpr hx.le, Dbl.overflow]

theorem fp_quad_cg_init (a : K) (h0 : 0 < a) (h1 : 2 * a < Dbl.huge)
    (h2 : Dbl.huge ≤ 2 * a * (2 * a)) :
    (Fp.cgInit ![Dbl.fin (2 * a), Dbl.fin (2 * a)] ![Dbl.fin (2 * a), Dbl.fin (2 * a)]
        World.start : Fp.CGState K 2 Unit) =
      ⟨0, ![Dbl.fin 0, Dbl.fin 0], ![Dbl.fin (2 * a), Dbl.fin (2 * a)],
        ![Dbl.fin (2 * a), Dbl.fin (2 * a)],
        ![Dbl.fin (-1 * (2 * a)), Dbl.fin (-1 * (2 * a))], Dbl.pinf, World.start⟩ := by
  have hh : (0 : K) < Dbl.huge := lt_trans (by norm_num) Dbl.huge_gt
  have hd : Fp.mul (Dbl.fin (-1)) (Dbl.fin (2 * a)) = Dbl.fin (-1 * (2 * a)) :=
    fp_mul_fin (by linarith) (by linarith)
  simp only [Fp.cgInit, fp_quad_residual a h2, fp_equ_two, fp_const_two, hd]

theorem fp_quad_cg_body (a : K) (h0 : 0 < a) (h1 : 2 * a < Dbl.huge)
    (h2 : Dbl.huge ≤ 2 * a * (2 * a)) (sq : K → K) :
    ∃ r, Fp.cgBody (Fp.quadProblem a) (defaultParams sq) ![Dbl.fin 1, Dbl.fin 1]
        ![Dbl.fin (2 * a), Dbl.fin (2 * a)] ![Dbl.fin (2 * a), Dbl.fin (2 * a)] Dbl.pinf
        (Fp.cgInit ![Dbl.fin (2 * a), Dbl.fin (2 * a)] ![Dbl.fin (2 * a), Dbl.fin (2 * a)]
          World.start) = .error r ∧ r.status = .threw .AssertFailed := by
  have hh : (0 : K) < Dbl.huge := lt_trans (by norm_num) Dbl.huge_gt
  have hH : Fp.mul (Dbl.fin (2 * a)) (Dbl.fin (-1 * (2 * a))) = Dbl.ninf :=
    Dbl.overflow_fin_ninf (by linarith)
  have hm : Fp.mul Dbl.ninf (Dbl.fin (-1 * (2 * a))) = Dbl.pinf :=
    fp_mul_ninf_neg (by linarith)
  have hs : Fp.mul (Dbl.fin 2) (Dbl.fin a) = Dbl.fin (2 * a) :=
    fp_mul_fin h1 (by linarith)
  rw [fp_quad_cg_init a h0 h1 h2]
  simp only [Fp.cgBody, Fp.quadProblem, defaultParams, World.withState,
    fp_equ_two, fp_add_two, fp_dot_two, Fp.Residual, hs, hH, hm,
    Matrix.cons_val_zero, Matrix.cons_val_one, Matrix.head_cons]
  simp [Fp.add, Fp.mul, Fp.div, Dbl.add, Dbl.mul, Dbl.div, Dbl.overflow, Dbl.lt, Dbl.ge,
    Fp.cgFinish, Fp.cgClamp]

theorem Dbl.ge_pinf_of (x : Dbl K) (h : x.isnan = false) : Dbl.ge Dbl.pinf x = true := by
  cases x
  · rfl
  · rfl
  · rfl
  · cases h

theorem fp_mul_fin_isnan (a b : K) : (Fp.mul (Dbl.fin a) (Dbl.fin b)).isnan = false := by
  simp only [Fp.mul, Dbl.mul, Dbl.overflow]
  split_ifs <;> rfl

theorem fp_mul_fin_pinf {x : K} (hx : 0 < x) : Fp.mul (Dbl.fin x) Dbl.pinf = Dbl.pinf := by
  simp [Fp.mul, Dbl.mul, Dbl.infMul, hx.ne.symm, hx, Dbl.overflow]

/-- With overflow, the linear solver on the quadratic problem with a coefficient
`a` whose squared gradient norm at `(1, 1)` overflows: the residual is `+inf`, the
step length `inf/inf` is not a number, and the assertion `res >= 0.` fails in the
first iteration. -/
theorem fp_quad_cg (a : K) (h0 : 0 < a) (h1 : 2 * a < Dbl.huge)
    (h2 : Dbl.huge ≤ 2 * a * (2 * a)) (sq : K → K) :
    (Fp.SolveReducedLinearSystem (Fp.quadProblem a) (defaultParams sq)
        ![Dbl.fin 1, Dbl.fin 1] ![Dbl.fin (2 * a), Dbl.fin (2 * a)]
        ![Dbl.fin (2 * a), Dbl.fin (2 * a)] World.start).status = .threw .AssertFailed := by
  obtain ⟨r, hr, hs⟩ := fp_quad_cg_body a h0 h1 h2 sq
  have hres : (Fp.cgInit ![Dbl.fin (2 * a), Dbl.fin (2 * a)]
      ![Dbl.fin (2 * a), Dbl.fin (2 * a)] World.start : Fp.CGState K 2 Unit).res =
      Dbl.pinf := by
    rw [fp_quad_cg_init a h0 h1 h2]
  have hg : Fp.cgGuard (defaultParams sq) Dbl.pinf
      (Fp.cgInit ![Dbl.fin (2 * a), Dbl.fin (2 * a)] ![Dbl.fin (2 * a), Dbl.fin (2 * a)]
        World.start : Fp.CGState K 2 Unit) = true := by
    have hmin : Fp.min (Dbl.fin (1 / 4)) (Fp.sqrt sq (Dbl.pinf : Dbl K)) = Dbl.fin (1 / 4) :=
      rfl
    unfold Fp.cgGuard Fp.cgThreshold
    rw [hres]
    show (Dbl.ge Dbl.pinf (Fp.mul (Fp.min (Dbl.fin (1 / 4)) (Fp.sqrt sq Dbl.pinf)) Dbl.pinf) &&
      Dbl.ge Dbl.pinf (Fp.mul (Dbl.fin (1 / 10 ^ 12)) (Dbl.fin (1 / 10 ^ 12)))) = true
    rw [hmin, fp_mul_fin_pinf (by norm_num), Dbl.ge_pinf_of _ (fp_mul_fin_isnan _ _)]
    rfl
  have hw := whileLoop_raised_of_runs ((defaultParams sq).linear_maxiter_ + 1)
    (Nat.succ_pos _) (show Runs _ _ 0 _ _ from rfl) hg hr
  unfold Fp.SolveReducedLinearSystem
  dsimp only
  rw [hres, hw]
  exact hs

theorem fp_quad_direction (a : K) (h0 : 0 < a) (h1 : 2 * a < Dbl.huge)
    (h2 : Dbl.huge ≤ 2 * a * (2 * a)) (sq : K → K) (st : Fp.SolveState K 2 Unit)
    (hq : st.q = ![Dbl.fin 1, Dbl.fin 1])
    (hg : st.gradient = ![Dbl.fin (2 * a), Dbl.fin (2 * a)])
    (hgt : st.gradient_transposed = ![Dbl.fin (2 * a), Dbl.fin (2 * a)])
    (hw : st.w = World.start) :
    ∃ r, Fp.solveDirection (Fp.quadProblem a) (defaultParams sq) st = .error r ∧
      r.status = .threw .AssertFailed := by
  have hcg := fp_quad_cg a h0 h1 h2 sq
  unfold Fp.solveDirection
  dsimp only
  rw [hq, hg, hgt, hw]
  generalize Fp.SolveReducedLinearSystem (Fp.quadProblem a) (defaultParams sq)
    ![Dbl.fin 1, Dbl.fin 1] ![Dbl.fin (2 * a), Dbl.fin (2 * a)]
    ![Dbl.fin (2 * a), Dbl.fin (2 * a)] World.start = cg at hcg ⊢
  obtain ⟨s, d, w⟩ := cg
  dsimp only at hcg ⊢
  subst hcg
  exact ⟨_, rfl, rfl⟩

/-- With overflow, `Solve` on that problem from `(1, 1)` ends with the failed
assertion of the linear solver. -/
theorem fp_quad_solve (a : K) (h0 : 0 < a) (h1 : 2 * a < Dbl.huge)
    (h2 : Dbl.huge ≤ 2 * a * (2 * a)) (sq : K → K) :
    (Fp.Solve (Fp.quadProblem a) (defaultParams sq) ![Dbl.fin 1, Dbl.fin 1] (-1)
        World.start).status = .threw .AssertFailed := by
  have hinit := fp_quad_init a h0 h1 h2 sq
  obtain ⟨r, hr, hs⟩ := fp_quad_direction a h0 h1 h2 sq
    ⟨0 + 1, ![Dbl.fin 1, Dbl.fin 1], Dbl.fin (a * 2), ![Dbl.fin 1, Dbl.fin 1],
      ![Dbl.fin (2 * a), Dbl.fin (2 * a)], ![Dbl.fin (2 * a), Dbl.fin (2 * a)],
      Dbl.pinf, 0, 0, World.start⟩ rfl rfl rfl rfl
  have hb : Fp.solveBody (Fp.quadProblem a) (defaultParams sq)
      ⟨0, ![Dbl.fin 1, Dbl.fin 1], Dbl.fin (a * 2), ![Dbl.fin 1, Dbl.fin 1],
        ![Dbl.fin (2 * a), Dbl.fin (2 * a)], ![Dbl.fin (2 * a), Dbl.fin (2 * a)],
        Dbl.pinf, 0, 0, World.start⟩ = .error r := by
    unfold Fp.solveBody
    dsimp only
    rw [hr]
    rfl
  have hmax : Fp.max (Dbl.fin (defaultParams sq).nonlinear_global_tol_) (Dbl.fin (-1 : K)) =
      Dbl.fin (1 / 10 ^ 11) := by
    have hlt : Dbl.lt (Dbl.fin ((1 : K) / 10 ^ 11)) (Dbl.fin (-1)) = false := by
      show decide ((1 : K) / 10 ^ 11 < -1) = false
      exact decide_eq_false (by norm_num)
    show (if Dbl.lt (Dbl.fin ((1 : K) / 10 ^ 11)) (Dbl.fin (-1)) = true then Dbl.fin (-1)
      else Dbl.fin (1 / 10 ^ 11)) = Dbl.fin (1 / 10 ^ 11)
    rw [hlt]
    rfl
  have hgd : Fp.solveGuard (defaultParams sq) (Dbl.fin (1 / 10 ^ 11)) Dbl.pinf 0
      (⟨0, ![Dbl.fin 1, Dbl.fin 1], Dbl.fin (a * 2), ![Dbl.fin 1, Dbl.fin 1],
        ![Dbl.fin (2 * a), Dbl.fin (2 * a)], ![Dbl.fin (2 * a), Dbl.fin (2 * a)],
        Dbl.pinf, 0, 0, World.start⟩ : Fp.SolveState K 2 Unit) = true := by
    have hnt : Fp.mul (Dbl.fin ((1 : K) / 10 ^ 7)) (Dbl.fin (1 / 10 ^ 7)) =
        Dbl.fin (1 / 10 ^ 7 * (1 / 10 ^ 7)) :=
      fp_mul_fin (by norm_num [Dbl.huge]) (by norm_num [Dbl.huge])
    show ((Dbl.ge Dbl.pinf (Fp.mul (Dbl.fin (1 / 10 ^ 11)) (Dbl.fin (1 / 10 ^ 11))) &&
      Dbl.ge Dbl.pinf (Fp.mul (Fp.mul (Dbl.fin (1 / 10 ^ 7)) (Dbl.fin (1 / 10 ^ 7)))
        Dbl.pinf)) || decide (0 < 0)) = true
    rw [Dbl.ge_pinf_of _ (fp_mul_fin_isnan _ _), hnt, fp_mul_fin_pinf (by norm_num)]
    rfl
  have hw := whileLoop_raised_of_runs ((defaultParams sq).nonlinear_maxiter_ + 1)
    (Nat.succ_pos _) (show Runs _ _ 0 _ _ from rfl) hgd hb
  unfold Fp.Solve
  rw [hinit]
  dsimp only
  rw [hmax]
  have hm : (if (-1 : K) > 0 then 1 else 0) = 0 := if_neg (by norm_num)
  rw [hm, show Dbl.ge (Dbl.pinf : Dbl K) (Dbl.fin 0) = true from rfl, if_pos rfl, hw]
  exact hs

theorem ratSqrt_8 : ratSqrt 8 = 2 := by
  have h1 : Nat.sqrt 8 = 2 := (Nat.eq_sqrt.mpr ⟨by norm_num, by norm_num⟩).symm
  have h3 : (8 : ℚ).num = 8 := rfl
  have h4 : (8 : ℚ).den = 1 := rfl
  simp [ratSqrt, h1, h3, h4]

theorem fp_unit_init :
    Fp.solveInit (Fp.quadProblem (1 : ℚ)) (defaultParams ratSqrt) ![Dbl.fin 1, Dbl.fin 1]
        World.start =
      .ok ⟨0, ![Dbl.fin 1, Dbl.fin 1], Dbl.fin 2, ![Dbl.fin 1, Dbl.fin 1],
        ![Dbl.fin 2, Dbl.fin 2], ![Dbl.fin 2, Dbl.fin 2], Dbl.fin 8, 0, 0, World.start⟩ := by
  simp only [Fp.solveInit, Fp.solveFunctionals, Fp.solveGradient, Fp.quadProblem,
    Fp.ControlVector.ReInit, defaultParams, World.withState, Bool.false_eq_true,
    if_false, fp_equ_two, fp_dot_two, Fp.Residual, Matrix.cons_val_zero, Matrix.cons_val_one,
    Matrix.head_cons]
  norm_num [Fp.mul, Fp.add, Dbl.mul, Dbl.add, Dbl.overflow, Dbl.huge]

theorem fp_unit_cg :
    Fp.SolveReducedLinearSystem (Fp.quadProblem (1 : ℚ)) (defaultParams ratSqrt)
        ![Dbl.fin 1, Dbl.fin 1] ![Dbl.fin 2, Dbl.fin 2] ![Dbl.fin 2, Dbl.fin 2] World.start =
      ⟨.returned 1, ![Dbl.fin (-1), Dbl.fin (-1)], World.start⟩ := by
  have hi : (Fp.cgInit ![Dbl.fin (2 : ℚ), Dbl.fin 2] ![Dbl.fin 2, Dbl.fin 2] World.start :
      Fp.CGState ℚ 2 Unit) =
      ⟨0, ![Dbl.fin 0, Dbl.fin 0], ![Dbl.fin 2, Dbl.fin 2], ![Dbl.fin 2, Dbl.fin 2],
        ![Dbl.fin (-2), Dbl.fin (-2)], Dbl.fin 8, World.start⟩ := by
    simp only [Fp.cgInit, fp_equ_two, fp_const_two, fp_dot_two, Fp.Residual,
      Matrix.cons_val_zero, Matrix.cons_val_one, Matrix.head_cons]
    norm_num [Fp.mul, Fp.add, Dbl.mul, Dbl.add, Dbl.overflow, Dbl.huge]
  have hg0 : Fp.cgGuard (defaultParams ratSqrt) (Dbl.fin 8)
      (⟨0, ![Dbl.fin 0, Dbl.fin 0], ![Dbl.fin 2, Dbl.fin 2], ![Dbl.fin 2, Dbl.fin 2],
        ![Dbl.fin (-2), Dbl.fin (-2)], Dbl.fin 8, World.start⟩ : Fp.CGState ℚ 2 Unit) =
      true := by
    simp only [Fp.cgGuard, Fp.cgThreshold, Fp.sqrt, defaultParams, ratSqrt_8]
    norm_num [Fp.min, Fp.mul, Dbl.mul, Dbl.lt, Dbl.ge, Dbl.overflow, Dbl.huge]
  have hb : Fp.cgBody (Fp.quadProblem (1 : ℚ)) (defaultParams ratSqrt)
      ![Dbl.fin 1, Dbl.fin 1] ![Dbl.fin 2, Dbl.fin 2] ![Dbl.fin 2, Dbl.fin 2] (Dbl.fin 8)
      ⟨0, ![Dbl.fin 0, Dbl.fin 0], ![Dbl.fin 2, Dbl.fin 2], ![Dbl.fin 2, Dbl.fin 2],
        ![Dbl.fin (-2), Dbl.fin (-2)], Dbl.fin 8, World.start⟩ =
      .ok ⟨1, ![Dbl.fin (-1), Dbl.fin (-1)], ![Dbl.fin 0, Dbl.fin 0],
        ![Dbl.fin 0, Dbl.fin 0], ![Dbl.fin 0, Dbl.fin 0], Dbl.fin 0, World.start⟩ := by
    simp only [Fp.cgBody, Fp.quadProblem, defaultParams, World.withState,
      fp_equ_two, fp_add_two, fp_dot_two, Fp.Residual,
      Matrix.cons_val_zero, Matrix.cons_val_one, Matrix.head_cons]
    norm_num [Fp.mul, Fp.add, Fp.div, Dbl.mul, Dbl.add, Dbl.div, Dbl.overflow, Dbl.huge,
      Dbl.lt, Dbl.ge, Fp.cgFinish, Fp.cgClamp, Fp.min, Fp.sqrt, ratSqrt_8,
      fp_scale_two, fp_add_two]
  have hg1 : Fp.cgGuard (defaultParams ratSqrt) (Dbl.fin 8)
      (⟨1, ![Dbl.fin (-1), Dbl.fin (-1)], ![Dbl.fin 0, Dbl.fin 0],
        ![Dbl.fin 0, Dbl.fin 0], ![Dbl.fin 0, Dbl.fin 0], Dbl.fin 0, World.start⟩ :
        Fp.CGState ℚ 2 Unit) = false := by
    simp only [Fp.cgGuard, Fp.cgThreshold, Fp.sqrt, defaultParams, ratSqrt_8]
    norm_num [Fp.min, Fp.mul, Dbl.mul, Dbl.lt, Dbl.ge, Dbl.overflow, Dbl.huge]
  have hw := whileLoop_done_of_runs ((defaultParams ratSqrt).linear_maxiter_ + 1)
    (show 1 ≤ _ from Nat.succ_pos _)
    (show Runs _ _ 1 _ _ from ⟨hg0, _, hb, rfl⟩) hg1
  unfold Fp.SolveReducedLinearSystem
  dsimp only
  rw [hi]
  dsimp only
  rw [show Dbl.ge (Dbl.fin (8 : ℚ)) (Dbl.fin 0) = true from by norm_num [Dbl.ge], if_pos rfl, hw]

theorem fp_unit_line :
    Fp.ReducedNewtonLineSearch (Fp.quadProblem (1 : ℚ)) (defaultParams ratSqrt)
        ![Dbl.fin (-1), Dbl.fin (-1)] ![Dbl.fin 2, Dbl.fin 2] (Dbl.fin 2)
        ![Dbl.fin 1, Dbl.fin 1] World.start =
      ⟨.returned 0, Dbl.fin 0, ![Dbl.fin 0, Dbl.fin 0], World.start⟩ := by
  have hi : Fp.lineInit (Fp.quadProblem (1 : ℚ)) ![Dbl.fin (-1), Dbl.fin (-1)]
      ![Dbl.fin 1, Dbl.fin 1] World.start =
      ⟨0, Dbl.fin 1, ![Dbl.fin 0, Dbl.fin 0], Dbl.fin 0, false, World.start⟩ := by
    simp only [Fp.lineInit, Fp.lineEval, Fp.quadProblem, fp_plus_two, World.withState]
    norm_num [Fp.mul, Fp.add, Dbl.mul, Dbl.add, Dbl.overflow, Dbl.huge, fp_dot_two]
  have hr : Fp.lineReduction (defaultParams ratSqrt) ![Dbl.fin (-1), Dbl.fin (-1)]
      ![Dbl.fin (2 : ℚ), Dbl.fin 2] (Dbl.fin 2) = Dbl.fin (-4) := by
    simp only [Fp.lineReduction, defaultParams, fp_dot_two, Matrix.cons_val_zero,
      Matrix.cons_val_one, Matrix.head_cons]
    norm_num [Fp.mul, Fp.add, Dbl.mul, Dbl.add, Dbl.overflow, Dbl.huge, Dbl.lt, Dbl.fabs]
  have hg : Fp.lineGuard (defaultParams ratSqrt) (Dbl.fin 2) (Dbl.fin (-4))
      (⟨0, Dbl.fin 1, ![Dbl.fin 0, Dbl.fin 0], Dbl.fin 0, false, World.start⟩ :
        Fp.LineState ℚ 2 Unit) = false := by
    simp only [Fp.lineGuard, defaultParams]
    norm_num [Fp.mul, Fp.add, Dbl.mul, Dbl.add, Dbl.overflow, Dbl.huge, Dbl.ge, Dbl.isinf,
      Dbl.isnan]
  unfold Fp.ReducedNewtonLineSearch
  dsimp only
  rw [hi, hr, hg]
  rfl

theorem fp_unit_body :
    Fp.solveBody (Fp.quadProblem (1 : ℚ)) (defaultParams ratSqrt)
        ⟨0, ![Dbl.fin 1, Dbl.fin 1], Dbl.fin 2, ![Dbl.fin 1, Dbl.fin 1],
          ![Dbl.fin 2, Dbl.fin 2], ![Dbl.fin 2, Dbl.fin 2], Dbl.fin 8, 0, 0, World.start⟩ =
      .ok ⟨1, ![Dbl.fin 0, Dbl.fin 0], Dbl.fin 0, ![Dbl.fin (-1), Dbl.fin (-1)],
        ![Dbl.fin 0, Dbl.fin 0], ![Dbl.fin 0, Dbl.fin 0], Dbl.fin 0, 1, 0, World.start⟩ := by
  have hd : Fp.solveDescent ![Dbl.fin (2 : ℚ), Dbl.fin 2] ![Dbl.fin 2, Dbl.fin 2]
      ![Dbl.fin (-1), Dbl.fin (-1)] = ![Dbl.fin (-1), Dbl.fin (-1)] := by
    simp only [Fp.solveDescent, fp_dot_two, Matrix.cons_val_zero, Matrix.cons_val_one,
      Matrix.head_cons]
    norm_num [Fp.mul, Fp.add, Dbl.mul, Dbl.add, Dbl.overflow, Dbl.huge, Dbl.lt]
  have hg : Fp.ControlVector.equ (Fp.mul (Dbl.fin 2) (Dbl.fin (1 : ℚ)))
      ![Dbl.fin 0, Dbl.fin 0] = ![Dbl.fin 0, Dbl.fin 0] := by
    rw [fp_equ_two]
    norm_num [Fp.mul, Dbl.mul, Dbl.overflow, Dbl.huge]
  have hr : Fp.Residual ![Dbl.fin (0 : ℚ), Dbl.fin 0] ![Dbl.fin 0, Dbl.fin 0] = Dbl.fin 0 := by
    simp only [Fp.Residual, fp_dot_two, Matrix.cons_val_zero, Matrix.cons_val_one,
      Matrix.head_cons]
    norm_num [Fp.mul, Fp.add, Dbl.mul, Dbl.add, Dbl.overflow, Dbl.huge]
  have h1 : Fp.solveDirection (Fp.quadProblem (1 : ℚ)) (defaultParams ratSqrt)
      ⟨0 + 1, ![Dbl.fin 1, Dbl.fin 1], Dbl.fin 2, ![Dbl.fin 1, Dbl.fin 1],
        ![Dbl.fin 2, Dbl.fin 2], ![Dbl.fin 2, Dbl.fin 2], Dbl.fin 8, 0, 0, World.start⟩ =
      .ok ⟨1, ![Dbl.fin 1, Dbl.fin 1], Dbl.fin 2, ![Dbl.fin (-1), Dbl.fin (-1)],
        ![Dbl.fin 2, Dbl.fin 2], ![Dbl.fin 2, Dbl.fin 2], Dbl.fin 8, 1, 0, World.start⟩ := by
    unfold Fp.solveDirection
    dsimp only
    rw [fp_unit_cg]
    rfl
  have h2 : Fp.solveLineSearch (Fp.quadProblem (1 : ℚ)) (defaultParams ratSqrt)
      ⟨1, ![Dbl.fin 1, Dbl.fin 1], Dbl.fin 2, ![Dbl.fin (-1), Dbl.fin (-1)],
        ![Dbl.fin 2, Dbl.fin 2], ![Dbl.fin 2, Dbl.fin 2], Dbl.fin 8, 1, 0, World.start⟩ =
      .ok ⟨1, ![Dbl.fin 0, Dbl.fin 0], Dbl.fin 0, ![Dbl.fin (-1), Dbl.fin (-1)],
        ![Dbl.fin 2, Dbl.fin 2], ![Dbl.fin 2, Dbl.fin 2], Dbl.fin 8, 1, 0, World.start⟩ := by
    unfold Fp.solveLineSearch
    dsimp only
    rw [hd, fp_unit_line]
    rfl
  have h3 : Fp.solveFunctionals (Fp.quadProblem (1 : ℚ)) (defaultParams ratSqrt)
      ⟨1, ![Dbl.fin 0, Dbl.fin 0], Dbl.fin 0, ![Dbl.fin (-1), Dbl.fin (-1)],
        ![Dbl.fin 2, Dbl.fin 2], ![Dbl.fin 2, Dbl.fin 2], Dbl.fin 8, 1, 0, World.start⟩ =
      .ok ⟨1, ![Dbl.fin 0, Dbl.fin 0], Dbl.fin 0, ![Dbl.fin (-1), Dbl.fin (-1)],
        ![Dbl.fin 2, Dbl.fin 2], ![Dbl.fin 2, Dbl.fin 2], Dbl.fin 8, 1, 0, World.start⟩ :=
    rfl
  have h4 : Fp.solveGradient (Fp.quadProblem (1 : ℚ))
      ⟨1, ![Dbl.fin 0, Dbl.fin 0], Dbl.fin 0, ![Dbl.fin (-1), Dbl.fin (-1)],
        ![Dbl.fin 2, Dbl.fin 2], ![Dbl.fin 2, Dbl.fin 2], Dbl.fin 8, 1, 0, World.start⟩ =
      .ok ⟨1, ![Dbl.fin 0, Dbl.fin 0], Dbl.fin 0, ![Dbl.fin (-1), Dbl.fin (-1)],
        ![Dbl.fin 0, Dbl.fin 0], ![Dbl.fin 0, Dbl.fin 0], Dbl.fin 0, 1, 0, World.start⟩ := by
    simp only [Fp.solveGradient, Fp.quadProblem, World.withState, hg, hr]
  unfold Fp.solveBody
  dsimp only
  rw [h1]
  dsimp only
  rw [h2]
  dsimp only
  rw [h3]
  dsimp only
  rw [h4]
  rfl

/-- With overflow, `Solve` on the quadratic problem with `a = 1` from `(1, 1)`:
one Newton step, as in exact arithmetic. -/
theorem fp_unit_solve :
    Fp.Solve (Fp.quadProblem (1 : ℚ)) (defaultParams ratSqrt) ![Dbl.fin 1, Dbl.fin 1] (-1)
        World.start =
      ⟨.returned 1, ⟨1, ![Dbl.fin 0, Dbl.fin 0], Dbl.fin 0, ![Dbl.fin (-1), Dbl.fin (-1)],
        ![Dbl.fin 0, Dbl.fin 0], ![Dbl.fin 0, Dbl.fin 0], Dbl.fin 0, 1, 0, World.start⟩⟩ := by
  have hmax : Fp.max (Dbl.fin (defaultParams ratSqrt).nonlinear_global_tol_)
      (Dbl.fin (-1 : ℚ)) = Dbl.fin (1 / 10 ^ 11) := by
    simp only [Fp.max, defaultParams]
    norm_num [Dbl.lt]
  have hg0 : Fp.solveGuard (defaultParams ratSqrt) (Dbl.fin (1 / 10 ^ 11)) (Dbl.fin 8) 0
      (⟨0, ![Dbl.fin 1, Dbl.fin 1], Dbl.fin 2, ![Dbl.fin 1, Dbl.fin 1],
        ![Dbl.fin 2, Dbl.fin 2], ![Dbl.fin 2, Dbl.fin 2], Dbl.fin 8, 0, 0, World.start⟩ :
        Fp.SolveState ℚ 2 Unit) = true := by
    simp only [Fp.solveGuard, defaultParams]
    norm_num [Fp.mul, Dbl.mul, Dbl.overflow, Dbl.huge, Dbl.ge]
  have hg1 : Fp.solveGuard (defaultParams ratSqrt) (Dbl.fin (1 / 10 ^ 11)) (Dbl.fin 8) 0
      (⟨1, ![Dbl.fin 0, Dbl.fin 0], Dbl.fin 0, ![Dbl.fin (-1), Dbl.fin (-1)],
        ![Dbl.fin 0, Dbl.fin 0], ![Dbl.fin 0, Dbl.fin 0], Dbl.fin 0, 1, 0, World.start⟩ :
        Fp.SolveState ℚ 2 Unit) = false := by
    simp only [Fp.solveGuard, defaultParams]
    norm_num [Fp.mul, Dbl.mul, Dbl.overflow, Dbl.huge, Dbl.ge]
  have hw := whileLoop_done_of_runs ((defaultParams ratSqrt).nonlinear_maxiter_ + 1)
    (show 1 ≤ _ from Nat.succ_pos _)
    (show Runs _ _ 1 _ _ from ⟨hg0, _, fp_unit_body, rfl⟩) hg1
  unfold Fp.Solve
  rw [fp_unit_init]
  dsimp only
  rw [hmax]
  have hm : (if (-1 : ℚ) > 0 then 1 else 0) = 0 := if_neg (by norm_num)
  rw [hm, show Dbl.ge (Dbl.fin (8 : ℚ)) (Dbl.fin 0) = true from by norm_num [Dbl.ge],
    if_pos rfl, hw]
  rfl

/-- Claim C3, counterexample.  In the embedding with the overflow of binary64 the
run for `a = 1` from `q0 = (1, 1)` is the one of the scenario (`Solve` returns 1 at
`q = (0, 0)` with residual 0 and cost 0, after 1 linear iteration and 0 line search
steps), but the general statement fails for `a = 10^200` and the same `q0`: `a > 0`,
the squared norm of the gradient is above both tolerances squared (it is `8*10^400`
in exact arithmetic and overflows to infinity), in the first iteration of the linear
solver `Hd = (-inf, -inf)`, the step length is `inf/inf`, the new residual is not a
number and `assert(res >= 0.)` of line 542 fails, so that `Solve` does not return. -/
theorem C3_Solve_quadratic_counterexample :
    Fp.Solve (Fp.quadProblem (1 : ℚ)) (defaultParams ratSqrt) ![Dbl.fin 1, Dbl.fin 1] (-1)
        World.start =
      ⟨.returned 1, ⟨1, ![Dbl.fin 0, Dbl.fin 0], Dbl.fin 0, ![Dbl.fin (-1), Dbl.fin (-1)],
        ![Dbl.fin 0, Dbl.fin 0], ![Dbl.fin 0, Dbl.fin 0], Dbl.fin 0, 1, 0, World.start⟩⟩ ∧
    (0 : ℚ) < 10 ^ 200 ∧
    (1 / 10 ^ 11 : ℚ) * (1 / 10 ^ 11) ≤
      ControlVector.dot (ControlVector.equ (2 * 10 ^ 200) (![1, 1] : ControlVector ℚ 2))
        (ControlVector.equ (2 * 10 ^ 200) ![1, 1]) ∧
    (1 / 10 ^ 12 : ℚ) * (1 / 10 ^ 12) ≤
      ControlVector.dot (ControlVector.equ (2 * 10 ^ 200) (![1, 1] : ControlVector ℚ 2))
        (ControlVector.equ (2 * 10 ^ 200) ![1, 1]) ∧
    Fp.solveInit (Fp.quadProblem (10 ^ 200 : ℚ)) (defaultParams ratSqrt)
        ![Dbl.fin 1, Dbl.fin 1] World.start =
      .ok ⟨0, ![Dbl.fin 1, Dbl.fin 1], Dbl.fin (10 ^ 200 * 2), ![Dbl.fin 1, Dbl.fin 1],
        ![Dbl.fin (2 * 10 ^ 200), Dbl.fin (2 * 10 ^ 200)],
        ![Dbl.fin (2 * 10 ^ 200), Dbl.fin (2 * 10 ^ 200)], Dbl.pinf, 0, 0, World.start⟩ ∧
    (Fp.SolveReducedLinearSystem (Fp.quadProblem (10 ^ 200 : ℚ)) (defaultParams ratSqrt)
        ![Dbl.fin 1, Dbl.fin 1] ![Dbl.fin (2 * 10 ^ 200), Dbl.fin (2 * 10 ^ 200)]
        ![Dbl.fin (2 * 10 ^ 200), Dbl.fin (2 * 10 ^ 200)] World.start).status =
      .threw .AssertFailed ∧
    (Fp.Solve (Fp.quadProblem (10 ^ 200 : ℚ)) (defaultParams ratSqrt)
        ![Dbl.fin 1, Dbl.fin 1] (-1) World.start).status = .threw .AssertFailed := by
  have h0 : (0 : ℚ) < 10 ^ 200 := by norm_num
  have h1 : (2 : ℚ) * 10 ^ 200 < Dbl.huge := by norm_num [Dbl.huge]
  have h2 : (Dbl.huge : ℚ) ≤ 2 * 10 ^ 200 * (2 * 10 ^ 200) := by norm_num [Dbl.huge]
  have hq : ControlVector.dot (ControlVector.equ (2 * 10 ^ 200) (![1, 1] : ControlVector ℚ 2))
      (ControlVector.equ (2 * 10 ^ 200) ![1, 1]) = 8 * 10 ^ 400 := by
    simp [ControlVector.dot, ControlVector.equ, Fin.sum_univ_two]
    norm_num
  exact ⟨fp_unit_solve, h0, by rw [hq]; norm_num, by rw [hq]; norm_num,
    fp_quad_init _ h0 h1 h2 ratSqrt, fp_quad_cg _ h0 h1 h2 ratSqrt,
    fp_quad_solve _ h0 h1 h2 ratSqrt⟩

end OverflowFacts

end DOpE
